import Mathlib

/-!
Verification of the combinatorial-embedding core
(`src/ogdf/basic/CombinatorialEmbedding.cpp`).

The embedding core maintains, for a graph whose adjacency lists encode a
planar rotation system, the derived set of faces: a face registry (list of
face records with identifier, first adjacency entry and cached size), a
right-face map from half-edges (adjacency entries) to faces, a face
identifier counter and a table capacity, plus registered face-indexed
arrays.

The underlying rotation-system graph (class `Graph`) is an external
collaborator whose sources are not part of the analysed code; following the
specification it is modelled by its face-cycle structure: a finite set `H`
of half-edge indices, the face-cycle successor function `succ`, and the
`twin` pairing.  Each graph-level primitive (edge split, unsplit, node
split, contraction, edge insertion, edge deletion, endpoint move) is
modelled from the spec by its effect on the face-cycle successor
permutation.
-/

namespace OGDF

/-- A face record: unique identifier, first adjacency entry of its face
cycle (`entries.m_adjFirst`), and cached half-edge count `m_size` (a C++
`int`, hence `Int`). -/
structure Face where
  id : Nat
  first : Nat
  size : Int
  deriving Repr, DecidableEq

/-- The state of a combinatorial embedding together with the face-cycle
view of its underlying rotation-system graph.  `H` is the set of half-edge
(adjacency entry) indices, `succ` the face-cycle successor, `twin` the twin
pairing; `rightFace` is the right-face map (`none` models the null face
used during recomputation), `faces` the face registry in registry order,
`faceIdCount` the identifier counter, `tableSize` the face-array capacity,
`externalFace` the optional external face, and `regArrays` the contents of
the registered face-indexed arrays. -/
structure EmbState where
  H : Finset Nat
  succ : Nat → Nat
  twin : Nat → Nat
  rightFace : Nat → Option Nat
  faces : List Face
  faceIdCount : Nat
  tableSize : Nat
  externalFace : Option Nat
  regArrays : List (List Int)

/-- The minimum face table size `MIN_FACE_TABLE_SIZE = 1 << 4`. -/
def minFaceTableSize : Nat := 16

/-- Dereference the right-face map (the C++ code dereferences the stored
face pointer; the default is only reached in states that are undefined
behaviour in C++). -/
def rfOf (s : EmbState) (h : Nat) : Nat := (s.rightFace h).getD 0

/-- A stable enumeration of the half-edge set, used to iterate over all
adjacency entries of the graph (the C++ code iterates over the nodes and
their adjacency lists). -/
def halfEdges (s : EmbState) : List Nat :=
  (List.range (s.H.sup id + 1)).filter (fun h => h ∈ s.H)

/-- Size of the face with identifier `i` in the registry. -/
def sizeOfId (s : EmbState) (i : Nat) : Int :=
  ((s.faces.find? (fun f => f.id == i)).map Face.size).getD 0

/-- First adjacency entry of the face with identifier `i`. -/
def firstOfId (s : EmbState) (i : Nat) : Nat :=
  ((s.faces.find? (fun f => f.id == i)).map Face.first).getD 0

/-- Update the (unique) face record with identifier `i`; this models an
update through the C++ face pointer. -/
def mapFace (faces : List Face) (i : Nat) (g : Face → Face) : List Face :=
  faces.map (fun f => if f.id = i then g f else f)

/-- The pointwise effect of a size update through the face pointer with
identifier `i`. -/
def bumpSizeIf (i : Nat) (δ : Int) (f : Face) : Face :=
  if f.id = i then { f with size := f.size + δ } else f

/-- The pointwise effect of the conditional first-entry repointing through
the face pointer with identifier `i`: if the first entry is `frm`, repoint
it to `to`. -/
def repointIf (i frm dst : Nat) (f : Face) : Face :=
  if f.id = i then (if f.first = frm then { f with first := dst } else f) else f

/-- The pointwise effect of repointing the first entry of the face with
identifier `i` when it is one of the two removed half-edges. -/
def repoint2If (i frm1 frm2 dst : Nat) (f : Face) : Face :=
  if f.id = i then
    (if f.first = frm1 ∨ f.first = frm2 then { f with first := dst } else f) else f

/-- The pointwise effect of repointing the first entry of the face with
identifier `i` past a removed half-edge, to its face-cycle successor. -/
def repointSuccIf (succ : Nat → Nat) (i frm1 frm2 : Nat) (f : Face) : Face :=
  if f.id = i then
    (if f.first = frm1 ∨ f.first = frm2 then { f with first := succ f.first } else f)
  else f

/-- The pointwise effect of repointing the first entry of the face with
identifier `i` when it lies on a moved segment. -/
def repointMemIf (i : Nat) (S : List Nat) (dst : Nat) (f : Face) : Face :=
  if f.id = i then (if f.first ∈ S then { f with first := dst } else f) else f

/-- The pointwise effect of overwriting the cached size of the face with
identifier `i`. -/
def setSizeIf (i : Nat) (n : Int) (f : Face) : Face :=
  if f.id = i then { f with size := n } else f

/-- The pointwise effect of simultaneously repointing the first entry and
adjusting the size of the face with identifier `i`. -/
def setFirstAddIf (i fst : Nat) (δ : Int) (f : Face) : Face :=
  if f.id = i then { f with first := fst, size := f.size + δ } else f

/-- The do-while face-cycle walk of the C++ code: visit `cur`, follow the
face-cycle successor, stop after returning to `start`.  `fuel` bounds the
number of visited entries (the C++ loop is unbounded; whenever the walk is
used, the fuel provably suffices). -/
def walkList (succ : Nat → Nat) (start : Nat) : Nat → Nat → List Nat
  | _, 0 => []
  | cur, fuel + 1 =>
      cur :: (if succ cur = start then [] else walkList succ start (succ cur) fuel)

/-- The for-loop walk of `moveBridge`: visit entries from `cur` on,
stopping (exclusively) at `stop`. -/
def walkUntil (succ : Nat → Nat) (stop : Nat) : Nat → Nat → List Nat
  | _, 0 => []
  | cur, fuel + 1 =>
      if cur = stop then [] else cur :: walkUntil succ stop (succ cur) fuel

/-- Modelled from the spec: effect on the face-cycle successor of inserting
the fresh half-edge `x` into a face cycle directly after `a` (used by the
graph collaborator's edge-split and node-split primitives). -/
def insAfter (succ : Nat → Nat) (a x : Nat) : Nat → Nat :=
  fun z => if z = a then x else if z = x then succ a else succ z

/-- Modelled from the spec: effect on the face-cycle successor of removing
the half-edge `x` from its face cycle (used by the graph collaborator's
unsplit, contraction and degree-1 deletion primitives). -/
def delHalf (succ : Nat → Nat) (x : Nat) : Nat → Nat :=
  fun z => if succ z = x then succ x else succ z

/-- Modelled from the spec: effect on the face-cycle successor of the graph
collaborator's `newEdge(adjSrc, adjTgt)`: the new edge's halves `hS` and
`hT` are spliced so that the cycle through `adjSrc` continues into `hT`
and the cycle through `adjTgt` continues into `hS`. -/
def newEdgeSucc (succ : Nat → Nat) (adjSrc adjTgt hS hT : Nat) : Nat → Nat :=
  fun z =>
    if z = hS then adjTgt
    else if z = hT then adjSrc
    else if succ z = adjSrc then hS
    else if succ z = adjTgt then hT
    else succ z

/-- Modelled from the spec: effect on the face-cycle successor of the graph
collaborator's `delEdge` for an edge with halves `a` and `b`: the two face
cycles through `a` and `b` are joined, each losing its half of the edge
(when one half was a whole face cycle by itself, the other cycle simply
loses its half, as the adjacency-list removal leaves nothing to splice). -/
def delEdgeSucc (succ : Nat → Nat) (a b : Nat) : Nat → Nat :=
  fun z =>
    if succ z = a then (if succ b = b then succ a else succ b)
    else if succ z = b then (if succ a = a then succ b else succ a)
    else succ z

/-- Modelled from the spec: effect on the face-cycle successor of the graph
collaborator's endpoint move for `moveBridge`: the segment of the old face
cycle from the bridge's twin `tB` up to the bridge half `aB` is spliced
into the target face cycle directly after `aBef`. -/
def moveBridgeSucc (succ : Nat → Nat) (aB tB aBef adjCand : Nat) : Nat → Nat :=
  fun z =>
    if z = aBef then tB
    else if z = aB then succ aBef
    else if succ z = tB then adjCand
    else succ z

/-- Modelled from the spec: a registered face-indexed array enlarges its
backing storage to capacity `n`, preserving existing slot contents. -/
def enlargeArr (arr : List Int) (n : Nat) : List Int :=
  arr ++ List.replicate (n - arr.length) 0

/-- Modelled from the spec: a registered face-indexed array reinitializes
(all slots logically reset) to capacity `n`. -/
def reinitArr (n : Nat) : List Int := List.replicate n 0

/-- Fueled version of `Graph::nextPower2` (the graph collaborator's helper,
modelled from the spec): double `low` until it is at least `high`. -/
def nextPower2Aux : Nat → Nat → Nat → Nat
  | 0, low, _ => low
  | fuel + 1, low, high => if high ≤ low then low else nextPower2Aux fuel (2 * low) high

/-- Modelled from the spec: the smallest value obtained from `low` by
repeated doubling that is at least `high`. -/
def nextPower2 (low high : Nat) : Nat := nextPower2Aux high low high

/-! ### The operators of `CombinatorialEmbedding` -/

/-- `CombinatorialEmbedding::split(e)`: split edge `e` (halves `a`, `b`)
through a new degree-2 node; `x` and `y` are the two freshly allocated
half-edges (`e2->adjSource()` and the new `e->adjTarget()`).  Both faces
adjacent to `e` gain one half-edge and their sizes are incremented. -/
def split (s : EmbState) (a b x y : Nat) : EmbState :=
  let f1 := rfOf s a
  let f2 := rfOf s b
  { s with
    H := insert x (insert y s.H)
    succ := insAfter (insAfter s.succ a x) b y
    twin := fun z =>
      if z = a then y else if z = y then a
      else if z = x then b else if z = b then x
      else s.twin z
    rightFace := fun h =>
      if h = a then some f1 else if h = x then some f1
      else if h = y then some f2 else if h = b then some f2
      else s.rightFace h
    faces := mapFace (mapFace s.faces f1 (fun f => { f with size := f.size + 1 }))
      f2 (fun f => { f with size := f.size + 1 }) }

/-- `CombinatorialEmbedding::unsplit(eIn, eOut)`: merge the degree-2 chain
`eIn` (halves `a`, `y`) and `eOut` (halves `x`, `b`) back into one edge.
Both adjacent faces' sizes are decremented, and a face whose first entry
was a removed half-edge is repointed to the surviving one. -/
def unsplit (s : EmbState) (a y x b : Nat) : EmbState :=
  let f1 := rfOf s a
  let f2 := rfOf s y
  let faces1 := mapFace (mapFace s.faces f1 (fun f => { f with size := f.size - 1 }))
    f2 (fun f => { f with size := f.size - 1 })
  let faces2 := mapFace faces1 f1 (fun f => if f.first = x then { f with first := a } else f)
  let faces3 := mapFace faces2 f2 (fun f => if f.first = y then { f with first := b } else f)
  { s with
    H := (s.H.erase x).erase y
    succ := delHalf (delHalf s.succ x) y
    twin := fun z => if z = a then b else if z = b then a else s.twin z
    faces := faces3 }

/-- `CombinatorialEmbedding::splitNode(adjStartLeft, adjStartRight)`: split
the node between `aL` and `aR`; the new edge's halves `x` and `y` are
inserted into the faces to the left of `aL` and of `aR`, whose sizes are
incremented. -/
def splitNode (s : EmbState) (aL aR x y : Nat) : EmbState :=
  let fL := rfOf s (s.twin aL)
  let fR := rfOf s (s.twin aR)
  { s with
    H := insert x (insert y s.H)
    succ := insAfter (insAfter s.succ (s.twin aL) x) (s.twin aR) y
    twin := fun z => if z = x then y else if z = y then x else s.twin z
    rightFace := fun h =>
      if h = x then some fL else if h = y then some fR else s.rightFace h
    faces := mapFace (mapFace s.faces fL (fun f => { f with size := f.size + 1 }))
      fR (fun f => { f with size := f.size + 1 }) }

/-- `CombinatorialEmbedding::contract(e)`: contract edge `e` (halves `a`,
`b`).  First each adjacent face whose first entry is a removed half-edge is
repointed past the removed entries, then the edge is removed and both
adjacent faces' sizes are decremented. -/
def contract (s : EmbState) (a b : Nat) : EmbState :=
  let fSrc := rfOf s a
  let fTgt := rfOf s b
  let faces1 := mapFace s.faces fSrc (fun f =>
    if f.first = a then { f with first := if s.succ a ≠ b then s.succ a else s.succ b } else f)
  let faces2 := mapFace faces1 fTgt (fun f =>
    if f.first = b then { f with first := if s.succ b ≠ a then s.succ b else s.succ a } else f)
  let faces3 := mapFace (mapFace faces2 fSrc (fun f => { f with size := f.size - 1 }))
    fTgt (fun f => { f with size := f.size - 1 })
  { s with
    H := (s.H.erase a).erase b
    succ := delHalf (delHalf s.succ a) b
    faces := faces3 }

/-- `ConstCombinatorialEmbedding::createFaceElement(adjFirst)`: if the
identifier counter has reached the capacity, double the capacity and
enlarge every registered array; then append a new face with the next
identifier, the given first entry and size `0` to the registry. -/
def createFaceElement (s : EmbState) (adjFirst : Nat) : EmbState :=
  let s1 :=
    if s.faceIdCount = s.tableSize then
      { s with
        tableSize := 2 * s.tableSize
        regArrays := s.regArrays.map (fun arr => enlargeArr arr (2 * s.tableSize)) }
    else s
  { s1 with
    faces := s1.faces ++ [⟨s1.faceIdCount, adjFirst, 0⟩]
    faceIdCount := s1.faceIdCount + 1 }

/-- Core of `CombinatorialEmbedding::splitFace(adjSrc, adjTgt)` after the
precondition checks: insert a new edge (halves `hS`, `hT`) between `adjSrc`
and `adjTgt`, allocate a new face, walk the face cycle from `adjSrc`
assigning the new face and counting its size, then give the old face first
entry `adjTgt` and size `old + 2 - newSize`, and assign the old face to the
new edge's source half. -/
def splitFaceCore (s : EmbState) (adjSrc adjTgt hS hT : Nat) : EmbState :=
  let H' := insert hS (insert hT s.H)
  let succ' := newEdgeSucc s.succ adjSrc adjTgt hS hT
  let f1 := rfOf s adjTgt
  let s1 := createFaceElement s adjSrc
  let fid := s.faceIdCount
  let C := walkList succ' adjSrc adjSrc H'.card
  let faces1 := mapFace s1.faces fid (fun f => { f with size := (C.length : Int) })
  let faces2 := mapFace faces1 f1 (fun f =>
    { f with first := adjTgt, size := f.size + 2 - (C.length : Int) })
  { s1 with
    H := H'
    succ := succ'
    twin := fun z => if z = hS then hT else if z = hT then hS else s.twin z
    rightFace := fun h =>
      if h = hS then some f1 else if h ∈ C then some fid else s.rightFace h
    faces := faces2 }

/-- `CombinatorialEmbedding::splitFace(adjSrc, adjTgt)` with its two
precondition checks: the result is the state after the call together with
the call's outcome (`Except.error` models the thrown
`PreconditionViolatedException`; both checks precede any mutation). -/
def splitFaceChecked (s : EmbState) (adjSrc adjTgt hS hT : Nat) :
    EmbState × Except Unit Unit :=
  if s.rightFace adjSrc ≠ s.rightFace adjTgt then (s, .error ())
  else if adjSrc = adjTgt then (s, .error ())
  else (splitFaceCore s adjSrc adjTgt hS hT, .ok ())

/-- `CombinatorialEmbedding::joinFacesPure(e)` for the edge with halves
`a`, `b` (release semantics: the `OGDF_ASSERT(f1 != f2)` is a debug check
and performs no action here): keep the larger face, add `size2 - 2` to its
size, repoint its first entry past the edge if needed, reassign every
half-edge of the discarded face's cycle, and delete the discarded face. -/
def joinFacesPure (s : EmbState) (a b : Nat) : EmbState :=
  let g1 := rfOf s a
  let g2 := rfOf s b
  let f1 := if sizeOfId s g2 > sizeOfId s g1 then g2 else g1
  let f2 := if sizeOfId s g2 > sizeOfId s g1 then g1 else g2
  let faces1 := mapFace s.faces f1 (fun f => { f with size := f.size + sizeOfId s f2 - 2 })
  let faces2 := mapFace faces1 f1 (fun f =>
    if f.first = a ∨ f.first = b then { f with first := s.succ f.first } else f)
  let C := walkList s.succ (firstOfId s f2) (firstOfId s f2) s.H.card
  { s with
    rightFace := fun h => if h ∈ C then some f1 else s.rightFace h
    faces := faces2.filter (fun f => f.id ≠ f2) }

/-- `CombinatorialEmbedding::joinFaces(e)`: `joinFacesPure(e)` followed by
the graph-level `delEdge(e)`. -/
def joinFaces (s : EmbState) (a b : Nat) : EmbState :=
  let s1 := joinFacesPure s a b
  { s1 with
    H := (s1.H.erase a).erase b
    succ := delEdgeSucc s1.succ a b }

/-- `CombinatorialEmbedding::reverseEdge(e)`: the graph-level reversal does
not change twins, face cycles, the right-face map or any face record, so at
the face-cycle level the state is unchanged. -/
def reverseEdge (s : EmbState) (_a _b : Nat) : EmbState := s

/-- `CombinatorialEmbedding::moveBridge(adjBridge, adjBefore)`: walk the
old face's cycle from the bridge's twin until the entry following the
bridge, repointing the old face's first entry and reassigning each visited
half-edge to the new face; transfer the counted size; then perform the
graph-level endpoint move. -/
def moveBridge (s : EmbState) (aB aBef : Nat) : EmbState :=
  let fOld := rfOf s aB
  let fNew := rfOf s aBef
  let tB := s.twin aB
  let adjCand := s.succ aB
  let S := walkUntil s.succ adjCand tB (s.H.card + 1)
  let faces1 := mapFace s.faces fOld (fun f =>
    if f.first ∈ S then { f with first := adjCand } else f)
  let faces2 := mapFace (mapFace faces1 fOld (fun f => { f with size := f.size - (S.length : Int) }))
    fNew (fun f => { f with size := f.size + (S.length : Int) })
  { s with
    succ := moveBridgeSucc s.succ aB tB aBef adjCand
    rightFace := fun h => if h ∈ S then some fNew else s.rightFace h
    faces := faces2 }

/-- `CombinatorialEmbedding::removeDeg1(v)` for the degree-1 node whose
sole half-edge is `adj`: the adjacent face loses the two halves of the
removed edge (size `-2`), with its first entry repointed past them if
needed. -/
def removeDeg1 (s : EmbState) (adj : Nat) : EmbState :=
  let f := rfOf s adj
  let faces1 := mapFace s.faces f (fun g =>
    if g.first = adj ∨ g.first = s.twin adj then { g with first := s.succ adj } else g)
  let faces2 := mapFace faces1 f (fun g => { g with size := g.size - 2 })
  { s with
    H := (s.H.erase adj).erase (s.twin adj)
    succ := delHalf (delHalf s.succ adj) (s.twin adj)
    faces := faces2 }

/-- Modelled from the spec: two half-edges lie on the same face cycle when
iterating the face-cycle successor from the first reaches the second; the
brute-force enumeration needs at most one full pass over the half-edges. -/
def sameCycleB (s : EmbState) (h h' : Nat) : Bool :=
  (List.range s.H.card).any (fun n => s.succ^[n] h == h')

/-- Modelled from the spec: the number of faces derivable by brute-force
face-cycle enumeration — every half-edge that is the least member of its
face cycle is counted, one per cycle. -/
def bruteForceFaceCount (s : EmbState) : Nat :=
  ((halfEdges s).filter
    (fun h => (halfEdges s).all (fun g => !sameCycleB s h g || h ≤ g))).length

/-! ### Face derivation and consistency checking -/

/-- One step of the derivation loop of
`ConstCombinatorialEmbedding::computeFaces`: if the half-edge `h` has no
right face yet, allocate a new face with first entry `h`, walk its face
cycle assigning the face and counting the size. -/
def computeFacesStep (card : Nat) (t : EmbState) (h : Nat) : EmbState :=
  if (t.rightFace h).isSome then t
  else
    let C := walkList t.succ h h card
    { t with
      faces := t.faces ++ [⟨t.faceIdCount, h, (C.length : Int)⟩]
      faceIdCount := t.faceIdCount + 1
      rightFace := fun z => if z ∈ C then some t.faceIdCount else t.rightFace z }

/-- `ConstCombinatorialEmbedding::computeFaces()`: invalidate the external
face, reset the counter, registry and right-face map, derive one face per
unvisited face cycle, then grow the capacity to
`nextPower2(MIN_FACE_TABLE_SIZE, faceIdCount)` and reinitialize every
registered array to that capacity. -/
def computeFaces (s : EmbState) : EmbState :=
  let init : EmbState :=
    { s with
      externalFace := none
      faceIdCount := 0
      faces := []
      rightFace := fun _ => none }
  let s1 := (halfEdges s).foldl (computeFacesStep s.H.card) init
  let ts := nextPower2 minFaceTableSize s1.faceIdCount
  { s1 with
    tableSize := ts
    regArrays := s1.regArrays.map (fun _ => reinitArr ts) }

/-- Modelled from the spec: the graph collaborator's validity predicate
(`Graph::consistencyCheck` together with `Graph::representsCombEmbedding`),
abstracted at the face-cycle level: the face-cycle successor maps the
half-edge set into itself injectively, and the twin map is a fixed-point
free involution on it (every half-edge pairs with the other half of its
edge). -/
def graphWFb (s : EmbState) : Bool :=
  (halfEdges s).all (fun a =>
    s.succ a ∈ s.H && s.twin a ∈ s.H && s.twin (s.twin a) == a && s.twin a != a) &&
  (halfEdges s).all (fun a =>
    (halfEdges s).all (fun b => s.succ a != s.succ b || a == b))

/-- Propositional form of `graphWFb`. -/
def GraphWF (s : EmbState) : Prop :=
  (∀ a ∈ s.H, s.succ a ∈ s.H ∧ s.twin a ∈ s.H ∧ s.twin (s.twin a) = a ∧ s.twin a ≠ a) ∧
  ∀ a ∈ s.H, ∀ b ∈ s.H, s.succ a = s.succ b → a = b

instance (s : EmbState) : Decidable (GraphWF s) :=
  inferInstanceAs (Decidable (
    (∀ a ∈ s.H, s.succ a ∈ s.H ∧ s.twin a ∈ s.H ∧ s.twin (s.twin a) = a ∧ s.twin a ≠ a) ∧
    ∀ a ∈ s.H, ∀ b ∈ s.H, s.succ a = s.succ b → a = b))

/-- The per-face do-while loop of
`ConstCombinatorialEmbedding::consistencyCheck`: walk the face cycle of `f`
from its first entry, failing on an already visited entry or on a
right-face mismatch; on success return the enlarged visited set and the
number of visited entries. -/
def checkWalk (s : EmbState) (f : Face) (visited : Finset Nat) :
    Nat → Nat → Option (Finset Nat × Nat)
  | _, 0 => none
  | cur, fuel + 1 =>
      if cur ∈ visited then none
      else if s.rightFace cur ≠ some f.id then none
      else if s.succ cur = f.first then some (insert cur visited, 1)
      else (checkWalk s f (insert cur visited) (s.succ cur) fuel).map
        (fun p => (p.1, p.2 + 1))

/-- The per-face body of the consistency check: the walk must succeed and
visit exactly `f.size` entries. -/
def checkFace (s : EmbState) (visited : Finset Nat) (f : Face) : Option (Finset Nat) :=
  (checkWalk s f visited f.first (s.H.card + 1)).bind
    (fun p => if f.size = (p.2 : Int) then some p.1 else none)

/-- `ConstCombinatorialEmbedding::consistencyCheck()`: the graph validity
predicate must hold; every face's cycle walk must succeed, visiting only
unvisited entries whose right face is that face, with the face's cached
size equal to the walked length; and every half-edge of the graph must have
been visited.  (The C++ comparison of the loop counter `nF` with the
registry size is vacuously true for the range-based loop and is omitted.) -/
def consistencyCheck (s : EmbState) : Bool :=
  graphWFb s &&
    match s.faces.foldl (fun acc f => acc.bind (fun v => checkFace s v f)) (some ∅) with
    | none => false
    | some visited => (halfEdges s).all (fun h => h ∈ visited)

/-! ### The structural operators as a single step type -/

/-- One application of a structural operator, with its parameters (the
half-edge arguments of the C++ call, plus explicit indices for the freshly
allocated half-edges where the graph collaborator allocates). -/
inductive OpApp where
  | split (a b x y : Nat)
  | unsplit (a y x b : Nat)
  | splitNode (aL aR x y : Nat)
  | contract (a b : Nat)
  | splitFace (adjSrc adjTgt hS hT : Nat)
  | joinFaces (a b : Nat)
  | reverseEdge (a b : Nat)
  | moveBridge (aB aBef : Nat)
  | removeDeg1 (adj : Nat)

/-- Apply one structural operator. -/
def applyOp (s : EmbState) : OpApp → EmbState
  | .split a b x y => split s a b x y
  | .unsplit a y x b => unsplit s a y x b
  | .splitNode aL aR x y => splitNode s aL aR x y
  | .contract a b => contract s a b
  | .splitFace adjSrc adjTgt hS hT => splitFaceCore s adjSrc adjTgt hS hT
  | .joinFaces a b => joinFaces s a b
  | .reverseEdge a b => reverseEdge s a b
  | .moveBridge aB aBef => moveBridge s aB aBef
  | .removeDeg1 adj => removeDeg1 s adj

/-- The operators' preconditions as stated by the specification (edge and
half-edge existence, the degree conditions, the checked or asserted face
conditions), together with freshness of the explicitly chosen indices for
newly allocated half-edges. -/
def opPre (s : EmbState) : OpApp → Prop
  | .split a b x y => a ∈ s.H ∧ b ∈ s.H ∧ s.twin a = b ∧ x ∉ s.H ∧ y ∉ s.H ∧ x ≠ y
  | .unsplit a y x b => a ∈ s.H ∧ y ∈ s.H ∧ x ∈ s.H ∧ b ∈ s.H ∧
      s.twin a = y ∧ s.twin x = b ∧ s.succ a = x ∧ s.succ b = y ∧
      ¬(a = x ∧ y = b) ∧ ¬(a = b ∧ y = x)
  | .splitNode aL aR x y => aL ∈ s.H ∧ aR ∈ s.H ∧ aL ≠ aR ∧ x ∉ s.H ∧ y ∉ s.H ∧ x ≠ y
  | .contract a b => a ∈ s.H ∧ b ∈ s.H ∧ s.twin a = b
  | .splitFace adjSrc adjTgt hS hT => adjSrc ∈ s.H ∧ adjTgt ∈ s.H ∧
      s.rightFace adjSrc = s.rightFace adjTgt ∧ adjSrc ≠ adjTgt ∧
      hS ∉ s.H ∧ hT ∉ s.H ∧ hS ≠ hT
  | .joinFaces a b => a ∈ s.H ∧ b ∈ s.H ∧ s.twin a = b ∧
      s.rightFace a ≠ s.rightFace b
  | .reverseEdge a b => a ∈ s.H ∧ b ∈ s.H ∧ s.twin a = b
  | .moveBridge aB aBef => aB ∈ s.H ∧ aBef ∈ s.H ∧
      s.rightFace aB = s.rightFace (s.twin aB) ∧ s.rightFace aB ≠ s.rightFace aBef
  | .removeDeg1 adj => adj ∈ s.H ∧ s.succ (s.twin adj) = adj

/-- The preconditions of `opPre` strengthened by the non-degeneracy
conditions needed for invariant preservation: a contracted edge's halves
are not a whole face cycle (and neither half a singleton cycle), the
deleted edge of `joinFaces` does not consist of two singleton face cycles,
`moveBridge` has a non-empty walk, and the edge removed by `removeDeg1` is
not a whole face cycle. -/
def opPreA (s : EmbState) : OpApp → Prop
  | .contract a b => opPre s (.contract a b) ∧
      s.succ a ≠ a ∧ s.succ b ≠ b ∧ ¬(s.succ a = b ∧ s.succ b = a)
  | .joinFaces a b => opPre s (.joinFaces a b) ∧ ¬(s.succ a = a ∧ s.succ b = b)
  | .moveBridge aB aBef => opPre s (.moveBridge aB aBef) ∧ s.succ aB ≠ s.twin aB
  | .removeDeg1 adj => opPre s (.removeDeg1 adj) ∧ s.succ adj ≠ s.twin adj
  | op => opPre s op

instance (s : EmbState) : (op : OpApp) → Decidable (opPre s op)
  | .split a b x y => inferInstanceAs (Decidable
      (a ∈ s.H ∧ b ∈ s.H ∧ s.twin a = b ∧ x ∉ s.H ∧ y ∉ s.H ∧ x ≠ y))
  | .unsplit a y x b => inferInstanceAs (Decidable
      (a ∈ s.H ∧ y ∈ s.H ∧ x ∈ s.H ∧ b ∈ s.H ∧
        s.twin a = y ∧ s.twin x = b ∧ s.succ a = x ∧ s.succ b = y ∧
        ¬(a = x ∧ y = b) ∧ ¬(a = b ∧ y = x)))
  | .splitNode aL aR x y => inferInstanceAs (Decidable
      (aL ∈ s.H ∧ aR ∈ s.H ∧ aL ≠ aR ∧ x ∉ s.H ∧ y ∉ s.H ∧ x ≠ y))
  | .contract a b => inferInstanceAs (Decidable (a ∈ s.H ∧ b ∈ s.H ∧ s.twin a = b))
  | .splitFace adjSrc adjTgt hS hT => inferInstanceAs (Decidable
      (adjSrc ∈ s.H ∧ adjTgt ∈ s.H ∧
        s.rightFace adjSrc = s.rightFace adjTgt ∧ adjSrc ≠ adjTgt ∧
        hS ∉ s.H ∧ hT ∉ s.H ∧ hS ≠ hT))
  | .joinFaces a b => inferInstanceAs (Decidable
      (a ∈ s.H ∧ b ∈ s.H ∧ s.twin a = b ∧ s.rightFace a ≠ s.rightFace b))
  | .reverseEdge a b => inferInstanceAs (Decidable (a ∈ s.H ∧ b ∈ s.H ∧ s.twin a = b))
  | .moveBridge aB aBef => inferInstanceAs (Decidable
      (aB ∈ s.H ∧ aBef ∈ s.H ∧
        s.rightFace aB = s.rightFace (s.twin aB) ∧ s.rightFace aB ≠ s.rightFace aBef))
  | .removeDeg1 adj => inferInstanceAs (Decidable (adj ∈ s.H ∧ s.succ (s.twin adj) = adj))

instance (s : EmbState) : (op : OpApp) → Decidable (opPreA s op)
  | .split a b x y => inferInstanceAs (Decidable (opPre s (.split a b x y)))
  | .unsplit a y x b => inferInstanceAs (Decidable (opPre s (.unsplit a y x b)))
  | .splitNode aL aR x y => inferInstanceAs (Decidable (opPre s (.splitNode aL aR x y)))
  | .contract a b => inferInstanceAs (Decidable (opPre s (.contract a b) ∧
      s.succ a ≠ a ∧ s.succ b ≠ b ∧ ¬(s.succ a = b ∧ s.succ b = a)))
  | .splitFace adjSrc adjTgt hS hT => inferInstanceAs (Decidable
      (opPre s (.splitFace adjSrc adjTgt hS hT)))
  | .joinFaces a b => inferInstanceAs (Decidable
      (opPre s (.joinFaces a b) ∧ ¬(s.succ a = a ∧ s.succ b = b)))
  | .reverseEdge a b => inferInstanceAs (Decidable (opPre s (.reverseEdge a b)))
  | .moveBridge aB aBef => inferInstanceAs (Decidable
      (opPre s (.moveBridge aB aBef) ∧ s.succ aB ≠ s.twin aB))
  | .removeDeg1 adj => inferInstanceAs (Decidable
      (opPre s (.removeDeg1 adj) ∧ s.succ adj ≠ s.twin adj))

/-- Apply a sequence of structural operators from left to right. -/
def applyOps (s : EmbState) (ops : List OpApp) : EmbState := ops.foldl applyOp s

/-- Along the sequence, every operator's specified precondition holds in
the state it is applied to. -/
def opsOk : EmbState → List OpApp → Prop
  | _, [] => True
  | s, op :: rest => opPre s op ∧ opsOk (applyOp s op) rest

/-- Along the sequence, every operator's strengthened precondition holds
in the state it is applied to. -/
def opsOkA : EmbState → List OpApp → Prop
  | _, [] => True
  | s, op :: rest => opPreA s op ∧ opsOkA (applyOp s op) rest

instance instDecOpsOk : (s : EmbState) → (l : List OpApp) → Decidable (opsOk s l)
  | _, [] => isTrue trivial
  | s, op :: rest => @instDecidableAnd _ _ inferInstance (instDecOpsOk (applyOp s op) rest)

instance instDecOpsOkA : (s : EmbState) → (l : List OpApp) → Decidable (opsOkA s l)
  | _, [] => isTrue trivial
  | s, op :: rest => @instDecidableAnd _ _ inferInstance (instDecOpsOkA (applyOp s op) rest)

/-! ### The semantic invariant -/

/-- The face cycle of the face record `f`, as walked from its first entry
by the code's do-while loops. -/
def cycleOfFace (s : EmbState) (f : Face) : List Nat :=
  walkList s.succ f.first f.first s.H.card

/-- Executable check that consecutive entries of a list are linked by
`succ`. -/
def chainLinksB (succ : Nat → Nat) : List Nat → Bool
  | [] => true
  | [_] => true
  | u :: v :: rest => (succ u == v) && chainLinksB succ (v :: rest)

/-- A list is a `succ`-cycle: nonempty, duplicate-free, consecutive
entries linked by `succ`, and the last entry linked back to the first. -/
def CycChain (succ : Nat → Nat) (C : List Nat) : Prop :=
  C ≠ [] ∧ C.Nodup ∧ chainLinksB succ C = true ∧
    succ (C.getLastD 0) = C.headD 0

instance (succ : Nat → Nat) (C : List Nat) : Decidable (CycChain succ C) :=
  inferInstanceAs (Decidable (C ≠ [] ∧ C.Nodup ∧ chainLinksB succ C = true ∧
    succ (C.getLastD 0) = C.headD 0))

/-- The cycle list obtained by inserting `x` directly after the (first)
occurrence of `a`; describes the face cycle after a graph-level insertion
surgery. -/
def insList : List Nat → Nat → Nat → List Nat
  | [], _, _ => []
  | c :: t, a, x => if c = a then c :: x :: t else c :: insList t a x

/-- The per-face part of the invariant: the walked face cycle of `f` is a
genuine cycle starting at `f.first`, lies inside the half-edge set, every
entry on it has right face `f`, and the cached size is its length. -/
def InvFace (s : EmbState) (f : Face) : Prop :=
  CycChain s.succ (cycleOfFace s f) ∧
  (cycleOfFace s f).headD 0 = f.first ∧
  (∀ h ∈ cycleOfFace s f, h ∈ s.H ∧ s.rightFace h = some f.id) ∧
  f.size = ((cycleOfFace s f).length : Int)

instance (s : EmbState) (f : Face) : Decidable (InvFace s f) :=
  inferInstanceAs (Decidable (
    CycChain s.succ (cycleOfFace s f) ∧
    (cycleOfFace s f).headD 0 = f.first ∧
    (∀ h ∈ cycleOfFace s f, h ∈ s.H ∧ s.rightFace h = some f.id) ∧
    f.size = ((cycleOfFace s f).length : Int)))

/-- The core invariant of the embedding: the graph view is well-formed,
face identifiers are pairwise distinct and below the identifier counter,
every face satisfies `InvFace` (walking the face cycle from the face's
first entry visits exactly the entries owned by the face, their number
matching the cached size), and every half-edge is visited by some face's
walk (uniqueness follows from the right-face map). -/
def Inv (s : EmbState) : Prop :=
  GraphWF s ∧
  (s.faces.map Face.id).Nodup ∧
  (∀ f ∈ s.faces, f.id < s.faceIdCount) ∧
  (∀ f ∈ s.faces, InvFace s f) ∧
  ∀ h ∈ s.H, ∃ f ∈ s.faces, h ∈ cycleOfFace s f

instance (s : EmbState) : Decidable (Inv s) :=
  inferInstanceAs (Decidable (
    GraphWF s ∧
    (s.faces.map Face.id).Nodup ∧
    (∀ f ∈ s.faces, f.id < s.faceIdCount) ∧
    (∀ f ∈ s.faces, InvFace s f) ∧
    ∀ h ∈ s.H, ∃ f ∈ s.faces, h ∈ cycleOfFace s f))

/-- Sum of the cached sizes of all faces in the registry. -/
def sumFaceSizes (s : EmbState) : Int := (s.faces.map Face.size).sum

/-- Number of edges of the graph view (each edge has two halves). -/
def numEdges (s : EmbState) : Nat := s.H.card / 2

/-! ### Concrete embeddings used as test inputs -/

/-- A derived embedding of the graph with one isolated edge: halves `0` and
`1`, a single face cycle `[0, 1]`, one face of size `2`. -/
def edgeState : EmbState :=
  { H := {0, 1}
    succ := fun z => if z = 0 then 1 else if z = 1 then 0 else z
    twin := fun z => if z = 0 then 1 else if z = 1 then 0 else z
    rightFace := fun h => if h = 0 ∨ h = 1 then some 0 else none
    faces := [⟨0, 0, 2⟩]
    faceIdCount := 1
    tableSize := 16
    externalFace := none
    regArrays := [] }

/-- A derived embedding of the 4-cycle graph (nodes 1-2-3-4-1): edge `i` of
the cycle has halves `2*i` and `2*i+1`; the two faces are the cycles
`[0, 2, 4, 6]` and `[1, 7, 5, 3]`, both of size 4. -/
def quadState : EmbState :=
  { H := {0, 1, 2, 3, 4, 5, 6, 7}
    succ := fun z =>
      if z = 0 then 2 else if z = 2 then 4 else if z = 4 then 6 else if z = 6 then 0
      else if z = 1 then 7 else if z = 7 then 5 else if z = 5 then 3 else if z = 3 then 1
      else z
    twin := fun z => if z % 2 = 0 then z + 1 else z - 1
    rightFace := fun h =>
      if h = 0 ∨ h = 2 ∨ h = 4 ∨ h = 6 then some 0
      else if h = 1 ∨ h = 3 ∨ h = 5 ∨ h = 7 then some 1 else none
    faces := [⟨0, 0, 4⟩, ⟨1, 1, 4⟩]
    faceIdCount := 2
    tableSize := 16
    externalFace := none
    regArrays := [] }

/-- The 4-cycle embedding with the identifier counter at the capacity and
one registered array, used to exercise the capacity-doubling path of
`createFaceElement`. -/
def quadStateAtCap : EmbState :=
  { quadState with faceIdCount := 16, regArrays := [List.replicate 16 0] }

/-- An underived rotation-system graph: a triangle (halves `0`/`1`, `2`/`3`,
`4`/`5` for its three edges) with two pendant edges (`6`/`7` and `8`/`9`)
attached at one corner, both hanging into the outer region.  The rotation
system has two face cycles, `[0, 2, 4]` and `[1, 6, 7, 8, 9, 5, 3]`. -/
def pendGraph : EmbState :=
  { H := {0, 1, 2, 3, 4, 5, 6, 7, 8, 9}
    succ := fun z =>
      if z = 0 then 2 else if z = 2 then 4 else if z = 4 then 0
      else if z = 1 then 6 else if z = 6 then 7 else if z = 7 then 8
      else if z = 8 then 9 else if z = 9 then 5 else if z = 5 then 3
      else if z = 3 then 1 else z
    twin := fun z => if z % 2 = 0 then z + 1 else z - 1
    rightFace := fun _ => none
    faces := []
    faceIdCount := 0
    tableSize := 16
    externalFace := none
    regArrays := [] }

/-! ## Theorems -/

/-! ### List helpers for face cycles -/

theorem getLastD_irrel (b : Nat) (l : List Nat) (d d' : Nat) :
    (b :: l).getLastD d = (b :: l).getLastD d' := rfl

theorem getLastD_cons_cons (a b : Nat) (l : List Nat) (d : Nat) :
    (a :: b :: l).getLastD d = (b :: l).getLastD d := by
  rw [List.getLastD_cons]
  exact getLastD_irrel b l a d

theorem getLastD_append_cons : ∀ (P : List Nat) (z : Nat) (Q : List Nat) (d : Nat),
    (P ++ z :: Q).getLastD d = (z :: Q).getLastD d
  | [], _, _, _ => rfl
  | p :: P', z, Q, d => by
      rw [List.cons_append, List.getLastD_cons]
      rcases P' with _ | ⟨q, P''⟩
      · exact getLastD_irrel z Q p d
      · rw [getLastD_append_cons (q :: P'') z Q p]
        exact getLastD_irrel z Q p d

theorem headD_mem {C : List Nat} (h : C ≠ []) : C.headD 0 ∈ C := by
  rcases C with _ | ⟨c, t⟩
  · exact absurd rfl h
  · exact List.mem_cons_self c t

theorem getLastD_mem : ∀ {C : List Nat}, C ≠ [] → C.getLastD 0 ∈ C
  | [], h => absurd rfl h
  | [c], _ => List.mem_cons_self c []
  | c :: d :: t, _ => by
      rw [getLastD_cons_cons]
      exact List.mem_cons_of_mem c (getLastD_mem (by simp))

theorem getLast?_eq_getLastD : ∀ (b : Nat) (l : List Nat),
    (b :: l).getLast? = some ((b :: l).getLastD 0)
  | _, [] => rfl
  | b, c :: t => by
      rw [List.getLast?_cons_cons, getLast?_eq_getLastD c t, getLastD_cons_cons]

/-! ### Cycle machinery -/

theorem chainLinksB_iff_chain' (succ : Nat → Nat) :
    ∀ C : List Nat, chainLinksB succ C = true ↔ List.Chain' (fun u v => succ u = v) C
  | [] => by simp [chainLinksB]
  | [a] => by simp [chainLinksB]
  | a :: b :: t => by
      rw [List.chain'_cons, chainLinksB, Bool.and_eq_true, beq_iff_eq,
        chainLinksB_iff_chain' succ (b :: t)]

/-- Walking from `cur` with the do-while loop yields the remaining part of
the cycle, provided the wrap back to `start` occurs only at its end. -/
theorem walkList_eq_of_chain (succ : Nat → Nat) (start : Nat) :
    ∀ (todo : List Nat) (cur fuel : Nat),
      todo.length + 1 ≤ fuel →
      List.Chain' (fun u v => succ u = v) (cur :: todo) →
      succ ((cur :: todo).getLastD 0) = start →
      start ∉ todo →
      walkList succ start cur fuel = cur :: todo
  | _, _, 0, hf, _, _, _ => absurd hf (by omega)
  | [], cur, fuel + 1, _, _, hwrap, _ => by
      have h : succ cur = start := hwrap
      simp [walkList, h]
  | v :: rest, cur, fuel + 1, hf, hchain, hwrap, hstart => by
      obtain ⟨hcv, hchain'⟩ := List.chain'_cons.mp hchain
      have hne : succ cur ≠ start := by
        rw [hcv]
        intro h
        exact hstart (h ▸ List.mem_cons_self v rest)
      rw [walkList, if_neg hne, hcv]
      congr 1
      exact walkList_eq_of_chain succ start rest v fuel (by simpa using hf) hchain'
        (by rw [← getLastD_cons_cons cur v rest 0]; exact hwrap)
        (fun h => hstart (List.mem_cons_of_mem v h))

/-- The do-while walk from the head of a cycle returns exactly the cycle. -/
theorem walkList_cyc (succ : Nat → Nat) (C : List Nat) (hC : CycChain succ C)
    (fuel : Nat) (hfuel : C.length ≤ fuel) :
    walkList succ (C.headD 0) (C.headD 0) fuel = C := by
  obtain ⟨hne, hnd, hchainB, hwrap⟩ := hC
  rcases C with _ | ⟨c, todo⟩
  · exact absurd rfl hne
  · exact walkList_eq_of_chain succ c todo c fuel (by simpa using hfuel)
      ((chainLinksB_iff_chain' succ _).mp hchainB) hwrap
      (fun h => (List.nodup_cons.mp hnd).1 h)

/-- If `C` is a `succ`-cycle starting at `f.first` and contained in the
half-edge set, then the walked face cycle of `f` is exactly `C`. -/
theorem cycleOfFace_eq (s : EmbState) (f : Face) (C : List Nat)
    (hC : CycChain s.succ C) (hhead : C.headD 0 = f.first)
    (hsub : ∀ h ∈ C, h ∈ s.H) :
    cycleOfFace s f = C := by
  have hlen : C.length ≤ s.H.card := by
    have h1 : C.toFinset ⊆ s.H := fun h hh => hsub h (List.mem_toFinset.mp hh)
    have h2 := Finset.card_le_card h1
    rwa [List.toFinset_card_of_nodup hC.2.1] at h2
  unfold cycleOfFace
  rw [← hhead]
  exact walkList_cyc s.succ C hC s.H.card hlen

/-- A cycle is closed under the successor function. -/
theorem CycChain.succ_mem {succ : Nat → Nat} {C : List Nat} (hC : CycChain succ C)
    {z : Nat} (hz : z ∈ C) : succ z ∈ C := by
  obtain ⟨hne, _, hchainB, hwrap⟩ := hC
  have hchain := (chainLinksB_iff_chain' succ C).mp hchainB
  obtain ⟨P, Q, rfl⟩ := List.append_of_mem hz
  rcases Q with _ | ⟨w, Q'⟩
  · have hlast : (P ++ [z]).getLastD 0 = z := by rw [getLastD_append_cons]; rfl
    rw [hlast] at hwrap
    rw [hwrap]
    exact headD_mem hne
  · have hzw : succ z = w := by
      have := (List.chain'_append.mp hchain).2.1
      exact (List.chain'_cons.mp this).1
    rw [hzw]
    exact List.mem_append_right P (List.mem_cons_of_mem z (List.mem_cons_self w Q'))

theorem chainLinksB_congr {succ succ' : Nat → Nat} :
    ∀ {C : List Nat}, (∀ z ∈ C, succ' z = succ z) →
      chainLinksB succ' C = chainLinksB succ C
  | [], _ => rfl
  | [_], _ => rfl
  | a :: b :: t, h => by
      rw [chainLinksB, chainLinksB, h a (List.mem_cons_self a (b :: t)),
        chainLinksB_congr (fun z hz => h z (List.mem_cons_of_mem a hz))]

/-- A cycle for `succ` is a cycle for any function agreeing with `succ` on
its entries. -/
theorem cycChain_congr {succ succ' : Nat → Nat} {C : List Nat}
    (hC : CycChain succ C) (hagree : ∀ z ∈ C, succ' z = succ z) : CycChain succ' C := by
  obtain ⟨hne, hnd, hchainB, hwrap⟩ := hC
  refine ⟨hne, hnd, ?_, ?_⟩
  · rw [chainLinksB_congr hagree, hchainB]
  · rw [hagree _ (getLastD_mem hne), hwrap]

/-- Rotating a cycle to any of its entries yields a cycle starting there. -/
theorem cycChain_rotate {succ : Nat → Nat} {C : List Nat} (hC : CycChain succ C)
    {h : Nat} (hh : h ∈ C) :
    ∃ P Q, C = P ++ h :: Q ∧ CycChain succ (h :: (Q ++ P)) ∧
      (h :: (Q ++ P)).Perm C := by
  obtain ⟨hne, hnd, hchainB, hwrap⟩ := hC
  have hchain := (chainLinksB_iff_chain' succ C).mp hchainB
  obtain ⟨P, Q, rfl⟩ := List.append_of_mem hh
  have hperm : (h :: (Q ++ P)).Perm (P ++ h :: Q) := by
    have he : h :: (Q ++ P) = (h :: Q) ++ P := by simp
    rw [he]
    exact List.perm_append_comm
  refine ⟨P, Q, rfl, ⟨by simp, hperm.nodup_iff.mpr hnd, ?_, ?_⟩, hperm⟩
  · rw [chainLinksB_iff_chain']
    rcases P with _ | ⟨p, P'⟩
    · simpa using hchain
    · obtain ⟨hcP, hcQ, hlink⟩ := List.chain'_append.mp hchain
      have he : h :: (Q ++ p :: P') = (h :: Q) ++ p :: P' := by simp
      rw [he, List.chain'_append]
      refine ⟨hcQ, hcP, ?_⟩
      intro x hx y hy
      have hx' : (h :: Q).getLastD 0 = x := by
        rw [getLast?_eq_getLastD] at hx
        exact Option.some_inj.mp hx
      have hy' : p = y := Option.some_inj.mp hy
      rw [← hx', ← hy']
      have hl : succ ((h :: Q).getLastD 0) = succ (((p :: P') ++ h :: Q).getLastD 0) := by
        rw [getLastD_append_cons]
      rw [hl, hwrap]
      rfl
  · rcases P with _ | ⟨p, P'⟩
    · simpa using hwrap
    · obtain ⟨hcP, hcQ, hlink⟩ := List.chain'_append.mp hchain
      have he : (h :: (Q ++ p :: P')).getLastD 0 = (p :: P').getLastD 0 := by
        rw [show h :: (Q ++ p :: P') = (h :: Q) ++ p :: P' by simp]
        exact getLastD_append_cons (h :: Q) p P' 0
      rw [he]
      exact hlink ((p :: P').getLastD 0) (getLast?_eq_getLastD p P') h rfl

/-! ### Surgery lemmas: how the modelled graph primitives act on cycles -/

theorem chain'_imp_mem {R R' : Nat → Nat → Prop} :
    ∀ {L : List Nat}, (∀ u ∈ L, ∀ v ∈ L, R u v → R' u v) →
      List.Chain' R L → List.Chain' R' L
  | [], _, _ => List.chain'_nil
  | [_], _, _ => List.chain'_singleton _
  | a :: b :: t, h, hc => by
      obtain ⟨hab, hc'⟩ := List.chain'_cons.mp hc
      exact List.chain'_cons.mpr
        ⟨h a (List.mem_cons_self _ _) b (List.mem_cons_of_mem _ (List.mem_cons_self _ _)) hab,
          chain'_imp_mem (fun u hu v hv => h u (List.mem_cons_of_mem _ hu) v
            (List.mem_cons_of_mem _ hv)) hc'⟩

theorem chain'_congr_succ {succ succ' : Nat → Nat} {L : List Nat}
    (h : ∀ z ∈ L, succ' z = succ z) :
    List.Chain' (fun u v => succ u = v) L → List.Chain' (fun u v => succ' u = v) L :=
  chain'_imp_mem (fun u hu _ _ huv => (h u hu).trans huv)

theorem insList_append {a x : Nat} :
    ∀ {P : List Nat} (Q : List Nat), a ∉ P → insList (P ++ a :: Q) a x = P ++ a :: x :: Q
  | [], Q, _ => by simp [insList]
  | p :: P', Q, hp => by
      have hpa : p ≠ a := fun h => hp (h ▸ List.mem_cons_self _ _)
      show (if p = a then p :: x :: (P' ++ a :: Q) else p :: insList (P' ++ a :: Q) a x)
        = p :: (P' ++ a :: x :: Q)
      rw [if_neg hpa, insList_append Q (fun h => hp (List.mem_cons_of_mem _ h))]

/-- Inserting a fresh half-edge `x` directly after `a` turns a cycle
through `a` into a cycle with `x` spliced in after `a`, keeping the head. -/
theorem cycChain_insAfter {succ : Nat → Nat} {C : List Nat} (hC : CycChain succ C)
    {a x : Nat} (ha : a ∈ C) (hx : x ∉ C) :
    CycChain (insAfter succ a x) (insList C a x) ∧
    (insList C a x).headD 0 = C.headD 0 ∧
    (∀ z, z ∈ insList C a x ↔ z ∈ C ∨ z = x) ∧
    (insList C a x).length = C.length + 1 := by
  obtain ⟨hne, hnd, hchainB, hwrap⟩ := hC
  have hchain := (chainLinksB_iff_chain' succ C).mp hchainB
  obtain ⟨P, Q, hdecomp⟩ := List.append_of_mem ha
  have hndPQ : (P ++ a :: Q).Nodup := hdecomp ▸ hnd
  have hPa : a ∉ P := by
    intro h
    have := (List.nodup_append.mp hndPQ).2.2
    exact this h (List.mem_cons_self _ _)
  have hxa : x ≠ a := fun h => hx (h ▸ ha)
  have hxP : x ∉ P := fun h => hx (hdecomp ▸ List.mem_append_left _ h)
  have hxQ : x ∉ Q := fun h => hx
    (hdecomp ▸ List.mem_append_right _ (List.mem_cons_of_mem _ h))
  have haQ : a ∉ Q := by
    have := (List.nodup_append.mp hndPQ).2.1
    exact (List.nodup_cons.mp this).1
  have hins : insList C a x = P ++ a :: x :: Q := by
    rw [hdecomp]; exact insList_append Q hPa
  subst hdecomp
  rw [hins]
  obtain ⟨hcP, hcaQ, hlink⟩ := List.chain'_append.mp hchain
  have hagreeP : ∀ z ∈ P, insAfter succ a x z = succ z := by
    intro z hz
    have h1 : z ≠ a := fun h => hPa (h ▸ hz)
    have h2 : z ≠ x := fun h => hxP (h ▸ hz)
    simp [insAfter, h1, h2]
  have hagreeQ : ∀ z ∈ Q, insAfter succ a x z = succ z := by
    intro z hz
    have h1 : z ≠ a := fun h => haQ (h ▸ hz)
    have h2 : z ≠ x := fun h => hxQ (h ▸ hz)
    simp [insAfter, h1, h2]
  refine ⟨⟨by simp, ?_, ?_, ?_⟩, ?_, ?_, by simp; omega⟩
  · -- Nodup
    rw [List.nodup_append] at hndPQ ⊢
    obtain ⟨hP, haQ', hdisj⟩ := hndPQ
    rw [List.nodup_cons] at haQ'
    refine ⟨hP, ?_, ?_⟩
    · rw [List.nodup_cons, List.nodup_cons]
      exact ⟨by simp [Ne.symm hxa, haQ'.1], hxQ, haQ'.2⟩
    · intro z hz
      have h1 := hdisj hz
      intro hmem'
      rcases List.mem_cons.mp hmem' with h | hmem''
      · exact h1 (h ▸ List.mem_cons_self _ _)
      · rcases List.mem_cons.mp hmem'' with h | h
        · exact hxP (h ▸ hz)
        · exact h1 (List.mem_cons_of_mem _ h)
  · -- chain links
    rw [chainLinksB_iff_chain']
    rw [List.chain'_append]
    refine ⟨chain'_congr_succ hagreeP hcP, ?_, ?_⟩
    · rw [List.chain'_cons]
      refine ⟨by simp [insAfter], ?_⟩
      rcases Q with _ | ⟨q, Q'⟩
      · simp
      · rw [List.chain'_cons]
        obtain ⟨haq, hcQ⟩ := List.chain'_cons.mp hcaQ
        refine ⟨?_, chain'_congr_succ hagreeQ hcQ⟩
        simp [insAfter, hxa, haq]
    · intro u hu v hv
      have hv' : a = v := by simpa using hv
      have hu' : u ∈ P := by
        rcases P with _ | ⟨p, P'⟩
        · simp at hu
        · rw [getLast?_eq_getLastD] at hu
          have h2 : (p :: P').getLastD 0 = u := Option.some_inj.mp hu
          exact h2 ▸ getLastD_mem (by simp)
      rw [hagreeP u hu', ← hv']
      exact hlink u hu a rfl
  · -- wrap
    rcases Q with _ | ⟨q, Q'⟩
    · have h1 : (P ++ [a, x]).getLastD 0 = x := by
        rw [getLastD_append_cons, getLastD_cons_cons]
        rfl
      have h2 : (P ++ [a]).getLastD 0 = a := by
        rw [getLastD_append_cons]
        rfl
      rw [h1]
      have h3 : insAfter succ a x x = succ a := by simp [insAfter, hxa]
      rw [h3]
      rw [h2] at hwrap
      rw [hwrap]
      rcases P with _ | ⟨p, P'⟩ <;> rfl
    · have h1 : (P ++ a :: x :: q :: Q').getLastD 0 = (q :: Q').getLastD 0 := by
        rw [getLastD_append_cons, getLastD_cons_cons, getLastD_cons_cons]
      have h2 : (P ++ a :: q :: Q').getLastD 0 = (q :: Q').getLastD 0 := by
        rw [getLastD_append_cons, getLastD_cons_cons]
      have hwmem : (q :: Q').getLastD 0 ∈ q :: Q' := getLastD_mem (by simp)
      rw [h1, hagreeQ _ hwmem]
      rw [h2] at hwrap
      rw [hwrap]
      rcases P with _ | ⟨p, P'⟩ <;> rfl
  · rcases P with _ | ⟨p, P'⟩ <;> rfl
  · intro z
    simp only [List.mem_append, List.mem_cons]
    tauto

/-- Inserting a fresh half-edge after `a` keeps the successor function a
permutation of the (enlarged) half-edge set. -/
theorem insAfter_injOn {succ : Nat → Nat} {H : Finset Nat}
    (hmap : ∀ z ∈ H, succ z ∈ H)
    (hinj : ∀ z ∈ H, ∀ w ∈ H, succ z = succ w → z = w)
    {a x : Nat} (ha : a ∈ H) (hx : x ∉ H) :
    (∀ z ∈ insert x H, insAfter succ a x z ∈ insert x H) ∧
    (∀ z ∈ insert x H, ∀ w ∈ insert x H,
      insAfter succ a x z = insAfter succ a x w → z = w) := by
  have hval : ∀ z, insAfter succ a x z =
      (if z = a then x else if z = x then succ a else succ z) := fun _ => rfl
  constructor
  · intro z _
    rw [hval]
    by_cases h1 : z = a
    · rw [if_pos h1]; exact Finset.mem_insert_self _ _
    rw [if_neg h1]
    by_cases h2 : z = x
    · rw [if_pos h2]; exact Finset.mem_insert_of_mem (hmap a ha)
    · rw [if_neg h2]
      rcases Finset.mem_insert.mp ‹z ∈ insert x H› with h | h
      · exact absurd h h2
      · exact Finset.mem_insert_of_mem (hmap z h)
  · intro z hz w hw heq
    rw [hval, hval] at heq
    rcases Finset.mem_insert.mp hz with hz | hz
    · rcases Finset.mem_insert.mp hw with hw | hw
      · rw [hz, hw]
      · rw [hz] at heq
        rw [if_neg (fun h : x = a => hx (h ▸ ha)), if_pos rfl] at heq
        by_cases h1 : w = a
        · rw [if_pos h1] at heq
          exact absurd heq.symm (fun h => hx (h ▸ hmap a ha))
        rw [if_neg h1] at heq
        rw [if_neg (fun h : w = x => hx (h ▸ hw))] at heq
        exact absurd (hinj a ha w hw heq) (Ne.symm h1)
    · rcases Finset.mem_insert.mp hw with hw | hw
      · rw [hw] at heq
        rw [if_neg (fun h : x = a => hx (h ▸ ha)), if_pos rfl] at heq
        by_cases h1 : z = a
        · rw [if_pos h1] at heq
          exact absurd heq (fun h => hx (h ▸ hmap a ha))
        rw [if_neg h1] at heq
        rw [if_neg (fun h : z = x => hx (h ▸ hz))] at heq
        exact absurd (hinj z hz a ha heq) h1
      · have hzx : z ≠ x := fun h => hx (h ▸ hz)
        have hwx : w ≠ x := fun h => hx (h ▸ hw)
        by_cases h1 : z = a
        · rw [if_pos h1] at heq
          by_cases h2 : w = a
          · rw [h1, h2]
          · rw [if_neg h2, if_neg hwx] at heq
            exact absurd heq.symm (fun h => hx (h ▸ hmap w hw))
        · rw [if_neg h1, if_neg hzx] at heq
          by_cases h2 : w = a
          · rw [if_pos h2] at heq
            exact absurd heq (fun h => hx (h ▸ hmap z hz))
          · rw [if_neg h2, if_neg hwx] at heq
            exact hinj z hz w hw heq

/-- Removing a half-edge from its face cycle keeps the successor function a
permutation of the shrunken half-edge set. -/
theorem delHalf_injOn {succ : Nat → Nat} {H : Finset Nat}
    (hmap : ∀ z ∈ H, succ z ∈ H)
    (hinj : ∀ z ∈ H, ∀ w ∈ H, succ z = succ w → z = w)
    {p : Nat} (hp : p ∈ H) :
    (∀ z ∈ H.erase p, delHalf succ p z ∈ H.erase p) ∧
    (∀ z ∈ H.erase p, ∀ w ∈ H.erase p,
      delHalf succ p z = delHalf succ p w → z = w) := by
  have hval : ∀ z, delHalf succ p z =
      (if succ z = p then succ p else succ z) := fun _ => rfl
  constructor
  · intro z hz
    obtain ⟨hzp, hzH⟩ := Finset.mem_erase.mp hz
    rw [hval]
    by_cases h1 : succ z = p
    · rw [if_pos h1]
      refine Finset.mem_erase.mpr ⟨?_, hmap p hp⟩
      intro h2
      exact hzp (hinj z hzH p hp (h1.trans h2.symm))
    · rw [if_neg h1]
      exact Finset.mem_erase.mpr ⟨h1, hmap z hzH⟩
  · intro z hz w hw heq
    obtain ⟨hzp, hzH⟩ := Finset.mem_erase.mp hz
    obtain ⟨hwp, hwH⟩ := Finset.mem_erase.mp hw
    rw [hval, hval] at heq
    by_cases h1 : succ z = p
    · rw [if_pos h1] at heq
      by_cases h2 : succ w = p
      · exact hinj z hzH w hwH (h1.trans h2.symm)
      · rw [if_neg h2] at heq
        exact absurd (hinj p hp w hwH heq).symm hwp
    · rw [if_neg h1] at heq
      by_cases h2 : succ w = p
      · rw [if_pos h2] at heq
        exact absurd (hinj z hzH p hp heq) hzp
      · rw [if_neg h2] at heq
        exact hinj z hzH w hwH heq

theorem delHalf_ne {succ : Nat → Nat} {z p : Nat} (h : succ z ≠ p) :
    delHalf succ p z = succ z := by
  simp only [delHalf]
  rw [if_neg h]

theorem delHalf_eq {succ : Nat → Nat} {z p : Nat} (h : succ z = p) :
    delHalf succ p z = succ p := by
  simp only [delHalf]
  rw [if_pos h]

theorem cycChain_two_le {succ : Nat → Nat} {C : List Nat} (hC : CycChain succ C)
    {a : Nat} (ha : a ∈ C) (hne : succ a ≠ a) : 2 ≤ C.length := by
  rcases C with _ | ⟨c, _ | ⟨d, t⟩⟩
  · simp at ha
  · have hac : a = c := by simpa using ha
    have := hC.2.2.2
    subst hac
    exact absurd this hne
  · simp

/-- Removing a half-edge `z` from its face cycle by short-circuiting its
predecessor yields the cycle without `z`. -/
theorem cycChain_delHalf {succ : Nat → Nat} {C : List Nat} (hC : CycChain succ C)
    {z : Nat} (hz : z ∈ C) (hlen : 2 ≤ C.length) :
    CycChain (delHalf succ z) (C.erase z) ∧
    (∀ w, w ∈ C.erase z ↔ w ∈ C ∧ w ≠ z) ∧
    (C.erase z).length + 1 = C.length := by
  obtain ⟨hne, hnd, hchainB, hwrap⟩ := hC
  have hchain := (chainLinksB_iff_chain' succ C).mp hchainB
  obtain ⟨P, Q, hdecomp⟩ := List.append_of_mem hz
  have hndPQ : (P ++ z :: Q).Nodup := hdecomp ▸ hnd
  have hPz : z ∉ P := by
    intro h
    exact (List.nodup_append.mp hndPQ).2.2 h (List.mem_cons_self _ _)
  have hQz : z ∉ Q := (List.nodup_cons.mp (List.nodup_append.mp hndPQ).2.1).1
  have herase : C.erase z = P ++ Q := by
    rw [hdecomp, List.erase_append_right _ hPz, List.erase_cons_head]
  have hmem : ∀ w, w ∈ C.erase z ↔ w ∈ C ∧ w ≠ z := by
    intro w
    rw [hnd.mem_erase_iff]
    tauto
  have hlen' : (C.erase z).length + 1 = C.length := by
    rw [List.length_erase_of_mem hz]
    have : C.length ≠ 0 := by
      rw [hdecomp]; simp
    omega
  subst hdecomp
  rw [herase] at hmem hlen' ⊢
  obtain ⟨hcP, hczQ, hlink⟩ := List.chain'_append.mp hchain
  obtain ⟨hcQ⟩ : ∃ _ : List.Chain' (fun u v => succ u = v) Q, True :=
    ⟨(List.chain'_cons'.mp hczQ).2, trivial⟩
  have hagreeP : ∀ u ∈ P, ∀ v ∈ P, succ u = v → delHalf succ z u = v := by
    intro u _ v hv huv
    have hne2 : succ u ≠ z := by rw [huv]; exact fun h => hPz (h ▸ hv)
    simp only [delHalf]
    rw [if_neg hne2]
    exact huv
  have hagreeQ : ∀ u ∈ Q, ∀ v ∈ Q, succ u = v → delHalf succ z u = v := by
    intro u _ v hv huv
    have hne2 : succ u ≠ z := by rw [huv]; exact fun h => hQz (h ▸ hv)
    simp only [delHalf]
    rw [if_neg hne2]
    exact huv
  have hlenPQ : 1 ≤ (P ++ Q).length := by
    have := hlen
    simp only [List.length_append, List.length_cons] at this ⊢
    omega
  refine ⟨⟨?_, ?_, ?_, ?_⟩, hmem, hlen'⟩
  · intro h
    rw [h] at hlenPQ
    simp at hlenPQ
  · exact List.Nodup.sublist
      ((List.append_sublist_append_left P).mpr (List.sublist_cons_self z Q)) hnd
  · rw [chainLinksB_iff_chain', List.chain'_append]
    refine ⟨chain'_imp_mem hagreeP hcP, chain'_imp_mem hagreeQ hcQ, ?_⟩
    intro u hu v hv
    have hu' : u ∈ P := by
      rcases P with _ | ⟨p, P'⟩
      · simp at hu
      · rw [getLast?_eq_getLastD] at hu
        exact Option.some_inj.mp hu ▸ getLastD_mem (by simp)
    rcases Q with _ | ⟨q, Q'⟩
    · simp at hv
    · have hv' : q = v := by simpa using hv
      have h1 : succ u = z := hlink u hu z rfl
      have h2 : succ z = q := (List.chain'_cons.mp hczQ).1
      rw [← hv']
      simp [delHalf, h1, h2]
  · -- wrap of the shortened cycle
    rcases Q with _ | ⟨q, Q'⟩
    · -- z was the last entry
      rcases P with _ | ⟨p, P'⟩
      · simp at hlenPQ
      · have h3 : succ ((p :: P').getLastD 0) = z :=
          hlink _ (getLast?_eq_getLastD p P') z rfl
        have h2 : succ z = p := by
          have he : ((p :: P') ++ [z]).getLastD 0 = z := by
            rw [getLastD_append_cons]
            rfl
          rw [he] at hwrap
          exact hwrap
        show delHalf succ z (((p :: P') ++ ([] : List Nat)).getLastD 0) =
          ((p :: P') ++ ([] : List Nat)).headD 0
        rw [List.append_nil]
        simp only [delHalf]
        rw [if_pos h3, h2]
        rfl
    · have h2 : succ z = q := (List.chain'_cons.mp hczQ).1
      rcases P with _ | ⟨p, P'⟩
      · -- z was the head
        have h4 : succ ((q :: Q').getLastD 0) = z := by
          have he : (([] : List Nat) ++ z :: q :: Q').getLastD 0 = (q :: Q').getLastD 0 := by
            rw [List.nil_append]
            exact getLastD_cons_cons z q Q' 0
          rw [he] at hwrap
          exact hwrap
        show delHalf succ z ((([] : List Nat) ++ q :: Q').getLastD 0) =
          (([] : List Nat) ++ q :: Q').headD 0
        rw [List.nil_append]
        simp only [delHalf]
        rw [if_pos h4, h2]
        rfl
      · have h6 : succ ((q :: Q').getLastD 0) = p := by
          have he : ((p :: P') ++ z :: q :: Q').getLastD 0 = (q :: Q').getLastD 0 := by
            rw [getLastD_append_cons, getLastD_cons_cons]
          rw [he] at hwrap
          exact hwrap
        have h7 : succ ((q :: Q').getLastD 0) ≠ z := by
          rw [h6]
          exact fun h => hPz (h ▸ List.mem_cons_self _ _)
        have he2 : ((p :: P') ++ q :: Q').getLastD 0 = (q :: Q').getLastD 0 :=
          getLastD_append_cons (p :: P') q Q' 0
        show delHalf succ z (((p :: P') ++ q :: Q').getLastD 0) =
          ((p :: P') ++ q :: Q').headD 0
        rw [he2]
        simp only [delHalf]
        rw [if_neg h7, h6]
        rfl

/-- A fixed point of the successor that lies on a cycle is the whole cycle. -/
theorem cycChain_singleton {succ : Nat → Nat} {C : List Nat} {b : Nat}
    (hC : CycChain succ C) (hb : b ∈ C) (hfix : succ b = b) : C = [b] := by
  obtain ⟨P, Q, hdec, hC', hperm⟩ := cycChain_rotate hC hb
  rcases hqp : Q ++ P with _ | ⟨c, R⟩
  · obtain ⟨hQ, hP⟩ := List.append_eq_nil.mp hqp
    rw [hdec, hP, hQ]
    rfl
  · exfalso
    have hchain := (chainLinksB_iff_chain' succ _).mp hC'.2.2.1
    rw [hqp] at hchain
    have hbc : succ b = c := (List.chain'_cons.mp hchain).1
    have hnd := hC'.2.1
    rw [hqp] at hnd
    have : b ≠ c := fun h => (List.nodup_cons.mp hnd).1 (h ▸ List.mem_cons_self c R)
    exact this (by rw [← hfix, hbc])

/-- Deleting the edge `a`/`b` splices the two cycles through `a` and `b`
into one cycle, dropping `a` and `b`. -/
theorem cycChain_delEdge {succ : Nat → Nat} {a b : Nat} {P Q : List Nat}
    (hC1 : CycChain succ (a :: P)) (hC2 : CycChain succ (b :: Q))
    (hP : P ≠ []) (hQ : Q ≠ [])
    (hdisj : ∀ z ∈ a :: P, z ∉ b :: Q) :
    CycChain (delEdgeSucc succ a b) (P ++ Q) ∧
    (∀ z, z ∈ P ++ Q ↔ ((z ∈ a :: P ∨ z ∈ b :: Q) ∧ z ≠ a ∧ z ≠ b)) ∧
    (P ++ Q).length + 2 = (a :: P).length + (b :: Q).length := by
  obtain ⟨hne1, hnd1, hchB1, hw1⟩ := hC1
  obtain ⟨hne2, hnd2, hchB2, hw2⟩ := hC2
  have hch1 := (chainLinksB_iff_chain' succ _).mp hchB1
  have hch2 := (chainLinksB_iff_chain' succ _).mp hchB2
  rcases P with _ | ⟨p, P'⟩
  · exact absurd rfl hP
  rcases Q with _ | ⟨q, Q'⟩
  · exact absurd rfl hQ
  have haP : a ∉ p :: P' := (List.nodup_cons.mp hnd1).1
  have hbQ : b ∉ q :: Q' := (List.nodup_cons.mp hnd2).1
  have hPQdisj : ∀ z ∈ p :: P', z ∉ q :: Q' := by
    intro z hz hz'
    exact hdisj z (List.mem_cons_of_mem a hz) (List.mem_cons_of_mem b hz')
  have hsp : succ a = p := (List.chain'_cons.mp hch1).1
  have hsq : succ b = q := (List.chain'_cons.mp hch2).1
  have hchP : List.Chain' (fun u v => succ u = v) (p :: P') :=
    (List.chain'_cons.mp hch1).2
  have hchQ : List.Chain' (fun u v => succ u = v) (q :: Q') :=
    (List.chain'_cons.mp hch2).2
  have hwP : succ ((p :: P').getLastD 0) = a := by
    rw [← getLastD_cons_cons a p P' 0]
    exact hw1
  have hwQ : succ ((q :: Q').getLastD 0) = b := by
    rw [← getLastD_cons_cons b q Q' 0]
    exact hw2
  have haQ : a ∉ q :: Q' := fun h => hdisj a (List.mem_cons_self _ _) (List.mem_cons_of_mem b h)
  have hbP : b ∉ p :: P' := by
    intro h
    exact hdisj b (List.mem_cons_of_mem a h) (List.mem_cons_self _ _)
  have hagreeP : ∀ u ∈ p :: P', ∀ v ∈ p :: P', succ u = v →
      delEdgeSucc succ a b u = v := by
    intro u _ v hv huv
    have h1 : succ u ≠ a := by rw [huv]; exact fun h => haP (h ▸ hv)
    have h2 : succ u ≠ b := by rw [huv]; exact fun h => hbP (h ▸ hv)
    show (if succ u = a then _ else if succ u = b then _ else succ u) = v
    rw [if_neg h1, if_neg h2]
    exact huv
  have hagreeQ : ∀ u ∈ q :: Q', ∀ v ∈ q :: Q', succ u = v →
      delEdgeSucc succ a b u = v := by
    intro u _ v hv huv
    have h1 : succ u ≠ a := by rw [huv]; exact fun h => haQ (h ▸ hv)
    have h2 : succ u ≠ b := by rw [huv]; exact fun h => hbQ (h ▸ hv)
    show (if succ u = a then _ else if succ u = b then _ else succ u) = v
    rw [if_neg h1, if_neg h2]
    exact huv
  have hqb : q ≠ b := fun h => hbQ (h ▸ List.mem_cons_self q Q')
  have hpa : p ≠ a := fun h => haP (h ▸ List.mem_cons_self p P')
  refine ⟨⟨by simp, ?_, ?_, ?_⟩, ?_, by simp; omega⟩
  · -- Nodup
    rw [List.nodup_append]
    exact ⟨(List.nodup_cons.mp hnd1).2, (List.nodup_cons.mp hnd2).2, hPQdisj⟩
  · -- chain links
    rw [chainLinksB_iff_chain', List.chain'_append]
    refine ⟨chain'_imp_mem hagreeP hchP, chain'_imp_mem hagreeQ hchQ, ?_⟩
    intro u hu v hv
    have hu' : (p :: P').getLastD 0 = u := by
      rw [getLast?_eq_getLastD] at hu
      exact Option.some_inj.mp hu
    have hv' : q = v := by simpa using hv
    have h1 : succ u = a := by rw [← hu']; exact hwP
    show (if succ u = a then (if succ b = b then succ a else succ b) else _) = v
    rw [if_pos h1, if_neg (by rw [hsq]; exact hqb), hsq, hv']
  · -- wrap
    have hlast : ((p :: P') ++ q :: Q').getLastD 0 = (q :: Q').getLastD 0 :=
      getLastD_append_cons (p :: P') q Q' 0
    rw [hlast]
    have h1 : succ ((q :: Q').getLastD 0) = b := hwQ
    have h2 : succ ((q :: Q').getLastD 0) ≠ a := by
      rw [h1]
      exact fun h => hdisj a (List.mem_cons_self _ _) (List.mem_cons.mpr (Or.inl h.symm))
    show (if succ ((q :: Q').getLastD 0) = a then _
      else if succ ((q :: Q').getLastD 0) = b then (if succ a = a then succ b else succ a)
      else _) = ((p :: P') ++ q :: Q').headD 0
    rw [if_neg h2, if_pos h1, if_neg (by rw [hsp]; exact hpa), hsp]
    rfl
  · -- membership
    intro z
    simp only [List.mem_append]
    constructor
    · rintro (hz | hz)
      · exact ⟨Or.inl (List.mem_cons_of_mem a hz),
          fun h => haP (h ▸ hz), fun h => hbP (h ▸ hz)⟩
      · exact ⟨Or.inr (List.mem_cons_of_mem b hz),
          fun h => haQ (h ▸ hz), fun h => hbQ (h ▸ hz)⟩
    · rintro ⟨hmem2, hza, hzb⟩
      rcases hmem2 with hm | hm
      · rcases List.mem_cons.mp hm with rfl | hm2
        · exact absurd rfl hza
        · exact Or.inl hm2
      · rcases List.mem_cons.mp hm with rfl | hm2
        · exact absurd rfl hzb
        · exact Or.inr hm2

/-- Deleting the edge `a`/`b` when the cycle of `b` is the singleton `[b]`
just removes `a` from its cycle. -/
theorem cycChain_delEdge_singR {succ : Nat → Nat} {a b : Nat} {C : List Nat}
    (hC : CycChain succ C) (ha : a ∈ C) (hsing : succ b = b) (hbC : b ∉ C)
    (hlen : 2 ≤ C.length) :
    CycChain (delEdgeSucc succ a b) (C.erase a) ∧
    (∀ z, z ∈ C.erase a ↔ z ∈ C ∧ z ≠ a) ∧
    (C.erase a).length + 1 = C.length := by
  have hstep := cycChain_delHalf hC ha hlen
  refine ⟨cycChain_congr hstep.1 ?_, hstep.2.1, hstep.2.2⟩
  intro z hz
  have hzC : z ∈ C := ((hstep.2.1 z).mp hz).1
  have hsz : succ z ∈ C := hC.succ_mem hzC
  have hszb : succ z ≠ b := fun h => hbC (h ▸ hsz)
  show (if succ z = a then (if succ b = b then succ a else succ b)
    else if succ z = b then _ else succ z) = delHalf succ a z
  by_cases h1 : succ z = a
  · rw [if_pos h1, if_pos hsing, delHalf_eq h1]
  · rw [if_neg h1, if_neg hszb, delHalf_ne h1]

/-- Deleting the edge `a`/`b` when the cycle of `a` is the singleton `[a]`
just removes `b` from its cycle. -/
theorem cycChain_delEdge_singL {succ : Nat → Nat} {a b : Nat} {C : List Nat}
    (hC : CycChain succ C) (hb : b ∈ C) (hsing : succ a = a) (haC : a ∉ C)
    (hlen : 2 ≤ C.length) :
    CycChain (delEdgeSucc succ a b) (C.erase b) ∧
    (∀ z, z ∈ C.erase b ↔ z ∈ C ∧ z ≠ b) ∧
    (C.erase b).length + 1 = C.length := by
  have hstep := cycChain_delHalf hC hb hlen
  refine ⟨cycChain_congr hstep.1 ?_, hstep.2.1, hstep.2.2⟩
  intro z hz
  have hzC : z ∈ C := ((hstep.2.1 z).mp hz).1
  have hsz : succ z ∈ C := hC.succ_mem hzC
  have hsza : succ z ≠ a := fun h => haC (h ▸ hsz)
  show (if succ z = a then _
    else if succ z = b then (if succ a = a then succ b else succ a) else succ z)
    = delHalf succ b z
  by_cases h1 : succ z = b
  · rw [if_neg hsza, if_pos h1, if_pos hsing, delHalf_eq h1]
  · rw [if_neg hsza, if_neg h1, delHalf_ne h1]

/-- Deleting an edge keeps the successor function a permutation of the
shrunken half-edge set, provided neither half is the other's successor. -/
theorem delEdge_injOn {succ : Nat → Nat} {H : Finset Nat}
    (hmap : ∀ z ∈ H, succ z ∈ H)
    (hinj : ∀ z ∈ H, ∀ w ∈ H, succ z = succ w → z = w)
    {a b : Nat} (ha : a ∈ H) (hb : b ∈ H) (hab : a ≠ b)
    (hsab : succ a ≠ b) (hsba : succ b ≠ a) :
    (∀ z ∈ (H.erase a).erase b, delEdgeSucc succ a b z ∈ (H.erase a).erase b) ∧
    (∀ z ∈ (H.erase a).erase b, ∀ w ∈ (H.erase a).erase b,
      delEdgeSucc succ a b z = delEdgeSucc succ a b w → z = w) := by
  have hmem : ∀ z, z ∈ (H.erase a).erase b ↔ (z ∈ H ∧ z ≠ a ∧ z ≠ b) := by
    intro z
    simp only [Finset.mem_erase]
    tauto
  have hval : ∀ z, delEdgeSucc succ a b z =
      (if succ z = a then (if succ b = b then succ a else succ b)
        else if succ z = b then (if succ a = a then succ b else succ a)
        else succ z) := fun _ => rfl
  have hsaa : ∀ z ∈ H, z ≠ a → succ z = a → succ a ≠ a := by
    intro z hz hza h1 h2
    exact hza (hinj z hz a ha (h1.trans h2.symm))
  have hsbb : ∀ z ∈ H, z ≠ b → succ z = b → succ b ≠ b := by
    intro z hz hzb h1 h2
    exact hzb (hinj z hz b hb (h1.trans h2.symm))
  constructor
  · intro z hz
    obtain ⟨hzH, hza, hzb⟩ := (hmem z).mp hz
    rw [hval]
    by_cases h1 : succ z = a
    · rw [if_pos h1]
      by_cases h2 : succ b = b
      · rw [if_pos h2]
        exact (hmem _).mpr ⟨hmap a ha, hsaa z hzH hza h1, hsab⟩
      · rw [if_neg h2]
        exact (hmem _).mpr ⟨hmap b hb, hsba, h2⟩
    · rw [if_neg h1]
      by_cases h2 : succ z = b
      · rw [if_pos h2]
        by_cases h3 : succ a = a
        · rw [if_pos h3]
          exact (hmem _).mpr ⟨hmap b hb, hsba, hsbb z hzH hzb h2⟩
        · rw [if_neg h3]
          exact (hmem _).mpr ⟨hmap a ha, h3, hsab⟩
      · rw [if_neg h2]
        exact (hmem _).mpr ⟨hmap z hzH, h1, h2⟩
  · intro z hz w hw heq
    obtain ⟨hzH, hza, hzb⟩ := (hmem z).mp hz
    obtain ⟨hwH, hwa, hwb⟩ := (hmem w).mp hw
    rw [hval, hval] at heq
    by_cases h1 : succ z = a
    · rw [if_pos h1] at heq
      by_cases h2 : succ w = a
      · exact hinj z hzH w hwH (h1.trans h2.symm)
      · rw [if_neg h2] at heq
        by_cases h3 : succ w = b
        · rw [if_pos h3] at heq
          by_cases h4 : succ b = b
          · exact absurd (hinj w hwH b hb (h3.trans h4.symm)) hwb
          · rw [if_neg h4] at heq
            by_cases h5 : succ a = a
            · exact absurd (hinj z hzH a ha (h1.trans h5.symm)) hza
            · rw [if_neg h5] at heq
              exact absurd (hinj b hb a ha heq) (Ne.symm hab)
        · rw [if_neg h3] at heq
          by_cases h4 : succ b = b
          · rw [if_pos h4] at heq
            exact absurd (hinj a ha w hwH heq).symm hwa
          · rw [if_neg h4] at heq
            exact absurd (hinj b hb w hwH heq).symm hwb
    · rw [if_neg h1] at heq
      by_cases h2 : succ z = b
      · rw [if_pos h2] at heq
        by_cases h3 : succ w = a
        · rw [if_pos h3] at heq
          by_cases h4 : succ a = a
          · exact absurd (hinj w hwH a ha (h3.trans h4.symm)) hwa
          · rw [if_neg h4] at heq
            by_cases h5 : succ b = b
            · exact absurd (hinj z hzH b hb (h2.trans h5.symm)) hzb
            · rw [if_neg h5] at heq
              exact absurd (hinj a ha b hb heq) hab
        · rw [if_neg h3] at heq
          by_cases h4 : succ w = b
          · exact hinj z hzH w hwH (h2.trans h4.symm)
          · rw [if_neg h4] at heq
            by_cases h5 : succ a = a
            · rw [if_pos h5] at heq
              exact absurd (hinj b hb w hwH heq).symm hwb
            · rw [if_neg h5] at heq
              exact absurd (hinj a ha w hwH heq).symm hwa
      · rw [if_neg h2] at heq
        by_cases h3 : succ w = a
        · rw [if_pos h3] at heq
          by_cases h4 : succ b = b
          · rw [if_pos h4] at heq
            exact absurd (hinj z hzH a ha heq) hza
          · rw [if_neg h4] at heq
            exact absurd (hinj z hzH b hb heq) hzb
        · rw [if_neg h3] at heq
          by_cases h4 : succ w = b
          · rw [if_pos h4] at heq
            by_cases h5 : succ a = a
            · rw [if_pos h5] at heq
              exact absurd (hinj z hzH b hb heq) hzb
            · rw [if_neg h5] at heq
              exact absurd (hinj z hzH a ha heq) hza
          · rw [if_neg h4] at heq
            exact hinj z hzH w hwH heq

/-- Under distinct identifiers, the registry lookup by identifier finds the
face record itself. -/
theorem find_face_of_mem {l : List Face} (hnd : (l.map Face.id).Nodup) :
    ∀ {f : Face}, f ∈ l → l.find? (fun g => g.id == f.id) = some f := by
  induction l with
  | nil =>
    intro f hf
    simp at hf
  | cons g t IH =>
    intro f hf
    rw [List.map_cons, List.nodup_cons] at hnd
    rcases List.mem_cons.mp hf with rfl | hft
    · rw [show List.find? (fun g => g.id == f.id) (f :: t) = some f from
        List.find?_cons_of_pos t (by simp)]
    · have hne : ¬(g.id == f.id) = true := by
        simp only [beq_iff_eq]
        intro h
        exact hnd.1 (h ▸ List.mem_map_of_mem Face.id hft)
      rw [show List.find? (fun g2 => g2.id == f.id) (g :: t)
          = List.find? (fun g2 => g2.id == f.id) t from List.find?_cons_of_neg t hne]
      exact IH hnd.2 hft

theorem sizeOfId_eq (s : EmbState) (hnd : (s.faces.map Face.id).Nodup)
    {f : Face} (hf : f ∈ s.faces) : sizeOfId s f.id = f.size := by
  unfold sizeOfId
  rw [find_face_of_mem hnd hf]
  rfl

theorem firstOfId_eq (s : EmbState) (hnd : (s.faces.map Face.id).Nodup)
    {f : Face} (hf : f ∈ s.faces) : firstOfId s f.id = f.first := by
  unfold firstOfId
  rw [find_face_of_mem hnd hf]
  rfl

/-- On a cycle of length one, the sole entry is a fixed point. -/
theorem cycChain_len_one {succ : Nat → Nat} {C : List Nat} {c : Nat}
    (hC : CycChain succ C) (hc : c ∈ C) (hlen : C.length = 1) : succ c = c := by
  obtain ⟨w, hw⟩ := List.length_eq_one.mp hlen
  subst hw
  have hcw : c = w := by simpa using hc
  subst hcw
  exact hC.2.2.2

/-- Congruence on the chain-link relation along a list, needing agreement
only on actual consecutive pairs (the target is in the tail). -/
theorem chain'_congr_tail {succ succ' : Nat → Nat} :
    ∀ {L : List Nat}, (∀ u ∈ L, ∀ v ∈ L.tail, succ u = v → succ' u = v) →
      List.Chain' (fun u v => succ u = v) L →
      List.Chain' (fun u v => succ' u = v) L
  | [], _, _ => List.chain'_nil
  | [_], _, _ => List.chain'_singleton _
  | a :: b :: t, h, hc => by
      obtain ⟨hab, hc'⟩ := List.chain'_cons.mp hc
      refine List.chain'_cons.mpr ⟨h a (List.mem_cons_self _ _) b (by simp) hab, ?_⟩
      exact chain'_congr_tail
        (fun u hu v hv huv =>
          h u (List.mem_cons_of_mem _ hu) v (List.mem_cons_of_mem _ hv) huv) hc'

/-- The exclusive walk of the `moveBridge` loop visits exactly the chained
segment before the stopping entry. -/
theorem walkUntil_eq_of_chain (succ : Nat → Nat) (stop : Nat) :
    ∀ (todo : List Nat) (cur fuel : Nat),
      todo.length + 2 ≤ fuel →
      List.Chain' (fun u v => succ u = v) (cur :: todo) →
      succ ((cur :: todo).getLastD 0) = stop →
      cur ≠ stop → stop ∉ todo →
      walkUntil succ stop cur fuel = cur :: todo
  | [], cur, fuel, hf, _, hwrap, hne, _ => by
      have hsc : succ cur = stop := hwrap
      rcases fuel with _ | g
      · omega
      rcases g with _ | g'
      · omega
      · rw [walkUntil, if_neg hne, hsc, walkUntil, if_pos rfl]
  | v :: rest, cur, fuel, hf, hchain, hwrap, hne, hstop => by
      obtain ⟨hcv, hchain'⟩ := List.chain'_cons.mp hchain
      rcases fuel with _ | g
      · omega
      rw [walkUntil, if_neg hne, hcv]
      congr 1
      exact walkUntil_eq_of_chain succ stop rest v g (by simpa using hf) hchain'
        (by rw [← getLastD_cons_cons cur v rest 0]; exact hwrap)
        (fun h => hstop (h ▸ List.mem_cons_self v rest))
        (fun h => hstop (List.mem_cons_of_mem _ h))

/-- Inserting a new edge between `aS` and `aT` splits their common face
cycle into the two spliced cycles. -/
theorem cycChain_newEdge_pair {succ : Nat → Nat} {aS aT hS hT : Nat} {R1 R2 : List Nat}
    (hC : CycChain succ (aS :: (R1 ++ aT :: R2)))
    (hSn : ∀ z ∈ aS :: (R1 ++ aT :: R2), z ≠ hS)
    (hTn : ∀ z ∈ aS :: (R1 ++ aT :: R2), z ≠ hT)
    (hST : hS ≠ hT) :
    CycChain (newEdgeSucc succ aS aT hS hT) (aS :: (R1 ++ [hT])) ∧
    CycChain (newEdgeSucc succ aS aT hS hT) (aT :: (R2 ++ [hS])) := by
  obtain ⟨hne, hnd, hchB, hwrap⟩ := hC
  have hch := (chainLinksB_iff_chain' succ _).mp hchB
  have hch2 : List.Chain' (fun u v => succ u = v) ((aS :: R1) ++ aT :: R2) := by
    rw [List.cons_append]
    exact hch
  obtain ⟨hchSR1, hchTR2, hlink⟩ := List.chain'_append.mp hch2
  have hndflat : (aS :: (R1 ++ aT :: R2)).Nodup := hnd
  have haSnotin : aS ∉ R1 ++ aT :: R2 := (List.nodup_cons.mp hndflat).1
  have hndtail : (R1 ++ aT :: R2).Nodup := (List.nodup_cons.mp hndflat).2
  have haTR1 : aT ∉ R1 := by
    intro h
    exact (List.nodup_append.mp hndtail).2.2 h (List.mem_cons_self _ _)
  have haTR2 : aT ∉ R2 := (List.nodup_cons.mp (List.nodup_append.mp hndtail).2.1).1
  have haSaT : aS ≠ aT := by
    intro h
    exact haSnotin (h ▸ List.mem_append_right R1 (List.mem_cons_self _ _))
  have hlinkT : succ ((aS :: R1).getLastD 0) = aT := by
    rcases R1 with _ | ⟨r, R1'⟩
    · exact hlink aS (by rw [getLast?_eq_getLastD]; rfl) aT rfl
    · exact hlink _ (getLast?_eq_getLastD _ _) aT rfl
  have hwrapS : succ ((aT :: R2).getLastD 0) = aS := by
    have h1 : (aS :: (R1 ++ aT :: R2)).getLastD 0 = (aT :: R2).getLastD 0 := by
      rw [show aS :: (R1 ++ aT :: R2) = (aS :: R1) ++ aT :: R2 from by rw [List.cons_append]]
      exact getLastD_append_cons (aS :: R1) aT R2 0
    rw [← h1]
    exact hwrap
  have hmemS : ∀ z ∈ aS :: R1, z ∈ aS :: (R1 ++ aT :: R2) := by
    intro z hz
    rcases List.mem_cons.mp hz with rfl | hz
    · exact List.mem_cons_self _ _
    · exact List.mem_cons_of_mem _ (List.mem_append_left _ hz)
  have hmemT : ∀ z ∈ aT :: R2, z ∈ aS :: (R1 ++ aT :: R2) := by
    intro z hz
    rcases List.mem_cons.mp hz with rfl | hz
    · exact List.mem_cons_of_mem _ (List.mem_append_right _ (List.mem_cons_self _ _))
    · exact List.mem_cons_of_mem _
        (List.mem_append_right _ (List.mem_cons_of_mem _ hz))
  have hchS' : List.Chain' (fun u v => newEdgeSucc succ aS aT hS hT u = v) (aS :: R1) := by
    refine chain'_congr_tail ?_ hchSR1
    intro u hu v hv huv
    have hvR1 : v ∈ R1 := hv
    have h1 : u ≠ hS := hSn u (hmemS u hu)
    have h2 : u ≠ hT := hTn u (hmemS u hu)
    have h3 : succ u ≠ aS := by
      rw [huv]
      exact fun h => haSnotin (h ▸ List.mem_append_left _ hvR1)
    have h4 : succ u ≠ aT := by
      rw [huv]
      exact fun h => haTR1 (h ▸ hvR1)
    show (if u = hS then aT else if u = hT then aS else if succ u = aS then hS
      else if succ u = aT then hT else succ u) = v
    rw [if_neg h1, if_neg h2, if_neg h3, if_neg h4]
    exact huv
  have hchT' : List.Chain' (fun u v => newEdgeSucc succ aS aT hS hT u = v) (aT :: R2) := by
    refine chain'_congr_tail ?_ hchTR2
    intro u hu v hv huv
    have hvR2 : v ∈ R2 := hv
    have h1 : u ≠ hS := hSn u (hmemT u hu)
    have h2 : u ≠ hT := hTn u (hmemT u hu)
    have h3 : succ u ≠ aS := by
      rw [huv]
      exact fun h => haSnotin (h ▸ List.mem_append_right _ (List.mem_cons_of_mem _ hvR2))
    have h4 : succ u ≠ aT := by
      rw [huv]
      exact fun h => haTR2 (h ▸ hvR2)
    show (if u = hS then aT else if u = hT then aS else if succ u = aS then hS
      else if succ u = aT then hT else succ u) = v
    rw [if_neg h1, if_neg h2, if_neg h3, if_neg h4]
    exact huv
  constructor
  · refine ⟨by simp, ?_, ?_, ?_⟩
    · -- Nodup
      rw [show aS :: (R1 ++ [hT]) = (aS :: R1) ++ [hT] from by rw [List.cons_append],
        List.nodup_append]
      refine ⟨?_, List.nodup_singleton hT, ?_⟩
      · exact List.Nodup.sublist (by
          rw [show aS :: (R1 ++ aT :: R2) = (aS :: R1) ++ aT :: R2 from
            by rw [List.cons_append]]
          exact List.sublist_append_left _ _) hndflat
      · intro z hz hz2
        have : z = hT := by simpa using hz2
        exact hTn z (hmemS z hz) this
    · -- links
      rw [chainLinksB_iff_chain',
        show aS :: (R1 ++ [hT]) = (aS :: R1) ++ [hT] from by rw [List.cons_append],
        List.chain'_append]
      refine ⟨hchS', List.chain'_singleton _, ?_⟩
      intro x hx y hy
      have hx' : (aS :: R1).getLastD 0 = x := by
        rw [getLast?_eq_getLastD] at hx
        exact Option.some_inj.mp hx
      have hy' : hT = y := by simpa using hy
      have hlast : x ∈ aS :: R1 := hx' ▸ getLastD_mem (by simp)
      have h1 : x ≠ hS := hSn x (hmemS x hlast)
      have h2 : x ≠ hT := hTn x (hmemS x hlast)
      have h3 : succ x ≠ aS := by
        rw [← hx', hlinkT]
        exact Ne.symm haSaT
      have h4 : succ x = aT := by rw [← hx']; exact hlinkT
      show (if x = hS then aT else if x = hT then aS else if succ x = aS then hS
        else if succ x = aT then hT else succ x) = y
      rw [if_neg h1, if_neg h2, if_neg h3, if_pos h4, hy']
    · -- wrap
      have hlast : (aS :: (R1 ++ [hT])).getLastD 0 = hT := by
        rw [show aS :: (R1 ++ [hT]) = (aS :: R1) ++ [hT] from by rw [List.cons_append],
          getLastD_append_cons]
        rfl
      rw [hlast]
      show (if hT = hS then aT else if hT = hT then aS else _) = _
      rw [if_neg (Ne.symm hST), if_pos rfl]
      rfl
  · refine ⟨by simp, ?_, ?_, ?_⟩
    · -- Nodup
      rw [show aT :: (R2 ++ [hS]) = (aT :: R2) ++ [hS] from by rw [List.cons_append],
        List.nodup_append]
      refine ⟨?_, List.nodup_singleton hS, ?_⟩
      · refine List.Nodup.sublist ?_ hndflat
        refine List.Sublist.cons _ ?_
        exact List.sublist_append_right _ _
      · intro z hz hz2
        have : z = hS := by simpa using hz2
        exact hSn z (hmemT z hz) this
    · -- links
      rw [chainLinksB_iff_chain',
        show aT :: (R2 ++ [hS]) = (aT :: R2) ++ [hS] from by rw [List.cons_append],
        List.chain'_append]
      refine ⟨hchT', List.chain'_singleton _, ?_⟩
      intro x hx y hy
      have hx' : (aT :: R2).getLastD 0 = x := by
        rw [getLast?_eq_getLastD] at hx
        exact Option.some_inj.mp hx
      have hy' : hS = y := by simpa using hy
      have hlast : x ∈ aT :: R2 := hx' ▸ getLastD_mem (by simp)
      have h1 : x ≠ hS := hSn x (hmemT x hlast)
      have h2 : x ≠ hT := hTn x (hmemT x hlast)
      have h3 : succ x = aS := by rw [← hx']; exact hwrapS
      show (if x = hS then aT else if x = hT then aS else if succ x = aS then hS
        else if succ x = aT then hT else succ x) = y
      rw [if_neg h1, if_neg h2, if_pos h3, hy']
    · -- wrap
      have hlast : (aT :: (R2 ++ [hS])).getLastD 0 = hS := by
        rw [show aT :: (R2 ++ [hS]) = (aT :: R2) ++ [hS] from by rw [List.cons_append],
          getLastD_append_cons]
        rfl
      rw [hlast]
      show (if hS = hS then aT else _) = _
      rw [if_pos rfl]
      rfl

/-- Inserting a new edge keeps the successor function a permutation of the
enlarged half-edge set. -/
theorem newEdge_injOn {succ : Nat → Nat} {H : Finset Nat}
    (hmap : ∀ z ∈ H, succ z ∈ H)
    (hinj : ∀ z ∈ H, ∀ w ∈ H, succ z = succ w → z = w)
    {aS aT hS hT : Nat} (haS : aS ∈ H) (haT : aT ∈ H) (haST : aS ≠ aT)
    (hSn : hS ∉ H) (hTn : hT ∉ H) (hST : hS ≠ hT) :
    (∀ z ∈ insert hS (insert hT H),
      newEdgeSucc succ aS aT hS hT z ∈ insert hS (insert hT H)) ∧
    (∀ z ∈ insert hS (insert hT H), ∀ w ∈ insert hS (insert hT H),
      newEdgeSucc succ aS aT hS hT z = newEdgeSucc succ aS aT hS hT w → z = w) := by
  have hmem : ∀ z, z ∈ insert hS (insert hT H) ↔ (z = hS ∨ z = hT ∨ z ∈ H) := by
    intro z
    simp [Finset.mem_insert]
  have hval : ∀ z, newEdgeSucc succ aS aT hS hT z =
      (if z = hS then aT else if z = hT then aS else if succ z = aS then hS
        else if succ z = aT then hT else succ z) := fun _ => rfl
  have hvalS : newEdgeSucc succ aS aT hS hT hS = aT := by
    rw [hval, if_pos rfl]
  have hvalT : newEdgeSucc succ aS aT hS hT hT = aS := by
    rw [hval, if_neg (Ne.symm hST), if_pos rfl]
  have hvalH : ∀ z ∈ H, newEdgeSucc succ aS aT hS hT z =
      (if succ z = aS then hS else if succ z = aT then hT else succ z) := by
    intro z hz
    have h1 : z ≠ hS := fun h => hSn (h ▸ hz)
    have h2 : z ≠ hT := fun h => hTn (h ▸ hz)
    rw [hval, if_neg h1, if_neg h2]
  constructor
  · intro z hz
    rcases (hmem z).mp hz with rfl | rfl | hzH
    · rw [hvalS]
      exact (hmem _).mpr (Or.inr (Or.inr haT))
    · rw [hvalT]
      exact (hmem _).mpr (Or.inr (Or.inr haS))
    · rw [hvalH z hzH]
      by_cases h1 : succ z = aS
      · rw [if_pos h1]
        exact (hmem _).mpr (Or.inl rfl)
      rw [if_neg h1]
      by_cases h2 : succ z = aT
      · rw [if_pos h2]
        exact (hmem _).mpr (Or.inr (Or.inl rfl))
      · rw [if_neg h2]
        exact (hmem _).mpr (Or.inr (Or.inr (hmap z hzH)))
  · intro z hz w hw heq
    rcases (hmem z).mp hz with rfl | rfl | hzH
    · rw [hvalS] at heq
      rcases (hmem w).mp hw with rfl | rfl | hwH
      · rfl
      · rw [hvalT] at heq
        exact absurd heq haST.symm
      · rw [hvalH w hwH] at heq
        by_cases h1 : succ w = aS
        · rw [if_pos h1] at heq
          exact absurd heq.symm (fun h => hSn (h ▸ haT))
        rw [if_neg h1] at heq
        by_cases h2 : succ w = aT
        · rw [if_pos h2] at heq
          exact absurd heq.symm (fun h => hTn (h ▸ haT))
        · rw [if_neg h2] at heq
          exact absurd heq (fun h => h2 h.symm)
    · rw [hvalT] at heq
      rcases (hmem w).mp hw with rfl | rfl | hwH
      · rw [hvalS] at heq
        exact absurd heq haST
      · rfl
      · rw [hvalH w hwH] at heq
        by_cases h1 : succ w = aS
        · rw [if_pos h1] at heq
          exact absurd heq.symm (fun h => hSn (h ▸ haS))
        rw [if_neg h1] at heq
        by_cases h2 : succ w = aT
        · rw [if_pos h2] at heq
          exact absurd heq.symm (fun h => hTn (h ▸ haS))
        · rw [if_neg h2] at heq
          exact absurd heq (fun h => h1 h.symm)
    · rw [hvalH z hzH] at heq
      rcases (hmem w).mp hw with rfl | rfl | hwH
      · rw [hvalS] at heq
        by_cases h1 : succ z = aS
        · rw [if_pos h1] at heq
          exact absurd heq (fun h => hSn (h ▸ haT))
        rw [if_neg h1] at heq
        by_cases h2 : succ z = aT
        · rw [if_pos h2] at heq
          exact absurd heq (fun h => hTn (h ▸ haT))
        · rw [if_neg h2] at heq
          exact absurd heq h2
      · rw [hvalT] at heq
        by_cases h1 : succ z = aS
        · rw [if_pos h1] at heq
          exact absurd heq (fun h => hSn (h ▸ haS))
        rw [if_neg h1] at heq
        by_cases h2 : succ z = aT
        · rw [if_pos h2] at heq
          exact absurd heq (fun h => hTn (h ▸ haS))
        · rw [if_neg h2] at heq
          exact absurd heq h1
      · rw [hvalH w hwH] at heq
        by_cases h1 : succ z = aS
        · rw [if_pos h1] at heq
          by_cases h3 : succ w = aS
          · exact hinj z hzH w hwH (h1.trans h3.symm)
          rw [if_neg h3] at heq
          by_cases h4 : succ w = aT
          · rw [if_pos h4] at heq
            exact absurd heq hST
          · rw [if_neg h4] at heq
            exact absurd heq.symm (fun h => hSn (h ▸ hmap w hwH))
        · rw [if_neg h1] at heq
          by_cases h2 : succ z = aT
          · rw [if_pos h2] at heq
            by_cases h3 : succ w = aS
            · rw [if_pos h3] at heq
              exact absurd heq (Ne.symm hST)
            rw [if_neg h3] at heq
            by_cases h4 : succ w = aT
            · exact hinj z hzH w hwH (h2.trans h4.symm)
            · rw [if_neg h4] at heq
              exact absurd heq.symm (fun h => hTn (h ▸ hmap w hwH))
          · rw [if_neg h2] at heq
            by_cases h3 : succ w = aS
            · rw [if_pos h3] at heq
              exact absurd heq (fun h => hSn (h ▸ hmap z hzH))
            rw [if_neg h3] at heq
            by_cases h4 : succ w = aT
            · rw [if_pos h4] at heq
              exact absurd heq (fun h => hTn (h ▸ hmap z hzH))
            · rw [if_neg h4] at heq
              exact hinj z hzH w hwH heq

/-- After moving a bridge segment out, the remainder of the old face cycle
closes up again. -/
theorem cycChain_moveBridge_old {succ : Nat → Nat} {aB tB aBef r2 : Nat}
    {R1 R2' : List Nat}
    (hCO : CycChain succ (tB :: (R1 ++ aB :: r2 :: R2')))
    (hBefn : aBef ∉ tB :: (R1 ++ aB :: r2 :: R2')) :
    CycChain (moveBridgeSucc succ aB tB aBef (succ aB)) (r2 :: R2') := by
  obtain ⟨_, hndO, hchBO, hwrapO⟩ := hCO
  have hchO := (chainLinksB_iff_chain' succ _).mp hchBO
  have hbig : tB :: (R1 ++ aB :: r2 :: R2') = (tB :: R1) ++ aB :: r2 :: R2' := by
    rw [List.cons_append]
  rw [hbig] at hchO hndO hwrapO hBefn
  obtain ⟨hch1, hch2, hlink12⟩ := List.chain'_append.mp hchO
  obtain ⟨hsr2, hch3⟩ := List.chain'_cons.mp hch2
  obtain ⟨hnd1, hnd2, hdisjO⟩ := List.nodup_append.mp hndO
  have hndr2 : (r2 :: R2').Nodup := (List.nodup_cons.mp hnd2).2
  have haBnin : aB ∉ r2 :: R2' := (List.nodup_cons.mp hnd2).1
  have htBnin : tB ∉ r2 :: R2' := fun h =>
    hdisjO (List.mem_cons_self _ _) (List.mem_cons_of_mem _ h)
  have hmemR2 : ∀ z ∈ r2 :: R2', z ∈ (tB :: R1) ++ aB :: r2 :: R2' := fun z hz =>
    List.mem_append_right _ (List.mem_cons_of_mem _ hz)
  have hwrap2 : succ ((r2 :: R2').getLastD 0) = tB := by
    rw [getLastD_append_cons, getLastD_cons_cons] at hwrapO
    exact hwrapO
  refine ⟨by simp, hndr2, ?_, ?_⟩
  · rw [chainLinksB_iff_chain']
    refine chain'_congr_tail ?_ hch3
    intro u hu v hv huv
    have h1 : u ≠ aBef := fun h => hBefn (h ▸ hmemR2 u hu)
    have h2 : u ≠ aB := fun h => haBnin (h ▸ hu)
    have h3 : succ u ≠ tB := by
      rw [huv]
      exact fun h => htBnin (h ▸ List.mem_cons_of_mem _ hv)
    show (if u = aBef then tB else if u = aB then succ aBef
      else if succ u = tB then succ aB else succ u) = v
    rw [if_neg h1, if_neg h2, if_neg h3]
    exact huv
  · have hx := getLastD_mem (C := r2 :: R2') (by simp)
    have h1 : (r2 :: R2').getLastD 0 ≠ aBef := fun h => hBefn (h ▸ hmemR2 _ hx)
    have h2 : (r2 :: R2').getLastD 0 ≠ aB := fun h => haBnin (h ▸ hx)
    show (if (r2 :: R2').getLastD 0 = aBef then tB
      else if (r2 :: R2').getLastD 0 = aB then succ aBef
      else if succ ((r2 :: R2').getLastD 0) = tB then succ aB
      else succ ((r2 :: R2').getLastD 0)) = _
    rw [if_neg h1, if_neg h2, if_pos hwrap2, hsr2]
    rfl

/-- Moving a bridge segment splices it into the target face cycle right
after `aBef`. -/
theorem cycChain_moveBridge_new {succ : Nat → Nat} {aB tB aBef r2 : Nat}
    {R1 R2' T : List Nat}
    (hCO : CycChain succ (tB :: (R1 ++ aB :: r2 :: R2')))
    (hCN : CycChain succ (aBef :: T))
    (hdisj : ∀ z ∈ tB :: (R1 ++ aB :: r2 :: R2'), z ∉ aBef :: T) :
    CycChain (moveBridgeSucc succ aB tB aBef (succ aB))
      (aBef :: ((tB :: (R1 ++ [aB])) ++ T)) := by
  obtain ⟨_, hndO, hchBO, hwrapO⟩ := hCO
  obtain ⟨_, hndN, hchBN, hwrapN⟩ := hCN
  have hchO := (chainLinksB_iff_chain' succ _).mp hchBO
  have hchN := (chainLinksB_iff_chain' succ _).mp hchBN
  have hbig : tB :: (R1 ++ aB :: r2 :: R2') = (tB :: R1) ++ aB :: r2 :: R2' := by
    rw [List.cons_append]
  rw [hbig] at hchO hndO hwrapO
  have hdisj' : ∀ z ∈ (tB :: R1) ++ aB :: r2 :: R2', z ∉ aBef :: T := by
    rw [← hbig]
    exact hdisj
  obtain ⟨hch1, hch2, hlink12⟩ := List.chain'_append.mp hchO
  obtain ⟨hsr2, hch3⟩ := List.chain'_cons.mp hch2
  obtain ⟨hnd1, hnd2, hdisjO⟩ := List.nodup_append.mp hndO
  have haBefT : aBef ∉ T := (List.nodup_cons.mp hndN).1
  have hndT : T.Nodup := (List.nodup_cons.mp hndN).2
  have hmemSeg : ∀ z ∈ tB :: (R1 ++ [aB]), z ∈ (tB :: R1) ++ aB :: r2 :: R2' := by
    intro z hz
    rcases List.mem_cons.mp hz with rfl | hz
    · exact List.mem_append_left _ (List.mem_cons_self _ _)
    rcases List.mem_append.mp hz with h | h
    · exact List.mem_append_left _ (List.mem_cons_of_mem _ h)
    · have hz' : z = aB := by simpa using h
      exact hz' ▸ List.mem_append_right _ (List.mem_cons_self _ _)
  have haB_aBef : aB ≠ aBef := fun h =>
    hdisj' aB (List.mem_append_right _ (List.mem_cons_self _ _))
      (h ▸ List.mem_cons_self _ _)
  have htB_T : tB ∉ aBef :: T :=
    hdisj' tB (List.mem_append_left _ (List.mem_cons_self _ _))
  have haB_T : aB ∉ aBef :: T :=
    hdisj' aB (List.mem_append_right _ (List.mem_cons_self _ _))
  have hr2R1 : r2 ∉ R1 := by
    intro h
    exact hdisjO (List.mem_cons_of_mem _ h)
      (List.mem_cons_of_mem _ (List.mem_cons_self _ _))
  have hr2aB : r2 ≠ aB := by
    intro h
    exact (List.nodup_cons.mp hnd2).1 (h ▸ List.mem_cons_self _ _)
  have hndSeg : (tB :: (R1 ++ [aB])).Nodup := by
    rw [show tB :: (R1 ++ [aB]) = (tB :: R1) ++ [aB] from by rw [List.cons_append]]
    refine List.Nodup.sublist ?_ hndO
    exact List.Sublist.append_left
      (List.Sublist.cons₂ aB (List.nil_sublist _)) (tB :: R1)
  have hchSeg : List.Chain' (fun u v => succ u = v) ((tB :: R1) ++ [aB]) := by
    refine List.chain'_append.mpr ⟨hch1, List.chain'_singleton _, ?_⟩
    intro x hx y hy
    have hy' : aB = y := by simpa using hy
    rw [← hy']
    exact hlink12 x hx aB rfl
  have hchSegCons : List.Chain' (fun u v => succ u = v) (tB :: (R1 ++ [aB])) := by
    rw [← List.cons_append]
    exact hchSeg
  have hchSeg' : List.Chain'
      (fun u v => moveBridgeSucc succ aB tB aBef (succ aB) u = v)
      (tB :: (R1 ++ [aB])) := by
    refine chain'_congr_tail ?_ hchSegCons
    intro u hu v hv huv
    have h1 : u ≠ aBef := fun h => hdisj' u (hmemSeg u hu)
      (h ▸ List.mem_cons_self _ _)
    by_cases h2 : u = aB
    · exfalso
      rw [h2, hsr2] at huv
      rcases List.mem_append.mp hv with h | h
      · exact hr2R1 (huv ▸ h)
      · exact hr2aB (huv ▸ (by simpa using h))
    have h3 : succ u ≠ tB := by
      rw [huv]
      intro h
      rcases List.mem_append.mp (h ▸ hv) with h' | h'
      · exact (List.nodup_cons.mp (by
          rw [show (tB :: R1) ++ aB :: r2 :: R2' = tB :: (R1 ++ aB :: r2 :: R2')
            from by rw [List.cons_append]] at hndO
          exact hndO)).1 (List.mem_append_left _ h')
      · exact hdisjO (List.mem_cons_self _ _)
          ((by simpa using h') ▸ List.mem_cons_self aB (r2 :: R2'))
    show (if u = aBef then tB else if u = aB then succ aBef
      else if succ u = tB then succ aB else succ u) = v
    rw [if_neg h1, if_neg h2, if_neg h3]
    exact huv
  have hchT' : List.Chain'
      (fun u v => moveBridgeSucc succ aB tB aBef (succ aB) u = v) T := by
    refine chain'_congr_tail ?_ hchN.tail
    intro u hu v hv huv
    have h1 : u ≠ aBef := fun h => haBefT (h ▸ hu)
    have h2 : u ≠ aB := fun h => haB_T (h ▸ List.mem_cons_of_mem _ hu)
    have h3 : succ u ≠ tB := by
      rw [huv]
      intro h
      exact htB_T (h ▸ List.mem_cons_of_mem _ (List.mem_of_mem_tail hv))
    show (if u = aBef then tB else if u = aB then succ aBef
      else if succ u = tB then succ aB else succ u) = v
    rw [if_neg h1, if_neg h2, if_neg h3]
    exact huv
  refine ⟨by simp, ?_, ?_, ?_⟩
  · -- Nodup
    refine List.nodup_cons.mpr ⟨?_, ?_⟩
    · intro h
      rcases List.mem_append.mp h with h' | h'
      · exact hdisj' aBef (hmemSeg aBef h') (List.mem_cons_self _ _)
      · exact haBefT h'
    · refine List.nodup_append.mpr ⟨hndSeg, hndT, ?_⟩
      intro z hz hzT
      exact hdisj' z (hmemSeg z hz) (List.mem_cons_of_mem _ hzT)
  · -- links
    rw [chainLinksB_iff_chain']
    refine List.chain'_cons'.mpr ⟨?_, ?_⟩
    · intro y hy
      have hy' : tB = y := by
        rw [show (tB :: (R1 ++ [aB])) ++ T = tB :: ((R1 ++ [aB]) ++ T) from
          by rw [List.cons_append]] at hy
        simpa using hy
      show (if aBef = aBef then tB else _) = y
      rw [if_pos rfl]
      exact hy'
    · refine List.chain'_append.mpr ⟨hchSeg', hchT', ?_⟩
      intro x hx y hy
      have h0 : (tB :: (R1 ++ [aB])).getLastD 0 = aB := by
        rw [show tB :: (R1 ++ [aB]) = (tB :: R1) ++ aB :: [] from by
          rw [List.cons_append]]
        rw [getLastD_append_cons]
        rfl
      have hx' : x = aB := by
        rw [getLast?_eq_getLastD, h0] at hx
        have h1 : aB = x := by simpa using hx
        exact h1.symm
      rcases T with _ | ⟨t0, T'⟩
      · simp at hy
      have hy' : t0 = y := by simpa using hy
      have hlinkN : succ aBef = t0 := (List.chain'_cons.mp hchN).1
      rw [hx']
      show (if aB = aBef then tB else if aB = aB then succ aBef
        else if succ aB = tB then succ aB else succ aB) = y
      rw [if_neg haB_aBef, if_pos rfl, hlinkN]
      exact hy'
  · -- wrap
    rcases T with _ | ⟨t0, T'⟩
    · have hlast : (aBef :: ((tB :: (R1 ++ [aB])) ++ [])).getLastD 0 = aB := by
        rw [List.append_nil,
          show aBef :: tB :: (R1 ++ [aB]) = (aBef :: tB :: R1) ++ aB :: [] from
            by simp,
          getLastD_append_cons]
        rfl
      have hwN : succ aBef = aBef := hwrapN
      rw [hlast]
      show (if aB = aBef then tB else if aB = aB then succ aBef
        else if succ aB = tB then succ aB else succ aB) = _
      rw [if_neg haB_aBef, if_pos rfl, hwN]
      rfl
    · have hlast : (aBef :: ((tB :: (R1 ++ [aB])) ++ t0 :: T')).getLastD 0 =
          (t0 :: T').getLastD 0 := by
        rw [show aBef :: ((tB :: (R1 ++ [aB])) ++ t0 :: T') =
          (aBef :: tB :: (R1 ++ [aB])) ++ t0 :: T' from by simp,
          getLastD_append_cons]
      have hwN : succ ((t0 :: T').getLastD 0) = aBef := by
        rw [← getLastD_cons_cons aBef t0 T' 0]
        exact hwrapN
      have hx := getLastD_mem (C := t0 :: T') (by simp)
      have h1 : (t0 :: T').getLastD 0 ≠ aBef := fun h => haBefT (h ▸ hx)
      have h2 : (t0 :: T').getLastD 0 ≠ aB := fun h =>
        haB_T (h ▸ List.mem_cons_of_mem _ hx)
      have h3 : succ ((t0 :: T').getLastD 0) ≠ tB := by
        rw [hwN]
        intro h
        exact htB_T (h ▸ List.mem_cons_self _ _)
      rw [hlast]
      show (if (t0 :: T').getLastD 0 = aBef then tB
        else if (t0 :: T').getLastD 0 = aB then succ aBef
        else if succ ((t0 :: T').getLastD 0) = tB then succ aB
        else succ ((t0 :: T').getLastD 0)) = _
      rw [if_neg h1, if_neg h2, if_neg h3, hwN]
      rfl

/-- The bridge move keeps the successor function a permutation of the
half-edge set. -/
theorem moveBridge_injOn {succ : Nat → Nat} {H : Finset Nat}
    (hmap : ∀ z ∈ H, succ z ∈ H)
    (hinj : ∀ z ∈ H, ∀ w ∈ H, succ z = succ w → z = w)
    {aB tB aBef : Nat} (haB : aB ∈ H) (htB : tB ∈ H) (haBef : aBef ∈ H)
    (hb1 : succ aBef ≠ tB) (hb2 : succ aBef ≠ succ aB) :
    (∀ z ∈ H, moveBridgeSucc succ aB tB aBef (succ aB) z ∈ H) ∧
    (∀ z ∈ H, ∀ w ∈ H, moveBridgeSucc succ aB tB aBef (succ aB) z =
      moveBridgeSucc succ aB tB aBef (succ aB) w → z = w) := by
  have hval : ∀ z, moveBridgeSucc succ aB tB aBef (succ aB) z =
      (if z = aBef then tB else if z = aB then succ aBef
        else if succ z = tB then succ aB else succ z) := fun _ => rfl
  constructor
  · intro z hz
    rw [hval]
    by_cases h1 : z = aBef
    · rw [if_pos h1]
      exact htB
    rw [if_neg h1]
    by_cases h2 : z = aB
    · rw [if_pos h2]
      exact hmap aBef haBef
    rw [if_neg h2]
    by_cases h3 : succ z = tB
    · rw [if_pos h3]
      exact hmap aB haB
    · rw [if_neg h3]
      exact hmap z hz
  · intro z hz w hw heq
    rw [hval, hval] at heq
    by_cases hz1 : z = aBef
    · rw [if_pos hz1] at heq
      by_cases hw1 : w = aBef
      · rw [hz1, hw1]
      rw [if_neg hw1] at heq
      by_cases hw2 : w = aB
      · rw [if_pos hw2] at heq
        exact absurd heq.symm hb1
      rw [if_neg hw2] at heq
      by_cases hw3 : succ w = tB
      · rw [if_pos hw3] at heq
        exact absurd (hinj w hw aB haB (hw3.trans heq)) hw2
      · rw [if_neg hw3] at heq
        exact absurd heq.symm hw3
    rw [if_neg hz1] at heq
    by_cases hz2 : z = aB
    · rw [if_pos hz2] at heq
      by_cases hw1 : w = aBef
      · rw [if_pos hw1] at heq
        exact absurd heq hb1
      rw [if_neg hw1] at heq
      by_cases hw2 : w = aB
      · rw [hz2, hw2]
      rw [if_neg hw2] at heq
      by_cases hw3 : succ w = tB
      · rw [if_pos hw3] at heq
        exact absurd heq hb2
      · rw [if_neg hw3] at heq
        exact absurd (hinj aBef haBef w hw heq) (fun h => hw1 h.symm)
    rw [if_neg hz2] at heq
    by_cases hz3 : succ z = tB
    · rw [if_pos hz3] at heq
      by_cases hw1 : w = aBef
      · rw [if_pos hw1] at heq
        exact absurd (hinj z hz aB haB (hz3.trans heq.symm)) hz2
      rw [if_neg hw1] at heq
      by_cases hw2 : w = aB
      · rw [if_pos hw2] at heq
        exact absurd heq.symm hb2
      rw [if_neg hw2] at heq
      by_cases hw3 : succ w = tB
      · exact hinj z hz w hw (hz3.trans hw3.symm)
      · rw [if_neg hw3] at heq
        exact absurd (hinj aB haB w hw heq) (fun h => hw2 h.symm)
    · rw [if_neg hz3] at heq
      by_cases hw1 : w = aBef
      · rw [if_pos hw1] at heq
        exact absurd heq hz3
      rw [if_neg hw1] at heq
      by_cases hw2 : w = aB
      · rw [if_pos hw2] at heq
        exact absurd (hinj z hz aBef haBef heq) hz1
      rw [if_neg hw2] at heq
      by_cases hw3 : succ w = tB
      · rw [if_pos hw3] at heq
        exact absurd (hinj z hz aB haB heq) hz2
      · rw [if_neg hw3] at heq
        exact hinj z hz w hw heq

/-- Assemble the per-face invariant for a face from any cycle through its
first entry, also characterising the walked cycle's membership. -/
theorem invFace_build (s' : EmbState) (f : Face) (C : List Nat)
    (hC : CycChain s'.succ C) (hfst : f.first ∈ C)
    (hmem : ∀ z ∈ C, z ∈ s'.H ∧ s'.rightFace z = some f.id)
    (hsz : f.size = (C.length : Int)) :
    InvFace s' f ∧ ∀ z, (z ∈ cycleOfFace s' f ↔ z ∈ C) := by
  obtain ⟨P, Q, hdecomp, hC', hperm⟩ := cycChain_rotate hC hfst
  have heq : cycleOfFace s' f = f.first :: (Q ++ P) :=
    cycleOfFace_eq s' f _ hC' rfl (fun z hz => (hmem z (hperm.mem_iff.mp hz)).1)
  have hmemiff : ∀ z, (z ∈ cycleOfFace s' f ↔ z ∈ C) := by
    intro z
    rw [heq]
    exact hperm.mem_iff
  refine ⟨⟨?_, ?_, ?_, ?_⟩, hmemiff⟩
  · rw [heq]; exact hC'
  · rw [heq]; rfl
  · intro h hh
    exact hmem h ((hmemiff h).mp hh)
  · rw [hsz, heq]
    congr 1
    exact hperm.length_eq.symm

/-! ### Claim-independent consequences of the invariant -/

/-- Two faces whose walked cycles share an entry are the same face. -/
theorem inv_cycles_eq (s : EmbState) (hInv : Inv s) {f g : Face}
    (hf : f ∈ s.faces) (hg : g ∈ s.faces) {h : Nat}
    (hhf : h ∈ cycleOfFace s f) (hhg : h ∈ cycleOfFace s g) : f = g := by
  obtain ⟨_, hnd, _, hface, _⟩ := id hInv
  have h1 := ((hface f hf).2.2.1 h hhf).2
  have h2 := ((hface g hg).2.2.1 h hhg).2
  refine List.inj_on_of_nodup_map hnd hf hg ?_
  rw [h1] at h2
  exact Option.some_injective _ h2

/-- Every half-edge whose successor lies on a face's cycle lies on that
cycle itself. -/
theorem mem_cycle_of_succ_mem (s : EmbState) (hInv : Inv s) {f : Face}
    (hf : f ∈ s.faces) {z : Nat} (hz : z ∈ s.H)
    (hzc : s.succ z ∈ cycleOfFace s f) : z ∈ cycleOfFace s f := by
  obtain ⟨_, _, _, hface, hcover⟩ := id hInv
  obtain ⟨g, hg, hzg⟩ := hcover z hz
  have hsg : s.succ z ∈ cycleOfFace s g := (hface g hg).1.succ_mem hzg
  have hgf : g = f := inv_cycles_eq s hInv hg hf hsg hzc
  exact hgf ▸ hzg

/-! ### The consistency check succeeds on invariant states -/

theorem mem_halfEdges (s : EmbState) (h : Nat) : h ∈ halfEdges s ↔ h ∈ s.H := by
  unfold halfEdges
  simp only [List.mem_filter, List.mem_range, decide_eq_true_eq]
  constructor
  · exact fun hp => hp.2
  · intro hh
    exact ⟨Nat.lt_succ_of_le (Finset.le_sup (f := id) hh), hh⟩

theorem graphWFb_iff (s : EmbState) : graphWFb s = true ↔ GraphWF s := by
  unfold graphWFb GraphWF
  simp only [Bool.and_eq_true, List.all_eq_true, mem_halfEdges, decide_eq_true_eq,
    beq_iff_eq, bne_iff_ne, Bool.or_eq_true, ne_eq, and_assoc]
  constructor
  · rintro ⟨h1, h2⟩
    refine ⟨h1, ?_⟩
    intro a ha b hb hab
    rcases h2 a ha b hb with h | h
    · exact absurd hab h
    · exact h
  · rintro ⟨h1, h2⟩
    refine ⟨h1, ?_⟩
    intro a ha b hb
    by_cases h : s.succ a = s.succ b
    · exact Or.inr (h2 a ha b hb h)
    · exact Or.inl h

/-- The per-face walk of the consistency check succeeds on a face cycle
whose entries are fresh and correctly assigned, and counts its length. -/
theorem checkWalk_eq (s : EmbState) (f : Face) :
    ∀ (todo : List Nat) (cur fuel : Nat) (visited : Finset Nat),
      todo.length + 1 ≤ fuel →
      List.Chain' (fun u v => s.succ u = v) (cur :: todo) →
      s.succ ((cur :: todo).getLastD 0) = f.first →
      f.first ∉ todo →
      (∀ z ∈ cur :: todo, s.rightFace z = some f.id) →
      (∀ z ∈ cur :: todo, z ∉ visited) →
      (cur :: todo).Nodup →
      checkWalk s f visited cur fuel =
        some (visited ∪ (cur :: todo).toFinset, todo.length + 1)
  | _, _, 0, _, hf, _, _, _, _, _, _ => absurd hf (by omega)
  | [], cur, fuel + 1, visited, _, _, hwrap, _, hrf, hvis, _ => by
      have h1 : cur ∉ visited := hvis cur (List.mem_cons_self cur [])
      have h2 : s.rightFace cur = some f.id := hrf cur (List.mem_cons_self cur [])
      have h3 : s.succ cur = f.first := hwrap
      rw [checkWalk, if_neg (by simpa using h1), if_neg (by simp [h2]), if_pos h3]
      have hset : insert cur visited = visited ∪ (cur :: ([] : List Nat)).toFinset := by
        ext z
        simp only [Finset.mem_insert, Finset.mem_union, List.toFinset_cons,
          List.toFinset_nil, insert_emptyc_eq, Finset.mem_singleton]
        tauto
      rw [hset]
      rfl
  | v :: rest, cur, fuel + 1, visited, hf, hchain, hwrap, hfst, hrf, hvis, hnd => by
      obtain ⟨hcv, hchain'⟩ := List.chain'_cons.mp hchain
      have h1 : cur ∉ visited := hvis cur (List.mem_cons_self _ _)
      have h2 : s.rightFace cur = some f.id := hrf cur (List.mem_cons_self _ _)
      have h3 : s.succ cur ≠ f.first := by
        rw [hcv]
        intro h
        exact hfst (h ▸ List.mem_cons_self v rest)
      rw [checkWalk, if_neg (by simpa using h1), if_neg (by simp [h2]), if_neg h3, hcv]
      have hrec := checkWalk_eq s f rest v fuel (insert cur visited)
        (by simpa using hf) hchain'
        (by rw [← getLastD_cons_cons cur v rest 0]; exact hwrap)
        (fun h => hfst (List.mem_cons_of_mem v h))
        (fun z hz => hrf z (List.mem_cons_of_mem cur hz))
        (fun z hz => by
          have hzcur : z ≠ cur := by
            intro h
            subst h
            exact (List.nodup_cons.mp hnd).1 hz
          have := hvis z (List.mem_cons_of_mem cur hz)
          simp [hzcur, this])
        (List.nodup_cons.mp hnd).2
      rw [hrec]
      have hset : insert cur visited ∪ (v :: rest).toFinset =
          visited ∪ (cur :: v :: rest).toFinset := by
        ext z
        simp only [Finset.mem_union, Finset.mem_insert, List.mem_toFinset, List.mem_cons]
        tauto
      simp only [Option.map_some']
      rw [hset]
      simp

/-- The per-face check succeeds on a face satisfying its part of the
invariant, returning the visited set enlarged by the face's cycle. -/
theorem checkFace_eq (s : EmbState) (f : Face) (hf : InvFace s f)
    (visited : Finset Nat)
    (hvis : ∀ z ∈ cycleOfFace s f, z ∉ visited) :
    checkFace s visited f = some (visited ∪ (cycleOfFace s f).toFinset) := by
  obtain ⟨hcyc, hhead, hmem, hsize⟩ := hf
  obtain ⟨hne, hnd, hchainB, hwrap⟩ := hcyc
  rcases hC : cycleOfFace s f with _ | ⟨c, todo⟩
  · rw [hC] at hne; exact absurd rfl hne
  · rw [hC] at hhead hnd hchainB hwrap hmem hsize hvis
    have hcfirst : c = f.first := hhead
    have hlen : (c :: todo).length ≤ s.H.card := by
      have h1 : (c :: todo).toFinset ⊆ s.H := fun z hz =>
        (hmem z (List.mem_toFinset.mp hz)).1
      have h2 := Finset.card_le_card h1
      rwa [List.toFinset_card_of_nodup hnd] at h2
    unfold checkFace
    rw [← hcfirst]
    rw [checkWalk_eq s f todo c (s.H.card + 1) visited
      (by simpa using Nat.le_succ_of_le hlen)
      ((chainLinksB_iff_chain' s.succ _).mp hchainB)
      (hcfirst ▸ hwrap)
      (by rw [← hcfirst]; exact fun h => (List.nodup_cons.mp hnd).1 h)
      (fun z hz => (hmem z hz).2) hvis hnd]
    have hsz : f.size = ((todo.length + 1 : Nat) : Int) := by
      rw [hsize]; simp
    simp [hsz]

/-- The fold of the consistency check over a duplicate-free list of
registry faces succeeds, accumulating exactly the walked cycles. -/
theorem checkFold_eq (s : EmbState) (hInv : Inv s) :
    ∀ (fl : List Face) (visited : Finset Nat),
      (∀ f ∈ fl, f ∈ s.faces) →
      (∀ f ∈ fl, ∀ z ∈ cycleOfFace s f, z ∉ visited) →
      fl.Nodup →
      ∃ v', (fl.foldl (fun acc f => acc.bind (fun v => checkFace s v f)) (some visited))
          = some v' ∧
        ∀ h, h ∈ v' ↔ (h ∈ visited ∨ ∃ f ∈ fl, h ∈ cycleOfFace s f)
  | [], visited, _, _, _ => ⟨visited, rfl, by simp⟩
  | f :: rest, visited, hmem, hvis, hnd => by
      have hface := hInv.2.2.2.1 f (hmem f (List.mem_cons_self _ _))
      have hstep := checkFace_eq s f hface visited
        (hvis f (List.mem_cons_self _ _))
      have hdisj : ∀ g ∈ rest, ∀ z ∈ cycleOfFace s g,
          z ∉ visited ∪ (cycleOfFace s f).toFinset := by
        intro g hg z hz
        have h1 : z ∉ visited := hvis g (List.mem_cons_of_mem f hg) z hz
        have h2 : z ∉ cycleOfFace s f := by
          intro h
          have heq : g = f := inv_cycles_eq s hInv
            (hmem g (List.mem_cons_of_mem f hg)) (hmem f (List.mem_cons_self _ _)) hz h
          exact (List.nodup_cons.mp hnd).1 (heq ▸ hg)
        simp [h1, h2]
      obtain ⟨v', hv', hiff⟩ := checkFold_eq s hInv rest
        (visited ∪ (cycleOfFace s f).toFinset)
        (fun g hg => hmem g (List.mem_cons_of_mem f hg))
        hdisj (List.nodup_cons.mp hnd).2
      refine ⟨v', ?_, ?_⟩
      · rw [List.foldl_cons]
        have hfirst : (some visited).bind (fun v => checkFace s v f) =
            some (visited ∪ (cycleOfFace s f).toFinset) := by
          rw [Option.some_bind]
          exact hstep
        rw [hfirst]
        exact hv'
      · intro h
        rw [hiff h]
        simp only [Finset.mem_union, List.mem_toFinset, List.mem_cons]
        constructor
        · rintro ((hv | hc) | ⟨g, hg, hzg⟩)
          · exact Or.inl hv
          · exact Or.inr ⟨f, Or.inl rfl, hc⟩
          · exact Or.inr ⟨g, Or.inr hg, hzg⟩
        · rintro (hv | ⟨g, rfl | hg', hzg⟩)
          · exact Or.inl (Or.inl hv)
          · exact Or.inl (Or.inr hzg)
          · exact Or.inr ⟨g, hg', hzg⟩

/-- The full consistency check succeeds on every state satisfying the
semantic invariant. -/
theorem inv_consistencyCheck (s : EmbState) (hInv : Inv s) :
    consistencyCheck s = true := by
  unfold consistencyCheck
  rw [(graphWFb_iff s).mpr hInv.1]
  have hndf : s.faces.Nodup := hInv.2.1.of_map
  obtain ⟨v', hfold, hiff⟩ := checkFold_eq s hInv s.faces ∅ (fun f hf => hf)
    (fun _ _ z _ => Finset.not_mem_empty z) hndf
  rw [hfold]
  simp only [Bool.true_and, List.all_eq_true, decide_eq_true_eq]
  intro h hh
  rw [mem_halfEdges] at hh
  obtain ⟨f, hf, hcyc⟩ := hInv.2.2.2.2 h hh
  exact (hiff h).mpr (Or.inr ⟨f, hf, hcyc⟩)

/-! ### Registry update helpers -/

theorem mapFace_map_id (l : List Face) (i : Nat) (g : Face → Face)
    (hg : ∀ f, (g f).id = f.id) : (mapFace l i g).map Face.id = l.map Face.id := by
  unfold mapFace
  rw [List.map_map]
  refine List.map_congr_left ?_
  intro f _
  by_cases h : f.id = i <;> simp [h, hg]

theorem mem_mapFace {l : List Face} {i : Nat} {g : Face → Face} {f' : Face} :
    f' ∈ mapFace l i g ↔ ∃ f ∈ l, (if f.id = i then g f else f) = f' := by
  unfold mapFace
  rw [List.mem_map]

theorem bumpSizeIf_id (i : Nat) (δ : Int) (f : Face) : (bumpSizeIf i δ f).id = f.id := by
  unfold bumpSizeIf
  by_cases h : f.id = i <;> simp [h]

theorem bumpSizeIf_first (i : Nat) (δ : Int) (f : Face) :
    (bumpSizeIf i δ f).first = f.first := by
  unfold bumpSizeIf
  by_cases h : f.id = i <;> simp [h]

theorem bumpSizeIf_pos {i : Nat} (δ : Int) {f : Face} (h : f.id = i) :
    bumpSizeIf i δ f = { f with size := f.size + δ } := by
  unfold bumpSizeIf
  rw [if_pos h]

theorem bumpSizeIf_neg {i : Nat} (δ : Int) {f : Face} (h : f.id ≠ i) :
    bumpSizeIf i δ f = f := by
  unfold bumpSizeIf
  rw [if_neg h]

theorem mapFace_bump (l : List Face) (i : Nat) (δ : Int) :
    mapFace l i (fun f => { f with size := f.size + δ }) = l.map (bumpSizeIf i δ) := rfl

theorem mapFace_sub (l : List Face) (i : Nat) :
    mapFace l i (fun f => { f with size := f.size - 1 }) = l.map (bumpSizeIf i (-1)) := by
  unfold mapFace bumpSizeIf
  refine List.map_congr_left ?_
  intro f _
  by_cases h : f.id = i <;> simp [h, sub_eq_add_neg]

theorem mapFace_subLen (l : List Face) (i : Nat) (n : Int) :
    mapFace l i (fun f => { f with size := f.size - n }) = l.map (bumpSizeIf i (-n)) := by
  unfold mapFace bumpSizeIf
  refine List.map_congr_left ?_
  intro f _
  by_cases h : f.id = i <;> simp [h, sub_eq_add_neg]

theorem mapFace_addSub (l : List Face) (i : Nat) (m n : Int) :
    mapFace l i (fun f => { f with size := f.size + m - n })
      = l.map (bumpSizeIf i (m - n)) := by
  unfold mapFace bumpSizeIf
  refine List.map_congr_left ?_
  intro f _
  by_cases h : f.id = i <;> simp [h, add_sub_assoc]

theorem mapFace_repoint (l : List Face) (i frm dst : Nat) :
    mapFace l i (fun f => if f.first = frm then { f with first := dst } else f)
      = l.map (repointIf i frm dst) := rfl

theorem mapFace_repoint2 (l : List Face) (i frm1 frm2 dst : Nat) :
    mapFace l i
        (fun f => if f.first = frm1 ∨ f.first = frm2 then { f with first := dst } else f)
      = l.map (repoint2If i frm1 frm2 dst) := rfl

theorem mapFace_repointSucc (l : List Face) (succ : Nat → Nat) (i frm1 frm2 : Nat) :
    mapFace l i (fun f =>
        if f.first = frm1 ∨ f.first = frm2 then { f with first := succ f.first } else f)
      = l.map (repointSuccIf succ i frm1 frm2) := rfl

theorem mapFace_repointMem (l : List Face) (i : Nat) (S : List Nat) (dst : Nat) :
    mapFace l i (fun f => if f.first ∈ S then { f with first := dst } else f)
      = l.map (repointMemIf i S dst) := rfl

theorem mapFace_setSize (l : List Face) (i : Nat) (n : Int) :
    mapFace l i (fun f => { f with size := n }) = l.map (setSizeIf i n) := rfl

theorem mapFace_setFirstAdd (l : List Face) (i fst : Nat) (m n : Int) :
    mapFace l i (fun f => { f with first := fst, size := f.size + m - n })
      = l.map (setFirstAddIf i fst (m - n)) := by
  unfold mapFace setFirstAddIf
  refine List.map_congr_left ?_
  intro f _
  by_cases h : f.id = i <;> simp [h, add_sub_assoc]

theorem repointIf_id (i frm dst : Nat) (f : Face) : (repointIf i frm dst f).id = f.id := by
  unfold repointIf
  by_cases h : f.id = i
  · rw [if_pos h]; by_cases h2 : f.first = frm <;> simp [h2]
  · rw [if_neg h]

theorem repointIf_size (i frm dst : Nat) (f : Face) :
    (repointIf i frm dst f).size = f.size := by
  unfold repointIf
  by_cases h : f.id = i
  · rw [if_pos h]; by_cases h2 : f.first = frm <;> simp [h2]
  · rw [if_neg h]

theorem repointIf_neg {i : Nat} (frm dst : Nat) {f : Face} (h : f.id ≠ i) :
    repointIf i frm dst f = f := by
  unfold repointIf
  rw [if_neg h]

theorem repointIf_hit {i : Nat} (dst : Nat) {frm : Nat} {f : Face} (h : f.id = i)
    (h2 : f.first = frm) : repointIf i frm dst f = { f with first := dst } := by
  unfold repointIf
  rw [if_pos h, if_pos h2]

theorem repointIf_miss {i : Nat} (dst : Nat) {frm : Nat} {f : Face} (h : f.id = i)
    (h2 : f.first ≠ frm) : repointIf i frm dst f = f := by
  unfold repointIf
  rw [if_pos h, if_neg h2]

theorem repoint2If_id (i frm1 frm2 dst : Nat) (f : Face) :
    (repoint2If i frm1 frm2 dst f).id = f.id := by
  unfold repoint2If
  by_cases h : f.id = i
  · rw [if_pos h]; by_cases h2 : f.first = frm1 ∨ f.first = frm2 <;> simp [h2]
  · rw [if_neg h]

theorem repoint2If_size (i frm1 frm2 dst : Nat) (f : Face) :
    (repoint2If i frm1 frm2 dst f).size = f.size := by
  unfold repoint2If
  by_cases h : f.id = i
  · rw [if_pos h]; by_cases h2 : f.first = frm1 ∨ f.first = frm2 <;> simp [h2]
  · rw [if_neg h]

theorem repoint2If_neg {i : Nat} (frm1 frm2 dst : Nat) {f : Face} (h : f.id ≠ i) :
    repoint2If i frm1 frm2 dst f = f := by
  unfold repoint2If
  rw [if_neg h]

theorem repoint2If_hit {i : Nat} (dst : Nat) {frm1 frm2 : Nat} {f : Face} (h : f.id = i)
    (h2 : f.first = frm1 ∨ f.first = frm2) :
    repoint2If i frm1 frm2 dst f = { f with first := dst } := by
  unfold repoint2If
  rw [if_pos h, if_pos h2]

theorem repoint2If_miss {i : Nat} (dst : Nat) {frm1 frm2 : Nat} {f : Face} (h : f.id = i)
    (h2 : ¬(f.first = frm1 ∨ f.first = frm2)) : repoint2If i frm1 frm2 dst f = f := by
  unfold repoint2If
  rw [if_pos h, if_neg h2]

theorem repointSuccIf_id (succ : Nat → Nat) (i frm1 frm2 : Nat) (f : Face) :
    (repointSuccIf succ i frm1 frm2 f).id = f.id := by
  unfold repointSuccIf
  by_cases h : f.id = i
  · rw [if_pos h]; by_cases h2 : f.first = frm1 ∨ f.first = frm2 <;> simp [h2]
  · rw [if_neg h]

theorem repointSuccIf_size (succ : Nat → Nat) (i frm1 frm2 : Nat) (f : Face) :
    (repointSuccIf succ i frm1 frm2 f).size = f.size := by
  unfold repointSuccIf
  by_cases h : f.id = i
  · rw [if_pos h]; by_cases h2 : f.first = frm1 ∨ f.first = frm2 <;> simp [h2]
  · rw [if_neg h]

theorem repointSuccIf_neg {i : Nat} (succ : Nat → Nat) (frm1 frm2 : Nat) {f : Face}
    (h : f.id ≠ i) : repointSuccIf succ i frm1 frm2 f = f := by
  unfold repointSuccIf
  rw [if_neg h]

theorem repointSuccIf_hit {i : Nat} (succ : Nat → Nat) {frm1 frm2 : Nat} {f : Face}
    (h : f.id = i) (h2 : f.first = frm1 ∨ f.first = frm2) :
    repointSuccIf succ i frm1 frm2 f = { f with first := succ f.first } := by
  unfold repointSuccIf
  rw [if_pos h, if_pos h2]

theorem repointSuccIf_miss {i : Nat} (succ : Nat → Nat) {frm1 frm2 : Nat} {f : Face}
    (h : f.id = i) (h2 : ¬(f.first = frm1 ∨ f.first = frm2)) :
    repointSuccIf succ i frm1 frm2 f = f := by
  unfold repointSuccIf
  rw [if_pos h, if_neg h2]

theorem repointMemIf_id (i : Nat) (S : List Nat) (dst : Nat) (f : Face) :
    (repointMemIf i S dst f).id = f.id := by
  unfold repointMemIf
  by_cases h : f.id = i
  · rw [if_pos h]; by_cases h2 : f.first ∈ S <;> simp [h2]
  · rw [if_neg h]

theorem repointMemIf_size (i : Nat) (S : List Nat) (dst : Nat) (f : Face) :
    (repointMemIf i S dst f).size = f.size := by
  unfold repointMemIf
  by_cases h : f.id = i
  · rw [if_pos h]; by_cases h2 : f.first ∈ S <;> simp [h2]
  · rw [if_neg h]

theorem repointMemIf_neg {i : Nat} (S : List Nat) (dst : Nat) {f : Face} (h : f.id ≠ i) :
    repointMemIf i S dst f = f := by
  unfold repointMemIf
  rw [if_neg h]

theorem repointMemIf_hit {i : Nat} {S : List Nat} (dst : Nat) {f : Face} (h : f.id = i)
    (h2 : f.first ∈ S) : repointMemIf i S dst f = { f with first := dst } := by
  unfold repointMemIf
  rw [if_pos h, if_pos h2]

theorem repointMemIf_miss {i : Nat} {S : List Nat} (dst : Nat) {f : Face} (h : f.id = i)
    (h2 : f.first ∉ S) : repointMemIf i S dst f = f := by
  unfold repointMemIf
  rw [if_pos h, if_neg h2]

theorem setSizeIf_id (i : Nat) (n : Int) (f : Face) : (setSizeIf i n f).id = f.id := by
  unfold setSizeIf
  by_cases h : f.id = i <;> simp [h]

theorem setSizeIf_first (i : Nat) (n : Int) (f : Face) :
    (setSizeIf i n f).first = f.first := by
  unfold setSizeIf
  by_cases h : f.id = i <;> simp [h]

theorem setSizeIf_pos {i : Nat} (n : Int) {f : Face} (h : f.id = i) :
    setSizeIf i n f = { f with size := n } := by
  unfold setSizeIf
  rw [if_pos h]

theorem setSizeIf_neg {i : Nat} (n : Int) {f : Face} (h : f.id ≠ i) :
    setSizeIf i n f = f := by
  unfold setSizeIf
  rw [if_neg h]

theorem setFirstAddIf_id (i fst : Nat) (δ : Int) (f : Face) :
    (setFirstAddIf i fst δ f).id = f.id := by
  unfold setFirstAddIf
  by_cases h : f.id = i <;> simp [h]

theorem setFirstAddIf_pos {i : Nat} (fst : Nat) (δ : Int) {f : Face} (h : f.id = i) :
    setFirstAddIf i fst δ f = { f with first := fst, size := f.size + δ } := by
  unfold setFirstAddIf
  rw [if_pos h]

theorem setFirstAddIf_neg {i : Nat} (fst : Nat) (δ : Int) {f : Face} (h : f.id ≠ i) :
    setFirstAddIf i fst δ f = f := by
  unfold setFirstAddIf
  rw [if_neg h]

/-- Look up the face owning a half-edge, under the invariant. -/
theorem face_of_mem (s : EmbState) (hInv : Inv s) {h : Nat} (hh : h ∈ s.H) :
    ∃ f ∈ s.faces, h ∈ cycleOfFace s f ∧ s.rightFace h = some f.id ∧ rfOf s h = f.id := by
  obtain ⟨_, _, _, hface, hcover⟩ := id hInv
  obtain ⟨f, hf, hcyc⟩ := hcover h hh
  have hrf := ((hface f hf).2.2.1 h hcyc).2
  exact ⟨f, hf, hcyc, hrf, by rw [rfOf, hrf]; rfl⟩

/-- Faces of the registry with equal identifiers are equal. -/
theorem face_id_inj (s : EmbState) (hInv : Inv s) {f g : Face}
    (hf : f ∈ s.faces) (hg : g ∈ s.faces) (h : f.id = g.id) : f = g :=
  List.inj_on_of_nodup_map hInv.2.1 hf hg h

/-- The first entry of a face lies on its walked cycle. -/
theorem first_mem_cycle (s : EmbState) (hInv : Inv s) {f : Face} (hf : f ∈ s.faces) :
    f.first ∈ cycleOfFace s f := by
  have h := hInv.2.2.2.1 f hf
  have := h.2.1
  rw [← this]
  exact headD_mem h.1.1

/-! ### Invariant preservation: `split` -/

theorem inv_split (s : EmbState) (a b x y : Nat) (hInv : Inv s)
    (ha : a ∈ s.H) (hb : b ∈ s.H) (htw : s.twin a = b)
    (hx : x ∉ s.H) (hy : y ∉ s.H) (hxy : x ≠ y) :
    Inv (split s a b x y) := by
  obtain ⟨⟨hwf1, hwf2⟩, hndids, hidlt, hface, hcover⟩ := id hInv
  have hba : b ≠ a := htw ▸ (hwf1 a ha).2.2.2
  have hax : a ≠ x := fun h => hx (h ▸ ha)
  have hay : a ≠ y := fun h => hy (h ▸ ha)
  have hbx : b ≠ x := fun h => hx (h ▸ hb)
  have hby : b ≠ y := fun h => hy (h ▸ hb)
  obtain ⟨F1, hF1, haC1, hrfa, hrfa'⟩ := face_of_mem s hInv ha
  obtain ⟨F2, hF2, hbC2, hrfb, hrfb'⟩ := face_of_mem s hInv hb
  have hsubC : ∀ f ∈ s.faces, ∀ z ∈ cycleOfFace s f, z ∈ s.H :=
    fun f hf z hz => ((hface f hf).2.2.1 z hz).1
  have hrfC : ∀ f ∈ s.faces, ∀ z ∈ cycleOfFace s f, s.rightFace z = some f.id :=
    fun f hf z hz => ((hface f hf).2.2.1 z hz).2
  set s' := split s a b x y with hs'def
  have hsucc' : s'.succ = insAfter (insAfter s.succ a x) b y := rfl
  have hH' : s'.H = insert x (insert y s.H) := rfl
  have hrfsame : ∀ z ∈ s.H, s'.rightFace z = s.rightFace z := by
    intro z hz
    have hzx : z ≠ x := fun h => hx (h ▸ hz)
    have hzy : z ≠ y := fun h => hy (h ▸ hz)
    show (if z = a then some (rfOf s a) else if z = x then some (rfOf s a)
      else if z = y then some (rfOf s b) else if z = b then some (rfOf s b)
      else s.rightFace z) = s.rightFace z
    by_cases h1 : z = a
    · subst h1
      rw [if_pos rfl, hrfa', hrfa]
    · rw [if_neg h1, if_neg hzx, if_neg hzy]
      by_cases h2 : z = b
      · subst h2
        rw [if_pos rfl, hrfb', hrfb]
      · rw [if_neg h2]
  have hrfx : s'.rightFace x = some F1.id := by
    show (if x = a then some (rfOf s a) else if x = x then some (rfOf s a)
      else if x = y then some (rfOf s b) else if x = b then some (rfOf s b)
      else s.rightFace x) = some F1.id
    rw [if_neg (Ne.symm hax), if_pos rfl, hrfa']
  have hrfy : s'.rightFace y = some F2.id := by
    show (if y = a then some (rfOf s a) else if y = x then some (rfOf s a)
      else if y = y then some (rfOf s b) else if y = b then some (rfOf s b)
      else s.rightFace y) = some F2.id
    rw [if_neg (Ne.symm hay), if_neg (Ne.symm hxy), if_pos rfl, hrfb']
  have hfaces' : s'.faces = (s.faces.map (bumpSizeIf (rfOf s a) 1)).map
      (bumpSizeIf (rfOf s b) 1) := rfl
  have hmmH : ∀ w ∈ s.H, w ∈ s'.H := by
    intro w hw
    rw [hH']
    exact Finset.mem_insert_of_mem (Finset.mem_insert_of_mem hw)
  have hxmem : x ∈ s'.H := by rw [hH']; exact Finset.mem_insert_self _ _
  have hymem : y ∈ s'.H := by
    rw [hH']
    exact Finset.mem_insert_of_mem (Finset.mem_insert_self _ _)
  have hupd : ∀ f' ∈ s'.faces, ∃ f ∈ s.faces,
      f' = bumpSizeIf (rfOf s b) 1 (bumpSizeIf (rfOf s a) 1 f) := by
    intro f' hf'
    rw [hfaces'] at hf'
    obtain ⟨g, hg, hgf'⟩ := List.mem_map.mp hf'
    obtain ⟨f, hf, hfg⟩ := List.mem_map.mp hg
    exact ⟨f, hf, by rw [← hgf', ← hfg]⟩
  have hupd' : ∀ f ∈ s.faces,
      bumpSizeIf (rfOf s b) 1 (bumpSizeIf (rfOf s a) 1 f) ∈ s'.faces := by
    intro f hf
    rw [hfaces']
    exact List.mem_map_of_mem _ (List.mem_map_of_mem _ hf)
  have hMAIN : ∀ f ∈ s.faces,
      InvFace s' (bumpSizeIf (rfOf s b) 1 (bumpSizeIf (rfOf s a) 1 f)) ∧
      ∀ z, z ∈ cycleOfFace s' (bumpSizeIf (rfOf s b) 1 (bumpSizeIf (rfOf s a) 1 f)) ↔
        (z ∈ cycleOfFace s f ∨ (f.id = rfOf s a ∧ z = x) ∨ (f.id = rfOf s b ∧ z = y)) := by
    intro f hf
    have hcycf := (hface f hf).1
    have hlen := (hface f hf).2.2.2
    have hxf : x ∉ cycleOfFace s f := fun h => hx (hsubC f hf x h)
    have hyf : y ∉ cycleOfFace s f := fun h => hy (hsubC f hf y h)
    by_cases h1 : f.id = rfOf s a
    · have hfF1 : f = F1 := face_id_inj s hInv hf hF1 (by rw [h1, hrfa'])
      have haCf : a ∈ cycleOfFace s f := by rw [hfF1]; exact haC1
      have hs1 := cycChain_insAfter hcycf haCf hxf
      by_cases h2 : f.id = rfOf s b
      · have hfF2 : f = F2 := face_id_inj s hInv hf hF2 (by rw [h2, hrfb'])
        have hbCf : b ∈ cycleOfFace s f := by rw [hfF2]; exact hbC2
        have hbmem : b ∈ insList (cycleOfFace s f) a x :=
          (hs1.2.2.1 b).mpr (Or.inl hbCf)
        have hynot : y ∉ insList (cycleOfFace s f) a x := by
          intro h
          rcases (hs1.2.2.1 y).mp h with h | h
          · exact hyf h
          · exact hxy h.symm
        have hs2 := cycChain_insAfter hs1.1 hbmem hynot
        have hrew : bumpSizeIf (rfOf s b) 1 (bumpSizeIf (rfOf s a) 1 f)
            = { f with size := f.size + 1 + 1 } := by
          rw [bumpSizeIf_pos 1 h1]
          rw [bumpSizeIf_pos 1
            (show ({ f with size := f.size + 1 } : Face).id = rfOf s b from h2)]
        rw [hrew]
        have hbuild := invFace_build s' { f with size := f.size + 1 + 1 }
          (insList (insList (cycleOfFace s f) a x) b y) hs2.1
          (by
            have hf1 : f.first ∈ cycleOfFace s f := first_mem_cycle s hInv hf
            exact (hs2.2.2.1 _).mpr (Or.inl ((hs1.2.2.1 _).mpr (Or.inl hf1))))
          (by
            intro z hz
            rcases (hs2.2.2.1 z).mp hz with hz' | rfl
            · rcases (hs1.2.2.1 z).mp hz' with hz'' | rfl
              · have hzH := hsubC f hf z hz''
                exact ⟨hmmH z hzH, by rw [hrfsame z hzH, hrfC f hf z hz'']⟩
              · refine ⟨hxmem, ?_⟩
                rw [hrfx, hfF1]
            · refine ⟨hymem, ?_⟩
              rw [hrfy, hfF2]
          )
          (by
            show f.size + 1 + 1 = ((insList (insList (cycleOfFace s f) a x) b y).length : Int)
            rw [hs2.2.2.2, hs1.2.2.2, hlen]
            push_cast
            ring)
        refine ⟨hbuild.1, fun z => ?_⟩
        rw [hbuild.2 z]
        constructor
        · intro h
          rcases (hs2.2.2.1 z).mp h with h' | rfl
          · rcases (hs1.2.2.1 z).mp h' with h'' | rfl
            · exact Or.inl h''
            · exact Or.inr (Or.inl ⟨h1, rfl⟩)
          · exact Or.inr (Or.inr ⟨h2, rfl⟩)
        · rintro (h | ⟨_, hzx⟩ | ⟨_, hzy⟩)
          · exact (hs2.2.2.1 z).mpr (Or.inl ((hs1.2.2.1 z).mpr (Or.inl h)))
          · rw [hzx]
            exact (hs2.2.2.1 x).mpr (Or.inl ((hs1.2.2.1 x).mpr (Or.inr rfl)))
          · rw [hzy]
            exact (hs2.2.2.1 y).mpr (Or.inr rfl)
      · have hbnot : b ∉ cycleOfFace s f := by
          intro h
          exact h2 (by rw [inv_cycles_eq s hInv hf hF2 h hbC2, hrfb'])
        have hagree : ∀ z ∈ insList (cycleOfFace s f) a x,
            insAfter (insAfter s.succ a x) b y z = insAfter s.succ a x z := by
          intro z hz
          have hzb : z ≠ b := by
            intro h
            rw [h] at hz
            rcases (hs1.2.2.1 b).mp hz with hm | hm
            · exact hbnot hm
            · exact hbx hm
          have hzy : z ≠ y := by
            intro h
            rw [h] at hz
            rcases (hs1.2.2.1 y).mp hz with hm | hm
            · exact hyf hm
            · exact hxy hm.symm
          simp [insAfter, hzb, hzy]
        have hchain' : CycChain s'.succ (insList (cycleOfFace s f) a x) := by
          rw [hsucc']
          exact cycChain_congr hs1.1 hagree
        have hrew : bumpSizeIf (rfOf s b) 1 (bumpSizeIf (rfOf s a) 1 f)
            = { f with size := f.size + 1 } := by
          rw [bumpSizeIf_pos 1 h1]
          rw [bumpSizeIf_neg 1
            (show ({ f with size := f.size + 1 } : Face).id ≠ rfOf s b from h2)]
        rw [hrew]
        have hbuild := invFace_build s' { f with size := f.size + 1 }
          (insList (cycleOfFace s f) a x) hchain'
          (by
            have hf1 : f.first ∈ cycleOfFace s f := first_mem_cycle s hInv hf
            exact (hs1.2.2.1 _).mpr (Or.inl hf1))
          (by
            intro z hz
            rcases (hs1.2.2.1 z).mp hz with hz' | rfl
            · have hzH := hsubC f hf z hz'
              exact ⟨hmmH z hzH, by rw [hrfsame z hzH, hrfC f hf z hz']⟩
            · refine ⟨hxmem, ?_⟩
              rw [hrfx, hfF1]
          )
          (by
            show f.size + 1 = ((insList (cycleOfFace s f) a x).length : Int)
            rw [hs1.2.2.2, hlen]
            push_cast
            ring)
        refine ⟨hbuild.1, fun z => ?_⟩
        rw [hbuild.2 z, hs1.2.2.1 z]
        constructor
        · rintro (h | rfl)
          · exact Or.inl h
          · exact Or.inr (Or.inl ⟨h1, rfl⟩)
        · rintro (h | ⟨_, rfl⟩ | ⟨hid, rfl⟩)
          · exact Or.inl h
          · exact Or.inr rfl
          · exact absurd hid h2
    · by_cases h2 : f.id = rfOf s b
      · have hfF2 : f = F2 := face_id_inj s hInv hf hF2 (by rw [h2, hrfb'])
        have hanot : a ∉ cycleOfFace s f := by
          intro h
          exact h1 (by rw [inv_cycles_eq s hInv hf hF1 h haC1, hrfa'])
        have hagree0 : ∀ z ∈ cycleOfFace s f, insAfter s.succ a x z = s.succ z := by
          intro z hz
          have hza : z ≠ a := fun h => hanot (h ▸ hz)
          have hzx : z ≠ x := fun h => hx (h ▸ hsubC f hf z hz)
          simp [insAfter, hza, hzx]
        have hchain0 : CycChain (insAfter s.succ a x) (cycleOfFace s f) :=
          cycChain_congr hcycf hagree0
        have hbCf : b ∈ cycleOfFace s f := by rw [hfF2]; exact hbC2
        have hs2 := cycChain_insAfter hchain0 hbCf hyf
        have hrew : bumpSizeIf (rfOf s b) 1 (bumpSizeIf (rfOf s a) 1 f)
            = { f with size := f.size + 1 } := by
          rw [bumpSizeIf_neg 1 h1, bumpSizeIf_pos 1 h2]
        rw [hrew]
        have hbuild := invFace_build s' { f with size := f.size + 1 }
          (insList (cycleOfFace s f) b y) (by rw [hsucc']; exact hs2.1)
          (by
            have hf1 : f.first ∈ cycleOfFace s f := first_mem_cycle s hInv hf
            exact (hs2.2.2.1 _).mpr (Or.inl hf1))
          (by
            intro z hz
            rcases (hs2.2.2.1 z).mp hz with hz' | rfl
            · have hzH := hsubC f hf z hz'
              exact ⟨hmmH z hzH, by rw [hrfsame z hzH, hrfC f hf z hz']⟩
            · refine ⟨hymem, ?_⟩
              rw [hrfy, hfF2]
          )
          (by
            show f.size + 1 = ((insList (cycleOfFace s f) b y).length : Int)
            rw [hs2.2.2.2, hlen]
            push_cast
            ring)
        refine ⟨hbuild.1, fun z => ?_⟩
        rw [hbuild.2 z, hs2.2.2.1 z]
        constructor
        · rintro (h | rfl)
          · exact Or.inl h
          · exact Or.inr (Or.inr ⟨h2, rfl⟩)
        · rintro (h | ⟨hid, rfl⟩ | ⟨_, rfl⟩)
          · exact Or.inl h
          · exact absurd hid h1
          · exact Or.inr rfl
      · have hanot : a ∉ cycleOfFace s f := by
          intro h
          exact h1 (by rw [inv_cycles_eq s hInv hf hF1 h haC1, hrfa'])
        have hbnot : b ∉ cycleOfFace s f := by
          intro h
          exact h2 (by rw [inv_cycles_eq s hInv hf hF2 h hbC2, hrfb'])
        have hagree : ∀ z ∈ cycleOfFace s f,
            insAfter (insAfter s.succ a x) b y z = s.succ z := by
          intro z hz
          have hza : z ≠ a := fun h => hanot (h ▸ hz)
          have hzb : z ≠ b := fun h => hbnot (h ▸ hz)
          have hzx : z ≠ x := fun h => hx (h ▸ hsubC f hf z hz)
          have hzy : z ≠ y := fun h => hy (h ▸ hsubC f hf z hz)
          simp [insAfter, hza, hzb, hzx, hzy]
        have hchain' : CycChain s'.succ (cycleOfFace s f) := by
          rw [hsucc']
          exact cycChain_congr hcycf hagree
        have hrew : bumpSizeIf (rfOf s b) 1 (bumpSizeIf (rfOf s a) 1 f) = f := by
          rw [bumpSizeIf_neg 1 h1, bumpSizeIf_neg 1 h2]
        rw [hrew]
        have hbuild := invFace_build s' f (cycleOfFace s f) hchain'
          (first_mem_cycle s hInv hf)
          (by
            intro z hz
            have hzH := hsubC f hf z hz
            exact ⟨hmmH z hzH, by rw [hrfsame z hzH, hrfC f hf z hz]⟩)
          hlen
        refine ⟨hbuild.1, fun z => ?_⟩
        rw [hbuild.2 z]
        constructor
        · exact fun h => Or.inl h
        · rintro (h | ⟨hid, rfl⟩ | ⟨hid, rfl⟩)
          · exact h
          · exact absurd hid h1
          · exact absurd hid h2
  -- component value tables
  have htwb : s.twin b = a := by rw [← htw]; exact (hwf1 a ha).2.2.1
  have htwx : s'.twin x = b := by
    show (if x = a then y else if x = y then a else if x = x then b
      else if x = b then x else s.twin x) = b
    rw [if_neg (Ne.symm hax), if_neg hxy, if_pos rfl]
  have htwy : s'.twin y = a := by
    show (if y = a then y else if y = y then a else if y = x then b
      else if y = b then x else s.twin y) = a
    rw [if_neg (Ne.symm hay), if_pos rfl]
  have htwa : s'.twin a = y := by
    show (if a = a then y else _) = y
    rw [if_pos rfl]
  have htwb' : s'.twin b = x := by
    show (if b = a then y else if b = y then a else if b = x then b
      else if b = b then x else s.twin b) = x
    rw [if_neg hba, if_neg hby, if_neg hbx, if_pos rfl]
  have htwelse : ∀ z, z ≠ a → z ≠ b → z ≠ x → z ≠ y → s'.twin z = s.twin z := by
    intro z h1 h2 h3 h4
    show (if z = a then y else if z = y then a else if z = x then b
      else if z = b then x else s.twin z) = s.twin z
    rw [if_neg h1, if_neg h4, if_neg h3, if_neg h2]
  have hxa' : x ≠ a := Ne.symm hax
  have hya' : y ≠ a := Ne.symm hay
  have hxb' : x ≠ b := Ne.symm hbx
  have hyb' : y ≠ b := Ne.symm hby
  have hab' : a ≠ b := Ne.symm hba
  have hsx : s'.succ x = s.succ a := by
    show insAfter (insAfter s.succ a x) b y x = s.succ a
    simp [insAfter, hxb', hxy, hxa']
  have hsy : s'.succ y = s.succ b := by
    show insAfter (insAfter s.succ a x) b y y = s.succ b
    simp [insAfter, hyb', Ne.symm hxy, hya', hba, hbx]
  have hsa : s'.succ a = x := by
    show insAfter (insAfter s.succ a x) b y a = x
    simp [insAfter, hab', hay]
  have hsb : s'.succ b = y := by
    show insAfter (insAfter s.succ a x) b y b = y
    simp [insAfter]
  have hselse : ∀ z, z ≠ a → z ≠ b → z ≠ x → z ≠ y → s'.succ z = s.succ z := by
    intro z h1 h2 h3 h4
    show insAfter (insAfter s.succ a x) b y z = s.succ z
    simp [insAfter, h1, h2, h3, h4]
  have hval : ∀ z ∈ s'.H,
      (x = z ∧ s'.succ z = s.succ a) ∨ (y = z ∧ s'.succ z = s.succ b) ∨
      (a = z ∧ s'.succ z = x) ∨ (b = z ∧ s'.succ z = y) ∨
      (z ∈ s.H ∧ z ≠ a ∧ z ≠ b ∧ z ≠ x ∧ z ≠ y ∧ s'.succ z = s.succ z) := by
    intro z hz
    by_cases h3 : z = x
    · exact Or.inl ⟨h3.symm, by rw [h3]; exact hsx⟩
    by_cases h4 : z = y
    · exact Or.inr (Or.inl ⟨h4.symm, by rw [h4]; exact hsy⟩)
    by_cases h1 : z = a
    · exact Or.inr (Or.inr (Or.inl ⟨h1.symm, by rw [h1]; exact hsa⟩))
    by_cases h2 : z = b
    · exact Or.inr (Or.inr (Or.inr (Or.inl ⟨h2.symm, by rw [h2]; exact hsb⟩)))
    have hzH : z ∈ s.H := by
      rw [hH'] at hz
      rcases Finset.mem_insert.mp hz with h | hz2
      · exact absurd h h3
      rcases Finset.mem_insert.mp hz2 with h | hz3
      · exact absurd h h4
      exact hz3
    exact Or.inr (Or.inr (Or.inr (Or.inr ⟨hzH, h1, h2, h3, h4, hselse z h1 h2 h3 h4⟩)))
  refine ⟨⟨?_, ?_⟩, ?_, ?_, ?_, ?_⟩
  · -- membership and twin facts
    intro z hz
    rcases hval z hz with ⟨rfl, hs⟩ | ⟨rfl, hs⟩ | ⟨rfl, hs⟩ | ⟨rfl, hs⟩ |
      ⟨hzH, h1, h2, h3, h4, hs⟩
    · exact ⟨by rw [hs]; exact hmmH _ (hwf1 a ha).1,
        by rw [htwx]; exact hmmH b hb,
        by rw [htwx, htwb'],
        by rw [htwx]; exact hbx⟩
    · exact ⟨by rw [hs]; exact hmmH _ (hwf1 b hb).1,
        by rw [htwy]; exact hmmH a ha,
        by rw [htwy, htwa],
        by rw [htwy]; exact hay⟩
    · exact ⟨by rw [hs]; exact hxmem,
        by rw [htwa]; exact hymem,
        by rw [htwa, htwy],
        by rw [htwa]; exact hya'⟩
    · exact ⟨by rw [hs]; exact hymem,
        by rw [htwb']; exact hxmem,
        by rw [htwb', htwx],
        by rw [htwb']; exact hxb'⟩
    · have htz := htwelse z h1 h2 h3 h4
      have hwz := hwf1 z hzH
      have htza : s.twin z ≠ a := by
        intro h
        have : z = s.twin a := by rw [← h, hwz.2.2.1]
        rw [htw] at this
        exact h2 this
      have htzb : s.twin z ≠ b := by
        intro h
        have : z = s.twin b := by rw [← h, hwz.2.2.1]
        rw [htwb] at this
        exact h1 this
      have htzx : s.twin z ≠ x := fun h => hx (h ▸ hwz.2.1)
      have htzy : s.twin z ≠ y := fun h => hy (h ▸ hwz.2.1)
      exact ⟨by rw [hs]; exact hmmH _ hwz.1,
        by rw [htz]; exact hmmH _ hwz.2.1,
        by rw [htz, htwelse _ htza htzb htzx htzy, hwz.2.2.1],
        by rw [htz]; exact hwz.2.2.2⟩
  · -- injectivity of the new face-cycle successor
    intro z hz w hw heq
    have hsaH := (hwf1 a ha).1
    have hsbH := (hwf1 b hb).1
    rcases hval z hz with ⟨rfl, e1⟩ | ⟨rfl, e1⟩ | ⟨rfl, e1⟩ | ⟨rfl, e1⟩ |
        ⟨hzH, hz1, hz2, hz3, hz4, e1⟩ <;>
      rcases hval w hw with ⟨rfl, e2⟩ | ⟨rfl, e2⟩ | ⟨rfl, e2⟩ | ⟨rfl, e2⟩ |
        ⟨hwH, hw1, hw2, hw3, hw4, e2⟩ <;>
      simp only [e1, e2] at heq
    · rfl
    · exact absurd (hwf2 a ha b hb heq) (Ne.symm hba)
    · exact absurd heq.symm (fun h => hx (h ▸ hsaH))
    · exact absurd heq.symm (fun h => hy (h ▸ hsaH))
    · exact absurd (hwf2 a ha w hwH heq) (Ne.symm hw1)
    · exact absurd (hwf2 b hb a ha heq) hba
    · rfl
    · exact absurd heq.symm (fun h => hx (h ▸ hsbH))
    · exact absurd heq.symm (fun h => hy (h ▸ hsbH))
    · exact absurd (hwf2 b hb w hwH heq) (Ne.symm hw2)
    · exact absurd heq (fun h => hx (h ▸ hsaH))
    · exact absurd heq (fun h => hx (h ▸ hsbH))
    · rfl
    · exact absurd heq hxy
    · exact absurd heq (fun h => hx (h ▸ (hwf1 w hwH).1))
    · exact absurd heq (fun h => hy (h ▸ hsaH))
    · exact absurd heq (fun h => hy (h ▸ hsbH))
    · exact absurd heq (Ne.symm hxy)
    · rfl
    · exact absurd heq (fun h => hy (h ▸ (hwf1 w hwH).1))
    · exact absurd (hwf2 z hzH a ha heq) hz1
    · exact absurd (hwf2 z hzH b hb heq) hz2
    · exact absurd heq.symm (fun h => hx (h ▸ (hwf1 z hzH).1))
    · exact absurd heq.symm (fun h => hy (h ▸ (hwf1 z hzH).1))
    · exact hwf2 z hzH w hwH heq
  · -- distinct identifiers
    show ((s'.faces).map Face.id).Nodup
    rw [hfaces', List.map_map, List.map_map]
    have he : ((Face.id ∘ bumpSizeIf (rfOf s b) 1) ∘ bumpSizeIf (rfOf s a) 1)
        = Face.id := by
      funext f
      show (bumpSizeIf (rfOf s b) 1 (bumpSizeIf (rfOf s a) 1 f)).id = f.id
      rw [bumpSizeIf_id, bumpSizeIf_id]
    rw [he]
    exact hndids
  · -- identifiers below the counter
    intro f' hf'
    obtain ⟨f, hf, rfl⟩ := hupd f' hf'
    rw [bumpSizeIf_id, bumpSizeIf_id]
    exact hidlt f hf
  · -- the per-face invariant
    intro f' hf'
    obtain ⟨f, hf, rfl⟩ := hupd f' hf'
    exact (hMAIN f hf).1
  · -- coverage
    intro h hh
    rcases hval h hh with ⟨rfl, _⟩ | ⟨rfl, _⟩ | ⟨rfl, _⟩ | ⟨rfl, _⟩ |
        ⟨hhH, _, _, _, _, _⟩
    · exact ⟨_, hupd' F1 hF1, (hMAIN F1 hF1).2 x |>.mpr
        (Or.inr (Or.inl ⟨hrfa'.symm, rfl⟩))⟩
    · exact ⟨_, hupd' F2 hF2, (hMAIN F2 hF2).2 y |>.mpr
        (Or.inr (Or.inr ⟨hrfb'.symm, rfl⟩))⟩
    · exact ⟨_, hupd' F1 hF1, (hMAIN F1 hF1).2 a |>.mpr (Or.inl haC1)⟩
    · exact ⟨_, hupd' F2 hF2, (hMAIN F2 hF2).2 b |>.mpr (Or.inl hbC2)⟩
    · obtain ⟨f, hf, hcyc, _, _⟩ := face_of_mem s hInv hhH
      exact ⟨_, hupd' f hf, (hMAIN f hf).2 h |>.mpr (Or.inl hcyc)⟩

/-! ### Invariant preservation: `splitNode` -/

/-- Invariant preservation for the double insertion of `splitNode`, stated
over the two insertion points `a` (the twin of `adjStartLeft`) and `b` (the
twin of `adjStartRight`). -/
theorem inv_splitNode_aux (s : EmbState) (a b x y : Nat) (hInv : Inv s)
    (ha : a ∈ s.H) (hb : b ∈ s.H) (hba : b ≠ a)
    (hx : x ∉ s.H) (hy : y ∉ s.H) (hxy : x ≠ y) :
    Inv { s with
      H := insert x (insert y s.H)
      succ := insAfter (insAfter s.succ a x) b y
      twin := fun z => if z = x then y else if z = y then x else s.twin z
      rightFace := fun h =>
        if h = x then some (rfOf s a) else if h = y then some (rfOf s b)
        else s.rightFace h
      faces := mapFace (mapFace s.faces (rfOf s a) (fun f => { f with size := f.size + 1 }))
        (rfOf s b) (fun f => { f with size := f.size + 1 }) } := by
  obtain ⟨⟨hwf1, hwf2⟩, hndids, hidlt, hface, hcover⟩ := id hInv
  have hax : a ≠ x := fun h => hx (h ▸ ha)
  have hay : a ≠ y := fun h => hy (h ▸ ha)
  have hbx : b ≠ x := fun h => hx (h ▸ hb)
  have hby : b ≠ y := fun h => hy (h ▸ hb)
  obtain ⟨F1, hF1, haC1, hrfa, hrfa'⟩ := face_of_mem s hInv ha
  obtain ⟨F2, hF2, hbC2, hrfb, hrfb'⟩ := face_of_mem s hInv hb
  have hsubC : ∀ f ∈ s.faces, ∀ z ∈ cycleOfFace s f, z ∈ s.H :=
    fun f hf z hz => ((hface f hf).2.2.1 z hz).1
  have hrfC : ∀ f ∈ s.faces, ∀ z ∈ cycleOfFace s f, s.rightFace z = some f.id :=
    fun f hf z hz => ((hface f hf).2.2.1 z hz).2
  set s' := { s with
      H := insert x (insert y s.H)
      succ := insAfter (insAfter s.succ a x) b y
      twin := fun z => if z = x then y else if z = y then x else s.twin z
      rightFace := fun h =>
        if h = x then some (rfOf s a) else if h = y then some (rfOf s b)
        else s.rightFace h
      faces := mapFace (mapFace s.faces (rfOf s a) (fun f => { f with size := f.size + 1 }))
        (rfOf s b) (fun f => { f with size := f.size + 1 }) } with hs'def
  have hsucc' : s'.succ = insAfter (insAfter s.succ a x) b y := rfl
  have hH' : s'.H = insert x (insert y s.H) := rfl
  have hrfsame : ∀ z ∈ s.H, s'.rightFace z = s.rightFace z := by
    intro z hz
    have hzx : z ≠ x := fun h => hx (h ▸ hz)
    have hzy : z ≠ y := fun h => hy (h ▸ hz)
    show (if z = x then some (rfOf s a) else if z = y then some (rfOf s b)
      else s.rightFace z) = s.rightFace z
    rw [if_neg hzx, if_neg hzy]
  have hrfx : s'.rightFace x = some F1.id := by
    show (if x = x then some (rfOf s a) else if x = y then some (rfOf s b)
      else s.rightFace x) = some F1.id
    rw [if_pos rfl, hrfa']
  have hrfy : s'.rightFace y = some F2.id := by
    show (if y = x then some (rfOf s a) else if y = y then some (rfOf s b)
      else s.rightFace y) = some F2.id
    rw [if_neg (Ne.symm hxy), if_pos rfl, hrfb']
  have hfaces' : s'.faces = (s.faces.map (bumpSizeIf (rfOf s a) 1)).map
      (bumpSizeIf (rfOf s b) 1) := rfl
  have hmmH : ∀ w ∈ s.H, w ∈ s'.H := by
    intro w hw
    rw [hH']
    exact Finset.mem_insert_of_mem (Finset.mem_insert_of_mem hw)
  have hxmem : x ∈ s'.H := by rw [hH']; exact Finset.mem_insert_self _ _
  have hymem : y ∈ s'.H := by
    rw [hH']
    exact Finset.mem_insert_of_mem (Finset.mem_insert_self _ _)
  have hupd : ∀ f' ∈ s'.faces, ∃ f ∈ s.faces,
      f' = bumpSizeIf (rfOf s b) 1 (bumpSizeIf (rfOf s a) 1 f) := by
    intro f' hf'
    rw [hfaces'] at hf'
    obtain ⟨g, hg, hgf'⟩ := List.mem_map.mp hf'
    obtain ⟨f, hf, hfg⟩ := List.mem_map.mp hg
    exact ⟨f, hf, by rw [← hgf', ← hfg]⟩
  have hupd' : ∀ f ∈ s.faces,
      bumpSizeIf (rfOf s b) 1 (bumpSizeIf (rfOf s a) 1 f) ∈ s'.faces := by
    intro f hf
    rw [hfaces']
    exact List.mem_map_of_mem _ (List.mem_map_of_mem _ hf)
  have hMAIN : ∀ f ∈ s.faces,
      InvFace s' (bumpSizeIf (rfOf s b) 1 (bumpSizeIf (rfOf s a) 1 f)) ∧
      ∀ z, z ∈ cycleOfFace s' (bumpSizeIf (rfOf s b) 1 (bumpSizeIf (rfOf s a) 1 f)) ↔
        (z ∈ cycleOfFace s f ∨ (f.id = rfOf s a ∧ z = x) ∨ (f.id = rfOf s b ∧ z = y)) := by
    intro f hf
    have hcycf := (hface f hf).1
    have hlen := (hface f hf).2.2.2
    have hxf : x ∉ cycleOfFace s f := fun h => hx (hsubC f hf x h)
    have hyf : y ∉ cycleOfFace s f := fun h => hy (hsubC f hf y h)
    by_cases h1 : f.id = rfOf s a
    · have hfF1 : f = F1 := face_id_inj s hInv hf hF1 (by rw [h1, hrfa'])
      have haCf : a ∈ cycleOfFace s f := by rw [hfF1]; exact haC1
      have hs1 := cycChain_insAfter hcycf haCf hxf
      by_cases h2 : f.id = rfOf s b
      · have hfF2 : f = F2 := face_id_inj s hInv hf hF2 (by rw [h2, hrfb'])
        have hbCf : b ∈ cycleOfFace s f := by rw [hfF2]; exact hbC2
        have hbmem : b ∈ insList (cycleOfFace s f) a x :=
          (hs1.2.2.1 b).mpr (Or.inl hbCf)
        have hynot : y ∉ insList (cycleOfFace s f) a x := by
          intro h
          rcases (hs1.2.2.1 y).mp h with h | h
          · exact hyf h
          · exact hxy h.symm
        have hs2 := cycChain_insAfter hs1.1 hbmem hynot
        have hrew : bumpSizeIf (rfOf s b) 1 (bumpSizeIf (rfOf s a) 1 f)
            = { f with size := f.size + 1 + 1 } := by
          rw [bumpSizeIf_pos 1 h1]
          rw [bumpSizeIf_pos 1
            (show ({ f with size := f.size + 1 } : Face).id = rfOf s b from h2)]
        rw [hrew]
        have hbuild := invFace_build s' { f with size := f.size + 1 + 1 }
          (insList (insList (cycleOfFace s f) a x) b y) hs2.1
          (by
            have hf1 : f.first ∈ cycleOfFace s f := first_mem_cycle s hInv hf
            exact (hs2.2.2.1 _).mpr (Or.inl ((hs1.2.2.1 _).mpr (Or.inl hf1))))
          (by
            intro z hz
            rcases (hs2.2.2.1 z).mp hz with hz' | rfl
            · rcases (hs1.2.2.1 z).mp hz' with hz'' | rfl
              · have hzH := hsubC f hf z hz''
                exact ⟨hmmH z hzH, by rw [hrfsame z hzH, hrfC f hf z hz'']⟩
              · refine ⟨hxmem, ?_⟩
                rw [hrfx, hfF1]
            · refine ⟨hymem, ?_⟩
              rw [hrfy, hfF2]
          )
          (by
            show f.size + 1 + 1 = ((insList (insList (cycleOfFace s f) a x) b y).length : Int)
            rw [hs2.2.2.2, hs1.2.2.2, hlen]
            push_cast
            ring)
        refine ⟨hbuild.1, fun z => ?_⟩
        rw [hbuild.2 z]
        constructor
        · intro h
          rcases (hs2.2.2.1 z).mp h with h' | rfl
          · rcases (hs1.2.2.1 z).mp h' with h'' | rfl
            · exact Or.inl h''
            · exact Or.inr (Or.inl ⟨h1, rfl⟩)
          · exact Or.inr (Or.inr ⟨h2, rfl⟩)
        · rintro (h | ⟨_, hzx⟩ | ⟨_, hzy⟩)
          · exact (hs2.2.2.1 z).mpr (Or.inl ((hs1.2.2.1 z).mpr (Or.inl h)))
          · rw [hzx]
            exact (hs2.2.2.1 x).mpr (Or.inl ((hs1.2.2.1 x).mpr (Or.inr rfl)))
          · rw [hzy]
            exact (hs2.2.2.1 y).mpr (Or.inr rfl)
      · have hbnot : b ∉ cycleOfFace s f := by
          intro h
          exact h2 (by rw [inv_cycles_eq s hInv hf hF2 h hbC2, hrfb'])
        have hagree : ∀ z ∈ insList (cycleOfFace s f) a x,
            insAfter (insAfter s.succ a x) b y z = insAfter s.succ a x z := by
          intro z hz
          have hzb : z ≠ b := by
            intro h
            rw [h] at hz
            rcases (hs1.2.2.1 b).mp hz with hm | hm
            · exact hbnot hm
            · exact hbx hm
          have hzy : z ≠ y := by
            intro h
            rw [h] at hz
            rcases (hs1.2.2.1 y).mp hz with hm | hm
            · exact hyf hm
            · exact hxy hm.symm
          simp [insAfter, hzb, hzy]
        have hchain' : CycChain s'.succ (insList (cycleOfFace s f) a x) := by
          rw [hsucc']
          exact cycChain_congr hs1.1 hagree
        have hrew : bumpSizeIf (rfOf s b) 1 (bumpSizeIf (rfOf s a) 1 f)
            = { f with size := f.size + 1 } := by
          rw [bumpSizeIf_pos 1 h1]
          rw [bumpSizeIf_neg 1
            (show ({ f with size := f.size + 1 } : Face).id ≠ rfOf s b from h2)]
        rw [hrew]
        have hbuild := invFace_build s' { f with size := f.size + 1 }
          (insList (cycleOfFace s f) a x) hchain'
          (by
            have hf1 : f.first ∈ cycleOfFace s f := first_mem_cycle s hInv hf
            exact (hs1.2.2.1 _).mpr (Or.inl hf1))
          (by
            intro z hz
            rcases (hs1.2.2.1 z).mp hz with hz' | rfl
            · have hzH := hsubC f hf z hz'
              exact ⟨hmmH z hzH, by rw [hrfsame z hzH, hrfC f hf z hz']⟩
            · refine ⟨hxmem, ?_⟩
              rw [hrfx, hfF1]
          )
          (by
            show f.size + 1 = ((insList (cycleOfFace s f) a x).length : Int)
            rw [hs1.2.2.2, hlen]
            push_cast
            ring)
        refine ⟨hbuild.1, fun z => ?_⟩
        rw [hbuild.2 z, hs1.2.2.1 z]
        constructor
        · rintro (h | rfl)
          · exact Or.inl h
          · exact Or.inr (Or.inl ⟨h1, rfl⟩)
        · rintro (h | ⟨_, rfl⟩ | ⟨hid, rfl⟩)
          · exact Or.inl h
          · exact Or.inr rfl
          · exact absurd hid h2
    · by_cases h2 : f.id = rfOf s b
      · have hfF2 : f = F2 := face_id_inj s hInv hf hF2 (by rw [h2, hrfb'])
        have hanot : a ∉ cycleOfFace s f := by
          intro h
          exact h1 (by rw [inv_cycles_eq s hInv hf hF1 h haC1, hrfa'])
        have hagree0 : ∀ z ∈ cycleOfFace s f, insAfter s.succ a x z = s.succ z := by
          intro z hz
          have hza : z ≠ a := fun h => hanot (h ▸ hz)
          have hzx : z ≠ x := fun h => hx (h ▸ hsubC f hf z hz)
          simp [insAfter, hza, hzx]
        have hchain0 : CycChain (insAfter s.succ a x) (cycleOfFace s f) :=
          cycChain_congr hcycf hagree0
        have hbCf : b ∈ cycleOfFace s f := by rw [hfF2]; exact hbC2
        have hs2 := cycChain_insAfter hchain0 hbCf hyf
        have hrew : bumpSizeIf (rfOf s b) 1 (bumpSizeIf (rfOf s a) 1 f)
            = { f with size := f.size + 1 } := by
          rw [bumpSizeIf_neg 1 h1, bumpSizeIf_pos 1 h2]
        rw [hrew]
        have hbuild := invFace_build s' { f with size := f.size + 1 }
          (insList (cycleOfFace s f) b y) (by rw [hsucc']; exact hs2.1)
          (by
            have hf1 : f.first ∈ cycleOfFace s f := first_mem_cycle s hInv hf
            exact (hs2.2.2.1 _).mpr (Or.inl hf1))
          (by
            intro z hz
            rcases (hs2.2.2.1 z).mp hz with hz' | rfl
            · have hzH := hsubC f hf z hz'
              exact ⟨hmmH z hzH, by rw [hrfsame z hzH, hrfC f hf z hz']⟩
            · refine ⟨hymem, ?_⟩
              rw [hrfy, hfF2]
          )
          (by
            show f.size + 1 = ((insList (cycleOfFace s f) b y).length : Int)
            rw [hs2.2.2.2, hlen]
            push_cast
            ring)
        refine ⟨hbuild.1, fun z => ?_⟩
        rw [hbuild.2 z, hs2.2.2.1 z]
        constructor
        · rintro (h | rfl)
          · exact Or.inl h
          · exact Or.inr (Or.inr ⟨h2, rfl⟩)
        · rintro (h | ⟨hid, rfl⟩ | ⟨_, rfl⟩)
          · exact Or.inl h
          · exact absurd hid h1
          · exact Or.inr rfl
      · have hanot : a ∉ cycleOfFace s f := by
          intro h
          exact h1 (by rw [inv_cycles_eq s hInv hf hF1 h haC1, hrfa'])
        have hbnot : b ∉ cycleOfFace s f := by
          intro h
          exact h2 (by rw [inv_cycles_eq s hInv hf hF2 h hbC2, hrfb'])
        have hagree : ∀ z ∈ cycleOfFace s f,
            insAfter (insAfter s.succ a x) b y z = s.succ z := by
          intro z hz
          have hza : z ≠ a := fun h => hanot (h ▸ hz)
          have hzb : z ≠ b := fun h => hbnot (h ▸ hz)
          have hzx : z ≠ x := fun h => hx (h ▸ hsubC f hf z hz)
          have hzy : z ≠ y := fun h => hy (h ▸ hsubC f hf z hz)
          simp [insAfter, hza, hzb, hzx, hzy]
        have hchain' : CycChain s'.succ (cycleOfFace s f) := by
          rw [hsucc']
          exact cycChain_congr hcycf hagree
        have hrew : bumpSizeIf (rfOf s b) 1 (bumpSizeIf (rfOf s a) 1 f) = f := by
          rw [bumpSizeIf_neg 1 h1, bumpSizeIf_neg 1 h2]
        rw [hrew]
        have hbuild := invFace_build s' f (cycleOfFace s f) hchain'
          (first_mem_cycle s hInv hf)
          (by
            intro z hz
            have hzH := hsubC f hf z hz
            exact ⟨hmmH z hzH, by rw [hrfsame z hzH, hrfC f hf z hz]⟩)
          hlen
        refine ⟨hbuild.1, fun z => ?_⟩
        rw [hbuild.2 z]
        constructor
        · exact fun h => Or.inl h
        · rintro (h | ⟨hid, rfl⟩ | ⟨hid, rfl⟩)
          · exact h
          · exact absurd hid h1
          · exact absurd hid h2
  -- twin value table
  have htwx : s'.twin x = y := by
    show (if x = x then y else if x = y then x else s.twin x) = y
    rw [if_pos rfl]
  have htwy : s'.twin y = x := by
    show (if y = x then y else if y = y then x else s.twin y) = x
    rw [if_neg (Ne.symm hxy), if_pos rfl]
  have htwelse : ∀ z, z ≠ x → z ≠ y → s'.twin z = s.twin z := by
    intro z h3 h4
    show (if z = x then y else if z = y then x else s.twin z) = s.twin z
    rw [if_neg h3, if_neg h4]
  -- the permutation facts for the doubly extended successor
  have hm1 := insAfter_injOn (fun z hz => (hwf1 z hz).1) hwf2 ha hx
  have hm2 := insAfter_injOn hm1.1 hm1.2 (Finset.mem_insert_of_mem hb)
    (by
      intro h
      rcases Finset.mem_insert.mp h with h | h
      · exact hxy h.symm
      · exact hy h)
  have hHcomm : s'.H = insert y (insert x s.H) := by
    rw [hH']
    ext z
    simp only [Finset.mem_insert]
    tauto
  refine ⟨⟨?_, ?_⟩, ?_, ?_, ?_, ?_⟩
  · -- membership and twin facts
    intro z hz
    have hzins : z ∈ insert y (insert x s.H) := by rw [← hHcomm]; exact hz
    have hsmem : s'.succ z ∈ s'.H := by
      rw [hHcomm]
      exact hm2.1 z hzins
    refine ⟨hsmem, ?_, ?_, ?_⟩
    · by_cases h3 : z = x
      · rw [h3, htwx]; exact hymem
      by_cases h4 : z = y
      · rw [h4, htwy]; exact hxmem
      · rw [htwelse z h3 h4]
        have hzH : z ∈ s.H := by
          rcases Finset.mem_insert.mp hzins with h | h
          · exact absurd h h4
          rcases Finset.mem_insert.mp h with h | h
          · exact absurd h h3
          · exact h
        exact hmmH _ (hwf1 z hzH).2.1
    · by_cases h3 : z = x
      · rw [h3, htwx, htwy]
      by_cases h4 : z = y
      · rw [h4, htwy, htwx]
      · rw [htwelse z h3 h4]
        have hzH : z ∈ s.H := by
          rcases Finset.mem_insert.mp hzins with h | h
          · exact absurd h h4
          rcases Finset.mem_insert.mp h with h | h
          · exact absurd h h3
          · exact h
        have htz := (hwf1 z hzH).2.1
        rw [htwelse _ (fun h => hx (h ▸ htz)) (fun h => hy (h ▸ htz))]
        exact (hwf1 z hzH).2.2.1
    · by_cases h3 : z = x
      · rw [h3, htwx]; exact Ne.symm hxy
      by_cases h4 : z = y
      · rw [h4, htwy]; exact hxy
      · rw [htwelse z h3 h4]
        have hzH : z ∈ s.H := by
          rcases Finset.mem_insert.mp hzins with h | h
          · exact absurd h h4
          rcases Finset.mem_insert.mp h with h | h
          · exact absurd h h3
          · exact h
        exact (hwf1 z hzH).2.2.2
  · -- injectivity of the new face-cycle successor
    intro z hz w hw heq
    have hzins : z ∈ insert y (insert x s.H) := by rw [← hHcomm]; exact hz
    have hwins : w ∈ insert y (insert x s.H) := by rw [← hHcomm]; exact hw
    exact hm2.2 z hzins w hwins heq
  · -- distinct identifiers
    show ((s'.faces).map Face.id).Nodup
    rw [hfaces', List.map_map, List.map_map]
    have he : ((Face.id ∘ bumpSizeIf (rfOf s b) 1) ∘ bumpSizeIf (rfOf s a) 1)
        = Face.id := by
      funext f
      show (bumpSizeIf (rfOf s b) 1 (bumpSizeIf (rfOf s a) 1 f)).id = f.id
      rw [bumpSizeIf_id, bumpSizeIf_id]
    rw [he]
    exact hndids
  · -- identifiers below the counter
    intro f' hf'
    obtain ⟨f, hf, rfl⟩ := hupd f' hf'
    rw [bumpSizeIf_id, bumpSizeIf_id]
    exact hidlt f hf
  · -- the per-face invariant
    intro f' hf'
    obtain ⟨f, hf, rfl⟩ := hupd f' hf'
    exact (hMAIN f hf).1
  · -- coverage
    intro h hh
    rw [hH'] at hh
    rcases Finset.mem_insert.mp hh with rfl | hh2
    · exact ⟨_, hupd' F1 hF1, (hMAIN F1 hF1).2 h |>.mpr
        (Or.inr (Or.inl ⟨hrfa'.symm, rfl⟩))⟩
    rcases Finset.mem_insert.mp hh2 with rfl | hhH
    · exact ⟨_, hupd' F2 hF2, (hMAIN F2 hF2).2 h |>.mpr
        (Or.inr (Or.inr ⟨hrfb'.symm, rfl⟩))⟩
    · obtain ⟨f, hf, hcyc, _, _⟩ := face_of_mem s hInv hhH
      exact ⟨_, hupd' f hf, (hMAIN f hf).2 h |>.mpr (Or.inl hcyc)⟩

/-- `splitNode` preserves the invariant: instantiation of the double
insertion at the twins of the two given adjacency entries. -/
theorem inv_splitNode (s : EmbState) (aL aR x y : Nat) (hInv : Inv s)
    (haL : aL ∈ s.H) (haR : aR ∈ s.H) (hLR : aL ≠ aR)
    (hx : x ∉ s.H) (hy : y ∉ s.H) (hxy : x ≠ y) :
    Inv (splitNode s aL aR x y) := by
  have ha : s.twin aL ∈ s.H := (hInv.1.1 aL haL).2.1
  have hb : s.twin aR ∈ s.H := (hInv.1.1 aR haR).2.1
  have hba : s.twin aR ≠ s.twin aL := by
    intro h
    have h1 := congrArg s.twin h
    rw [(hInv.1.1 aR haR).2.2.1, (hInv.1.1 aL haL).2.2.1] at h1
    exact hLR h1.symm
  exact inv_splitNode_aux s (s.twin aL) (s.twin aR) x y hInv ha hb hba hx hy hxy

/-! ### Invariant preservation: `unsplit` -/

theorem inv_unsplit (s : EmbState) (a y x b : Nat) (hInv : Inv s)
    (ha : a ∈ s.H) (hyH : y ∈ s.H) (hxH : x ∈ s.H) (hb : b ∈ s.H)
    (htwa : s.twin a = y) (htwx : s.twin x = b)
    (hsa : s.succ a = x) (hsb : s.succ b = y)
    (hd1 : ¬(a = x ∧ y = b)) (hd2 : ¬(a = b ∧ y = x)) :
    Inv (unsplit s a y x b) := by
  obtain ⟨⟨hwf1, hwf2⟩, hndids, hidlt, hface, hcover⟩ := id hInv
  have htwy : s.twin y = a := by rw [← htwa, (hwf1 a ha).2.2.1]
  have htwb : s.twin b = x := by rw [← htwx, (hwf1 x hxH).2.2.1]
  have hya : y ≠ a := htwa ▸ (hwf1 a ha).2.2.2
  have hbx : b ≠ x := htwx ▸ (hwf1 x hxH).2.2.2
  have hax : a ≠ x := fun h => hd1 ⟨h, by rw [← htwa, h, htwx]⟩
  have hab : a ≠ b := fun h => hd2 ⟨h, by rw [← htwa, h, htwb]⟩
  have hxy : x ≠ y := fun h => hab (by rw [← htwy, ← h, htwx])
  have hyb : y ≠ b := fun h => hax (by rw [← htwb, ← h, htwy])
  obtain ⟨F1, hF1, haC1, hrfa, hrfa'⟩ := face_of_mem s hInv ha
  obtain ⟨F2, hF2, hyC2, hrfy2, hrfy2'⟩ := face_of_mem s hInv hyH
  have hxC1 : x ∈ cycleOfFace s F1 := by
    have h := (hface F1 hF1).1.succ_mem haC1
    rwa [hsa] at h
  have hbC2 : b ∈ cycleOfFace s F2 :=
    mem_cycle_of_succ_mem s hInv hF2 hb (by rw [hsb]; exact hyC2)
  have hsubC : ∀ f ∈ s.faces, ∀ z ∈ cycleOfFace s f, z ∈ s.H :=
    fun f hf z hz => ((hface f hf).2.2.1 z hz).1
  have hrfC : ∀ f ∈ s.faces, ∀ z ∈ cycleOfFace s f, s.rightFace z = some f.id :=
    fun f hf z hz => ((hface f hf).2.2.1 z hz).2
  set s' := unsplit s a y x b with hs'def
  have hsucc' : s'.succ = delHalf (delHalf s.succ x) y := rfl
  have hH' : s'.H = (s.H.erase x).erase y := rfl
  have hrf' : s'.rightFace = s.rightFace := rfl
  have hfaces' : s'.faces =
      (((s.faces.map (bumpSizeIf (rfOf s a) (-1))).map (bumpSizeIf (rfOf s y) (-1))).map
        (repointIf (rfOf s a) x a)).map (repointIf (rfOf s y) y b) := by
    show mapFace (mapFace (mapFace (mapFace s.faces (rfOf s a)
        (fun f => { f with size := f.size - 1 })) (rfOf s y)
        (fun f => { f with size := f.size - 1 })) (rfOf s a)
        (fun f => if f.first = x then { f with first := a } else f)) (rfOf s y)
        (fun f => if f.first = y then { f with first := b } else f) = _
    rw [mapFace_sub, mapFace_sub, mapFace_repoint, mapFace_repoint]
  have hmemH' : ∀ z, z ∈ s'.H ↔ (z ∈ s.H ∧ z ≠ x ∧ z ≠ y) := by
    intro z
    rw [hH']
    simp only [Finset.mem_erase]
    tauto
  have hupd : ∀ f' ∈ s'.faces, ∃ f ∈ s.faces, f' = repointIf (rfOf s y) y b
      (repointIf (rfOf s a) x a
        (bumpSizeIf (rfOf s y) (-1) (bumpSizeIf (rfOf s a) (-1) f))) := by
    intro f' hf'
    rw [hfaces'] at hf'
    obtain ⟨g3, hg3, he3⟩ := List.mem_map.mp hf'
    obtain ⟨g2, hg2, he2⟩ := List.mem_map.mp hg3
    obtain ⟨g1, hg1, he1⟩ := List.mem_map.mp hg2
    obtain ⟨g0, hg0, he0⟩ := List.mem_map.mp hg1
    exact ⟨g0, hg0, by rw [← he3, ← he2, ← he1, ← he0]⟩
  have hupd' : ∀ f ∈ s.faces, repointIf (rfOf s y) y b
      (repointIf (rfOf s a) x a
        (bumpSizeIf (rfOf s y) (-1) (bumpSizeIf (rfOf s a) (-1) f))) ∈ s'.faces := by
    intro f hf
    rw [hfaces']
    exact List.mem_map_of_mem _ (List.mem_map_of_mem _
      (List.mem_map_of_mem _ (List.mem_map_of_mem _ hf)))
  have hUid : ∀ f : Face, (repointIf (rfOf s y) y b
      (repointIf (rfOf s a) x a
        (bumpSizeIf (rfOf s y) (-1) (bumpSizeIf (rfOf s a) (-1) f)))).id = f.id := by
    intro f
    rw [repointIf_id, repointIf_id, bumpSizeIf_id, bumpSizeIf_id]
  have hMAIN : ∀ f ∈ s.faces,
      InvFace s' (repointIf (rfOf s y) y b (repointIf (rfOf s a) x a
        (bumpSizeIf (rfOf s y) (-1) (bumpSizeIf (rfOf s a) (-1) f)))) ∧
      ∀ z, z ∈ cycleOfFace s' (repointIf (rfOf s y) y b (repointIf (rfOf s a) x a
          (bumpSizeIf (rfOf s y) (-1) (bumpSizeIf (rfOf s a) (-1) f)))) ↔
        (z ∈ cycleOfFace s f ∧ z ≠ x ∧ z ≠ y) := by
    intro f hf
    have hcycf := (hface f hf).1
    have hlen := (hface f hf).2.2.2
    by_cases h1 : f.id = rfOf s a
    · have hfF1 : f = F1 := face_id_inj s hInv hf hF1 (by rw [h1, hrfa'])
      have haCf : a ∈ cycleOfFace s f := by rw [hfF1]; exact haC1
      have hxCf : x ∈ cycleOfFace s f := by rw [hfF1]; exact hxC1
      have hstep1 := cycChain_delHalf hcycf hxCf
        (cycChain_two_le hcycf haCf (by rw [hsa]; exact Ne.symm hax))
      by_cases h2 : f.id = rfOf s y
      · -- both chain edges lie on the same face
        have hfF2 : f = F2 := face_id_inj s hInv hf hF2 (by rw [h2, hrfy2'])
        have hyCf : y ∈ cycleOfFace s f := by rw [hfF2]; exact hyC2
        have hbCf : b ∈ cycleOfFace s f := by rw [hfF2]; exact hbC2
        have hyCex : y ∈ (cycleOfFace s f).erase x :=
          (hstep1.2.1 y).mpr ⟨hyCf, Ne.symm hxy⟩
        have hbCex : b ∈ (cycleOfFace s f).erase x :=
          (hstep1.2.1 b).mpr ⟨hbCf, hbx⟩
        have hdb : delHalf s.succ x b = y := by
          rw [delHalf_ne (by rw [hsb]; exact Ne.symm hxy), hsb]
        have hstep2 := cycChain_delHalf hstep1.1 hyCex
          (cycChain_two_le hstep1.1 hbCex (by rw [hdb]; exact hyb))
        have hchain' : CycChain s'.succ (((cycleOfFace s f).erase x).erase y) := by
          rw [hsucc']
          exact hstep2.1
        have hmemC' : ∀ z, z ∈ ((cycleOfFace s f).erase x).erase y ↔
            (z ∈ cycleOfFace s f ∧ z ≠ x ∧ z ≠ y) := by
          intro z
          rw [hstep2.2.1 z, hstep1.2.1 z]
          tauto
        have hszlen : ∀ g : Face, g.size = f.size + (-1) + (-1) →
            g.size = ((((cycleOfFace s f).erase x).erase y).length : Int) := by
          intro g hg
          have e1 := hstep1.2.2
          have e2 := hstep2.2.2
          rw [hg, hlen]
          push_cast
          omega
        have hmem' : ∀ z ∈ ((cycleOfFace s f).erase x).erase y,
            z ∈ s'.H ∧ s'.rightFace z = some f.id := by
          intro z hz
          obtain ⟨hzC, hzx, hzy⟩ := (hmemC' z).mp hz
          refine ⟨(hmemH' z).mpr ⟨hsubC f hf z hzC, hzx, hzy⟩, ?_⟩
          rw [hrf']
          exact hrfC f hf z hzC
        by_cases hfx : f.first = x
        · have hrew : repointIf (rfOf s y) y b (repointIf (rfOf s a) x a
              (bumpSizeIf (rfOf s y) (-1) (bumpSizeIf (rfOf s a) (-1) f)))
              = { f with size := f.size + (-1) + (-1), first := a } := by
            rw [bumpSizeIf_pos (-1) h1,
              bumpSizeIf_pos (-1)
                (show ({ f with size := f.size + (-1) } : Face).id = rfOf s y from h2),
              repointIf_hit a
                (show ({ f with size := f.size + (-1) + (-1) } : Face).id = rfOf s a from h1)
                (show ({ f with size := f.size + (-1) + (-1) } : Face).first = x from hfx),
              repointIf_miss b
                (show ({ f with size := f.size + (-1) + (-1), first := a } : Face).id
                  = rfOf s y from h2)
                (show ({ f with size := f.size + (-1) + (-1), first := a } : Face).first ≠ y
                  from Ne.symm hya)]
          rw [hrew]
          have hbuild := invFace_build s'
            { f with size := f.size + (-1) + (-1), first := a }
            (((cycleOfFace s f).erase x).erase y) hchain'
            ((hmemC' a).mpr ⟨haCf, hax, Ne.symm hya⟩)
            hmem' (hszlen _ rfl)
          refine ⟨hbuild.1, fun z => ?_⟩
          rw [hbuild.2 z]
          exact hmemC' z
        · by_cases hfy : f.first = y
          · have hrew : repointIf (rfOf s y) y b (repointIf (rfOf s a) x a
                (bumpSizeIf (rfOf s y) (-1) (bumpSizeIf (rfOf s a) (-1) f)))
                = { f with size := f.size + (-1) + (-1), first := b } := by
              rw [bumpSizeIf_pos (-1) h1,
                bumpSizeIf_pos (-1)
                  (show ({ f with size := f.size + (-1) } : Face).id = rfOf s y from h2),
                repointIf_miss a
                  (show ({ f with size := f.size + (-1) + (-1) } : Face).id = rfOf s a from h1)
                  (show ({ f with size := f.size + (-1) + (-1) } : Face).first ≠ x from hfx),
                repointIf_hit b
                  (show ({ f with size := f.size + (-1) + (-1) } : Face).id = rfOf s y from h2)
                  (show ({ f with size := f.size + (-1) + (-1) } : Face).first = y from hfy)]
            rw [hrew]
            have hbuild := invFace_build s'
              { f with size := f.size + (-1) + (-1), first := b }
              (((cycleOfFace s f).erase x).erase y) hchain'
              ((hmemC' b).mpr ⟨hbCf, hbx, Ne.symm hyb⟩)
              hmem' (hszlen _ rfl)
            refine ⟨hbuild.1, fun z => ?_⟩
            rw [hbuild.2 z]
            exact hmemC' z
          · have hrew : repointIf (rfOf s y) y b (repointIf (rfOf s a) x a
                (bumpSizeIf (rfOf s y) (-1) (bumpSizeIf (rfOf s a) (-1) f)))
                = { f with size := f.size + (-1) + (-1) } := by
              rw [bumpSizeIf_pos (-1) h1,
                bumpSizeIf_pos (-1)
                  (show ({ f with size := f.size + (-1) } : Face).id = rfOf s y from h2),
                repointIf_miss a
                  (show ({ f with size := f.size + (-1) + (-1) } : Face).id = rfOf s a from h1)
                  (show ({ f with size := f.size + (-1) + (-1) } : Face).first ≠ x from hfx),
                repointIf_miss b
                  (show ({ f with size := f.size + (-1) + (-1) } : Face).id = rfOf s y from h2)
                  (show ({ f with size := f.size + (-1) + (-1) } : Face).first ≠ y from hfy)]
            rw [hrew]
            have hbuild := invFace_build s'
              { f with size := f.size + (-1) + (-1) }
              (((cycleOfFace s f).erase x).erase y) hchain'
              ((hmemC' f.first).mpr ⟨first_mem_cycle s hInv hf, hfx, hfy⟩)
              hmem' (hszlen _ rfl)
            refine ⟨hbuild.1, fun z => ?_⟩
            rw [hbuild.2 z]
            exact hmemC' z
      · -- the face of `a` and `x` only
        have hynotf : y ∉ cycleOfFace s f := by
          intro h
          exact h2 (by rw [inv_cycles_eq s hInv hf hF2 h hyC2, hrfy2'])
        have hbnotf : b ∉ cycleOfFace s f := by
          intro h
          exact h2 (by rw [inv_cycles_eq s hInv hf hF2 h hbC2, hrfy2'])
        have hagree : ∀ z ∈ (cycleOfFace s f).erase x,
            delHalf (delHalf s.succ x) y z = delHalf s.succ x z := by
          intro z hz
          have hv := hstep1.1.succ_mem hz
          have hvy : delHalf s.succ x z ≠ y := by
            intro h
            exact hynotf ((hstep1.2.1 _).mp (h ▸ hv)).1
          exact delHalf_ne hvy
        have hchain' : CycChain s'.succ ((cycleOfFace s f).erase x) := by
          rw [hsucc']
          exact cycChain_congr hstep1.1 hagree
        have hmemC' : ∀ z, z ∈ (cycleOfFace s f).erase x ↔
            (z ∈ cycleOfFace s f ∧ z ≠ x ∧ z ≠ y) := by
          intro z
          rw [hstep1.2.1 z]
          constructor
          · rintro ⟨h, hzx⟩
            exact ⟨h, hzx, fun hzy => hynotf (hzy ▸ h)⟩
          · rintro ⟨h, hzx, _⟩
            exact ⟨h, hzx⟩
        have hszlen : ∀ g : Face, g.size = f.size + (-1) →
            g.size = (((cycleOfFace s f).erase x).length : Int) := by
          intro g hg
          have e1 := hstep1.2.2
          rw [hg, hlen]
          push_cast
          omega
        have hmem' : ∀ z ∈ (cycleOfFace s f).erase x,
            z ∈ s'.H ∧ s'.rightFace z = some f.id := by
          intro z hz
          obtain ⟨hzC, hzx, hzy⟩ := (hmemC' z).mp hz
          refine ⟨(hmemH' z).mpr ⟨hsubC f hf z hzC, hzx, hzy⟩, ?_⟩
          rw [hrf']
          exact hrfC f hf z hzC
        by_cases hfx : f.first = x
        · have hrew : repointIf (rfOf s y) y b (repointIf (rfOf s a) x a
              (bumpSizeIf (rfOf s y) (-1) (bumpSizeIf (rfOf s a) (-1) f)))
              = { f with size := f.size + (-1), first := a } := by
            rw [bumpSizeIf_pos (-1) h1,
              bumpSizeIf_neg (-1)
                (show ({ f with size := f.size + (-1) } : Face).id ≠ rfOf s y from h2),
              repointIf_hit a
                (show ({ f with size := f.size + (-1) } : Face).id = rfOf s a from h1)
                (show ({ f with size := f.size + (-1) } : Face).first = x from hfx),
              repointIf_neg y b
                (show ({ f with size := f.size + (-1), first := a } : Face).id
                  ≠ rfOf s y from h2)]
          rw [hrew]
          have hbuild := invFace_build s'
            { f with size := f.size + (-1), first := a }
            ((cycleOfFace s f).erase x) hchain'
            ((hmemC' a).mpr ⟨haCf, hax, Ne.symm hya⟩)
            hmem' (hszlen _ rfl)
          refine ⟨hbuild.1, fun z => ?_⟩
          rw [hbuild.2 z]
          exact hmemC' z
        · have hrew : repointIf (rfOf s y) y b (repointIf (rfOf s a) x a
              (bumpSizeIf (rfOf s y) (-1) (bumpSizeIf (rfOf s a) (-1) f)))
              = { f with size := f.size + (-1) } := by
            rw [bumpSizeIf_pos (-1) h1,
              bumpSizeIf_neg (-1)
                (show ({ f with size := f.size + (-1) } : Face).id ≠ rfOf s y from h2),
              repointIf_miss a
                (show ({ f with size := f.size + (-1) } : Face).id = rfOf s a from h1)
                (show ({ f with size := f.size + (-1) } : Face).first ≠ x from hfx),
              repointIf_neg y b
                (show ({ f with size := f.size + (-1) } : Face).id ≠ rfOf s y from h2)]
          rw [hrew]
          have hbuild := invFace_build s'
            { f with size := f.size + (-1) }
            ((cycleOfFace s f).erase x) hchain'
            ((hmemC' f.first).mpr ⟨first_mem_cycle s hInv hf, hfx,
              fun h => hynotf (h ▸ first_mem_cycle s hInv hf)⟩)
            hmem' (hszlen _ rfl)
          refine ⟨hbuild.1, fun z => ?_⟩
          rw [hbuild.2 z]
          exact hmemC' z
    · by_cases h2 : f.id = rfOf s y
      · -- the face of `b` and `y` only
        have hfF2 : f = F2 := face_id_inj s hInv hf hF2 (by rw [h2, hrfy2'])
        have hyCf : y ∈ cycleOfFace s f := by rw [hfF2]; exact hyC2
        have hbCf : b ∈ cycleOfFace s f := by rw [hfF2]; exact hbC2
        have hanotf : a ∉ cycleOfFace s f := by
          intro h
          exact h1 (by rw [inv_cycles_eq s hInv hf hF1 h haC1, hrfa'])
        have hxnotf : x ∉ cycleOfFace s f := by
          intro h
          exact h1 (by rw [inv_cycles_eq s hInv hf hF1 h hxC1, hrfa'])
        have hagree0 : ∀ z ∈ cycleOfFace s f, delHalf s.succ x z = s.succ z := by
          intro z hz
          have hv := hcycf.succ_mem hz
          exact delHalf_ne (fun h => hxnotf (h ▸ hv))
        have hchain0 : CycChain (delHalf s.succ x) (cycleOfFace s f) :=
          cycChain_congr hcycf hagree0
        have hdb : delHalf s.succ x b = y := by
          rw [delHalf_ne (by rw [hsb]; exact Ne.symm hxy), hsb]
        have hstep2 := cycChain_delHalf hchain0 hyCf
          (cycChain_two_le hchain0 hbCf (by rw [hdb]; exact hyb))
        have hchain' : CycChain s'.succ ((cycleOfFace s f).erase y) := by
          rw [hsucc']
          exact hstep2.1
        have hmemC' : ∀ z, z ∈ (cycleOfFace s f).erase y ↔
            (z ∈ cycleOfFace s f ∧ z ≠ x ∧ z ≠ y) := by
          intro z
          rw [hstep2.2.1 z]
          constructor
          · rintro ⟨h, hzy⟩
            exact ⟨h, fun hzx => hxnotf (hzx ▸ h), hzy⟩
          · rintro ⟨h, _, hzy⟩
            exact ⟨h, hzy⟩
        have hszlen : ∀ g : Face, g.size = f.size + (-1) →
            g.size = (((cycleOfFace s f).erase y).length : Int) := by
          intro g hg
          have e1 := hstep2.2.2
          rw [hg, hlen]
          push_cast
          omega
        have hmem' : ∀ z ∈ (cycleOfFace s f).erase y,
            z ∈ s'.H ∧ s'.rightFace z = some f.id := by
          intro z hz
          obtain ⟨hzC, hzx, hzy⟩ := (hmemC' z).mp hz
          refine ⟨(hmemH' z).mpr ⟨hsubC f hf z hzC, hzx, hzy⟩, ?_⟩
          rw [hrf']
          exact hrfC f hf z hzC
        by_cases hfy : f.first = y
        · have hrew : repointIf (rfOf s y) y b (repointIf (rfOf s a) x a
              (bumpSizeIf (rfOf s y) (-1) (bumpSizeIf (rfOf s a) (-1) f)))
              = { f with size := f.size + (-1), first := b } := by
            rw [bumpSizeIf_neg (-1) h1,
              bumpSizeIf_pos (-1) (show (f : Face).id = rfOf s y from h2),
              repointIf_neg x a
                (show ({ f with size := f.size + (-1) } : Face).id ≠ rfOf s a from h1),
              repointIf_hit b
                (show ({ f with size := f.size + (-1) } : Face).id = rfOf s y from h2)
                (show ({ f with size := f.size + (-1) } : Face).first = y from hfy)]
          rw [hrew]
          have hbuild := invFace_build s'
            { f with size := f.size + (-1), first := b }
            ((cycleOfFace s f).erase y) hchain'
            ((hmemC' b).mpr ⟨hbCf, hbx, Ne.symm hyb⟩)
            hmem' (hszlen _ rfl)
          refine ⟨hbuild.1, fun z => ?_⟩
          rw [hbuild.2 z]
          exact hmemC' z
        · have hrew : repointIf (rfOf s y) y b (repointIf (rfOf s a) x a
              (bumpSizeIf (rfOf s y) (-1) (bumpSizeIf (rfOf s a) (-1) f)))
              = { f with size := f.size + (-1) } := by
            rw [bumpSizeIf_neg (-1) h1,
              bumpSizeIf_pos (-1) (show (f : Face).id = rfOf s y from h2),
              repointIf_neg x a
                (show ({ f with size := f.size + (-1) } : Face).id ≠ rfOf s a from h1),
              repointIf_miss b
                (show ({ f with size := f.size + (-1) } : Face).id = rfOf s y from h2)
                (show ({ f with size := f.size + (-1) } : Face).first ≠ y from hfy)]
          rw [hrew]
          have hbuild := invFace_build s'
            { f with size := f.size + (-1) }
            ((cycleOfFace s f).erase y) hchain'
            ((hmemC' f.first).mpr ⟨first_mem_cycle s hInv hf,
              fun h => hxnotf (h ▸ first_mem_cycle s hInv hf), hfy⟩)
            hmem' (hszlen _ rfl)
          refine ⟨hbuild.1, fun z => ?_⟩
          rw [hbuild.2 z]
          exact hmemC' z
      · -- an untouched face
        have hanotf : a ∉ cycleOfFace s f := by
          intro h
          exact h1 (by rw [inv_cycles_eq s hInv hf hF1 h haC1, hrfa'])
        have hxnotf : x ∉ cycleOfFace s f := by
          intro h
          exact h1 (by rw [inv_cycles_eq s hInv hf hF1 h hxC1, hrfa'])
        have hynotf : y ∉ cycleOfFace s f := by
          intro h
          exact h2 (by rw [inv_cycles_eq s hInv hf hF2 h hyC2, hrfy2'])
        have hagree : ∀ z ∈ cycleOfFace s f,
            delHalf (delHalf s.succ x) y z = s.succ z := by
          intro z hz
          have hv := hcycf.succ_mem hz
          have h3 : delHalf s.succ x z = s.succ z :=
            delHalf_ne (fun h => hxnotf (h ▸ hv))
          have h4 : delHalf s.succ x z ≠ y := by
            rw [h3]
            exact fun h => hynotf (h ▸ hv)
          rw [delHalf_ne h4, h3]
        have hchain' : CycChain s'.succ (cycleOfFace s f) := by
          rw [hsucc']
          exact cycChain_congr hcycf hagree
        have hrew : repointIf (rfOf s y) y b (repointIf (rfOf s a) x a
            (bumpSizeIf (rfOf s y) (-1) (bumpSizeIf (rfOf s a) (-1) f))) = f := by
          rw [bumpSizeIf_neg (-1) h1, bumpSizeIf_neg (-1) h2,
            repointIf_neg x a h1, repointIf_neg y b h2]
        rw [hrew]
        have hbuild := invFace_build s' f (cycleOfFace s f) hchain'
          (first_mem_cycle s hInv hf)
          (by
            intro z hz
            refine ⟨(hmemH' z).mpr ⟨hsubC f hf z hz, fun h => hxnotf (h ▸ hz),
              fun h => hynotf (h ▸ hz)⟩, ?_⟩
            rw [hrf']
            exact hrfC f hf z hz)
          hlen
        refine ⟨hbuild.1, fun z => ?_⟩
        rw [hbuild.2 z]
        constructor
        · intro h
          exact ⟨h, fun h3 => hxnotf (h3 ▸ h), fun h4 => hynotf (h4 ▸ h)⟩
        · exact fun h => h.1
  have hm1 := delHalf_injOn (fun z hz => (hwf1 z hz).1) hwf2 hxH
  have hm2 := delHalf_injOn hm1.1 hm1.2
    (Finset.mem_erase.mpr ⟨Ne.symm hxy, hyH⟩)
  have htwa' : s'.twin a = b := by
    show (if a = a then b else if a = b then a else s.twin a) = b
    rw [if_pos rfl]
  have htwb' : s'.twin b = a := by
    show (if b = a then b else if b = b then a else s.twin b) = a
    rw [if_neg (Ne.symm hab), if_pos rfl]
  have htwelse : ∀ z, z ≠ a → z ≠ b → s'.twin z = s.twin z := by
    intro z h3 h4
    show (if z = a then b else if z = b then a else s.twin z) = s.twin z
    rw [if_neg h3, if_neg h4]
  refine ⟨⟨?_, ?_⟩, ?_, ?_, ?_, ?_⟩
  · -- membership and twin facts
    intro z hz
    obtain ⟨hzH, hzx, hzy⟩ := (hmemH' z).mp hz
    have hsmem : s'.succ z ∈ s'.H := by
      rw [hH', hsucc']
      exact hm2.1 z (by rw [← hH']; exact hz)
    refine ⟨hsmem, ?_, ?_, ?_⟩
    · by_cases h3 : z = a
      · rw [h3, htwa']
        exact (hmemH' b).mpr ⟨hb, hbx, Ne.symm hyb⟩
      by_cases h4 : z = b
      · rw [h4, htwb']
        exact (hmemH' a).mpr ⟨ha, hax, Ne.symm hya⟩
      · rw [htwelse z h3 h4]
        have htz := (hwf1 z hzH).2.1
        refine (hmemH' _).mpr ⟨htz, ?_, ?_⟩
        · intro h
          have hzb : z = b := by
            rw [← (hwf1 z hzH).2.2.1, h, htwx]
          exact h4 hzb
        · intro h
          have hza : z = a := by
            rw [← (hwf1 z hzH).2.2.1, h, htwy]
          exact h3 hza
    · by_cases h3 : z = a
      · rw [h3, htwa', htwb']
      by_cases h4 : z = b
      · rw [h4, htwb', htwa']
      · rw [htwelse z h3 h4]
        have htz := (hwf1 z hzH).2.1
        have htza : s.twin z ≠ a := by
          intro h
          exact hzy (by rw [← (hwf1 z hzH).2.2.1, h, htwa])
        have htzb : s.twin z ≠ b := by
          intro h
          exact hzx (by rw [← (hwf1 z hzH).2.2.1, h, htwb])
        rw [htwelse _ htza htzb]
        exact (hwf1 z hzH).2.2.1
    · by_cases h3 : z = a
      · rw [h3, htwa']
        exact Ne.symm hab
      by_cases h4 : z = b
      · rw [h4, htwb']
        exact hab
      · rw [htwelse z h3 h4]
        exact (hwf1 z hzH).2.2.2
  · -- injectivity
    intro z hz w hw heq
    rw [hsucc'] at heq
    exact hm2.2 z (by rw [← hH']; exact hz) w (by rw [← hH']; exact hw) heq
  · -- distinct identifiers
    show ((s'.faces).map Face.id).Nodup
    rw [hfaces', List.map_map, List.map_map, List.map_map, List.map_map]
    have he : ((((Face.id ∘ repointIf (rfOf s y) y b) ∘ repointIf (rfOf s a) x a)
        ∘ bumpSizeIf (rfOf s y) (-1)) ∘ bumpSizeIf (rfOf s a) (-1)) = Face.id := by
      funext f
      show (repointIf (rfOf s y) y b (repointIf (rfOf s a) x a
        (bumpSizeIf (rfOf s y) (-1) (bumpSizeIf (rfOf s a) (-1) f)))).id = f.id
      exact hUid f
    rw [he]
    exact hndids
  · -- identifiers below the counter
    intro f' hf'
    obtain ⟨f, hf, rfl⟩ := hupd f' hf'
    rw [hUid]
    exact hidlt f hf
  · -- the per-face invariant
    intro f' hf'
    obtain ⟨f, hf, rfl⟩ := hupd f' hf'
    exact (hMAIN f hf).1
  · -- coverage
    intro h hh
    obtain ⟨hhH, hhx, hhy⟩ := (hmemH' h).mp hh
    obtain ⟨f, hf, hcyc, _, _⟩ := face_of_mem s hInv hhH
    exact ⟨_, hupd' f hf, (hMAIN f hf).2 h |>.mpr ⟨hcyc, hhx, hhy⟩⟩

/-! ### Invariant preservation: `contract` -/

theorem inv_contract (s : EmbState) (a b : Nat) (hInv : Inv s)
    (ha : a ∈ s.H) (hb : b ∈ s.H) (htw : s.twin a = b)
    (hsaa : s.succ a ≠ a) (hsbb : s.succ b ≠ b)
    (hnboth : ¬(s.succ a = b ∧ s.succ b = a)) :
    Inv (contract s a b) := by
  obtain ⟨⟨hwf1, hwf2⟩, hndids, hidlt, hface, hcover⟩ := id hInv
  have hba : b ≠ a := htw ▸ (hwf1 a ha).2.2.2
  obtain ⟨F1, hF1, haC1, hrfa, hrfa'⟩ := face_of_mem s hInv ha
  obtain ⟨F2, hF2, hbC2, hrfb, hrfb'⟩ := face_of_mem s hInv hb
  have hsubC : ∀ f ∈ s.faces, ∀ z ∈ cycleOfFace s f, z ∈ s.H :=
    fun f hf z hz => ((hface f hf).2.2.1 z hz).1
  have hrfC : ∀ f ∈ s.faces, ∀ z ∈ cycleOfFace s f, s.rightFace z = some f.id :=
    fun f hf z hz => ((hface f hf).2.2.1 z hz).2
  set va := (if s.succ a ≠ b then s.succ a else s.succ b) with hvadef
  set vb := (if s.succ b ≠ a then s.succ b else s.succ a) with hvbdef
  set s' := contract s a b with hs'def
  have hsucc' : s'.succ = delHalf (delHalf s.succ a) b := rfl
  have hH' : s'.H = (s.H.erase a).erase b := rfl
  have hrf' : s'.rightFace = s.rightFace := rfl
  have hfaces' : s'.faces =
      (((s.faces.map (repointIf (rfOf s a) a va)).map (repointIf (rfOf s b) b vb)).map
        (bumpSizeIf (rfOf s a) (-1))).map (bumpSizeIf (rfOf s b) (-1)) := by
    show mapFace (mapFace (mapFace (mapFace s.faces (rfOf s a)
        (fun f => if f.first = a then { f with first := va } else f)) (rfOf s b)
        (fun f => if f.first = b then { f with first := vb } else f)) (rfOf s a)
        (fun f => { f with size := f.size - 1 })) (rfOf s b)
        (fun f => { f with size := f.size - 1 }) = _
    rw [mapFace_repoint, mapFace_repoint, mapFace_sub, mapFace_sub]
  have hmemH' : ∀ z, z ∈ s'.H ↔ (z ∈ s.H ∧ z ≠ a ∧ z ≠ b) := by
    intro z
    rw [hH']
    simp only [Finset.mem_erase]
    tauto
  have hupd : ∀ f' ∈ s'.faces, ∃ f ∈ s.faces, f' = bumpSizeIf (rfOf s b) (-1)
      (bumpSizeIf (rfOf s a) (-1)
        (repointIf (rfOf s b) b vb (repointIf (rfOf s a) a va f))) := by
    intro f' hf'
    rw [hfaces'] at hf'
    obtain ⟨g3, hg3, he3⟩ := List.mem_map.mp hf'
    obtain ⟨g2, hg2, he2⟩ := List.mem_map.mp hg3
    obtain ⟨g1, hg1, he1⟩ := List.mem_map.mp hg2
    obtain ⟨g0, hg0, he0⟩ := List.mem_map.mp hg1
    exact ⟨g0, hg0, by rw [← he3, ← he2, ← he1, ← he0]⟩
  have hupd' : ∀ f ∈ s.faces, bumpSizeIf (rfOf s b) (-1)
      (bumpSizeIf (rfOf s a) (-1)
        (repointIf (rfOf s b) b vb (repointIf (rfOf s a) a va f))) ∈ s'.faces := by
    intro f hf
    rw [hfaces']
    exact List.mem_map_of_mem _ (List.mem_map_of_mem _
      (List.mem_map_of_mem _ (List.mem_map_of_mem _ hf)))
  have hUid : ∀ f : Face, (bumpSizeIf (rfOf s b) (-1)
      (bumpSizeIf (rfOf s a) (-1)
        (repointIf (rfOf s b) b vb (repointIf (rfOf s a) a va f)))).id = f.id := by
    intro f
    rw [bumpSizeIf_id, bumpSizeIf_id, repointIf_id, repointIf_id]
  have hMAIN : ∀ f ∈ s.faces,
      InvFace s' (bumpSizeIf (rfOf s b) (-1) (bumpSizeIf (rfOf s a) (-1)
        (repointIf (rfOf s b) b vb (repointIf (rfOf s a) a va f)))) ∧
      ∀ z, z ∈ cycleOfFace s' (bumpSizeIf (rfOf s b) (-1) (bumpSizeIf (rfOf s a) (-1)
          (repointIf (rfOf s b) b vb (repointIf (rfOf s a) a va f)))) ↔
        (z ∈ cycleOfFace s f ∧ z ≠ a ∧ z ≠ b) := by
    intro f hf
    have hcycf := (hface f hf).1
    have hlen := (hface f hf).2.2.2
    by_cases h1 : f.id = rfOf s a
    · have hfF1 : f = F1 := face_id_inj s hInv hf hF1 (by rw [h1, hrfa'])
      have haCf : a ∈ cycleOfFace s f := by rw [hfF1]; exact haC1
      have hstep1 := cycChain_delHalf hcycf haCf (cycChain_two_le hcycf haCf hsaa)
      by_cases h2 : f.id = rfOf s b
      · -- both halves lie on this face
        have hfF2 : f = F2 := face_id_inj s hInv hf hF2 (by rw [h2, hrfb'])
        have hbCf : b ∈ cycleOfFace s f := by rw [hfF2]; exact hbC2
        have hbCea : b ∈ (cycleOfFace s f).erase a :=
          (hstep1.2.1 b).mpr ⟨hbCf, hba⟩
        have htwo2 : delHalf s.succ a b ≠ b := by
          by_cases hsba : s.succ b = a
          · rw [delHalf_eq hsba]
            exact fun h => hnboth ⟨h, hsba⟩
          · rw [delHalf_ne hsba]
            exact hsbb
        have hstep2 := cycChain_delHalf hstep1.1 hbCea
          (cycChain_two_le hstep1.1 hbCea htwo2)
        have hchain' : CycChain s'.succ (((cycleOfFace s f).erase a).erase b) := by
          rw [hsucc']
          exact hstep2.1
        have hmemC' : ∀ z, z ∈ ((cycleOfFace s f).erase a).erase b ↔
            (z ∈ cycleOfFace s f ∧ z ≠ a ∧ z ≠ b) := by
          intro z
          rw [hstep2.2.1 z, hstep1.2.1 z]
          tauto
        have hvamem : va ∈ ((cycleOfFace s f).erase a).erase b := by
          rw [hvadef]
          by_cases hsab : s.succ a = b
          · rw [if_neg (not_not_intro hsab)]
            exact (hmemC' _).mpr ⟨hcycf.succ_mem hbCf,
              fun h => hnboth ⟨hsab, h⟩, hsbb⟩
          · rw [if_pos hsab]
            exact (hmemC' _).mpr ⟨hcycf.succ_mem haCf, hsaa, hsab⟩
        have hvbmem : vb ∈ ((cycleOfFace s f).erase a).erase b := by
          rw [hvbdef]
          by_cases hsba : s.succ b = a
          · rw [if_neg (not_not_intro hsba)]
            exact (hmemC' _).mpr ⟨hcycf.succ_mem haCf, hsaa,
              fun h => hnboth ⟨h, hsba⟩⟩
          · rw [if_pos hsba]
            exact (hmemC' _).mpr ⟨hcycf.succ_mem hbCf, hsba, hsbb⟩
        have hvab : va ≠ b := ((hmemC' va).mp hvamem).2.2
        have hszlen : ∀ g : Face, g.size = f.size + (-1) + (-1) →
            g.size = ((((cycleOfFace s f).erase a).erase b).length : Int) := by
          intro g hg
          have e1 := hstep1.2.2
          have e2 := hstep2.2.2
          rw [hg, hlen]
          push_cast
          omega
        have hmem' : ∀ z ∈ ((cycleOfFace s f).erase a).erase b,
            z ∈ s'.H ∧ s'.rightFace z = some f.id := by
          intro z hz
          obtain ⟨hzC, hza, hzb⟩ := (hmemC' z).mp hz
          refine ⟨(hmemH' z).mpr ⟨hsubC f hf z hzC, hza, hzb⟩, ?_⟩
          rw [hrf']
          exact hrfC f hf z hzC
        by_cases hfa : f.first = a
        · have hrew : bumpSizeIf (rfOf s b) (-1) (bumpSizeIf (rfOf s a) (-1)
              (repointIf (rfOf s b) b vb (repointIf (rfOf s a) a va f)))
              = { f with first := va, size := f.size + (-1) + (-1) } := by
            rw [repointIf_hit va (show (f : Face).id = rfOf s a from h1) hfa,
              repointIf_miss vb
                (show ({ f with first := va } : Face).id = rfOf s b from h2)
                (show ({ f with first := va } : Face).first ≠ b from hvab),
              bumpSizeIf_pos (-1)
                (show ({ f with first := va } : Face).id = rfOf s a from h1),
              bumpSizeIf_pos (-1)
                (show ({ f with first := va, size := f.size + (-1) } : Face).id
                  = rfOf s b from h2)]
          rw [hrew]
          have hbuild := invFace_build s'
            { f with first := va, size := f.size + (-1) + (-1) }
            (((cycleOfFace s f).erase a).erase b) hchain' hvamem hmem' (hszlen _ rfl)
          refine ⟨hbuild.1, fun z => ?_⟩
          rw [hbuild.2 z]
          exact hmemC' z
        · by_cases hfb : f.first = b
          · have hrew : bumpSizeIf (rfOf s b) (-1) (bumpSizeIf (rfOf s a) (-1)
                (repointIf (rfOf s b) b vb (repointIf (rfOf s a) a va f)))
                = { f with first := vb, size := f.size + (-1) + (-1) } := by
              rw [repointIf_miss va (show (f : Face).id = rfOf s a from h1) hfa,
                repointIf_hit vb (show (f : Face).id = rfOf s b from h2) hfb,
                bumpSizeIf_pos (-1)
                  (show ({ f with first := vb } : Face).id = rfOf s a from h1),
                bumpSizeIf_pos (-1)
                  (show ({ f with first := vb, size := f.size + (-1) } : Face).id
                    = rfOf s b from h2)]
            rw [hrew]
            have hbuild := invFace_build s'
              { f with first := vb, size := f.size + (-1) + (-1) }
              (((cycleOfFace s f).erase a).erase b) hchain' hvbmem hmem' (hszlen _ rfl)
            refine ⟨hbuild.1, fun z => ?_⟩
            rw [hbuild.2 z]
            exact hmemC' z
          · have hrew : bumpSizeIf (rfOf s b) (-1) (bumpSizeIf (rfOf s a) (-1)
                (repointIf (rfOf s b) b vb (repointIf (rfOf s a) a va f)))
                = { f with size := f.size + (-1) + (-1) } := by
              rw [repointIf_miss va (show (f : Face).id = rfOf s a from h1) hfa,
                repointIf_miss vb (show (f : Face).id = rfOf s b from h2) hfb,
                bumpSizeIf_pos (-1) (show (f : Face).id = rfOf s a from h1),
                bumpSizeIf_pos (-1)
                  (show ({ f with size := f.size + (-1) } : Face).id = rfOf s b from h2)]
            rw [hrew]
            have hbuild := invFace_build s'
              { f with size := f.size + (-1) + (-1) }
              (((cycleOfFace s f).erase a).erase b) hchain'
              ((hmemC' f.first).mpr ⟨first_mem_cycle s hInv hf, hfa, hfb⟩)
              hmem' (hszlen _ rfl)
            refine ⟨hbuild.1, fun z => ?_⟩
            rw [hbuild.2 z]
            exact hmemC' z
      · -- only the half `a` lies on this face
        have hbnotf : b ∉ cycleOfFace s f := by
          intro h
          exact h2 (by rw [inv_cycles_eq s hInv hf hF2 h hbC2, hrfb'])
        have hagree : ∀ z ∈ (cycleOfFace s f).erase a,
            delHalf (delHalf s.succ a) b z = delHalf s.succ a z := by
          intro z hz
          have hv := hstep1.1.succ_mem hz
          have hvb' : delHalf s.succ a z ≠ b := by
            intro h
            exact hbnotf ((hstep1.2.1 _).mp (h ▸ hv)).1
          exact delHalf_ne hvb'
        have hchain' : CycChain s'.succ ((cycleOfFace s f).erase a) := by
          rw [hsucc']
          exact cycChain_congr hstep1.1 hagree
        have hmemC' : ∀ z, z ∈ (cycleOfFace s f).erase a ↔
            (z ∈ cycleOfFace s f ∧ z ≠ a ∧ z ≠ b) := by
          intro z
          rw [hstep1.2.1 z]
          constructor
          · rintro ⟨h, hza⟩
            exact ⟨h, hza, fun hzb => hbnotf (hzb ▸ h)⟩
          · rintro ⟨h, hza, _⟩
            exact ⟨h, hza⟩
        have hsab : s.succ a ≠ b := fun h => hbnotf (h ▸ hcycf.succ_mem haCf)
        have hvaval : va = s.succ a := by
          rw [hvadef, if_pos hsab]
        have hvamem : va ∈ (cycleOfFace s f).erase a := by
          rw [hvaval]
          exact (hmemC' _).mpr ⟨hcycf.succ_mem haCf, hsaa, hsab⟩
        have hvab : va ≠ b := ((hmemC' va).mp hvamem).2.2
        have hszlen : ∀ g : Face, g.size = f.size + (-1) →
            g.size = (((cycleOfFace s f).erase a).length : Int) := by
          intro g hg
          have e1 := hstep1.2.2
          rw [hg, hlen]
          push_cast
          omega
        have hmem' : ∀ z ∈ (cycleOfFace s f).erase a,
            z ∈ s'.H ∧ s'.rightFace z = some f.id := by
          intro z hz
          obtain ⟨hzC, hza, hzb⟩ := (hmemC' z).mp hz
          refine ⟨(hmemH' z).mpr ⟨hsubC f hf z hzC, hza, hzb⟩, ?_⟩
          rw [hrf']
          exact hrfC f hf z hzC
        by_cases hfa : f.first = a
        · have hrew : bumpSizeIf (rfOf s b) (-1) (bumpSizeIf (rfOf s a) (-1)
              (repointIf (rfOf s b) b vb (repointIf (rfOf s a) a va f)))
              = { f with first := va, size := f.size + (-1) } := by
            rw [repointIf_hit va (show (f : Face).id = rfOf s a from h1) hfa,
              repointIf_neg b vb
                (show ({ f with first := va } : Face).id ≠ rfOf s b from h2),
              bumpSizeIf_pos (-1)
                (show ({ f with first := va } : Face).id = rfOf s a from h1),
              bumpSizeIf_neg (-1)
                (show ({ f with first := va, size := f.size + (-1) } : Face).id
                  ≠ rfOf s b from h2)]
          rw [hrew]
          have hbuild := invFace_build s'
            { f with first := va, size := f.size + (-1) }
            ((cycleOfFace s f).erase a) hchain' hvamem hmem' (hszlen _ rfl)
          refine ⟨hbuild.1, fun z => ?_⟩
          rw [hbuild.2 z]
          exact hmemC' z
        · have hrew : bumpSizeIf (rfOf s b) (-1) (bumpSizeIf (rfOf s a) (-1)
              (repointIf (rfOf s b) b vb (repointIf (rfOf s a) a va f)))
              = { f with size := f.size + (-1) } := by
            rw [repointIf_miss va (show (f : Face).id = rfOf s a from h1) hfa,
              repointIf_neg b vb (show (f : Face).id ≠ rfOf s b from h2),
              bumpSizeIf_pos (-1) (show (f : Face).id = rfOf s a from h1),
              bumpSizeIf_neg (-1)
                (show ({ f with size := f.size + (-1) } : Face).id ≠ rfOf s b from h2)]
          rw [hrew]
          have hbuild := invFace_build s'
            { f with size := f.size + (-1) }
            ((cycleOfFace s f).erase a) hchain'
            ((hmemC' f.first).mpr ⟨first_mem_cycle s hInv hf, hfa,
              fun h => hbnotf (h ▸ first_mem_cycle s hInv hf)⟩)
            hmem' (hszlen _ rfl)
          refine ⟨hbuild.1, fun z => ?_⟩
          rw [hbuild.2 z]
          exact hmemC' z
    · by_cases h2 : f.id = rfOf s b
      · -- only the half `b` lies on this face
        have hfF2 : f = F2 := face_id_inj s hInv hf hF2 (by rw [h2, hrfb'])
        have hbCf : b ∈ cycleOfFace s f := by rw [hfF2]; exact hbC2
        have hanotf : a ∉ cycleOfFace s f := by
          intro h
          exact h1 (by rw [inv_cycles_eq s hInv hf hF1 h haC1, hrfa'])
        have hagree0 : ∀ z ∈ cycleOfFace s f, delHalf s.succ a z = s.succ z := by
          intro z hz
          have hv := hcycf.succ_mem hz
          exact delHalf_ne (fun h => hanotf (h ▸ hv))
        have hchain0 : CycChain (delHalf s.succ a) (cycleOfFace s f) :=
          cycChain_congr hcycf hagree0
        have hsba : s.succ b ≠ a := fun h => hanotf (h ▸ hcycf.succ_mem hbCf)
        have hdb : delHalf s.succ a b = s.succ b := delHalf_ne hsba
        have hstep2 := cycChain_delHalf hchain0 hbCf
          (cycChain_two_le hchain0 hbCf (by rw [hdb]; exact hsbb))
        have hchain' : CycChain s'.succ ((cycleOfFace s f).erase b) := by
          rw [hsucc']
          exact hstep2.1
        have hmemC' : ∀ z, z ∈ (cycleOfFace s f).erase b ↔
            (z ∈ cycleOfFace s f ∧ z ≠ a ∧ z ≠ b) := by
          intro z
          rw [hstep2.2.1 z]
          constructor
          · rintro ⟨h, hzb⟩
            exact ⟨h, fun hza => hanotf (hza ▸ h), hzb⟩
          · rintro ⟨h, _, hzb⟩
            exact ⟨h, hzb⟩
        have hvbval : vb = s.succ b := by
          rw [hvbdef, if_pos hsba]
        have hvbmem : vb ∈ (cycleOfFace s f).erase b := by
          rw [hvbval]
          exact (hmemC' _).mpr ⟨hcycf.succ_mem hbCf, hsba, hsbb⟩
        have hszlen : ∀ g : Face, g.size = f.size + (-1) →
            g.size = (((cycleOfFace s f).erase b).length : Int) := by
          intro g hg
          have e2 := hstep2.2.2
          rw [hg, hlen]
          push_cast
          omega
        have hmem' : ∀ z ∈ (cycleOfFace s f).erase b,
            z ∈ s'.H ∧ s'.rightFace z = some f.id := by
          intro z hz
          obtain ⟨hzC, hza, hzb⟩ := (hmemC' z).mp hz
          refine ⟨(hmemH' z).mpr ⟨hsubC f hf z hzC, hza, hzb⟩, ?_⟩
          rw [hrf']
          exact hrfC f hf z hzC
        by_cases hfb : f.first = b
        · have hrew : bumpSizeIf (rfOf s b) (-1) (bumpSizeIf (rfOf s a) (-1)
              (repointIf (rfOf s b) b vb (repointIf (rfOf s a) a va f)))
              = { f with first := vb, size := f.size + (-1) } := by
            rw [repointIf_neg a va (show (f : Face).id ≠ rfOf s a from h1),
              repointIf_hit vb (show (f : Face).id = rfOf s b from h2) hfb,
              bumpSizeIf_neg (-1)
                (show ({ f with first := vb } : Face).id ≠ rfOf s a from h1),
              bumpSizeIf_pos (-1)
                (show ({ f with first := vb } : Face).id = rfOf s b from h2)]
          rw [hrew]
          have hbuild := invFace_build s'
            { f with first := vb, size := f.size + (-1) }
            ((cycleOfFace s f).erase b) hchain' hvbmem hmem' (hszlen _ rfl)
          refine ⟨hbuild.1, fun z => ?_⟩
          rw [hbuild.2 z]
          exact hmemC' z
        · have hrew : bumpSizeIf (rfOf s b) (-1) (bumpSizeIf (rfOf s a) (-1)
              (repointIf (rfOf s b) b vb (repointIf (rfOf s a) a va f)))
              = { f with size := f.size + (-1) } := by
            rw [repointIf_neg a va (show (f : Face).id ≠ rfOf s a from h1),
              repointIf_miss vb (show (f : Face).id = rfOf s b from h2) hfb,
              bumpSizeIf_neg (-1) (show (f : Face).id ≠ rfOf s a from h1),
              bumpSizeIf_pos (-1) (show (f : Face).id = rfOf s b from h2)]
          rw [hrew]
          have hbuild := invFace_build s'
            { f with size := f.size + (-1) }
            ((cycleOfFace s f).erase b) hchain'
            ((hmemC' f.first).mpr ⟨first_mem_cycle s hInv hf,
              fun h => hanotf (h ▸ first_mem_cycle s hInv hf), hfb⟩)
            hmem' (hszlen _ rfl)
          refine ⟨hbuild.1, fun z => ?_⟩
          rw [hbuild.2 z]
          exact hmemC' z
      · -- an untouched face
        have hanotf : a ∉ cycleOfFace s f := by
          intro h
          exact h1 (by rw [inv_cycles_eq s hInv hf hF1 h haC1, hrfa'])
        have hbnotf : b ∉ cycleOfFace s f := by
          intro h
          exact h2 (by rw [inv_cycles_eq s hInv hf hF2 h hbC2, hrfb'])
        have hagree : ∀ z ∈ cycleOfFace s f,
            delHalf (delHalf s.succ a) b z = s.succ z := by
          intro z hz
          have hv := hcycf.succ_mem hz
          have h3 : delHalf s.succ a z = s.succ z :=
            delHalf_ne (fun h => hanotf (h ▸ hv))
          have h4 : delHalf s.succ a z ≠ b := by
            rw [h3]
            exact fun h => hbnotf (h ▸ hv)
          rw [delHalf_ne h4, h3]
        have hchain' : CycChain s'.succ (cycleOfFace s f) := by
          rw [hsucc']
          exact cycChain_congr hcycf hagree
        have hrew : bumpSizeIf (rfOf s b) (-1) (bumpSizeIf (rfOf s a) (-1)
            (repointIf (rfOf s b) b vb (repointIf (rfOf s a) a va f))) = f := by
          rw [repointIf_neg a va h1, repointIf_neg b vb h2,
            bumpSizeIf_neg (-1) h1, bumpSizeIf_neg (-1) h2]
        rw [hrew]
        have hbuild := invFace_build s' f (cycleOfFace s f) hchain'
          (first_mem_cycle s hInv hf)
          (by
            intro z hz
            refine ⟨(hmemH' z).mpr ⟨hsubC f hf z hz, fun h => hanotf (h ▸ hz),
              fun h => hbnotf (h ▸ hz)⟩, ?_⟩
            rw [hrf']
            exact hrfC f hf z hz)
          hlen
        refine ⟨hbuild.1, fun z => ?_⟩
        rw [hbuild.2 z]
        constructor
        · intro h
          exact ⟨h, fun h3 => hanotf (h3 ▸ h), fun h4 => hbnotf (h4 ▸ h)⟩
        · exact fun h => h.1
  have hm1 := delHalf_injOn (fun z hz => (hwf1 z hz).1) hwf2 ha
  have hm2 := delHalf_injOn hm1.1 hm1.2 (Finset.mem_erase.mpr ⟨hba, hb⟩)
  have htw' : s'.twin = s.twin := rfl
  refine ⟨⟨?_, ?_⟩, ?_, ?_, ?_, ?_⟩
  · -- membership and twin facts
    intro z hz
    obtain ⟨hzH, hza, hzb⟩ := (hmemH' z).mp hz
    have hsmem : s'.succ z ∈ s'.H := by
      rw [hH', hsucc']
      exact hm2.1 z (by rw [← hH']; exact hz)
    have htzb : s.twin z ≠ b := by
      intro h
      exact hza (by rw [← (hwf1 z hzH).2.2.1, h, ← htw, (hwf1 a ha).2.2.1])
    have htza : s.twin z ≠ a := by
      intro h
      exact hzb (by rw [← (hwf1 z hzH).2.2.1, h, htw])
    refine ⟨hsmem, ?_, ?_, ?_⟩
    · rw [htw']
      exact (hmemH' _).mpr ⟨(hwf1 z hzH).2.1, htza, htzb⟩
    · rw [htw']
      exact (hwf1 z hzH).2.2.1
    · rw [htw']
      exact (hwf1 z hzH).2.2.2
  · -- injectivity
    intro z hz w hw heq
    rw [hsucc'] at heq
    exact hm2.2 z (by rw [← hH']; exact hz) w (by rw [← hH']; exact hw) heq
  · -- distinct identifiers
    show ((s'.faces).map Face.id).Nodup
    rw [hfaces', List.map_map, List.map_map, List.map_map, List.map_map]
    have he : ((((Face.id ∘ bumpSizeIf (rfOf s b) (-1)) ∘ bumpSizeIf (rfOf s a) (-1))
        ∘ repointIf (rfOf s b) b vb) ∘ repointIf (rfOf s a) a va) = Face.id := by
      funext f
      show (bumpSizeIf (rfOf s b) (-1) (bumpSizeIf (rfOf s a) (-1)
        (repointIf (rfOf s b) b vb (repointIf (rfOf s a) a va f)))).id = f.id
      exact hUid f
    rw [he]
    exact hndids
  · -- identifiers below the counter
    intro f' hf'
    obtain ⟨f, hf, rfl⟩ := hupd f' hf'
    rw [hUid]
    exact hidlt f hf
  · -- the per-face invariant
    intro f' hf'
    obtain ⟨f, hf, rfl⟩ := hupd f' hf'
    exact (hMAIN f hf).1
  · -- coverage
    intro h hh
    obtain ⟨hhH, hha, hhb⟩ := (hmemH' h).mp hh
    obtain ⟨f, hf, hcyc, _, _⟩ := face_of_mem s hInv hhH
    exact ⟨_, hupd' f hf, (hMAIN f hf).2 h |>.mpr ⟨hcyc, hha, hhb⟩⟩

/-! ### Invariant preservation: `removeDeg1` -/

theorem inv_removeDeg1 (s : EmbState) (adj : Nat) (hInv : Inv s)
    (hadj : adj ∈ s.H) (hst : s.succ (s.twin adj) = adj)
    (hnz : s.succ adj ≠ s.twin adj) :
    Inv (removeDeg1 s adj) := by
  obtain ⟨⟨hwf1, hwf2⟩, hndids, hidlt, hface, hcover⟩ := id hInv
  have htH : s.twin adj ∈ s.H := (hwf1 adj hadj).2.1
  have htadj : s.twin adj ≠ adj := (hwf1 adj hadj).2.2.2
  have htt : s.twin (s.twin adj) = adj := (hwf1 adj hadj).2.2.1
  obtain ⟨F1, hF1, hadjC1, hrfadj, hrfadj'⟩ := face_of_mem s hInv hadj
  have htC1 : s.twin adj ∈ cycleOfFace s F1 :=
    mem_cycle_of_succ_mem s hInv hF1 htH (by rw [hst]; exact hadjC1)
  have hsadja : s.succ adj ≠ adj := by
    intro h
    exact htadj (hwf2 _ htH adj hadj (by rw [hst, h]))
  have hsubC : ∀ f ∈ s.faces, ∀ z ∈ cycleOfFace s f, z ∈ s.H :=
    fun f hf z hz => ((hface f hf).2.2.1 z hz).1
  have hrfC : ∀ f ∈ s.faces, ∀ z ∈ cycleOfFace s f, s.rightFace z = some f.id :=
    fun f hf z hz => ((hface f hf).2.2.1 z hz).2
  set s' := removeDeg1 s adj with hs'def
  have hsucc' : s'.succ = delHalf (delHalf s.succ adj) (s.twin adj) := rfl
  have hH' : s'.H = (s.H.erase adj).erase (s.twin adj) := rfl
  have hrf' : s'.rightFace = s.rightFace := rfl
  have hfaces' : s'.faces =
      (s.faces.map (repoint2If (rfOf s adj) adj (s.twin adj) (s.succ adj))).map
        (bumpSizeIf (rfOf s adj) (-2)) := by
    show mapFace (mapFace s.faces (rfOf s adj)
        (fun g => if g.first = adj ∨ g.first = s.twin adj
          then { g with first := s.succ adj } else g)) (rfOf s adj)
        (fun g => { g with size := g.size - 2 }) = _
    rw [mapFace_repoint2, mapFace_subLen]
  have hmemH' : ∀ z, z ∈ s'.H ↔ (z ∈ s.H ∧ z ≠ adj ∧ z ≠ s.twin adj) := by
    intro z
    rw [hH']
    simp only [Finset.mem_erase]
    tauto
  have hupd : ∀ f' ∈ s'.faces, ∃ f ∈ s.faces, f' = bumpSizeIf (rfOf s adj) (-2)
      (repoint2If (rfOf s adj) adj (s.twin adj) (s.succ adj) f) := by
    intro f' hf'
    rw [hfaces'] at hf'
    obtain ⟨g1, hg1, he1⟩ := List.mem_map.mp hf'
    obtain ⟨g0, hg0, he0⟩ := List.mem_map.mp hg1
    exact ⟨g0, hg0, by rw [← he1, ← he0]⟩
  have hupd' : ∀ f ∈ s.faces, bumpSizeIf (rfOf s adj) (-2)
      (repoint2If (rfOf s adj) adj (s.twin adj) (s.succ adj) f) ∈ s'.faces := by
    intro f hf
    rw [hfaces']
    exact List.mem_map_of_mem _ (List.mem_map_of_mem _ hf)
  have hUid : ∀ f : Face, (bumpSizeIf (rfOf s adj) (-2)
      (repoint2If (rfOf s adj) adj (s.twin adj) (s.succ adj) f)).id = f.id := by
    intro f
    rw [bumpSizeIf_id, repoint2If_id]
  have hMAIN : ∀ f ∈ s.faces,
      InvFace s' (bumpSizeIf (rfOf s adj) (-2)
        (repoint2If (rfOf s adj) adj (s.twin adj) (s.succ adj) f)) ∧
      ∀ z, z ∈ cycleOfFace s' (bumpSizeIf (rfOf s adj) (-2)
          (repoint2If (rfOf s adj) adj (s.twin adj) (s.succ adj) f)) ↔
        (z ∈ cycleOfFace s f ∧ z ≠ adj ∧ z ≠ s.twin adj) := by
    intro f hf
    have hcycf := (hface f hf).1
    have hlen := (hface f hf).2.2.2
    by_cases h1 : f.id = rfOf s adj
    · have hfF1 : f = F1 := face_id_inj s hInv hf hF1 (by rw [h1, hrfadj'])
      have hadjCf : adj ∈ cycleOfFace s f := by rw [hfF1]; exact hadjC1
      have htCf : s.twin adj ∈ cycleOfFace s f := by rw [hfF1]; exact htC1
      have hstep1 := cycChain_delHalf hcycf hadjCf
        (cycChain_two_le hcycf htCf (by rw [hst]; exact Ne.symm htadj))
      have htCea : s.twin adj ∈ (cycleOfFace s f).erase adj :=
        (hstep1.2.1 _).mpr ⟨htCf, htadj⟩
      have htwo2 : delHalf s.succ adj (s.twin adj) ≠ s.twin adj := by
        rw [delHalf_eq hst]
        exact hnz
      have hstep2 := cycChain_delHalf hstep1.1 htCea
        (cycChain_two_le hstep1.1 htCea htwo2)
      have hchain' : CycChain s'.succ
          (((cycleOfFace s f).erase adj).erase (s.twin adj)) := by
        rw [hsucc']
        exact hstep2.1
      have hmemC' : ∀ z, z ∈ ((cycleOfFace s f).erase adj).erase (s.twin adj) ↔
          (z ∈ cycleOfFace s f ∧ z ≠ adj ∧ z ≠ s.twin adj) := by
        intro z
        rw [hstep2.2.1 z, hstep1.2.1 z]
        tauto
      have hsmem : s.succ adj ∈ ((cycleOfFace s f).erase adj).erase (s.twin adj) :=
        (hmemC' _).mpr ⟨hcycf.succ_mem hadjCf, hsadja, hnz⟩
      have hszlen : ∀ g : Face, g.size = f.size + (-2) →
          g.size = ((((cycleOfFace s f).erase adj).erase (s.twin adj)).length : Int) := by
        intro g hg
        have e1 := hstep1.2.2
        have e2 := hstep2.2.2
        rw [hg, hlen]
        push_cast
        omega
      have hmem' : ∀ z ∈ ((cycleOfFace s f).erase adj).erase (s.twin adj),
          z ∈ s'.H ∧ s'.rightFace z = some f.id := by
        intro z hz
        obtain ⟨hzC, hza, hzt⟩ := (hmemC' z).mp hz
        refine ⟨(hmemH' z).mpr ⟨hsubC f hf z hzC, hza, hzt⟩, ?_⟩
        rw [hrf']
        exact hrfC f hf z hzC
      by_cases hfa : f.first = adj ∨ f.first = s.twin adj
      · have hrew : bumpSizeIf (rfOf s adj) (-2)
            (repoint2If (rfOf s adj) adj (s.twin adj) (s.succ adj) f)
            = { f with first := s.succ adj, size := f.size + (-2) } := by
          rw [repoint2If_hit (s.succ adj) (show (f : Face).id = rfOf s adj from h1) hfa,
            bumpSizeIf_pos (-2)
              (show ({ f with first := s.succ adj } : Face).id = rfOf s adj from h1)]
        rw [hrew]
        have hbuild := invFace_build s'
          { f with first := s.succ adj, size := f.size + (-2) }
          (((cycleOfFace s f).erase adj).erase (s.twin adj)) hchain' hsmem
          hmem' (hszlen _ rfl)
        refine ⟨hbuild.1, fun z => ?_⟩
        rw [hbuild.2 z]
        exact hmemC' z
      · have hrew : bumpSizeIf (rfOf s adj) (-2)
            (repoint2If (rfOf s adj) adj (s.twin adj) (s.succ adj) f)
            = { f with size := f.size + (-2) } := by
          rw [repoint2If_miss (s.succ adj) (show (f : Face).id = rfOf s adj from h1) hfa,
            bumpSizeIf_pos (-2) (show (f : Face).id = rfOf s adj from h1)]
        rw [hrew]
        push_neg at hfa
        have hbuild := invFace_build s'
          { f with size := f.size + (-2) }
          (((cycleOfFace s f).erase adj).erase (s.twin adj)) hchain'
          ((hmemC' f.first).mpr ⟨first_mem_cycle s hInv hf, hfa.1, hfa.2⟩)
          hmem' (hszlen _ rfl)
        refine ⟨hbuild.1, fun z => ?_⟩
        rw [hbuild.2 z]
        exact hmemC' z
    · -- an untouched face
      have hanotf : adj ∉ cycleOfFace s f := by
        intro h
        exact h1 (by rw [inv_cycles_eq s hInv hf hF1 h hadjC1, hrfadj'])
      have htnotf : s.twin adj ∉ cycleOfFace s f := by
        intro h
        exact h1 (by rw [inv_cycles_eq s hInv hf hF1 h htC1, hrfadj'])
      have hagree : ∀ z ∈ cycleOfFace s f,
          delHalf (delHalf s.succ adj) (s.twin adj) z = s.succ z := by
        intro z hz
        have hv := hcycf.succ_mem hz
        have h3 : delHalf s.succ adj z = s.succ z :=
          delHalf_ne (fun h => hanotf (h ▸ hv))
        have h4 : delHalf s.succ adj z ≠ s.twin adj := by
          rw [h3]
          exact fun h => htnotf (h ▸ hv)
        rw [delHalf_ne h4, h3]
      have hchain' : CycChain s'.succ (cycleOfFace s f) := by
        rw [hsucc']
        exact cycChain_congr hcycf hagree
      have hrew : bumpSizeIf (rfOf s adj) (-2)
          (repoint2If (rfOf s adj) adj (s.twin adj) (s.succ adj) f) = f := by
        rw [repoint2If_neg adj (s.twin adj) (s.succ adj) h1, bumpSizeIf_neg (-2) h1]
      rw [hrew]
      have hbuild := invFace_build s' f (cycleOfFace s f) hchain'
        (first_mem_cycle s hInv hf)
        (by
          intro z hz
          refine ⟨(hmemH' z).mpr ⟨hsubC f hf z hz, fun h => hanotf (h ▸ hz),
            fun h => htnotf (h ▸ hz)⟩, ?_⟩
          rw [hrf']
          exact hrfC f hf z hz)
        hlen
      refine ⟨hbuild.1, fun z => ?_⟩
      rw [hbuild.2 z]
      constructor
      · intro h
        exact ⟨h, fun h3 => hanotf (h3 ▸ h), fun h4 => htnotf (h4 ▸ h)⟩
      · exact fun h => h.1
  have hm1 := delHalf_injOn (fun z hz => (hwf1 z hz).1) hwf2 hadj
  have hm2 := delHalf_injOn hm1.1 hm1.2 (Finset.mem_erase.mpr ⟨htadj, htH⟩)
  have htw' : s'.twin = s.twin := rfl
  refine ⟨⟨?_, ?_⟩, ?_, ?_, ?_, ?_⟩
  · -- membership and twin facts
    intro z hz
    obtain ⟨hzH, hza, hzt⟩ := (hmemH' z).mp hz
    have hsmem : s'.succ z ∈ s'.H := by
      rw [hH', hsucc']
      exact hm2.1 z (by rw [← hH']; exact hz)
    have htza : s.twin z ≠ adj := by
      intro h
      exact hzt (by rw [← (hwf1 z hzH).2.2.1, h])
    have htzt : s.twin z ≠ s.twin adj := by
      intro h
      exact hza (by rw [← (hwf1 z hzH).2.2.1, h, htt])
    refine ⟨hsmem, ?_, ?_, ?_⟩
    · rw [htw']
      exact (hmemH' _).mpr ⟨(hwf1 z hzH).2.1, htza, htzt⟩
    · rw [htw']
      exact (hwf1 z hzH).2.2.1
    · rw [htw']
      exact (hwf1 z hzH).2.2.2
  · -- injectivity
    intro z hz w hw heq
    rw [hsucc'] at heq
    exact hm2.2 z (by rw [← hH']; exact hz) w (by rw [← hH']; exact hw) heq
  · -- distinct identifiers
    show ((s'.faces).map Face.id).Nodup
    rw [hfaces', List.map_map, List.map_map]
    have he : ((Face.id ∘ bumpSizeIf (rfOf s adj) (-2))
        ∘ repoint2If (rfOf s adj) adj (s.twin adj) (s.succ adj)) = Face.id := by
      funext f
      show (bumpSizeIf (rfOf s adj) (-2)
        (repoint2If (rfOf s adj) adj (s.twin adj) (s.succ adj) f)).id = f.id
      exact hUid f
    rw [he]
    exact hndids
  · -- identifiers below the counter
    intro f' hf'
    obtain ⟨f, hf, rfl⟩ := hupd f' hf'
    rw [hUid]
    exact hidlt f hf
  · -- the per-face invariant
    intro f' hf'
    obtain ⟨f, hf, rfl⟩ := hupd f' hf'
    exact (hMAIN f hf).1
  · -- coverage
    intro h hh
    obtain ⟨hhH, hha, hht⟩ := (hmemH' h).mp hh
    obtain ⟨f, hf, hcyc, _, _⟩ := face_of_mem s hInv hhH
    exact ⟨_, hupd' f hf, (hMAIN f hf).2 h |>.mpr ⟨hcyc, hha, hht⟩⟩

/-! ### Invariant preservation: `joinFaces` -/

/-- Invariant preservation for `joinFaces`, stated over the surviving face
record `Fs` and the discarded record `Fd` (resolved from the size
comparison by the caller). -/
theorem inv_joinFaces_aux (s : EmbState) (a b : Nat) (Fs Fd : Face) (hInv : Inv s)
    (ha : a ∈ s.H) (hb : b ∈ s.H) (htw : s.twin a = b)
    (hFs : Fs ∈ s.faces) (hFd : Fd ∈ s.faces) (hsdne : Fs.id ≠ Fd.id)
    (hf1 : (if sizeOfId s (rfOf s b) > sizeOfId s (rfOf s a)
      then rfOf s b else rfOf s a) = Fs.id)
    (hf2 : (if sizeOfId s (rfOf s b) > sizeOfId s (rfOf s a)
      then rfOf s a else rfOf s b) = Fd.id)
    (hsize : Fd.size ≤ Fs.size)
    (hnboth : ¬(s.succ a = a ∧ s.succ b = b)) :
    Inv (joinFaces s a b) := by
  obtain ⟨⟨hwf1, hwf2⟩, hndids, hidlt, hface, hcover⟩ := id hInv
  have hba : b ≠ a := htw ▸ (hwf1 a ha).2.2.2
  have hFsFdne : Fs ≠ Fd := fun h => hsdne (h ▸ rfl)
  have hchS := (hface Fs hFs).1
  have hchD := (hface Fd hFd).1
  have hlenS := (hface Fs hFs).2.2.2
  have hlenD := (hface Fd hFd).2.2.2
  have hsubC : ∀ f ∈ s.faces, ∀ z ∈ cycleOfFace s f, z ∈ s.H :=
    fun f hf z hz => ((hface f hf).2.2.1 z hz).1
  have hrfC : ∀ f ∈ s.faces, ∀ z ∈ cycleOfFace s f, s.rightFace z = some f.id :=
    fun f hf z hz => ((hface f hf).2.2.1 z hz).2
  have hsdisj : ∀ z ∈ cycleOfFace s Fs, z ∉ cycleOfFace s Fd :=
    fun z hz hz2 => hFsFdne (inv_cycles_eq s hInv hFs hFd hz hz2)
  obtain ⟨FA, hFA, haCA, hrfa, hrfa'⟩ := face_of_mem s hInv ha
  obtain ⟨FB, hFB, hbCB, hrfb, hrfb'⟩ := face_of_mem s hInv hb
  have hor : (a ∈ cycleOfFace s Fs ∧ b ∈ cycleOfFace s Fd) ∨
      (b ∈ cycleOfFace s Fs ∧ a ∈ cycleOfFace s Fd) := by
    by_cases hcmp : sizeOfId s (rfOf s b) > sizeOfId s (rfOf s a)
    · rw [if_pos hcmp] at hf1 hf2
      have hBs : FB = Fs := face_id_inj s hInv hFB hFs (by rw [← hrfb', hf1])
      have hAd : FA = Fd := face_id_inj s hInv hFA hFd (by rw [← hrfa', hf2])
      exact Or.inr ⟨hBs ▸ hbCB, hAd ▸ haCA⟩
    · rw [if_neg hcmp] at hf1 hf2
      have hAs : FA = Fs := face_id_inj s hInv hFA hFs (by rw [← hrfa', hf1])
      have hBd : FB = Fd := face_id_inj s hInv hFB hFd (by rw [← hrfb', hf2])
      exact Or.inl ⟨hAs ▸ haCA, hBd ▸ hbCB⟩
  have hsab : s.succ a ≠ b := by
    rcases hor with ⟨haCs, hbCd⟩ | ⟨hbCs, haCd⟩
    · exact fun h => hsdisj b (h ▸ hchS.succ_mem haCs) hbCd
    · exact fun h => hsdisj b hbCs (h ▸ hchD.succ_mem haCd)
  have hsba : s.succ b ≠ a := by
    rcases hor with ⟨haCs, hbCd⟩ | ⟨hbCs, haCd⟩
    · exact fun h => hsdisj a haCs (h ▸ hchD.succ_mem hbCd)
    · exact fun h => hsdisj a (h ▸ hchS.succ_mem hbCs) haCd
  set s' := joinFaces s a b with hs'def
  have hsucc' : s'.succ = delEdgeSucc s.succ a b := rfl
  have hH' : s'.H = (s.H.erase a).erase b := rfl
  have htw' : s'.twin = s.twin := rfl
  have hcount' : s'.faceIdCount = s.faceIdCount := rfl
  have hrfval : ∀ h, s'.rightFace h =
      (if h ∈ cycleOfFace s Fd then some Fs.id else s.rightFace h) := by
    intro h
    show (if h ∈ walkList s.succ
        (firstOfId s (if sizeOfId s (rfOf s b) > sizeOfId s (rfOf s a)
          then rfOf s a else rfOf s b))
        (firstOfId s (if sizeOfId s (rfOf s b) > sizeOfId s (rfOf s a)
          then rfOf s a else rfOf s b)) s.H.card
      then some (if sizeOfId s (rfOf s b) > sizeOfId s (rfOf s a)
        then rfOf s b else rfOf s a)
      else s.rightFace h) = _
    rw [hf1, hf2, firstOfId_eq s hndids hFd]
    rfl
  have hfaces' : s'.faces =
      ((s.faces.map (bumpSizeIf Fs.id (Fd.size - 2))).map
        (repointSuccIf s.succ Fs.id a b)).filter (fun f => f.id ≠ Fd.id) := by
    show (mapFace (mapFace s.faces
        (if sizeOfId s (rfOf s b) > sizeOfId s (rfOf s a) then rfOf s b else rfOf s a)
        (fun f => { f with size := (f.size +
          sizeOfId s (if sizeOfId s (rfOf s b) > sizeOfId s (rfOf s a)
            then rfOf s a else rfOf s b) - 2 : Int) }))
        (if sizeOfId s (rfOf s b) > sizeOfId s (rfOf s a) then rfOf s b else rfOf s a)
        (fun f => if f.first = a ∨ f.first = b
          then { f with first := s.succ f.first } else f)).filter
        (fun f => f.id ≠ (if sizeOfId s (rfOf s b) > sizeOfId s (rfOf s a)
          then rfOf s a else rfOf s b)) = _
    rw [mapFace_addSub, mapFace_repointSucc]
    simp only [hf1, hf2, sizeOfId_eq s hndids hFd]
  have hmemH' : ∀ z, z ∈ s'.H ↔ (z ∈ s.H ∧ z ≠ a ∧ z ≠ b) := by
    intro z
    rw [hH']
    simp only [Finset.mem_erase]
    tauto
  have hVid : ∀ f : Face,
      (repointSuccIf s.succ Fs.id a b (bumpSizeIf Fs.id (Fd.size - 2) f)).id = f.id := by
    intro f
    rw [repointSuccIf_id, bumpSizeIf_id]
  have hupd : ∀ f' ∈ s'.faces, ∃ f ∈ s.faces, f.id ≠ Fd.id ∧
      f' = repointSuccIf s.succ Fs.id a b (bumpSizeIf Fs.id (Fd.size - 2) f) := by
    intro f' hf'
    rw [hfaces'] at hf'
    obtain ⟨hf'm, hf'ne⟩ := List.mem_filter.mp hf'
    obtain ⟨g1, hg1, he1⟩ := List.mem_map.mp hf'm
    obtain ⟨g0, hg0, he0⟩ := List.mem_map.mp hg1
    refine ⟨g0, hg0, ?_, by rw [← he1, ← he0]⟩
    have hid : f'.id = g0.id := by rw [← he1, ← he0, hVid]
    intro h
    rw [decide_eq_true_eq] at hf'ne
    exact hf'ne (by rw [hid, h])
  have hupd' : ∀ f ∈ s.faces, f.id ≠ Fd.id →
      repointSuccIf s.succ Fs.id a b (bumpSizeIf Fs.id (Fd.size - 2) f) ∈ s'.faces := by
    intro f hf hfne
    rw [hfaces']
    refine List.mem_filter.mpr ⟨List.mem_map_of_mem _ (List.mem_map_of_mem _ hf), ?_⟩
    rw [decide_eq_true_eq, hVid]
    exact hfne
  have hM : ∃ M, CycChain (delEdgeSucc s.succ a b) M ∧
      (∀ z, z ∈ M ↔ ((z ∈ cycleOfFace s Fs ∨ z ∈ cycleOfFace s Fd) ∧ z ≠ a ∧ z ≠ b)) ∧
      ((M.length : Int) + 2 = (cycleOfFace s Fs).length + (cycleOfFace s Fd).length) := by
    have hlenpos : 0 < (cycleOfFace s Fd).length := List.length_pos.mpr hchD.1
    by_cases hsaa : s.succ a = a
    · by_cases hsbb : s.succ b = b
      · exact absurd ⟨hsaa, hsbb⟩ hnboth
      · rcases hor with ⟨haCs, hbCd⟩ | ⟨hbCs, haCd⟩
        · exfalso
          have hCs1 : cycleOfFace s Fs = [a] := cycChain_singleton hchS haCs hsaa
          have hlen1 : (cycleOfFace s Fs).length = 1 := by rw [hCs1]; rfl
          have h2 : ((cycleOfFace s Fd).length : Int) ≤ (cycleOfFace s Fs).length := by
            rw [← hlenS, ← hlenD]
            exact hsize
          have hd1 : (cycleOfFace s Fd).length = 1 := by omega
          exact hsbb (cycChain_len_one hchD hbCd hd1)
        · have hCd1 : cycleOfFace s Fd = [a] := cycChain_singleton hchD haCd hsaa
          have h2le : 2 ≤ (cycleOfFace s Fs).length := cycChain_two_le hchS hbCs hsbb
          have hdel := cycChain_delEdge_singL hchS hbCs hsaa
            (fun h => hsdisj a h haCd) h2le
          refine ⟨(cycleOfFace s Fs).erase b, hdel.1, ?_, ?_⟩
          · intro z
            rw [hdel.2.1 z]
            constructor
            · rintro ⟨hz, hzb⟩
              refine ⟨Or.inl hz, ?_, hzb⟩
              intro h
              apply hsdisj z hz
              rw [hCd1, h]
              exact List.mem_cons_self a []
            · rintro ⟨hz | hz, hza, hzb⟩
              · exact ⟨hz, hzb⟩
              · rw [hCd1] at hz
                exact absurd (by simpa using hz) hza
          · have he := hdel.2.2
            rw [hCd1]
            simp only [List.length_cons, List.length_nil]
            push_cast
            omega
    · by_cases hsbb : s.succ b = b
      · rcases hor with ⟨haCs, hbCd⟩ | ⟨hbCs, haCd⟩
        · have hCd1 : cycleOfFace s Fd = [b] := cycChain_singleton hchD hbCd hsbb
          have h2le : 2 ≤ (cycleOfFace s Fs).length := cycChain_two_le hchS haCs hsaa
          have hdel := cycChain_delEdge_singR hchS haCs hsbb
            (fun h => hsdisj b h hbCd) h2le
          refine ⟨(cycleOfFace s Fs).erase a, hdel.1, ?_, ?_⟩
          · intro z
            rw [hdel.2.1 z]
            constructor
            · rintro ⟨hz, hza⟩
              refine ⟨Or.inl hz, hza, ?_⟩
              intro h
              apply hsdisj z hz
              rw [hCd1, h]
              exact List.mem_cons_self b []
            · rintro ⟨hz | hz, hza, hzb⟩
              · exact ⟨hz, hza⟩
              · rw [hCd1] at hz
                exact absurd (by simpa using hz) hzb
          · have he := hdel.2.2
            rw [hCd1]
            simp only [List.length_cons, List.length_nil]
            push_cast
            omega
        · exfalso
          have hCs1 : cycleOfFace s Fs = [b] := cycChain_singleton hchS hbCs hsbb
          have hlen1 : (cycleOfFace s Fs).length = 1 := by rw [hCs1]; rfl
          have h2 : ((cycleOfFace s Fd).length : Int) ≤ (cycleOfFace s Fs).length := by
            rw [← hlenS, ← hlenD]
            exact hsize
          have hd1 : (cycleOfFace s Fd).length = 1 := by omega
          exact hsaa (cycChain_len_one hchD haCd hd1)
      · rcases hor with ⟨haCs, hbCd⟩ | ⟨hbCs, haCd⟩
        · obtain ⟨P1, Q1, hd1, hrot1, hperm1⟩ := cycChain_rotate hchS haCs
          obtain ⟨P2, Q2, hd2, hrot2, hperm2⟩ := cycChain_rotate hchD hbCd
          have hR1ne : Q1 ++ P1 ≠ [] := by
            intro h
            rw [h] at hrot1
            exact hsaa hrot1.2.2.2
          have hR2ne : Q2 ++ P2 ≠ [] := by
            intro h
            rw [h] at hrot2
            exact hsbb hrot2.2.2.2
          have hdisj12 : ∀ z ∈ a :: (Q1 ++ P1), z ∉ b :: (Q2 ++ P2) := by
            intro z hz hz2
            exact hsdisj z (hperm1.mem_iff.mp hz) (hperm2.mem_iff.mp hz2)
          have hmerge := cycChain_delEdge hrot1 hrot2 hR1ne hR2ne hdisj12
          refine ⟨(Q1 ++ P1) ++ (Q2 ++ P2), hmerge.1, ?_, ?_⟩
          · intro z
            rw [hmerge.2.1 z, hperm1.mem_iff, hperm2.mem_iff]
          · have he := hmerge.2.2
            rw [hperm1.length_eq, hperm2.length_eq] at he
            push_cast
            omega
        · obtain ⟨P1, Q1, hd1, hrot1, hperm1⟩ := cycChain_rotate hchD haCd
          obtain ⟨P2, Q2, hd2, hrot2, hperm2⟩ := cycChain_rotate hchS hbCs
          have hR1ne : Q1 ++ P1 ≠ [] := by
            intro h
            rw [h] at hrot1
            exact hsaa hrot1.2.2.2
          have hR2ne : Q2 ++ P2 ≠ [] := by
            intro h
            rw [h] at hrot2
            exact hsbb hrot2.2.2.2
          have hdisj12 : ∀ z ∈ a :: (Q1 ++ P1), z ∉ b :: (Q2 ++ P2) := by
            intro z hz hz2
            exact hsdisj z (hperm2.mem_iff.mp hz2) (hperm1.mem_iff.mp hz)
          have hmerge := cycChain_delEdge hrot1 hrot2 hR1ne hR2ne hdisj12
          refine ⟨(Q1 ++ P1) ++ (Q2 ++ P2), hmerge.1, ?_, ?_⟩
          · intro z
            rw [hmerge.2.1 z, hperm1.mem_iff, hperm2.mem_iff]
            tauto
          · have he := hmerge.2.2
            rw [hperm1.length_eq, hperm2.length_eq] at he
            push_cast
            omega
  obtain ⟨M, hMchain, hMmem, hMlen⟩ := hM
  have hMchain' : CycChain s'.succ M := by
    rw [hsucc']
    exact hMchain
  have hMmemH : ∀ z ∈ M, z ∈ s'.H ∧ s'.rightFace z = some Fs.id := by
    intro z hz
    obtain ⟨hzc, hza, hzb⟩ := (hMmem z).mp hz
    have hzH : z ∈ s.H := by
      rcases hzc with hzc | hzc
      · exact hsubC Fs hFs z hzc
      · exact hsubC Fd hFd z hzc
    refine ⟨(hmemH' z).mpr ⟨hzH, hza, hzb⟩, ?_⟩
    rw [hrfval z]
    rcases hzc with hzc | hzc
    · rw [if_neg (hsdisj z hzc)]
      exact hrfC Fs hFs z hzc
    · rw [if_pos hzc]
  have hMAIN : ∀ f ∈ s.faces, f.id ≠ Fd.id →
      InvFace s' (repointSuccIf s.succ Fs.id a b (bumpSizeIf Fs.id (Fd.size - 2) f)) ∧
      ∀ z, z ∈ cycleOfFace s'
          (repointSuccIf s.succ Fs.id a b (bumpSizeIf Fs.id (Fd.size - 2) f)) ↔
        ((z ∈ cycleOfFace s f ∨ (f.id = Fs.id ∧ z ∈ cycleOfFace s Fd)) ∧
          z ≠ a ∧ z ≠ b) := by
    intro f hf hfne
    have hcycf := (hface f hf).1
    have hlen := (hface f hf).2.2.2
    by_cases h1 : f.id = Fs.id
    · have hfFs : f = Fs := face_id_inj s hInv hf hFs h1
      subst hfFs
      have hfirstS : f.first ∈ cycleOfFace s f := first_mem_cycle s hInv hf
      have hsz : ∀ g : Face, g.size = f.size + (Fd.size - 2) →
          g.size = (M.length : Int) := by
        intro g hg
        rw [hg, hlenS, hlenD]
        omega
      by_cases hfab : f.first = a ∨ f.first = b
      · -- the first entry lies on the deleted edge and is repointed
        have hsf : s.succ f.first ∈ cycleOfFace s f := hcycf.succ_mem hfirstS
        have hsfa : s.succ f.first ≠ a := by
          intro h
          rcases hfab with hfa | hfb
          · -- first = a and succ a = a: both cycles would be singletons
            rw [hfa] at h
            have hCs1 : cycleOfFace s f = [a] :=
              cycChain_singleton hcycf (hfa ▸ hfirstS) h
            have hlen1 : (cycleOfFace s f).length = 1 := by rw [hCs1]; rfl
            have h2 : ((cycleOfFace s Fd).length : Int) ≤ (cycleOfFace s f).length := by
              rw [← hlenS, ← hlenD]
              exact hsize
            have hlenpos : 0 < (cycleOfFace s Fd).length := List.length_pos.mpr hchD.1
            have hd1 : (cycleOfFace s Fd).length = 1 := by omega
            rcases hor with ⟨haCs, hbCd⟩ | ⟨hbCs, haCd⟩
            · exact hnboth ⟨h, cycChain_len_one hchD hbCd hd1⟩
            · exact hsdisj a (hfa ▸ hfirstS) haCd
          · -- first = b and succ b = a: `a` would lie on both cycles
            rw [hfb] at h
            rcases hor with ⟨haCs, hbCd⟩ | ⟨hbCs, haCd⟩
            · exact hsdisj b (hfb ▸ hfirstS) hbCd
            · exact hsdisj a (h ▸ hcycf.succ_mem (hfb ▸ hfirstS)) haCd
        have hsfb : s.succ f.first ≠ b := by
          intro h
          rcases hfab with hfa | hfb
          · rw [hfa] at h
            rcases hor with ⟨haCs, hbCd⟩ | ⟨hbCs, haCd⟩
            · exact hsdisj b (h ▸ hcycf.succ_mem (hfa ▸ hfirstS)) hbCd
            · exact hsdisj a (hfa ▸ hfirstS) haCd
          · rw [hfb] at h
            have hCs1 : cycleOfFace s f = [b] :=
              cycChain_singleton hcycf (hfb ▸ hfirstS) h
            have hlen1 : (cycleOfFace s f).length = 1 := by rw [hCs1]; rfl
            have h2 : ((cycleOfFace s Fd).length : Int) ≤ (cycleOfFace s f).length := by
              rw [← hlenS, ← hlenD]
              exact hsize
            have hlenpos : 0 < (cycleOfFace s Fd).length := List.length_pos.mpr hchD.1
            have hd1 : (cycleOfFace s Fd).length = 1 := by omega
            rcases hor with ⟨haCs, hbCd⟩ | ⟨hbCs, haCd⟩
            · exact hsdisj b (hfb ▸ hfirstS) hbCd
            · exact hnboth ⟨cycChain_len_one hchD haCd hd1, h⟩
        have hrew : repointSuccIf s.succ f.id a b (bumpSizeIf f.id (Fd.size - 2) f)
            = { f with size := f.size + (Fd.size - 2), first := s.succ f.first } := by
          rw [bumpSizeIf_pos (Fd.size - 2) rfl,
            repointSuccIf_hit s.succ
              (show ({ f with size := f.size + (Fd.size - 2) } : Face).id = f.id from rfl)
              (show ({ f with size := f.size + (Fd.size - 2) } : Face).first = a ∨
                ({ f with size := f.size + (Fd.size - 2) } : Face).first = b from hfab)]
        rw [hrew]
        have hbuild := invFace_build s'
          { f with size := f.size + (Fd.size - 2), first := s.succ f.first } M
          hMchain'
          ((hMmem _).mpr ⟨Or.inl hsf, hsfa, hsfb⟩)
          (fun z hz => by
            obtain ⟨hzH, hrf⟩ := hMmemH z hz
            exact ⟨hzH, by rw [hrf]⟩)
          (hsz _ rfl)
        refine ⟨hbuild.1, fun z => ?_⟩
        rw [hbuild.2 z, hMmem z]
        constructor
        · rintro ⟨hz | hz, hza, hzb⟩
          · exact ⟨Or.inl hz, hza, hzb⟩
          · exact ⟨Or.inr ⟨h1, hz⟩, hza, hzb⟩
        · rintro ⟨hz | ⟨_, hz⟩, hza, hzb⟩
          · exact ⟨Or.inl hz, hza, hzb⟩
          · exact ⟨Or.inr hz, hza, hzb⟩
      · have hfa : f.first ≠ a := fun h => hfab (Or.inl h)
        have hfb : f.first ≠ b := fun h => hfab (Or.inr h)
        have hrew : repointSuccIf s.succ f.id a b (bumpSizeIf f.id (Fd.size - 2) f)
            = { f with size := f.size + (Fd.size - 2) } := by
          rw [bumpSizeIf_pos (Fd.size - 2) rfl,
            repointSuccIf_miss s.succ
              (show ({ f with size := f.size + (Fd.size - 2) } : Face).id = f.id from rfl)
              (show ¬(({ f with size := f.size + (Fd.size - 2) } : Face).first = a ∨
                ({ f with size := f.size + (Fd.size - 2) } : Face).first = b) from hfab)]
        rw [hrew]
        have hbuild := invFace_build s'
          { f with size := f.size + (Fd.size - 2) } M
          hMchain'
          ((hMmem _).mpr ⟨Or.inl hfirstS, hfa, hfb⟩)
          (fun z hz => by
            obtain ⟨hzH, hrf⟩ := hMmemH z hz
            exact ⟨hzH, by rw [hrf]⟩)
          (hsz _ rfl)
        refine ⟨hbuild.1, fun z => ?_⟩
        rw [hbuild.2 z, hMmem z]
        constructor
        · rintro ⟨hz | hz, hza, hzb⟩
          · exact ⟨Or.inl hz, hza, hzb⟩
          · exact ⟨Or.inr ⟨h1, hz⟩, hza, hzb⟩
        · rintro ⟨hz | ⟨_, hz⟩, hza, hzb⟩
          · exact ⟨Or.inl hz, hza, hzb⟩
          · exact ⟨Or.inr hz, hza, hzb⟩
    · -- an untouched face
      have hanotf : a ∉ cycleOfFace s f := by
        intro h
        rcases hor with ⟨haCs, _⟩ | ⟨_, haCd⟩
        · exact h1 (congrArg Face.id (inv_cycles_eq s hInv hf hFs h haCs))
        · exact hfne (congrArg Face.id (inv_cycles_eq s hInv hf hFd h haCd))
      have hbnotf : b ∉ cycleOfFace s f := by
        intro h
        rcases hor with ⟨_, hbCd⟩ | ⟨hbCs, _⟩
        · exact hfne (congrArg Face.id (inv_cycles_eq s hInv hf hFd h hbCd))
        · exact h1 (congrArg Face.id (inv_cycles_eq s hInv hf hFs h hbCs))
      have hagree : ∀ z ∈ cycleOfFace s f, delEdgeSucc s.succ a b z = s.succ z := by
        intro z hz
        have hv := hcycf.succ_mem hz
        have h5 : s.succ z ≠ a := fun h => hanotf (h ▸ hv)
        have h6 : s.succ z ≠ b := fun h => hbnotf (h ▸ hv)
        show (if s.succ z = a then _ else if s.succ z = b then _ else s.succ z) = s.succ z
        rw [if_neg h5, if_neg h6]
      have hchain' : CycChain s'.succ (cycleOfFace s f) := by
        rw [hsucc']
        exact cycChain_congr hcycf hagree
      have hdnotf : ∀ z ∈ cycleOfFace s f, z ∉ cycleOfFace s Fd := by
        intro z hz hz2
        exact hfne (congrArg Face.id (inv_cycles_eq s hInv hf hFd hz hz2))
      have hrew : repointSuccIf s.succ Fs.id a b (bumpSizeIf Fs.id (Fd.size - 2) f)
          = f := by
        rw [bumpSizeIf_neg (Fd.size - 2) h1, repointSuccIf_neg s.succ a b h1]
      rw [hrew]
      have hbuild := invFace_build s' f (cycleOfFace s f) hchain'
        (first_mem_cycle s hInv hf)
        (by
          intro z hz
          refine ⟨(hmemH' z).mpr ⟨hsubC f hf z hz, fun h => hanotf (h ▸ hz),
            fun h => hbnotf (h ▸ hz)⟩, ?_⟩
          rw [hrfval z, if_neg (hdnotf z hz)]
          exact hrfC f hf z hz)
        hlen
      refine ⟨hbuild.1, fun z => ?_⟩
      rw [hbuild.2 z]
      constructor
      · intro h
        exact ⟨Or.inl h, fun h3 => hanotf (h3 ▸ h), fun h4 => hbnotf (h4 ▸ h)⟩
      · rintro ⟨hz | ⟨hid, _⟩, _, _⟩
        · exact hz
        · exact absurd hid h1
  have hm2 := delEdge_injOn (fun z hz => (hwf1 z hz).1) hwf2 ha hb
    (Ne.symm hba) hsab hsba
  refine ⟨⟨?_, ?_⟩, ?_, ?_, ?_, ?_⟩
  · -- membership and twin facts
    intro z hz
    obtain ⟨hzH, hza, hzb⟩ := (hmemH' z).mp hz
    have hsmem : s'.succ z ∈ s'.H := by
      rw [hH', hsucc']
      exact hm2.1 z (by rw [← hH']; exact hz)
    have htzb : s.twin z ≠ b := by
      intro h
      exact hza (by rw [← (hwf1 z hzH).2.2.1, h, ← htw, (hwf1 a ha).2.2.1])
    have htza : s.twin z ≠ a := by
      intro h
      exact hzb (by rw [← (hwf1 z hzH).2.2.1, h, htw])
    refine ⟨hsmem, ?_, ?_, ?_⟩
    · rw [htw']
      exact (hmemH' _).mpr ⟨(hwf1 z hzH).2.1, htza, htzb⟩
    · rw [htw']
      exact (hwf1 z hzH).2.2.1
    · rw [htw']
      exact (hwf1 z hzH).2.2.2
  · -- injectivity
    intro z hz w hw heq
    rw [hsucc'] at heq
    exact hm2.2 z (by rw [← hH']; exact hz) w (by rw [← hH']; exact hw) heq
  · -- distinct identifiers
    show ((s'.faces).map Face.id).Nodup
    rw [hfaces']
    refine List.Nodup.sublist (List.Sublist.map Face.id (List.filter_sublist _)) ?_
    rw [List.map_map, List.map_map]
    have he : ((Face.id ∘ repointSuccIf s.succ Fs.id a b)
        ∘ bumpSizeIf Fs.id (Fd.size - 2)) = Face.id := by
      funext f
      show (repointSuccIf s.succ Fs.id a b (bumpSizeIf Fs.id (Fd.size - 2) f)).id = f.id
      exact hVid f
    rw [he]
    exact hndids
  · -- identifiers below the counter
    intro f' hf'
    obtain ⟨f, hf, _, rfl⟩ := hupd f' hf'
    rw [hcount', hVid]
    exact hidlt f hf
  · -- the per-face invariant
    intro f' hf'
    obtain ⟨f, hf, hfne, rfl⟩ := hupd f' hf'
    exact (hMAIN f hf hfne).1
  · -- coverage
    intro h hh
    obtain ⟨hhH, hha, hhb⟩ := (hmemH' h).mp hh
    obtain ⟨f, hf, hcyc, _, hrfid⟩ := face_of_mem s hInv hhH
    by_cases hfd : f.id = Fd.id
    · have hfFd : f = Fd := face_id_inj s hInv hf hFd hfd
      refine ⟨_, hupd' Fs hFs hsdne, ?_⟩
      exact (hMAIN Fs hFs hsdne).2 h |>.mpr ⟨Or.inr ⟨rfl, hfFd ▸ hcyc⟩, hha, hhb⟩
    · refine ⟨_, hupd' f hf hfd, ?_⟩
      exact (hMAIN f hf hfd).2 h |>.mpr ⟨Or.inl hcyc, hha, hhb⟩

/-- `joinFaces` preserves the invariant whenever the two halves bound
different faces and the deleted edge is not a pair of singleton cycles. -/
theorem inv_joinFaces (s : EmbState) (a b : Nat) (hInv : Inv s)
    (ha : a ∈ s.H) (hb : b ∈ s.H) (htw : s.twin a = b)
    (hrfne : s.rightFace a ≠ s.rightFace b)
    (hnboth : ¬(s.succ a = a ∧ s.succ b = b)) :
    Inv (joinFaces s a b) := by
  obtain ⟨FA, hFA, haCA, hrfa, hrfa'⟩ := face_of_mem s hInv ha
  obtain ⟨FB, hFB, hbCB, hrfb, hrfb'⟩ := face_of_mem s hInv hb
  have hABne : FA.id ≠ FB.id := by
    intro h
    exact hrfne (by rw [hrfa, hrfb, h])
  by_cases hcmp : sizeOfId s (rfOf s b) > sizeOfId s (rfOf s a)
  · refine inv_joinFaces_aux s a b FB FA hInv ha hb htw hFB hFA (Ne.symm hABne)
      (by rw [if_pos hcmp, hrfb']) (by rw [if_pos hcmp, hrfa']) ?_ hnboth
    rw [hrfa', hrfb'] at hcmp
    rw [sizeOfId_eq s hInv.2.1 hFA, sizeOfId_eq s hInv.2.1 hFB] at hcmp
    exact le_of_lt hcmp
  · refine inv_joinFaces_aux s a b FA FB hInv ha hb htw hFA hFB hABne
      (by rw [if_neg hcmp, hrfa']) (by rw [if_neg hcmp, hrfb']) ?_ hnboth
    rw [hrfa', hrfb'] at hcmp
    rw [sizeOfId_eq s hInv.2.1 hFA, sizeOfId_eq s hInv.2.1 hFB] at hcmp
    exact le_of_not_lt hcmp

/-! ### Invariant preservation: `splitFace` (core, after the checks) -/

theorem splitFaceCore_aux (s : EmbState) (adjSrc adjTgt hS hT : Nat) (hInv : Inv s)
    (haS : adjSrc ∈ s.H) (haT : adjTgt ∈ s.H)
    (hrfeq : s.rightFace adjSrc = s.rightFace adjTgt) (hne : adjSrc ≠ adjTgt)
    (hSn : hS ∉ s.H) (hTn : hT ∉ s.H) (hST : hS ≠ hT) :
    Inv (splitFaceCore s adjSrc adjTgt hS hT) ∧
    ((splitFaceCore s adjSrc adjTgt hS hT).faceIdCount = s.faceIdCount + 1 ∧
    ∃ n : Nat,
      (⟨s.faceIdCount, adjSrc, (n : Int)⟩ : Face)
        ∈ (splitFaceCore s adjSrc adjTgt hS hT).faces ∧
      hT ∈ cycleOfFace (splitFaceCore s adjSrc adjTgt hS hT)
        (⟨s.faceIdCount, adjSrc, (n : Int)⟩ : Face) ∧
      (n : Int) = ((cycleOfFace (splitFaceCore s adjSrc adjTgt hS hT)
        (⟨s.faceIdCount, adjSrc, (n : Int)⟩ : Face)).length : Int) ∧
      (⟨rfOf s adjTgt, adjTgt,
          sizeOfId s (rfOf s adjTgt) + 2 - (n : Int)⟩ : Face)
        ∈ (splitFaceCore s adjSrc adjTgt hS hT).faces ∧
      hS ∈ cycleOfFace (splitFaceCore s adjSrc adjTgt hS hT)
        (⟨rfOf s adjTgt, adjTgt,
          sizeOfId s (rfOf s adjTgt) + 2 - (n : Int)⟩ : Face)) := by
  obtain ⟨⟨hwf1, hwf2⟩, hndids, hidlt, hface, hcover⟩ := id hInv
  have hsubC : ∀ f ∈ s.faces, ∀ z ∈ cycleOfFace s f, z ∈ s.H :=
    fun f hf z hz => ((hface f hf).2.2.1 z hz).1
  have hrfC : ∀ f ∈ s.faces, ∀ z ∈ cycleOfFace s f, s.rightFace z = some f.id :=
    fun f hf z hz => ((hface f hf).2.2.1 z hz).2
  obtain ⟨F1, hF1, haTC, hrfT, hrfT'⟩ := face_of_mem s hInv haT
  obtain ⟨FA, hFA, haSC, hrfS, hrfS'⟩ := face_of_mem s hInv haS
  have hFAF1 : FA = F1 := by
    apply face_id_inj s hInv hFA hF1
    have h := hrfS
    rw [hrfeq, hrfT] at h
    exact (Option.some_inj.mp h).symm
  have haSC1 : adjSrc ∈ cycleOfFace s F1 := hFAF1 ▸ haSC
  obtain ⟨P, Q, hdec, hrot, hperm⟩ :=
    cycChain_rotate (hface F1 hF1).1 haSC1
  have haTrot : adjTgt ∈ adjSrc :: (Q ++ P) := hperm.mem_iff.mpr haTC
  have haTQP : adjTgt ∈ Q ++ P := by
    rcases List.mem_cons.mp haTrot with h | h
    · exact absurd h.symm hne
    · exact h
  obtain ⟨R1, R2, hR⟩ := List.append_of_mem haTQP
  have hrot2 : CycChain s.succ (adjSrc :: (R1 ++ adjTgt :: R2)) := by
    rw [← hR]
    exact hrot
  have hperm2 : (adjSrc :: (R1 ++ adjTgt :: R2)).Perm (cycleOfFace s F1) := by
    rw [← hR]
    exact hperm
  have hmemrot : ∀ z ∈ adjSrc :: (R1 ++ adjTgt :: R2), z ∈ cycleOfFace s F1 :=
    fun z hz => hperm2.mem_iff.mp hz
  have hSnotrot : ∀ z ∈ adjSrc :: (R1 ++ adjTgt :: R2), z ≠ hS := by
    intro z hz h
    exact hSn (h ▸ hsubC F1 hF1 z (hmemrot z hz))
  have hTnotrot : ∀ z ∈ adjSrc :: (R1 ++ adjTgt :: R2), z ≠ hT := by
    intro z hz h
    exact hTn (h ▸ hsubC F1 hF1 z (hmemrot z hz))
  obtain ⟨hCnew, hCold⟩ := cycChain_newEdge_pair hrot2 hSnotrot hTnotrot hST
  have hmemSrcSeg : ∀ z ∈ adjSrc :: R1, z ∈ adjSrc :: (R1 ++ adjTgt :: R2) := by
    intro z hz
    rcases List.mem_cons.mp hz with rfl | h
    · exact List.mem_cons_self _ _
    · exact List.mem_cons_of_mem _ (List.mem_append_left _ h)
  have hmemTgtSeg : ∀ z ∈ adjTgt :: R2, z ∈ adjSrc :: (R1 ++ adjTgt :: R2) := by
    intro z hz
    rcases List.mem_cons.mp hz with rfl | h
    · exact List.mem_cons_of_mem _ (List.mem_append_right _ (List.mem_cons_self _ _))
    · exact List.mem_cons_of_mem _ (List.mem_append_right _ (List.mem_cons_of_mem _ h))
  have hndrot2 : ((adjSrc :: R1) ++ adjTgt :: R2).Nodup := by
    rw [List.cons_append]
    exact hrot2.2.1
  obtain ⟨hndSrcSeg, hndTgtSeg, hdisjST⟩ := List.nodup_append.mp hndrot2
  have hsplitNew : ∀ z, z ∈ adjSrc :: (R1 ++ [hT]) ↔ (z ∈ adjSrc :: R1 ∨ z = hT) := by
    intro z
    simp only [List.mem_cons, List.mem_append, List.mem_singleton]
    tauto
  have hsplitOld : ∀ z, z ∈ adjTgt :: (R2 ++ [hS]) ↔ (z ∈ adjTgt :: R2 ∨ z = hS) := by
    intro z
    simp only [List.mem_cons, List.mem_append, List.mem_singleton]
    tauto
  have hznew_neS : ∀ z ∈ adjSrc :: (R1 ++ [hT]), z ≠ hS := by
    intro z hz
    rcases (hsplitNew z).mp hz with h | rfl
    · exact hSnotrot z (hmemSrcSeg z h)
    · exact Ne.symm hST
  have hnotinNew : ∀ z ∈ adjTgt :: R2, z ∉ adjSrc :: (R1 ++ [hT]) := by
    intro z hz hzN
    rcases (hsplitNew z).mp hzN with h | rfl
    · exact hdisjST h hz
    · exact hTnotrot z (hmemTgtSeg z hz) rfl
  have hlenCf : (cycleOfFace s F1).length ≤ s.H.card := by
    have h1 : (cycleOfFace s F1).toFinset ⊆ s.H :=
      fun h hh => hsubC F1 hF1 h (List.mem_toFinset.mp hh)
    have h2 := Finset.card_le_card h1
    rwa [List.toFinset_card_of_nodup (hface F1 hF1).1.2.1] at h2
  have e1 : (cycleOfFace s F1).length = R1.length + R2.length + 2 := by
    have h := hperm2.length_eq
    simp only [List.length_cons, List.length_append] at h
    omega
  have hcard' : (insert hS (insert hT s.H)).card = s.H.card + 2 := by
    have h1 : hS ∉ insert hT s.H := by
      rw [Finset.mem_insert]
      push_neg
      exact ⟨hST, hSn⟩
    rw [Finset.card_insert_of_not_mem h1, Finset.card_insert_of_not_mem hTn]
  set s' := splitFaceCore s adjSrc adjTgt hS hT with hs'def
  set Cw := walkList (newEdgeSucc s.succ adjSrc adjTgt hS hT) adjSrc adjSrc
    (insert hS (insert hT s.H)).card with hCw
  have hCwalk : Cw = adjSrc :: (R1 ++ [hT]) := by
    rw [hCw]
    refine walkList_eq_of_chain _ adjSrc (R1 ++ [hT]) adjSrc _ ?_
      ((chainLinksB_iff_chain' _ _).mp hCnew.2.2.1) hCnew.2.2.2
      (fun h => (List.nodup_cons.mp hCnew.2.1).1 h)
    rw [hcard']
    simp only [List.length_append, List.length_cons, List.length_nil]
    omega
  have hsucc' : s'.succ = newEdgeSucc s.succ adjSrc adjTgt hS hT := rfl
  have hH' : s'.H = insert hS (insert hT s.H) := rfl
  have htwval : ∀ z, s'.twin z =
      (if z = hS then hT else if z = hT then hS else s.twin z) := fun _ => rfl
  have hrfval : ∀ z, s'.rightFace z =
      (if z = hS then some (rfOf s adjTgt) else if z ∈ Cw then some s.faceIdCount
        else s.rightFace z) := fun _ => rfl
  have hmmH : ∀ w ∈ s.H, w ∈ s'.H := by
    intro w hw
    rw [hH']
    exact Finset.mem_insert_of_mem (Finset.mem_insert_of_mem hw)
  have hSmem : hS ∈ s'.H := by
    rw [hH']
    exact Finset.mem_insert_self _ _
  have hTmem : hT ∈ s'.H := by
    rw [hH']
    exact Finset.mem_insert_of_mem (Finset.mem_insert_self _ _)
  have hrf_hS : s'.rightFace hS = some F1.id := by
    rw [hrfval, if_pos rfl, hrfT']
  have hrf_new : ∀ z ∈ adjSrc :: (R1 ++ [hT]), s'.rightFace z = some s.faceIdCount := by
    intro z hz
    have hmemCw : z ∈ Cw := by
      rw [hCwalk]
      exact hz
    rw [hrfval, if_neg (hznew_neS z hz), if_pos hmemCw]
  have hrf_old : ∀ z, z ≠ hS → z ∉ adjSrc :: (R1 ++ [hT]) →
      s'.rightFace z = s.rightFace z := by
    intro z h1 h2
    have hnotCw : z ∉ Cw := by
      rw [hCwalk]
      exact h2
    rw [hrfval, if_neg h1, if_neg hnotCw]
  have hs1faces : (createFaceElement s adjSrc).faces =
      s.faces ++ [(⟨s.faceIdCount, adjSrc, 0⟩ : Face)] := by
    unfold createFaceElement
    by_cases h : s.faceIdCount = s.tableSize <;> simp [h]
  have hidc' : s'.faceIdCount = s.faceIdCount + 1 := by
    show (createFaceElement s adjSrc).faceIdCount = s.faceIdCount + 1
    unfold createFaceElement
    by_cases h : s.faceIdCount = s.tableSize <;> simp [h]
  have hfaces0 : s'.faces = mapFace
      (mapFace (createFaceElement s adjSrc).faces s.faceIdCount
        (fun f => { f with size := (Cw.length : Int) }))
      (rfOf s adjTgt)
      (fun f => { f with first := adjTgt, size := f.size + 2 - (Cw.length : Int) }) := rfl
  have hfaces' : s'.faces =
      ((s.faces ++ [(⟨s.faceIdCount, adjSrc, 0⟩ : Face)]).map
        (setSizeIf s.faceIdCount (((adjSrc :: (R1 ++ [hT])).length : Nat) : Int))).map
      (setFirstAddIf (rfOf s adjTgt) adjTgt
        (2 - (((adjSrc :: (R1 ++ [hT])).length : Nat) : Int))) := by
    rw [hfaces0]
    simp only [hCwalk]
    rw [mapFace_setSize, mapFace_setFirstAdd, hs1faces]
  have hupd : ∀ f' ∈ s'.faces, ∃ f ∈ s.faces ++ [(⟨s.faceIdCount, adjSrc, 0⟩ : Face)],
      f' = setFirstAddIf (rfOf s adjTgt) adjTgt
        (2 - (((adjSrc :: (R1 ++ [hT])).length : Nat) : Int))
        (setSizeIf s.faceIdCount (((adjSrc :: (R1 ++ [hT])).length : Nat) : Int) f) := by
    intro f' hf'
    rw [hfaces'] at hf'
    obtain ⟨g, hg, hgf'⟩ := List.mem_map.mp hf'
    obtain ⟨f, hf, hfg⟩ := List.mem_map.mp hg
    exact ⟨f, hf, by rw [← hgf', ← hfg]⟩
  have hupd' : ∀ f ∈ s.faces ++ [(⟨s.faceIdCount, adjSrc, 0⟩ : Face)],
      setFirstAddIf (rfOf s adjTgt) adjTgt
        (2 - (((adjSrc :: (R1 ++ [hT])).length : Nat) : Int))
        (setSizeIf s.faceIdCount (((adjSrc :: (R1 ++ [hT])).length : Nat) : Int) f)
        ∈ s'.faces := by
    intro f hf
    rw [hfaces']
    exact List.mem_map_of_mem _ (List.mem_map_of_mem _ hf)
  have hUid : ∀ f : Face,
      (setFirstAddIf (rfOf s adjTgt) adjTgt
        (2 - (((adjSrc :: (R1 ++ [hT])).length : Nat) : Int))
        (setSizeIf s.faceIdCount (((adjSrc :: (R1 ++ [hT])).length : Nat) : Int) f)).id
        = f.id := by
    intro f
    rw [setFirstAddIf_id, setSizeIf_id]
  have hUF1 : setFirstAddIf (rfOf s adjTgt) adjTgt
      (2 - (((adjSrc :: (R1 ++ [hT])).length : Nat) : Int))
      (setSizeIf s.faceIdCount (((adjSrc :: (R1 ++ [hT])).length : Nat) : Int) F1)
      = (⟨F1.id, adjTgt,
          F1.size + (2 - (((adjSrc :: (R1 ++ [hT])).length : Nat) : Int))⟩ : Face) := by
    rw [setSizeIf_neg _ (Nat.ne_of_lt (hidlt F1 hF1)),
      setFirstAddIf_pos adjTgt _ hrfT'.symm]
  have hUnew : setFirstAddIf (rfOf s adjTgt) adjTgt
      (2 - (((adjSrc :: (R1 ++ [hT])).length : Nat) : Int))
      (setSizeIf s.faceIdCount (((adjSrc :: (R1 ++ [hT])).length : Nat) : Int)
        (⟨s.faceIdCount, adjSrc, 0⟩ : Face))
      = (⟨s.faceIdCount, adjSrc,
          (((adjSrc :: (R1 ++ [hT])).length : Nat) : Int)⟩ : Face) := by
    have hneq : s.faceIdCount ≠ rfOf s adjTgt := by
      rw [hrfT']
      have := hidlt F1 hF1
      omega
    simp [setSizeIf, setFirstAddIf, hneq]
  have hSURV : InvFace s' (⟨F1.id, adjTgt,
        F1.size + (2 - (((adjSrc :: (R1 ++ [hT])).length : Nat) : Int))⟩ : Face) ∧
      ∀ z, (z ∈ cycleOfFace s' (⟨F1.id, adjTgt,
        F1.size + (2 - (((adjSrc :: (R1 ++ [hT])).length : Nat) : Int))⟩ : Face) ↔
          z ∈ adjTgt :: (R2 ++ [hS])) := by
    refine invFace_build s' _ (adjTgt :: (R2 ++ [hS])) hCold
      (List.mem_cons_self _ _) ?_ ?_
    · intro z hz
      rcases (hsplitOld z).mp hz with h | rfl
      · have hzrot := hmemTgtSeg z h
        have hzCf := hmemrot z hzrot
        have hzH := hsubC F1 hF1 z hzCf
        refine ⟨hmmH z hzH, ?_⟩
        rw [hrf_old z (hSnotrot z hzrot) (hnotinNew z h), hrfC F1 hF1 z hzCf]
      · exact ⟨hSmem, hrf_hS⟩
    · show F1.size + (2 - (((adjSrc :: (R1 ++ [hT])).length : Nat) : Int)) =
        ((adjTgt :: (R2 ++ [hS])).length : Int)
      rw [(hface F1 hF1).2.2.2]
      simp only [List.length_cons, List.length_append, List.length_nil, e1]
      push_cast
      ring
  have hUNTOUCHED : ∀ f ∈ s.faces, f.id ≠ rfOf s adjTgt →
      InvFace s' f ∧ ∀ z, (z ∈ cycleOfFace s' f ↔ z ∈ cycleOfFace s f) := by
    intro f hf hfid
    have hcyc := (hface f hf).1
    have hdisjF1 : ∀ z ∈ cycleOfFace s f, z ∉ cycleOfFace s F1 := by
      intro z hzf hzF1
      apply hfid
      rw [show f = F1 from inv_cycles_eq s hInv hf hF1 hzf hzF1]
      exact hrfT'.symm
    have hagree : ∀ z ∈ cycleOfFace s f,
        newEdgeSucc s.succ adjSrc adjTgt hS hT z = s.succ z := by
      intro z hz
      have hzH := hsubC f hf z hz
      have h1 : z ≠ hS := fun h => hSn (h ▸ hzH)
      have h2 : z ≠ hT := fun h => hTn (h ▸ hzH)
      have hsz : s.succ z ∈ cycleOfFace s f := hcyc.succ_mem hz
      have h3 : s.succ z ≠ adjSrc := fun h => hdisjF1 _ hsz (h ▸ haSC1)
      have h4 : s.succ z ≠ adjTgt := fun h => hdisjF1 _ hsz (h ▸ haTC)
      show (if z = hS then adjTgt else if z = hT then adjSrc
        else if s.succ z = adjSrc then hS else if s.succ z = adjTgt then hT
        else s.succ z) = s.succ z
      rw [if_neg h1, if_neg h2, if_neg h3, if_neg h4]
    have hC' : CycChain s'.succ (cycleOfFace s f) := by
      rw [hsucc']
      exact cycChain_congr hcyc hagree
    refine invFace_build s' f (cycleOfFace s f) hC'
      (first_mem_cycle s hInv hf) ?_ (hface f hf).2.2.2
    intro z hz
    have hzH := hsubC f hf z hz
    have h1 : z ≠ hS := fun h => hSn (h ▸ hzH)
    have h2 : z ∉ adjSrc :: (R1 ++ [hT]) := by
      intro hzN
      rcases (hsplitNew z).mp hzN with h | rfl
      · exact hdisjF1 z hz (hmemrot z (hmemSrcSeg z h))
      · exact hTn hzH
    refine ⟨hmmH z hzH, ?_⟩
    rw [hrf_old z h1 h2, hrfC f hf z hz]
  have hNEWF : InvFace s' (⟨s.faceIdCount, adjSrc,
        (((adjSrc :: (R1 ++ [hT])).length : Nat) : Int)⟩ : Face) ∧
      ∀ z, (z ∈ cycleOfFace s' (⟨s.faceIdCount, adjSrc,
        (((adjSrc :: (R1 ++ [hT])).length : Nat) : Int)⟩ : Face) ↔
          z ∈ adjSrc :: (R1 ++ [hT])) := by
    refine invFace_build s' _ (adjSrc :: (R1 ++ [hT])) hCnew
      (List.mem_cons_self _ _) ?_ rfl
    intro z hz
    refine ⟨?_, hrf_new z hz⟩
    rcases (hsplitNew z).mp hz with h | rfl
    · exact hmmH z (hsubC F1 hF1 z (hmemrot z (hmemSrcSeg z h)))
    · exact hTmem
  obtain ⟨hmapN, hinjN⟩ := newEdge_injOn (fun z hz => (hwf1 z hz).1) hwf2
    haS haT hne hSn hTn hST
  have hszF1 : sizeOfId s (rfOf s adjTgt) = F1.size := by
    rw [hrfT']
    exact sizeOfId_eq s hndids hF1
  have hrec : (⟨F1.id, adjTgt,
      F1.size + (2 - (((adjSrc :: (R1 ++ [hT])).length : Nat) : Int))⟩ : Face)
      = (⟨rfOf s adjTgt, adjTgt, sizeOfId s (rfOf s adjTgt) + 2
          - (((adjSrc :: (R1 ++ [hT])).length : Nat) : Int)⟩ : Face) := by
    rw [hszF1, hrfT']
    have h3 : F1.size + (2 - (((adjSrc :: (R1 ++ [hT])).length : Nat) : Int))
        = F1.size + 2 - (((adjSrc :: (R1 ++ [hT])).length : Nat) : Int) := by ring
    rw [h3]
  refine ⟨⟨⟨?_, ?_⟩, ?_, ?_, ?_, ?_⟩, hidc', (adjSrc :: (R1 ++ [hT])).length,
    ?_, ?_, ?_, ?_, ?_⟩
  · -- graph well-formedness, pointwise clauses
    intro z hz
    rw [hH'] at hz
    refine ⟨?_, ?_, ?_, ?_⟩
    · rw [hsucc', hH']
      exact hmapN z hz
    · simp only [htwval]
      rcases Finset.mem_insert.mp hz with rfl | hz2
      · rw [if_pos rfl]
        exact hTmem
      rcases Finset.mem_insert.mp hz2 with rfl | hzH
      · rw [if_neg (Ne.symm hST), if_pos rfl]
        exact hSmem
      · have h1 : z ≠ hS := fun h => hSn (h ▸ hzH)
        have h2 : z ≠ hT := fun h => hTn (h ▸ hzH)
        rw [if_neg h1, if_neg h2]
        exact hmmH _ (hwf1 z hzH).2.1
    · simp only [htwval]
      rcases Finset.mem_insert.mp hz with rfl | hz2
      · rw [if_pos rfl, if_neg (Ne.symm hST), if_pos rfl]
      rcases Finset.mem_insert.mp hz2 with rfl | hzH
      · rw [if_neg (Ne.symm hST), if_pos rfl, if_pos rfl]
      · have h1 : z ≠ hS := fun h => hSn (h ▸ hzH)
        have h2 : z ≠ hT := fun h => hTn (h ▸ hzH)
        have htwH := (hwf1 z hzH).2.1
        have h3 : s.twin z ≠ hS := fun h => hSn (h ▸ htwH)
        have h4 : s.twin z ≠ hT := fun h => hTn (h ▸ htwH)
        rw [if_neg h1, if_neg h2, if_neg h3, if_neg h4]
        exact (hwf1 z hzH).2.2.1
    · simp only [htwval]
      rcases Finset.mem_insert.mp hz with rfl | hz2
      · rw [if_pos rfl]
        exact Ne.symm hST
      rcases Finset.mem_insert.mp hz2 with rfl | hzH
      · rw [if_neg (Ne.symm hST), if_pos rfl]
        exact hST
      · have h1 : z ≠ hS := fun h => hSn (h ▸ hzH)
        have h2 : z ≠ hT := fun h => hTn (h ▸ hzH)
        rw [if_neg h1, if_neg h2]
        exact (hwf1 z hzH).2.2.2
  · -- successor injectivity
    intro a ha b hb heq
    rw [hH'] at ha hb
    rw [hsucc'] at heq
    exact hinjN a ha b hb heq
  · -- face identifiers pairwise distinct
    have hcompid : ((Face.id ∘ setFirstAddIf (rfOf s adjTgt) adjTgt
        (2 - (((adjSrc :: (R1 ++ [hT])).length : Nat) : Int))) ∘
        setSizeIf s.faceIdCount (((adjSrc :: (R1 ++ [hT])).length : Nat) : Int))
        = Face.id := funext (fun f => hUid f)
    have hids : s'.faces.map Face.id = (s.faces.map Face.id) ++ [s.faceIdCount] := by
      rw [hfaces', List.map_map, List.map_map, hcompid, List.map_append]
      rfl
    rw [hids]
    refine List.nodup_append.mpr ⟨hndids, List.nodup_singleton _, ?_⟩
    intro z hz hz2
    have hzfid : z = s.faceIdCount := by simpa using hz2
    obtain ⟨g, hg, hgz⟩ := List.mem_map.mp hz
    have := hidlt g hg
    omega
  · -- face identifiers below the counter
    intro f' hf'
    obtain ⟨f, hfmem, rfl⟩ := hupd f' hf'
    rw [hUid f, hidc']
    rcases List.mem_append.mp hfmem with h | h
    · have := hidlt f h
      omega
    · have hfnew : f = (⟨s.faceIdCount, adjSrc, 0⟩ : Face) := by simpa using h
      rw [hfnew]
      show s.faceIdCount < s.faceIdCount + 1
      omega
  · -- every face satisfies the per-face invariant
    intro f' hf'
    obtain ⟨f, hfmem, rfl⟩ := hupd f' hf'
    rcases List.mem_append.mp hfmem with h | h
    · by_cases hfid : f.id = rfOf s adjTgt
      · have hfF1 : f = F1 := face_id_inj s hInv h hF1 (by rw [hfid, hrfT'])
        rw [hfF1, hUF1]
        exact hSURV.1
      · have hUf : setFirstAddIf (rfOf s adjTgt) adjTgt
            (2 - (((adjSrc :: (R1 ++ [hT])).length : Nat) : Int))
            (setSizeIf s.faceIdCount (((adjSrc :: (R1 ++ [hT])).length : Nat) : Int) f)
            = f := by
          rw [setSizeIf_neg _ (Nat.ne_of_lt (hidlt f h)), setFirstAddIf_neg _ _ hfid]
        rw [hUf]
        exact (hUNTOUCHED f h hfid).1
    · have hfnew : f = (⟨s.faceIdCount, adjSrc, 0⟩ : Face) := by simpa using h
      rw [hfnew, hUnew]
      exact hNEWF.1
  · -- coverage of every half-edge
    intro z hz
    rw [hH'] at hz
    rcases Finset.mem_insert.mp hz with hzS | hz2
    · -- the fresh half hS lies on the surviving face's cycle
      refine ⟨(⟨F1.id, adjTgt,
          F1.size + (2 - (((adjSrc :: (R1 ++ [hT])).length : Nat) : Int))⟩ : Face),
        ?_, ?_⟩
      · have h := hupd' F1 (List.mem_append_left _ hF1)
        rw [hUF1] at h
        exact h
      · rw [hzS]
        exact (hSURV.2 hS).mpr ((hsplitOld hS).mpr (Or.inr rfl))
    rcases Finset.mem_insert.mp hz2 with hzT | hzH
    · -- the fresh half hT lies on the new face's cycle
      refine ⟨(⟨s.faceIdCount, adjSrc,
          (((adjSrc :: (R1 ++ [hT])).length : Nat) : Int)⟩ : Face), ?_, ?_⟩
      · have h := hupd' (⟨s.faceIdCount, adjSrc, 0⟩ : Face)
          (List.mem_append_right _ (List.mem_cons_self _ _))
        rw [hUnew] at h
        exact h
      · rw [hzT]
        exact (hNEWF.2 hT).mpr ((hsplitNew hT).mpr (Or.inr rfl))
    · obtain ⟨g, hg, hzg⟩ := hcover z hzH
      by_cases hgid : g.id = rfOf s adjTgt
      · have hgF1 : g = F1 := face_id_inj s hInv hg hF1 (by rw [hgid, hrfT'])
        have hzrot : z ∈ adjSrc :: (R1 ++ adjTgt :: R2) :=
          hperm2.mem_iff.mpr (hgF1 ▸ hzg)
        have hzsplit : z ∈ adjSrc :: R1 ∨ z ∈ adjTgt :: R2 := by
          rcases List.mem_cons.mp hzrot with rfl | h
          · exact Or.inl (List.mem_cons_self _ _)
          rcases List.mem_append.mp h with h' | h'
          · exact Or.inl (List.mem_cons_of_mem _ h')
          · exact Or.inr h'
        rcases hzsplit with h | h
        · refine ⟨(⟨s.faceIdCount, adjSrc,
              (((adjSrc :: (R1 ++ [hT])).length : Nat) : Int)⟩ : Face), ?_, ?_⟩
          · have h2 := hupd' (⟨s.faceIdCount, adjSrc, 0⟩ : Face)
              (List.mem_append_right _ (List.mem_cons_self _ _))
            rw [hUnew] at h2
            exact h2
          · exact (hNEWF.2 z).mpr ((hsplitNew z).mpr (Or.inl h))
        · refine ⟨(⟨F1.id, adjTgt,
              F1.size + (2 - (((adjSrc :: (R1 ++ [hT])).length : Nat) : Int))⟩ : Face),
            ?_, ?_⟩
          · have h2 := hupd' F1 (List.mem_append_left _ hF1)
            rw [hUF1] at h2
            exact h2
          · exact (hSURV.2 z).mpr ((hsplitOld z).mpr (Or.inl h))
      · refine ⟨g, ?_, ?_⟩
        · have hUg : setFirstAddIf (rfOf s adjTgt) adjTgt
              (2 - (((adjSrc :: (R1 ++ [hT])).length : Nat) : Int))
              (setSizeIf s.faceIdCount
                (((adjSrc :: (R1 ++ [hT])).length : Nat) : Int) g) = g := by
            rw [setSizeIf_neg _ (Nat.ne_of_lt (hidlt g hg)), setFirstAddIf_neg _ _ hgid]
          have h2 := hupd' g (List.mem_append_left _ hg)
          rw [hUg] at h2
          exact h2
        · exact ((hUNTOUCHED g hg hgid).2 z).mpr hzg
  · -- the new face record is in the registry
    have h := hupd' (⟨s.faceIdCount, adjSrc, 0⟩ : Face)
      (List.mem_append_right _ (List.mem_cons_self _ _))
    rw [hUnew] at h
    exact h
  · -- the new edge's target half lies on the new face's cycle
    exact (hNEWF.2 hT).mpr ((hsplitNew hT).mpr (Or.inr rfl))
  · -- the new face's size counts its walked cycle
    exact hNEWF.1.2.2.2
  · -- the surviving face record is in the registry
    have h := hupd' F1 (List.mem_append_left _ hF1)
    rw [hUF1, hrec] at h
    exact h
  · -- the new edge's source half lies on the surviving face's cycle
    rw [← hrec]
    exact (hSURV.2 hS).mpr ((hsplitOld hS).mpr (Or.inr rfl))

theorem inv_splitFaceCore (s : EmbState) (adjSrc adjTgt hS hT : Nat) (hInv : Inv s)
    (haS : adjSrc ∈ s.H) (haT : adjTgt ∈ s.H)
    (hrfeq : s.rightFace adjSrc = s.rightFace adjTgt) (hne : adjSrc ≠ adjTgt)
    (hSn : hS ∉ s.H) (hTn : hT ∉ s.H) (hST : hS ≠ hT) :
    Inv (splitFaceCore s adjSrc adjTgt hS hT) :=
  (splitFaceCore_aux s adjSrc adjTgt hS hT hInv haS haT hrfeq hne hSn hTn hST).1

/-! ### Invariant preservation: `moveBridge` -/

theorem inv_moveBridge (s : EmbState) (aB aBef : Nat) (hInv : Inv s)
    (haB : aB ∈ s.H) (haBef : aBef ∈ s.H)
    (hrfsame : s.rightFace aB = s.rightFace (s.twin aB))
    (hrfdiff : s.rightFace aB ≠ s.rightFace aBef)
    (hnz : s.succ aB ≠ s.twin aB) :
    Inv (moveBridge s aB aBef) := by
  obtain ⟨⟨hwf1, hwf2⟩, hndids, hidlt, hface, hcover⟩ := id hInv
  have hsubC : ∀ f ∈ s.faces, ∀ z ∈ cycleOfFace s f, z ∈ s.H :=
    fun f hf z hz => ((hface f hf).2.2.1 z hz).1
  have hrfC : ∀ f ∈ s.faces, ∀ z ∈ cycleOfFace s f, s.rightFace z = some f.id :=
    fun f hf z hz => ((hface f hf).2.2.1 z hz).2
  have htBH : s.twin aB ∈ s.H := (hwf1 aB haB).2.1
  obtain ⟨FO, hFO, haBC, hrfaB, hrfaB'⟩ := face_of_mem s hInv haB
  obtain ⟨FT, hFT, htBC, hrftB, _⟩ := face_of_mem s hInv htBH
  have hFTFO : FT = FO := by
    apply face_id_inj s hInv hFT hFO
    have h := hrfsame
    rw [hrfaB, hrftB] at h
    exact (Option.some_inj.mp h).symm
  have htBC' : s.twin aB ∈ cycleOfFace s FO := hFTFO ▸ htBC
  obtain ⟨FN, hFN, haBefC, hrfBef, hrfBef'⟩ := face_of_mem s hInv haBef
  have hidON : FO.id ≠ FN.id := by
    intro h
    apply hrfdiff
    rw [hrfaB, hrfBef, h]
  have hdisjON : ∀ z ∈ cycleOfFace s FO, z ∉ cycleOfFace s FN := by
    intro z h1 h2
    exact hidON (congrArg Face.id (inv_cycles_eq s hInv hFO hFN h1 h2))
  obtain ⟨P, Q, hdec, hrot, hperm⟩ := cycChain_rotate (hface FO hFO).1 htBC'
  have haBrot : aB ∈ s.twin aB :: (Q ++ P) := hperm.mem_iff.mpr haBC
  have haBQP : aB ∈ Q ++ P := by
    rcases List.mem_cons.mp haBrot with h | h
    · exact absurd h.symm ((hwf1 aB haB).2.2.2)
    · exact h
  obtain ⟨R1, R2x, hR⟩ := List.append_of_mem haBQP
  have hrot2 : CycChain s.succ (s.twin aB :: (R1 ++ aB :: R2x)) := by
    rw [← hR]
    exact hrot
  have hperm2x : (s.twin aB :: (R1 ++ aB :: R2x)).Perm (cycleOfFace s FO) := by
    rw [← hR]
    exact hperm
  have hR2ne : R2x ≠ [] := by
    intro h
    subst h
    have hw := hrot2.2.2.2
    have hlast : (s.twin aB :: (R1 ++ [aB])).getLastD 0 = aB := by
      rw [show s.twin aB :: (R1 ++ [aB]) = (s.twin aB :: R1) ++ aB :: [] from by
        rw [List.cons_append]]
      rw [getLastD_append_cons]
      rfl
    rw [hlast] at hw
    exact hnz hw
  obtain ⟨r2, R2', hR2⟩ := List.exists_cons_of_ne_nil hR2ne
  subst hR2
  have hperm2 : (s.twin aB :: (R1 ++ aB :: r2 :: R2')).Perm (cycleOfFace s FO) := hperm2x
  have hrot3 : CycChain s.succ (s.twin aB :: (R1 ++ aB :: r2 :: R2')) := hrot2
  have hmemB : ∀ z ∈ s.twin aB :: (R1 ++ aB :: r2 :: R2'), z ∈ cycleOfFace s FO :=
    fun z hz => hperm2.mem_iff.mp hz
  have hchB := (chainLinksB_iff_chain' s.succ _).mp hrot3.2.2.1
  have hchB2 : List.Chain' (fun u v => s.succ u = v)
      ((s.twin aB :: R1) ++ aB :: r2 :: R2') := by
    rw [List.cons_append]
    exact hchB
  obtain ⟨hch1, hch2', hlink12⟩ := List.chain'_append.mp hchB2
  have hadjr2 : s.succ aB = r2 := (List.chain'_cons.mp hch2').1
  have hndB2 : ((s.twin aB :: R1) ++ aB :: r2 :: R2').Nodup := by
    rw [List.cons_append]
    exact hrot3.2.1
  obtain ⟨hndTR1, hndAR2, hdisjB⟩ := List.nodup_append.mp hndB2
  have haBnotr2 : aB ∉ r2 :: R2' := (List.nodup_cons.mp hndAR2).1
  have hr2R1 : r2 ∉ R1 := fun h =>
    hdisjB (List.mem_cons_of_mem _ h)
      (List.mem_cons_of_mem _ (List.mem_cons_self _ _))
  have hr2aB : r2 ≠ aB := fun h => haBnotr2 (h ▸ List.mem_cons_self _ _)
  have hsegsplit : ∀ z, z ∈ s.twin aB :: (R1 ++ [aB]) ↔
      (z ∈ s.twin aB :: R1 ∨ z = aB) := by
    intro z
    simp only [List.mem_cons, List.mem_append, List.mem_singleton]
    tauto
  have hBsplit : ∀ z, z ∈ s.twin aB :: (R1 ++ aB :: r2 :: R2') ↔
      (z ∈ s.twin aB :: (R1 ++ [aB]) ∨ z ∈ r2 :: R2') := by
    intro z
    simp only [List.mem_cons, List.mem_append, List.mem_singleton]
    tauto
  have hmemBseg : ∀ z ∈ s.twin aB :: (R1 ++ [aB]),
      z ∈ s.twin aB :: (R1 ++ aB :: r2 :: R2') :=
    fun z hz => (hBsplit z).mpr (Or.inl hz)
  have hmemBR2 : ∀ z ∈ r2 :: R2', z ∈ s.twin aB :: (R1 ++ aB :: r2 :: R2') :=
    fun z hz => (hBsplit z).mpr (Or.inr hz)
  have hnotinSeg : ∀ z ∈ r2 :: R2', z ∉ s.twin aB :: (R1 ++ [aB]) := by
    intro z hz hzS
    rcases (hsegsplit z).mp hzS with h | rfl
    · exact hdisjB h (List.mem_cons_of_mem _ hz)
    · exact haBnotr2 hz
  obtain ⟨PN, QN, hdecN, hrotN, hpermN⟩ := cycChain_rotate (hface FN hFN).1 haBefC
  have hdisjBT : ∀ z ∈ s.twin aB :: (R1 ++ aB :: r2 :: R2'), z ∉ aBef :: (QN ++ PN) := by
    intro z hz hzN
    exact hdisjON z (hmemB z hz) (hpermN.mem_iff.mp hzN)
  have hBefnotB : aBef ∉ s.twin aB :: (R1 ++ aB :: r2 :: R2') := by
    intro h
    exact hdisjBT aBef h (List.mem_cons_self _ _)
  have hCoold := cycChain_moveBridge_old hrot3 hBefnotB
  have hCN := cycChain_moveBridge_new hrot3 hrotN hdisjBT
  have hlenCO : (cycleOfFace s FO).length ≤ s.H.card := by
    have h1 : (cycleOfFace s FO).toFinset ⊆ s.H :=
      fun h hh => hsubC FO hFO h (List.mem_toFinset.mp hh)
    have h2 := Finset.card_le_card h1
    rwa [List.toFinset_card_of_nodup (hface FO hFO).1.2.1] at h2
  have e1 : (cycleOfFace s FO).length = R1.length + R2'.length + 3 := by
    have h := hperm2.length_eq
    simp only [List.length_cons, List.length_append] at h
    omega
  have e2 : (cycleOfFace s FN).length = (QN ++ PN).length + 1 := by
    have h := hpermN.length_eq
    simp only [List.length_cons] at h
    omega
  have hlastSeg : (s.twin aB :: (R1 ++ [aB])).getLastD 0 = aB := by
    rw [show s.twin aB :: (R1 ++ [aB]) = (s.twin aB :: R1) ++ aB :: [] from by
      rw [List.cons_append]]
    rw [getLastD_append_cons]
    rfl
  have hchSeg0 : List.Chain' (fun u v => s.succ u = v) ((s.twin aB :: R1) ++ [aB]) := by
    refine List.chain'_append.mpr ⟨hch1, List.chain'_singleton _, ?_⟩
    intro x hx y hy
    have hy' : aB = y := by simpa using hy
    rw [← hy']
    exact hlink12 x hx aB rfl
  have hchSeg : List.Chain' (fun u v => s.succ u = v) (s.twin aB :: (R1 ++ [aB])) := by
    rw [← List.cons_append]
    exact hchSeg0
  set s' := moveBridge s aB aBef with hs'def
  set Sw := walkUntil s.succ (s.succ aB) (s.twin aB) (s.H.card + 1) with hSw
  have hSwalk : Sw = s.twin aB :: (R1 ++ [aB]) := by
    rw [hSw]
    refine walkUntil_eq_of_chain s.succ (s.succ aB) (R1 ++ [aB]) (s.twin aB)
      (s.H.card + 1) ?_ hchSeg (by rw [hlastSeg]) (Ne.symm hnz) ?_
    · simp only [List.length_append, List.length_cons, List.length_nil]
      omega
    · rw [hadjr2]
      intro h
      rcases List.mem_append.mp h with h' | h'
      · exact hr2R1 h'
      · exact hr2aB (by simpa using h')
  have hsucc' : s'.succ = moveBridgeSucc s.succ aB (s.twin aB) aBef (s.succ aB) := rfl
  have hH' : s'.H = s.H := rfl
  have htw' : s'.twin = s.twin := rfl
  have hidc' : s'.faceIdCount = s.faceIdCount := rfl
  have hrfval : ∀ z, s'.rightFace z =
      (if z ∈ Sw then some (rfOf s aBef) else s.rightFace z) := fun _ => rfl
  have hrf_seg : ∀ z ∈ s.twin aB :: (R1 ++ [aB]), s'.rightFace z = some FN.id := by
    intro z hz
    have hmemSw : z ∈ Sw := by
      rw [hSwalk]
      exact hz
    rw [hrfval, if_pos hmemSw, hrfBef']
  have hrf_old : ∀ z, z ∉ s.twin aB :: (R1 ++ [aB]) →
      s'.rightFace z = s.rightFace z := by
    intro z h2
    have hnotSw : z ∉ Sw := by
      rw [hSwalk]
      exact h2
    rw [hrfval, if_neg hnotSw]
  have hfaces0 : s'.faces = mapFace (mapFace (mapFace s.faces (rfOf s aB)
      (fun f => if f.first ∈ Sw then { f with first := s.succ aB } else f))
      (rfOf s aB) (fun f => { f with size := f.size - (Sw.length : Int) }))
      (rfOf s aBef) (fun f => { f with size := f.size + (Sw.length : Int) }) := rfl
  have hfaces' : s'.faces = ((s.faces.map
      (repointMemIf (rfOf s aB) (s.twin aB :: (R1 ++ [aB])) (s.succ aB))).map
      (bumpSizeIf (rfOf s aB)
        (-(((s.twin aB :: (R1 ++ [aB])).length : Nat) : Int)))).map
      (bumpSizeIf (rfOf s aBef)
        (((s.twin aB :: (R1 ++ [aB])).length : Nat) : Int)) := by
    rw [hfaces0]
    simp only [hSwalk]
    rw [mapFace_repointMem, mapFace_subLen, mapFace_bump]
  have hupd : ∀ f' ∈ s'.faces, ∃ f ∈ s.faces,
      f' = bumpSizeIf (rfOf s aBef) (((s.twin aB :: (R1 ++ [aB])).length : Nat) : Int)
        (bumpSizeIf (rfOf s aB) (-(((s.twin aB :: (R1 ++ [aB])).length : Nat) : Int))
          (repointMemIf (rfOf s aB) (s.twin aB :: (R1 ++ [aB])) (s.succ aB) f)) := by
    intro f' hf'
    rw [hfaces'] at hf'
    obtain ⟨g2, hg2, hg2f'⟩ := List.mem_map.mp hf'
    obtain ⟨g1, hg1, hg1g2⟩ := List.mem_map.mp hg2
    obtain ⟨f, hf, hfg1⟩ := List.mem_map.mp hg1
    exact ⟨f, hf, by rw [← hg2f', ← hg1g2, ← hfg1]⟩
  have hupd' : ∀ f ∈ s.faces,
      bumpSizeIf (rfOf s aBef) (((s.twin aB :: (R1 ++ [aB])).length : Nat) : Int)
        (bumpSizeIf (rfOf s aB) (-(((s.twin aB :: (R1 ++ [aB])).length : Nat) : Int))
          (repointMemIf (rfOf s aB) (s.twin aB :: (R1 ++ [aB])) (s.succ aB) f))
        ∈ s'.faces := by
    intro f hf
    rw [hfaces']
    exact List.mem_map_of_mem _ (List.mem_map_of_mem _ (List.mem_map_of_mem _ hf))
  have hUid : ∀ f : Face,
      (bumpSizeIf (rfOf s aBef) (((s.twin aB :: (R1 ++ [aB])).length : Nat) : Int)
        (bumpSizeIf (rfOf s aB) (-(((s.twin aB :: (R1 ++ [aB])).length : Nat) : Int))
          (repointMemIf (rfOf s aB) (s.twin aB :: (R1 ++ [aB])) (s.succ aB) f))).id
        = f.id := by
    intro f
    rw [bumpSizeIf_id, bumpSizeIf_id, repointMemIf_id]
  have hsuccBefCN : s.succ aBef ∈ cycleOfFace s FN := (hface FN hFN).1.succ_mem haBefC
  have hsuccBCO : s.succ aB ∈ cycleOfFace s FO := (hface FO hFO).1.succ_mem haBC
  have hb1 : s.succ aBef ≠ s.twin aB := by
    intro h
    exact hdisjON (s.twin aB) htBC' (h ▸ hsuccBefCN)
  have hb2 : s.succ aBef ≠ s.succ aB := by
    intro h
    exact hdisjON (s.succ aB) hsuccBCO (h ▸ hsuccBefCN)
  obtain ⟨hmapM, hinjM⟩ := moveBridge_injOn (fun z hz => (hwf1 z hz).1) hwf2
    haB htBH haBef hb1 hb2
  -- per-face invariants
  have hFOCASE : InvFace s' (bumpSizeIf (rfOf s aBef)
        (((s.twin aB :: (R1 ++ [aB])).length : Nat) : Int)
        (bumpSizeIf (rfOf s aB) (-(((s.twin aB :: (R1 ++ [aB])).length : Nat) : Int))
          (repointMemIf (rfOf s aB) (s.twin aB :: (R1 ++ [aB])) (s.succ aB) FO))) ∧
      ∀ z, (z ∈ cycleOfFace s' (bumpSizeIf (rfOf s aBef)
        (((s.twin aB :: (R1 ++ [aB])).length : Nat) : Int)
        (bumpSizeIf (rfOf s aB) (-(((s.twin aB :: (R1 ++ [aB])).length : Nat) : Int))
          (repointMemIf (rfOf s aB) (s.twin aB :: (R1 ++ [aB])) (s.succ aB) FO)))
        ↔ z ∈ r2 :: R2') := by
    have hFOid : FO.id = rfOf s aB := hrfaB'.symm
    have hFOnotBef : FO.id ≠ rfOf s aBef := by
      rw [hrfBef']
      exact hidON
    have hmemhyp : ∀ z ∈ r2 :: R2', z ∈ s'.H ∧ s'.rightFace z = some FO.id := by
      intro z hz
      have hzCO := hmemB z (hmemBR2 z hz)
      refine ⟨hsubC FO hFO z hzCO, ?_⟩
      rw [hrf_old z (hnotinSeg z hz), hrfC FO hFO z hzCO]
    have hsz : FO.size + -(((s.twin aB :: (R1 ++ [aB])).length : Nat) : Int)
        = ((r2 :: R2').length : Int) := by
      rw [(hface FO hFO).2.2.2]
      simp only [List.length_cons, List.length_append, List.length_nil, e1]
      push_cast
      ring
    by_cases hfst : FO.first ∈ s.twin aB :: (R1 ++ [aB])
    · have hu1 : repointMemIf (rfOf s aB) (s.twin aB :: (R1 ++ [aB])) (s.succ aB) FO
          = (⟨FO.id, s.succ aB, FO.size⟩ : Face) := by
        rw [repointMemIf_hit (s.succ aB) hFOid hfst]
      have hu2 : bumpSizeIf (rfOf s aB)
          (-(((s.twin aB :: (R1 ++ [aB])).length : Nat) : Int))
          (⟨FO.id, s.succ aB, FO.size⟩ : Face)
          = (⟨FO.id, s.succ aB,
              FO.size + -(((s.twin aB :: (R1 ++ [aB])).length : Nat) : Int)⟩ : Face) := by
        rw [bumpSizeIf_pos _ (show ((⟨FO.id, s.succ aB, FO.size⟩ : Face)).id
          = rfOf s aB from hFOid)]
      have hu3 : bumpSizeIf (rfOf s aBef)
          (((s.twin aB :: (R1 ++ [aB])).length : Nat) : Int)
          (⟨FO.id, s.succ aB,
            FO.size + -(((s.twin aB :: (R1 ++ [aB])).length : Nat) : Int)⟩ : Face)
          = (⟨FO.id, s.succ aB,
              FO.size + -(((s.twin aB :: (R1 ++ [aB])).length : Nat) : Int)⟩ : Face) := by
        rw [bumpSizeIf_neg _ (show ((⟨FO.id, s.succ aB,
          FO.size + -(((s.twin aB :: (R1 ++ [aB])).length : Nat) : Int)⟩ : Face)).id
          ≠ rfOf s aBef from hFOnotBef)]
      have hUeq : bumpSizeIf (rfOf s aBef)
          (((s.twin aB :: (R1 ++ [aB])).length : Nat) : Int)
          (bumpSizeIf (rfOf s aB) (-(((s.twin aB :: (R1 ++ [aB])).length : Nat) : Int))
            (repointMemIf (rfOf s aB) (s.twin aB :: (R1 ++ [aB])) (s.succ aB) FO))
          = (⟨FO.id, s.succ aB,
              FO.size + -(((s.twin aB :: (R1 ++ [aB])).length : Nat) : Int)⟩ : Face) := by
        rw [hu1, hu2, hu3]
      rw [hUeq]
      refine invFace_build s' _ (r2 :: R2') hCoold ?_ hmemhyp hsz
      show s.succ aB ∈ r2 :: R2'
      rw [hadjr2]
      exact List.mem_cons_self _ _
    · have hu2 : bumpSizeIf (rfOf s aB)
          (-(((s.twin aB :: (R1 ++ [aB])).length : Nat) : Int)) FO
          = (⟨FO.id, FO.first,
              FO.size + -(((s.twin aB :: (R1 ++ [aB])).length : Nat) : Int)⟩ : Face) := by
        rw [bumpSizeIf_pos _ hFOid]
      have hu3 : bumpSizeIf (rfOf s aBef)
          (((s.twin aB :: (R1 ++ [aB])).length : Nat) : Int)
          (⟨FO.id, FO.first,
            FO.size + -(((s.twin aB :: (R1 ++ [aB])).length : Nat) : Int)⟩ : Face)
          = (⟨FO.id, FO.first,
              FO.size + -(((s.twin aB :: (R1 ++ [aB])).length : Nat) : Int)⟩ : Face) := by
        rw [bumpSizeIf_neg _ (show ((⟨FO.id, FO.first,
          FO.size + -(((s.twin aB :: (R1 ++ [aB])).length : Nat) : Int)⟩ : Face)).id
          ≠ rfOf s aBef from hFOnotBef)]
      have hUeq : bumpSizeIf (rfOf s aBef)
          (((s.twin aB :: (R1 ++ [aB])).length : Nat) : Int)
          (bumpSizeIf (rfOf s aB) (-(((s.twin aB :: (R1 ++ [aB])).length : Nat) : Int))
            (repointMemIf (rfOf s aB) (s.twin aB :: (R1 ++ [aB])) (s.succ aB) FO))
          = (⟨FO.id, FO.first,
              FO.size + -(((s.twin aB :: (R1 ++ [aB])).length : Nat) : Int)⟩ : Face) := by
        rw [repointMemIf_miss (s.succ aB) hFOid hfst, hu2, hu3]
      rw [hUeq]
      refine invFace_build s' _ (r2 :: R2') hCoold ?_ hmemhyp hsz
      show FO.first ∈ r2 :: R2'
      have hfstCO := first_mem_cycle s hInv hFO
      have hfstB : FO.first ∈ s.twin aB :: (R1 ++ aB :: r2 :: R2') :=
        hperm2.mem_iff.mpr hfstCO
      rcases (hBsplit FO.first).mp hfstB with h | h
      · exact absurd h hfst
      · exact h
  have hFNCASE : InvFace s' (bumpSizeIf (rfOf s aBef)
        (((s.twin aB :: (R1 ++ [aB])).length : Nat) : Int)
        (bumpSizeIf (rfOf s aB) (-(((s.twin aB :: (R1 ++ [aB])).length : Nat) : Int))
          (repointMemIf (rfOf s aB) (s.twin aB :: (R1 ++ [aB])) (s.succ aB) FN))) ∧
      ∀ z, (z ∈ cycleOfFace s' (bumpSizeIf (rfOf s aBef)
        (((s.twin aB :: (R1 ++ [aB])).length : Nat) : Int)
        (bumpSizeIf (rfOf s aB) (-(((s.twin aB :: (R1 ++ [aB])).length : Nat) : Int))
          (repointMemIf (rfOf s aB) (s.twin aB :: (R1 ++ [aB])) (s.succ aB) FN)))
        ↔ z ∈ aBef :: ((s.twin aB :: (R1 ++ [aB])) ++ (QN ++ PN))) := by
    have hFNnotO : FN.id ≠ rfOf s aB := by
      rw [hrfaB']
      exact Ne.symm hidON
    have hFNid : FN.id = rfOf s aBef := hrfBef'.symm
    have hUeq : bumpSizeIf (rfOf s aBef)
        (((s.twin aB :: (R1 ++ [aB])).length : Nat) : Int)
        (bumpSizeIf (rfOf s aB) (-(((s.twin aB :: (R1 ++ [aB])).length : Nat) : Int))
          (repointMemIf (rfOf s aB) (s.twin aB :: (R1 ++ [aB])) (s.succ aB) FN))
        = (⟨FN.id, FN.first,
            FN.size + (((s.twin aB :: (R1 ++ [aB])).length : Nat) : Int)⟩ : Face) := by
      rw [repointMemIf_neg _ _ hFNnotO, bumpSizeIf_neg _ hFNnotO,
        bumpSizeIf_pos _ hFNid]
    rw [hUeq]
    have hCNsplit : ∀ z, z ∈ aBef :: ((s.twin aB :: (R1 ++ [aB])) ++ (QN ++ PN)) ↔
        (z = aBef ∨ z ∈ s.twin aB :: (R1 ++ [aB]) ∨ z ∈ QN ++ PN) := by
      intro z
      simp only [List.mem_cons, List.mem_append, List.mem_singleton]
      try tauto
    refine invFace_build s' _ _ hCN ?_ ?_ ?_
    · show FN.first ∈ aBef :: ((s.twin aB :: (R1 ++ [aB])) ++ (QN ++ PN))
      have hfstCN := first_mem_cycle s hInv hFN
      have hfstrot : FN.first ∈ aBef :: (QN ++ PN) := hpermN.mem_iff.mpr hfstCN
      rcases List.mem_cons.mp hfstrot with h | h
      · exact (hCNsplit _).mpr (Or.inl h)
      · exact (hCNsplit _).mpr (Or.inr (Or.inr h))
    · intro z hz
      rcases (hCNsplit z).mp hz with rfl | h | h
      · refine ⟨haBef, ?_⟩
        rw [hrf_old _ (fun h2 => hBefnotB (hmemBseg _ h2)), hrfBef]
      · have hzB := hmemBseg z h
        refine ⟨hsubC FO hFO z (hmemB z hzB), ?_⟩
        exact hrf_seg z h
      · have hzCN : z ∈ cycleOfFace s FN :=
          hpermN.mem_iff.mp (List.mem_cons_of_mem _ h)
        refine ⟨hsubC FN hFN z hzCN, ?_⟩
        have hznot : z ∉ s.twin aB :: (R1 ++ [aB]) := by
          intro h2
          exact hdisjON z (hmemB z (hmemBseg z h2)) hzCN
        rw [hrf_old z hznot, hrfC FN hFN z hzCN]
    · show FN.size + (((s.twin aB :: (R1 ++ [aB])).length : Nat) : Int)
        = ((aBef :: ((s.twin aB :: (R1 ++ [aB])) ++ (QN ++ PN))).length : Int)
      rw [(hface FN hFN).2.2.2]
      simp only [List.length_cons, List.length_append, List.length_nil, e2]
      push_cast
      ring
  have hOTHER : ∀ f ∈ s.faces, f.id ≠ rfOf s aB → f.id ≠ rfOf s aBef →
      InvFace s' f ∧ ∀ z, (z ∈ cycleOfFace s' f ↔ z ∈ cycleOfFace s f) := by
    intro f hf hfO hfN
    have hcyc := (hface f hf).1
    have hdisjO : ∀ z ∈ cycleOfFace s f, z ∉ cycleOfFace s FO := by
      intro z h1 h2
      apply hfO
      rw [show f = FO from inv_cycles_eq s hInv hf hFO h1 h2]
      exact hrfaB'.symm
    have hdisjN : ∀ z ∈ cycleOfFace s f, z ∉ cycleOfFace s FN := by
      intro z h1 h2
      apply hfN
      rw [show f = FN from inv_cycles_eq s hInv hf hFN h1 h2]
      exact hrfBef'.symm
    have hagree : ∀ z ∈ cycleOfFace s f,
        moveBridgeSucc s.succ aB (s.twin aB) aBef (s.succ aB) z = s.succ z := by
      intro z hz
      have h1 : z ≠ aBef := fun h => hdisjN z hz (h ▸ haBefC)
      have h2 : z ≠ aB := fun h => hdisjO z hz (h ▸ haBC)
      have h3 : s.succ z ≠ s.twin aB := by
        intro h
        exact hdisjO _ (hcyc.succ_mem hz) (h ▸ htBC')
      show (if z = aBef then s.twin aB else if z = aB then s.succ aBef
        else if s.succ z = s.twin aB then s.succ aB else s.succ z) = s.succ z
      rw [if_neg h1, if_neg h2, if_neg h3]
    have hC' : CycChain s'.succ (cycleOfFace s f) := by
      rw [hsucc']
      exact cycChain_congr hcyc hagree
    refine invFace_build s' f (cycleOfFace s f) hC'
      (first_mem_cycle s hInv hf) ?_ (hface f hf).2.2.2
    intro z hz
    have hzH := hsubC f hf z hz
    have hznot : z ∉ s.twin aB :: (R1 ++ [aB]) := by
      intro h2
      exact hdisjO z hz (hmemB z (hmemBseg z h2))
    refine ⟨hzH, ?_⟩
    rw [hrf_old z hznot, hrfC f hf z hz]
  refine ⟨⟨?_, ?_⟩, ?_, ?_, ?_, ?_⟩
  · intro z hz
    exact ⟨hmapM z hz, (hwf1 z hz).2.1, (hwf1 z hz).2.2.1, (hwf1 z hz).2.2.2⟩
  · intro a ha b hb heq
    exact hinjM a ha b hb heq
  · -- face identifiers pairwise distinct
    have hcompid : (((Face.id ∘ bumpSizeIf (rfOf s aBef)
        (((s.twin aB :: (R1 ++ [aB])).length : Nat) : Int)) ∘
        bumpSizeIf (rfOf s aB) (-(((s.twin aB :: (R1 ++ [aB])).length : Nat) : Int))) ∘
          repointMemIf (rfOf s aB) (s.twin aB :: (R1 ++ [aB])) (s.succ aB))
        = Face.id := funext (fun f => hUid f)
    have hids : s'.faces.map Face.id = s.faces.map Face.id := by
      rw [hfaces', List.map_map, List.map_map, List.map_map, hcompid]
    rw [hids]
    exact hndids
  · intro f' hf'
    obtain ⟨f, hfmem, rfl⟩ := hupd f' hf'
    rw [hUid f, hidc']
    exact hidlt f hfmem
  · intro f' hf'
    obtain ⟨f, hfmem, rfl⟩ := hupd f' hf'
    by_cases hfO : f.id = rfOf s aB
    · have hfFO : f = FO := face_id_inj s hInv hfmem hFO (by rw [hfO, hrfaB'])
      rw [hfFO]
      exact hFOCASE.1
    by_cases hfN : f.id = rfOf s aBef
    · have hfFN : f = FN := face_id_inj s hInv hfmem hFN (by rw [hfN, hrfBef'])
      rw [hfFN]
      exact hFNCASE.1
    · have hUeq : bumpSizeIf (rfOf s aBef)
          (((s.twin aB :: (R1 ++ [aB])).length : Nat) : Int)
          (bumpSizeIf (rfOf s aB) (-(((s.twin aB :: (R1 ++ [aB])).length : Nat) : Int))
            (repointMemIf (rfOf s aB) (s.twin aB :: (R1 ++ [aB])) (s.succ aB) f))
          = f := by
        rw [repointMemIf_neg _ _ hfO, bumpSizeIf_neg _ hfO, bumpSizeIf_neg _ hfN]
      rw [hUeq]
      exact (hOTHER f hfmem hfO hfN).1
  · -- coverage
    intro z hz
    obtain ⟨g, hg, hzg⟩ := hcover z hz
    by_cases hgO : g.id = rfOf s aB
    · have hgFO : g = FO := face_id_inj s hInv hg hFO (by rw [hgO, hrfaB'])
      have hzB : z ∈ s.twin aB :: (R1 ++ aB :: r2 :: R2') :=
        hperm2.mem_iff.mpr (hgFO ▸ hzg)
      rcases (hBsplit z).mp hzB with h | h
      · -- the moved segment now lies on the target face's cycle
        refine ⟨_, hupd' FN hFN, ?_⟩
        refine (hFNCASE.2 z).mpr ?_
        exact List.mem_cons_of_mem _ (List.mem_append_left _ h)
      · refine ⟨_, hupd' FO hFO, ?_⟩
        exact (hFOCASE.2 z).mpr h
    by_cases hgN : g.id = rfOf s aBef
    · have hgFN : g = FN := face_id_inj s hInv hg hFN (by rw [hgN, hrfBef'])
      have hzrot : z ∈ aBef :: (QN ++ PN) := hpermN.mem_iff.mpr (hgFN ▸ hzg)
      refine ⟨_, hupd' FN hFN, ?_⟩
      refine (hFNCASE.2 z).mpr ?_
      rcases List.mem_cons.mp hzrot with rfl | h
      · exact List.mem_cons_self _ _
      · exact List.mem_cons_of_mem _ (List.mem_append_right _ h)
    · have hUeq : bumpSizeIf (rfOf s aBef)
          (((s.twin aB :: (R1 ++ [aB])).length : Nat) : Int)
          (bumpSizeIf (rfOf s aB) (-(((s.twin aB :: (R1 ++ [aB])).length : Nat) : Int))
            (repointMemIf (rfOf s aB) (s.twin aB :: (R1 ++ [aB])) (s.succ aB) g))
          = g := by
        rw [repointMemIf_neg _ _ hgO, bumpSizeIf_neg _ hgO, bumpSizeIf_neg _ hgN]
      refine ⟨g, ?_, ?_⟩
      · have h2 := hupd' g hg
        rw [hUeq] at h2
        exact h2
      · exact ((hOTHER g hg hgO hgN).2 z).mpr hzg

/-! ### Invariant preservation: all operators, as one step relation -/

/-- One operator application preserves the invariant under the
strengthened preconditions `opPreA`. -/
theorem inv_applyOp (s : EmbState) (op : OpApp) (hInv : Inv s)
    (hpre : opPreA s op) : Inv (applyOp s op) := by
  cases op with
  | split a b x y =>
      obtain ⟨h1, h2, h3, h4, h5, h6⟩ := hpre
      exact inv_split s a b x y hInv h1 h2 h3 h4 h5 h6
  | unsplit a y x b =>
      obtain ⟨h1, h2, h3, h4, h5, h6, h7, h8, h9, h10⟩ := hpre
      exact inv_unsplit s a y x b hInv h1 h2 h3 h4 h5 h6 h7 h8 h9 h10
  | splitNode aL aR x y =>
      obtain ⟨h1, h2, h3, h4, h5, h6⟩ := hpre
      exact inv_splitNode s aL aR x y hInv h1 h2 h3 h4 h5 h6
  | contract a b =>
      obtain ⟨⟨h1, h2, h3⟩, h4, h5, h6⟩ := hpre
      exact inv_contract s a b hInv h1 h2 h3 h4 h5 h6
  | splitFace adjSrc adjTgt hS hT =>
      obtain ⟨h1, h2, h3, h4, h5, h6, h7⟩ := hpre
      exact inv_splitFaceCore s adjSrc adjTgt hS hT hInv h1 h2 h3 h4 h5 h6 h7
  | joinFaces a b =>
      obtain ⟨⟨h1, h2, h3, h4⟩, h5⟩ := hpre
      exact inv_joinFaces s a b hInv h1 h2 h3 h4 h5
  | reverseEdge a b =>
      exact hInv
  | moveBridge aB aBef =>
      obtain ⟨⟨h1, h2, h3, h4⟩, h5⟩ := hpre
      exact inv_moveBridge s aB aBef hInv h1 h2 h3 h4 h5
  | removeDeg1 adj =>
      obtain ⟨⟨h1, h2⟩, h3⟩ := hpre
      exact inv_removeDeg1 s adj hInv h1 h2 h3

/-! ### The sum of face sizes on invariant states -/

/-- Pairwise disjoint duplicate-free lists inside `H` that cover `H` have
total length `H.card`. -/
theorem sum_lengths_partition : ∀ (ls : List (List Nat)) (H : Finset Nat),
    (∀ l ∈ ls, l.Nodup) →
    (∀ l ∈ ls, ∀ z ∈ l, z ∈ H) →
    List.Pairwise (fun l1 l2 => ∀ z ∈ l1, z ∉ l2) ls →
    (∀ h ∈ H, ∃ l ∈ ls, h ∈ l) →
    (ls.map List.length).sum = H.card
  | [], H, _, _, _, hcov => by
      have hH : H = ∅ := by
        by_contra h
        obtain ⟨x, hx⟩ := Finset.nonempty_iff_ne_empty.mpr h
        obtain ⟨l, hl, _⟩ := hcov x hx
        simp at hl
      rw [hH]
      simp
  | l :: rest, H, hnd, hsub, hpw, hcov => by
      have hsubl : l.toFinset ⊆ H := fun z hz =>
        hsub l (List.mem_cons_self _ _) z (List.mem_toFinset.mp hz)
      have hndl : l.Nodup := hnd l (List.mem_cons_self _ _)
      have hcard : l.toFinset.card = l.length := List.toFinset_card_of_nodup hndl
      obtain ⟨hpwhead, hpwrest⟩ := List.pairwise_cons.mp hpw
      have IH := sum_lengths_partition rest (H \ l.toFinset)
        (fun l2 h2 => hnd l2 (List.mem_cons_of_mem _ h2))
        (fun l2 h2 z hz => Finset.mem_sdiff.mpr
          ⟨hsub l2 (List.mem_cons_of_mem _ h2) z hz,
            fun hzl => hpwhead l2 h2 z (List.mem_toFinset.mp hzl) hz⟩)
        hpwrest
        (fun h hh => by
          obtain ⟨hhH, hhl⟩ := Finset.mem_sdiff.mp hh
          obtain ⟨l2, hl2, hzl2⟩ := hcov h hhH
          rcases List.mem_cons.mp hl2 with rfl | hl2'
          · exact absurd (List.mem_toFinset.mpr hzl2) hhl
          · exact ⟨l2, hl2', hzl2⟩)
      have hle : l.toFinset.card ≤ H.card := Finset.card_le_card hsubl
      have hsd : (H \ l.toFinset).card = H.card - l.toFinset.card :=
        Finset.card_sdiff hsubl
      simp only [List.map_cons, List.sum_cons]
      rw [IH, hsd]
      omega

/-- A finite set carrying a fixed-point free involution has even
cardinality. -/
theorem even_card_of_twin (tw : Nat → Nat) :
    ∀ (n : Nat) (H : Finset Nat), H.card ≤ n →
      (∀ z ∈ H, tw z ∈ H) → (∀ z ∈ H, tw (tw z) = z) → (∀ z ∈ H, tw z ≠ z) →
      Even H.card
  | 0, H, hle, _, _, _ => by
      have h0 : H.card = 0 := Nat.le_zero.mp hle
      rw [h0]
      exact even_zero
  | n + 1, H, hle, hmem, hinv, hne => by
      by_cases hH : H = ∅
      · rw [hH]
        simp
      obtain ⟨a, ha⟩ := Finset.nonempty_iff_ne_empty.mpr hH
      have htwa : tw a ∈ H := hmem a ha
      have htwane : tw a ≠ a := hne a ha
      have htwmem : tw a ∈ H.erase a := Finset.mem_erase.mpr ⟨htwane, htwa⟩
      have hc1 : (H.erase a).card = H.card - 1 := Finset.card_erase_of_mem ha
      have hc2 : ((H.erase a).erase (tw a)).card = (H.erase a).card - 1 :=
        Finset.card_erase_of_mem htwmem
      have hmm : ∀ z ∈ (H.erase a).erase (tw a), z ∈ H := by
        intro z hz
        exact Finset.mem_of_mem_erase (Finset.mem_of_mem_erase hz)
      have hcharz : ∀ z, z ∈ (H.erase a).erase (tw a) ↔
          (z ∈ H ∧ z ≠ a ∧ z ≠ tw a) := by
        intro z
        rw [Finset.mem_erase, Finset.mem_erase]
        tauto
      have hmem' : ∀ z ∈ (H.erase a).erase (tw a),
          tw z ∈ (H.erase a).erase (tw a) := by
        intro z hz
        obtain ⟨hzH, hza, hztwa⟩ := (hcharz z).mp hz
        refine (hcharz (tw z)).mpr ⟨hmem z hzH, ?_, ?_⟩
        · intro h
          have h2 := hinv z hzH
          rw [h] at h2
          exact hztwa h2.symm
        · intro h
          apply hza
          have h2 := congrArg tw h
          rw [hinv z hzH, hinv a ha] at h2
          exact h2
      have hinv' : ∀ z ∈ (H.erase a).erase (tw a), tw (tw z) = z :=
        fun z hz => hinv z (hmm z hz)
      have hne' : ∀ z ∈ (H.erase a).erase (tw a), tw z ≠ z :=
        fun z hz => hne z (hmm z hz)
      have h0 : 0 < H.card := Finset.card_pos.mpr ⟨a, ha⟩
      have h1 : 0 < (H.erase a).card := Finset.card_pos.mpr ⟨tw a, htwmem⟩
      have IH := even_card_of_twin tw n ((H.erase a).erase (tw a)) (by omega)
        hmem' hinv' hne'
      obtain ⟨k, hk⟩ := IH
      exact ⟨k + 1, by omega⟩

theorem sum_map_cast (l : List Face) (g : Face → Nat) :
    (l.map (fun f => ((g f : Nat) : Int))).sum = (((l.map g).sum : Nat) : Int) := by
  induction l with
  | nil => rfl
  | cons a t ih =>
      simp only [List.map_cons, List.sum_cons, ih]
      push_cast
      ring

/-- On a state satisfying the invariant, the cached face sizes add up to
the number of half-edges, i.e. twice the number of edges. -/
theorem inv_sum (s : EmbState) (hInv : Inv s) :
    sumFaceSizes s = 2 * (numEdges s : Int) := by
  obtain ⟨⟨hwf1, hwf2⟩, hndids, hidlt, hface, hcover⟩ := id hInv
  have hndfaces : s.faces.Nodup := hndids.of_map
  have hpart := sum_lengths_partition (s.faces.map (cycleOfFace s)) s.H
    (by
      intro l hl
      obtain ⟨f, hf, rfl⟩ := List.mem_map.mp hl
      exact (hface f hf).1.2.1)
    (by
      intro l hl z hz
      obtain ⟨f, hf, rfl⟩ := List.mem_map.mp hl
      exact ((hface f hf).2.2.1 z hz).1)
    (by
      refine (List.pairwise_map).mpr ?_
      refine List.Pairwise.imp_of_mem ?_ hndfaces
      intro f g hf hg hfg z hz1 hz2
      exact hfg (inv_cycles_eq s hInv hf hg hz1 hz2))
    (by
      intro h hh
      obtain ⟨f, hf, hzf⟩ := hcover h hh
      exact ⟨cycleOfFace s f, List.mem_map_of_mem _ hf, hzf⟩)
  have h1 : s.faces.map Face.size
      = s.faces.map (fun f => ((cycleOfFace s f).length : Int)) :=
    List.map_congr_left (fun f hf => (hface f hf).2.2.2)
  have hmapeq : s.faces.map (fun f => (cycleOfFace s f).length)
      = (s.faces.map (cycleOfFace s)).map List.length := by
    rw [List.map_map]
    rfl
  have heven : Even s.H.card := even_card_of_twin s.twin s.H.card s.H le_rfl
    (fun z hz => (hwf1 z hz).2.1) (fun z hz => (hwf1 z hz).2.2.1)
    (fun z hz => (hwf1 z hz).2.2.2)
  obtain ⟨k, hk⟩ := heven
  have hdiv : s.H.card / 2 = k := by omega
  show (s.faces.map Face.size).sum = 2 * ((s.H.card / 2 : Nat) : Int)
  rw [h1, sum_map_cast s.faces (fun f => (cycleOfFace s f).length),
    hmapeq, hpart, hdiv, hk]
  push_cast
  ring

/-- Applying a sequence of operators whose strengthened preconditions hold
preserves the invariant. -/
theorem inv_applyOps : ∀ (ops : List OpApp) (s : EmbState), Inv s →
    opsOkA s ops → Inv (applyOps s ops)
  | [], _, h, _ => h
  | op :: rest, s, h, hok =>
      inv_applyOps rest (applyOp s op) (inv_applyOp s op h hok.1) hok.2

/-! ### Orbits of the face-cycle successor -/

theorem iterate_mem {succ : Nat → Nat} {H : Finset Nat}
    (hmap : ∀ z ∈ H, succ z ∈ H) {h : Nat} (hh : h ∈ H) :
    ∀ n, succ^[n] h ∈ H
  | 0 => hh
  | n + 1 => by
      rw [Function.iterate_succ_apply']
      exact hmap _ (iterate_mem hmap hh n)

theorem iterate_cancel {succ : Nat → Nat} {H : Finset Nat}
    (hmap : ∀ z ∈ H, succ z ∈ H)
    (hinj : ∀ z ∈ H, ∀ w ∈ H, succ z = succ w → z = w) :
    ∀ (n : Nat) {z w : Nat}, z ∈ H → w ∈ H → succ^[n] z = succ^[n] w → z = w
  | 0, _, _, _, _, he => he
  | n + 1, z, w, hz, hw, he => by
      rw [Function.iterate_succ_apply', Function.iterate_succ_apply'] at he
      exact iterate_cancel hmap hinj n hz hw
        (hinj _ (iterate_mem hmap hz n) _ (iterate_mem hmap hw n) he)

/-- Iterating the successor from any half-edge returns to it within
`H.card` steps. -/
theorem orbit_return {succ : Nat → Nat} {H : Finset Nat}
    (hmap : ∀ z ∈ H, succ z ∈ H)
    (hinj : ∀ z ∈ H, ∀ w ∈ H, succ z = succ w → z = w)
    {h : Nat} (hh : h ∈ H) :
    ∃ p, 0 < p ∧ p ≤ H.card ∧ succ^[p] h = h := by
  have key : ∀ i j, i < j → j < H.card + 1 → succ^[i] h = succ^[j] h →
      ∃ p, 0 < p ∧ p ≤ H.card ∧ succ^[p] h = h := by
    intro i j hlt hjb heq
    refine ⟨j - i, by omega, by omega, ?_⟩
    have h2 : succ^[i] (succ^[j - i] h) = succ^[i] h := by
      rw [← Function.iterate_add_apply, show i + (j - i) = j from by omega]
      exact heq.symm
    exact iterate_cancel hmap hinj i (iterate_mem hmap hh _) hh h2
  obtain ⟨i, hi, j, hj, hne, heq⟩ :=
    Finset.exists_ne_map_eq_of_card_lt_of_maps_to
      (show H.card < (Finset.range (H.card + 1)).card from by
        rw [Finset.card_range]; omega)
      (fun n _ => iterate_mem hmap hh n)
  rw [Finset.mem_range] at hi hj
  rcases Nat.lt_or_ge i j with hlt | hge
  · exact key i j hlt hj heq
  · exact key j i (by omega) hi heq.symm

/-- The face-cycle orbit of a half-edge: a genuine cycle through `h`,
closed under iteration, visited exactly by the do-while walk. -/
theorem orbit_exists {succ : Nat → Nat} {H : Finset Nat}
    (hmap : ∀ z ∈ H, succ z ∈ H)
    (hinj : ∀ z ∈ H, ∀ w ∈ H, succ z = succ w → z = w)
    {h : Nat} (hh : h ∈ H) :
    ∃ O : List Nat, CycChain succ O ∧ O.headD 0 = h ∧ (∀ z ∈ O, z ∈ H) ∧
      O.length ≤ H.card ∧
      (∀ z ∈ O, ∀ w, (w ∈ O ↔ ∃ n, succ^[n] z = w)) ∧
      (∀ z ∈ O, ∀ w ∈ O, ∃ n, n < O.length ∧ succ^[n] z = w) ∧
      (∀ fuel, O.length ≤ fuel → walkList succ h h fuel = O) := by
  obtain ⟨p0, hp0pos, hp0le, hp0⟩ := orbit_return hmap hinj hh
  have hex : ∃ n, 0 < n ∧ succ^[n] h = h := ⟨p0, hp0pos, hp0⟩
  set p := Nat.find hex with hpdef
  obtain ⟨hppos, hpret⟩ := Nat.find_spec hex
  have hple : p ≤ H.card := le_trans (Nat.find_min' hex ⟨hp0pos, hp0⟩) hp0le
  have hmin : ∀ m, 0 < m → m < p → succ^[m] h ≠ h := by
    intro m hm hmp hcon
    exact (Nat.find_min hex hmp) ⟨hm, hcon⟩
  obtain ⟨q, hq⟩ : ∃ q, p = q + 1 := ⟨p - 1, by omega⟩
  have hper : ∀ k, succ^[p * k] h = h := by
    intro k
    induction k with
    | zero => rfl
    | succ k ih =>
        rw [Nat.mul_succ, Function.iterate_add_apply, hpret]
        exact ih
  have hmod : ∀ n, succ^[n] h = succ^[n % p] h := by
    intro n
    calc succ^[n] h = succ^[n % p + p * (n / p)] h := by rw [Nat.mod_add_div n p]
      _ = succ^[n % p] (succ^[p * (n / p)] h) := Function.iterate_add_apply succ _ _ h
      _ = succ^[n % p] h := by rw [hper]
  set O := (List.range p).map (fun n => succ^[n] h) with hOdef
  have hlen : O.length = p := by
    rw [hOdef, List.length_map, List.length_range]
  have hmemO : ∀ w, w ∈ O ↔ ∃ n, n < p ∧ succ^[n] h = w := by
    intro w
    constructor
    · intro hw
      rw [hOdef] at hw
      obtain ⟨n, hn, hnw⟩ := List.mem_map.mp hw
      exact ⟨n, List.mem_range.mp hn, hnw⟩
    · rintro ⟨n, hn, hnw⟩
      rw [hOdef]
      exact List.mem_map.mpr ⟨n, List.mem_range.mpr hn, hnw⟩
  have hmemO' : ∀ w, w ∈ O ↔ ∃ n, succ^[n] h = w := by
    intro w
    rw [hmemO]
    constructor
    · rintro ⟨n, _, hnw⟩
      exact ⟨n, hnw⟩
    · rintro ⟨n, hnw⟩
      exact ⟨n % p, Nat.mod_lt n hppos, by rw [← hmod]; exact hnw⟩
  have hsubH : ∀ z ∈ O, z ∈ H := by
    intro z hz
    obtain ⟨n, _, hnz⟩ := (hmemO z).mp hz
    rw [← hnz]
    exact iterate_mem hmap hh n
  have hnd : O.Nodup := by
    rw [hOdef]
    refine List.Nodup.map_on ?_ (List.nodup_range p)
    intro i hi j hj hij
    rw [List.mem_range] at hi hj
    by_contra hne
    rcases Nat.lt_or_ge i j with hlt | hge
    · have h2 : succ^[i] (succ^[j - i] h) = succ^[i] h := by
        rw [← Function.iterate_add_apply, show i + (j - i) = j from by omega]
        exact hij.symm
      have h3 := iterate_cancel hmap hinj i (iterate_mem hmap hh _) hh h2
      exact hmin (j - i) (by omega) (by omega) h3
    · have h2 : succ^[j] (succ^[i - j] h) = succ^[j] h := by
        rw [← Function.iterate_add_apply, show j + (i - j) = i from by omega]
        exact hij
      have h3 := iterate_cancel hmap hinj j (iterate_mem hmap hh _) hh h2
      exact hmin (i - j) (by omega) (by omega) h3
  have hheadO : O.headD 0 = h := by
    rw [hOdef, hq, List.range_succ_eq_map, List.map_cons]
    rfl
  have hchain : List.Chain' (fun u v => succ u = v) O := by
    rw [hOdef, List.chain'_map, hq, List.chain'_range_succ]
    intro m _
    exact (Function.iterate_succ_apply' succ m h).symm
  have hwrap : succ (O.getLastD 0) = O.headD 0 := by
    have hlast : O.getLastD 0 = succ^[q] h := by
      rw [hOdef, hq, List.range_succ, List.map_append, List.map_cons, List.map_nil,
        getLastD_append_cons]
      rfl
    rw [hlast, hheadO]
    have h2 : succ^[p] h = h := hpret
    rw [hq, Function.iterate_succ_apply' succ q h] at h2
    exact h2
  have hOne : O ≠ [] := by
    intro hO
    rw [hO] at hlen
    simp at hlen
    omega
  have hOcyc : CycChain succ O :=
    ⟨hOne, hnd, (chainLinksB_iff_chain' succ O).mpr hchain, hwrap⟩
  have huni : ∀ z ∈ O, ∀ w, (w ∈ O ↔ ∃ n, succ^[n] z = w) := by
    intro z hz w
    obtain ⟨k, hk, hkz⟩ := (hmemO z).mp hz
    constructor
    · intro hw
      obtain ⟨n, hnw⟩ := (hmemO' w).mp hw
      have hzh : succ^[p - k] z = h := by
        rw [← hkz, ← Function.iterate_add_apply,
          show p - k + k = p from by omega]
        exact hpret
      refine ⟨n + (p - k), ?_⟩
      rw [Function.iterate_add_apply, hzh]
      exact hnw
    · rintro ⟨n, hnz⟩
      refine (hmemO' w).mpr ⟨n + k, ?_⟩
      rw [Function.iterate_add_apply, hkz]
      exact hnz
  have hunib : ∀ z ∈ O, ∀ w ∈ O, ∃ n, n < O.length ∧ succ^[n] z = w := by
    intro z hz w hw
    obtain ⟨m, hmz⟩ := (huni z hz w).mp hw
    obtain ⟨k, hk, hkz⟩ := (hmemO z).mp hz
    have hzper : succ^[p] z = z := by
      rw [← hkz, ← Function.iterate_add_apply, show p + k = k + p from by omega,
        Function.iterate_add_apply, hpret]
    have hzperk : ∀ k2, succ^[p * k2] z = z := by
      intro k2
      induction k2 with
      | zero => rfl
      | succ k2 ih =>
          rw [Nat.mul_succ, Function.iterate_add_apply, hzper]
          exact ih
    have hzmod : succ^[m] z = succ^[m % p] z := by
      calc succ^[m] z = succ^[m % p + p * (m / p)] z := by rw [Nat.mod_add_div m p]
        _ = succ^[m % p] (succ^[p * (m / p)] z) := Function.iterate_add_apply succ _ _ z
        _ = succ^[m % p] z := by rw [hzperk]
    refine ⟨m % p, by rw [hlen]; exact Nat.mod_lt m hppos, ?_⟩
    rw [← hzmod]
    exact hmz
  have hwalk : ∀ fuel, O.length ≤ fuel → walkList succ h h fuel = O := by
    intro fuel hf
    have hw := walkList_cyc succ O hOcyc fuel hf
    rw [hheadO] at hw
    exact hw
  exact ⟨O, hOcyc, hheadO, hsubH, by rw [hlen]; exact hple, huni, hunib, hwalk⟩

/-! ### Properties of `nextPower2` -/

theorem nextPower2Aux_ge_low : ∀ (fuel low high : Nat),
    low ≤ nextPower2Aux fuel low high
  | 0, _, _ => le_rfl
  | fuel + 1, low, high => by
      rw [nextPower2Aux]
      by_cases h : high ≤ low
      · rw [if_pos h]
      · rw [if_neg h]
        calc low ≤ 2 * low := by omega
          _ ≤ nextPower2Aux fuel (2 * low) high := nextPower2Aux_ge_low fuel _ high

theorem nextPower2Aux_ge_high : ∀ (fuel low high : Nat), 0 < low →
    high ≤ low + fuel → high ≤ nextPower2Aux fuel low high
  | 0, low, high, _, hle => by
      rw [nextPower2Aux]
      omega
  | fuel + 1, low, high, hpos, hle => by
      rw [nextPower2Aux]
      by_cases h : high ≤ low
      · rw [if_pos h]
        exact h
      · rw [if_neg h]
        exact nextPower2Aux_ge_high fuel (2 * low) high (by omega) (by omega)

theorem nextPower2Aux_pow : ∀ (fuel low high : Nat), (∃ k, low = 2 ^ k) →
    ∃ k, nextPower2Aux fuel low high = 2 ^ k
  | 0, low, _, hp => by
      rw [nextPower2Aux]
      exact hp
  | fuel + 1, low, high, hp => by
      rw [nextPower2Aux]
      by_cases h : high ≤ low
      · rw [if_pos h]
        exact hp
      · rw [if_neg h]
        obtain ⟨k, hk⟩ := hp
        exact nextPower2Aux_pow fuel (2 * low) high ⟨k + 1, by rw [hk]; ring⟩

theorem nextPower2Aux_min : ∀ (fuel low high m : Nat), (∃ k, low = 2 ^ k) →
    (∃ j, m = 2 ^ j) → low ≤ m → high ≤ m → nextPower2Aux fuel low high ≤ m
  | 0, low, _, m, _, _, hlm, _ => by
      rw [nextPower2Aux]
      exact hlm
  | fuel + 1, low, high, m, hp, hq, hlm, hhm => by
      rw [nextPower2Aux]
      by_cases h : high ≤ low
      · rw [if_pos h]
        exact hlm
      · rw [if_neg h]
        obtain ⟨k, hk⟩ := hp
        obtain ⟨j, hj⟩ := hq
        have hkj : k < j := by
          by_contra hkj
          push_neg at hkj
          have h2 : (2 : Nat) ^ j ≤ 2 ^ k := Nat.pow_le_pow_right (by omega) hkj
          omega
        have h2 : 2 * low ≤ m := by
          rw [hk, hj]
          calc 2 * 2 ^ k = 2 ^ (k + 1) := by ring
            _ ≤ 2 ^ j := Nat.pow_le_pow_right (by omega) (by omega)
        exact nextPower2Aux_min fuel (2 * low) high m ⟨k + 1, by rw [hk]; ring⟩
          ⟨j, hj⟩ h2 hhm

/-- The do-while walk from any half-edge of a well-formed graph is its
orbit: every entry sees every other within `H.card` iterations. -/
theorem walk_orbit (g : EmbState) (hwf : GraphWF g) {x : Nat} (hx : x ∈ g.H) :
    (∀ z ∈ walkList g.succ x x g.H.card, z ∈ g.H) ∧
    x ∈ walkList g.succ x x g.H.card ∧
    (∀ z ∈ walkList g.succ x x g.H.card, ∀ w,
      (w ∈ walkList g.succ x x g.H.card ↔ ∃ n, g.succ^[n] z = w)) ∧
    (∀ z ∈ walkList g.succ x x g.H.card, ∀ w ∈ walkList g.succ x x g.H.card,
      ∃ n, n < g.H.card ∧ g.succ^[n] z = w) ∧
    CycChain g.succ (walkList g.succ x x g.H.card) ∧
    (walkList g.succ x x g.H.card).headD 0 = x := by
  obtain ⟨O, hOcyc, hhead, hsub, hlen, huni, hunib, hwalk⟩ :=
    orbit_exists (fun z hz => (hwf.1 z hz).1) hwf.2 hx
  have hw := hwalk g.H.card hlen
  rw [hw]
  refine ⟨hsub, ?_, huni, ?_, hOcyc, hhead⟩
  · rw [← hhead]
    exact headD_mem hOcyc.1
  · intro z hz w hww
    obtain ⟨n, hn, hnw⟩ := hunib z hz w hww
    exact ⟨n, lt_of_lt_of_le hn hlen, hnw⟩

theorem sameCycleB_iff (g : EmbState) (x w : Nat) :
    sameCycleB g x w = true ↔ ∃ n, n < g.H.card ∧ g.succ^[n] x = w := by
  unfold sameCycleB
  rw [List.any_eq_true]
  constructor
  · rintro ⟨n, hn, hnw⟩
    exact ⟨n, List.mem_range.mp hn, by simpa using hnw⟩
  · rintro ⟨n, hn, hnw⟩
    exact ⟨n, List.mem_range.mpr hn, by simpa using hnw⟩

/-- The brute-force minimality check of a half-edge, in propositional
form. -/
theorem minCheck_iff (g : EmbState) (x : Nat) :
    ((halfEdges g).all (fun g2 => !sameCycleB g x g2 || x ≤ g2) = true) ↔
      (∀ g2 ∈ g.H, sameCycleB g x g2 = true → x ≤ g2) := by
  rw [List.all_eq_true]
  constructor
  · intro hall g2 hg2 hsc
    have h := hall g2 ((mem_halfEdges g g2).mpr hg2)
    rw [Bool.or_eq_true] at h
    rcases h with h | h
    · rw [Bool.not_eq_true'] at h
      rw [h] at hsc
      exact absurd hsc (by simp)
    · exact of_decide_eq_true h
  · intro hall g2 hg2
    rw [Bool.or_eq_true]
    by_cases hsc : sameCycleB g x g2 = true
    · exact Or.inr (decide_eq_true (hall g2 ((mem_halfEdges g g2).mp hg2) hsc))
    · have hf : sameCycleB g x g2 = false := Bool.eq_false_iff.mpr hsc
      rw [hf]
      exact Or.inl rfl

/-- Loop invariant of the face-derivation fold of `computeFaces`: after
processing the half-edges of `pre`, the registered faces are exactly the
orbits of the processed leaders, each processed half-edge has a right
face, and the number of faces counts the orbit-minimal processed
half-edges. -/
theorem computeFaces_loop (g : EmbState) (hwf : GraphWF g)
    (hsorted : List.Pairwise (fun x y => x < y) (halfEdges g)) :
    ∀ (rest pre : List Nat) (t : EmbState),
      halfEdges g = pre ++ rest →
      t.H = g.H → t.succ = g.succ → t.regArrays = g.regArrays →
      t.faces.length = t.faceIdCount →
      (t.faces.map Face.id).Nodup →
      (∀ f ∈ t.faces, f.id < t.faceIdCount) →
      (∀ f ∈ t.faces, InvFace t f) →
      (∀ z, (t.rightFace z).isSome = true → ∃ f ∈ t.faces, z ∈ cycleOfFace t f) →
      (∀ h2 ∈ pre, (t.rightFace h2).isSome = true) →
      (∀ f ∈ t.faces, f.first ∈ pre) →
      t.faces.length = (pre.filter (fun h2 =>
        (halfEdges g).all (fun g2 => !sameCycleB g h2 g2 || h2 ≤ g2))).length →
      ∀ r, r = rest.foldl (computeFacesStep g.H.card) t →
      (r.H = g.H ∧ r.succ = g.succ ∧ r.regArrays = g.regArrays ∧
        r.faces.length = r.faceIdCount ∧
        (r.faces.map Face.id).Nodup ∧
        (∀ f ∈ r.faces, InvFace r f) ∧
        (∀ z, (r.rightFace z).isSome = true → ∃ f ∈ r.faces, z ∈ cycleOfFace r f) ∧
        (∀ h2 ∈ pre ++ rest, (r.rightFace h2).isSome = true) ∧
        r.faces.length = ((pre ++ rest).filter (fun h2 =>
          (halfEdges g).all (fun g2 => !sameCycleB g h2 g2 || h2 ≤ g2))).length)
  | [], pre, t, hsplit, h1, h2, hreg, hlen, hnd, hlt, hinvf, hcovP, hpre, hfirst,
      hcount, r, hr => by
      subst hr
      refine ⟨h1, h2, hreg, hlen, hnd, hinvf, hcovP, ?_, ?_⟩
      · intro x hx
        rw [List.append_nil] at hx
        exact hpre x hx
      · rw [List.append_nil]
        exact hcount
  | h :: rest', pre, t, hsplit, h1, h2, hreg, hlen, hnd, hlt, hinvf, hcovP, hpre,
      hfirst, hcount, r, hr => by
      have hhHalf : h ∈ halfEdges g := by
        rw [hsplit]
        exact List.mem_append_right _ (List.mem_cons_self _ _)
      have hhH : h ∈ g.H := (mem_halfEdges g h).mp hhHalf
      have hsorted2 : List.Pairwise (fun x y => x < y) (pre ++ h :: rest') := by
        rw [← hsplit]
        exact hsorted
      obtain ⟨hpwpre, hpwrest, hcross⟩ := List.pairwise_append.mp hsorted2
      have hpre_lt : ∀ x ∈ pre, x < h :=
        fun x hx => hcross x hx h (List.mem_cons_self _ _)
      have hsmall_pre : ∀ y ∈ g.H, y < h → y ∈ pre := by
        intro y hy hlty
        have hyHalf : y ∈ halfEdges g := (mem_halfEdges g y).mpr hy
        rw [hsplit] at hyHalf
        rcases List.mem_append.mp hyHalf with hin | hin
        · exact hin
        · rcases List.mem_cons.mp hin with rfl | hin2
          · omega
          · have := (List.pairwise_cons.mp hpwrest).1 y hin2
            omega
      have hcyc_eq : ∀ f ∈ t.faces,
          cycleOfFace t f = walkList g.succ f.first f.first g.H.card := by
        intro f _
        unfold cycleOfFace
        rw [h1, h2]
      have hfirstH : ∀ f ∈ t.faces, f.first ∈ g.H := by
        intro f hf
        have hmem : f.first ∈ halfEdges g := by
          rw [hsplit]
          exact List.mem_append_left _ (hfirst f hf)
        exact (mem_halfEdges g _).mp hmem
      have hface_orbit : ∀ f ∈ t.faces, ∀ z ∈ cycleOfFace t f,
          (∀ w, w ∈ cycleOfFace t f ↔ ∃ n, g.succ^[n] z = w) ∧
          (∀ w ∈ cycleOfFace t f, ∃ n, n < g.H.card ∧ g.succ^[n] z = w) := by
        intro f hf z hz
        obtain ⟨hsub, hxmem, huni, hunib, _, _⟩ := walk_orbit g hwf (hfirstH f hf)
        rw [hcyc_eq f hf] at hz
        refine ⟨?_, ?_⟩
        · intro w
          rw [hcyc_eq f hf]
          exact huni z hz w
        · intro w hw
          rw [hcyc_eq f hf] at hw
          exact hunib z hz w hw
      have hfirst_cyc : ∀ f ∈ t.faces, f.first ∈ cycleOfFace t f := by
        intro f hf
        have hif := hinvf f hf
        rw [← hif.2.1]
        exact headD_mem hif.1.1
      by_cases hs : (t.rightFace h).isSome = true
      · -- already assigned: the step is the identity and h is not a leader
        have hstep : computeFacesStep g.H.card t h = t := by
          unfold computeFacesStep
          rw [if_pos hs]
        obtain ⟨f, hf, hhf⟩ := hcovP h hs
        have hPfalse : ((halfEdges g).all
            (fun g2 => !sameCycleB g h g2 || h ≤ g2)) = false := by
          rw [Bool.eq_false_iff]
          intro hall
          have hmin := (minCheck_iff g h).mp hall
          obtain ⟨n, hn, hnf⟩ := (hface_orbit f hf h hhf).2 f.first (hfirst_cyc f hf)
          have hsc : sameCycleB g h f.first = true :=
            (sameCycleB_iff g h f.first).mpr ⟨n, hn, hnf⟩
          have hle := hmin f.first (hfirstH f hf) hsc
          have hltf := hpre_lt f.first (hfirst f hf)
          omega
        have HREC := computeFaces_loop g hwf hsorted rest' (pre ++ [h]) t
          (by rw [hsplit, List.append_cons])
          h1 h2 hreg hlen hnd hlt hinvf hcovP
          (by
            intro x hx
            rcases List.mem_append.mp hx with hx | hx
            · exact hpre x hx
            · have hxh : x = h := by simpa using hx
              rw [hxh]
              exact hs)
          (fun f2 hf2 => List.mem_append_left _ (hfirst f2 hf2))
          (by
            rw [List.filter_append, List.length_append, List.filter_cons]
            rw [if_neg (by rw [hPfalse]; simp)]
            simp only [List.filter_nil, List.length_nil]
            omega)
          r (by rw [hr, List.foldl_cons, hstep])
        obtain ⟨c1, c2, c3, c4, c5, c6, c7, c8, c9⟩ := HREC
        refine ⟨c1, c2, c3, c4, c5, c6, c7, ?_, ?_⟩
        · intro x hx
          apply c8
          rw [← List.append_cons]
          exact hx
        · rw [List.append_cons]
          exact c9
      · -- h starts a new face: its orbit is walked and assigned
        have hstep : computeFacesStep g.H.card t h =
            { t with
              faces := t.faces ++
                [⟨t.faceIdCount, h, ((walkList t.succ h h g.H.card).length : Int)⟩]
              faceIdCount := t.faceIdCount + 1
              rightFace := fun z => if z ∈ walkList t.succ h h g.H.card
                then some t.faceIdCount else t.rightFace z } := by
          unfold computeFacesStep
          rw [if_neg hs]
        have hCg : walkList t.succ h h g.H.card = walkList g.succ h h g.H.card := by
          rw [h2]
        obtain ⟨hsubO, hhO, huniO, hunibO, hcycO, hheadO⟩ := walk_orbit g hwf hhH
        rw [← hCg] at hsubO hhO huniO hunibO hcycO hheadO
        have ht'H : (computeFacesStep g.H.card t h).H = g.H := by
          rw [hstep]
          exact h1
        have ht'succ : (computeFacesStep g.H.card t h).succ = g.succ := by
          rw [hstep]
          exact h2
        have ht'succ_t : (computeFacesStep g.H.card t h).succ = t.succ := by
          rw [hstep]
        have ht'reg : (computeFacesStep g.H.card t h).regArrays = g.regArrays := by
          rw [hstep]
          exact hreg
        have ht'faces : (computeFacesStep g.H.card t h).faces = t.faces ++
            [⟨t.faceIdCount, h, ((walkList t.succ h h g.H.card).length : Int)⟩] := by
          rw [hstep]
        have ht'count : (computeFacesStep g.H.card t h).faceIdCount
            = t.faceIdCount + 1 := by
          rw [hstep]
        have ht'rf : ∀ z, (computeFacesStep g.H.card t h).rightFace z =
            (if z ∈ walkList t.succ h h g.H.card
              then some t.faceIdCount else t.rightFace z) := by
          intro z
          rw [hstep]
        have ht'cyc : ∀ f2 : Face,
            cycleOfFace (computeFacesStep g.H.card t h) f2 = cycleOfFace t f2 := by
          intro f2
          unfold cycleOfFace
          rw [hstep]
        have hnewcyc : cycleOfFace (computeFacesStep g.H.card t h)
            (⟨t.faceIdCount, h, ((walkList t.succ h h g.H.card).length : Int)⟩ : Face)
            = walkList t.succ h h g.H.card := by
          unfold cycleOfFace
          rw [hstep]
          show walkList t.succ h h t.H.card = walkList t.succ h h g.H.card
          rw [h1]
        have hold_notC : ∀ f ∈ t.faces, ∀ z ∈ cycleOfFace t f,
            z ∉ walkList t.succ h h g.H.card := by
          intro f hf z hz hzC
          have hhz : h ∈ cycleOfFace t f := by
            refine ((hface_orbit f hf z hz).1 h).mpr ?_
            exact (huniO z hzC h).mp hhO
          have hsome := ((hinvf f hf).2.2.1 h hhz).2
          rw [hsome] at hs
          exact hs rfl
        have hPtrue : ((halfEdges g).all
            (fun g2 => !sameCycleB g h g2 || h ≤ g2)) = true := by
          rw [minCheck_iff]
          intro g2 hg2 hsc
          by_contra hgt
          push_neg at hgt
          have hg2pre : g2 ∈ pre := hsmall_pre g2 hg2 hgt
          obtain ⟨f, hf, hg2f⟩ := hcovP g2 (hpre g2 hg2pre)
          obtain ⟨n, _, hnw⟩ := (sameCycleB_iff g h g2).mp hsc
          have hg2O : g2 ∈ walkList t.succ h h g.H.card :=
            (huniO h hhO g2).mpr ⟨n, hnw⟩
          have hhO2 : ∃ m, g.succ^[m] g2 = h := (huniO g2 hg2O h).mp hhO
          have hhf : h ∈ cycleOfFace t f := ((hface_orbit f hf g2 hg2f).1 h).mpr hhO2
          have hsome := ((hinvf f hf).2.2.1 h hhf).2
          rw [hsome] at hs
          exact hs rfl
        have ht'len : (computeFacesStep g.H.card t h).faces.length
            = (computeFacesStep g.H.card t h).faceIdCount := by
          rw [ht'faces, ht'count, List.length_append, List.length_cons,
            List.length_nil, hlen]
        have ht'nd : ((computeFacesStep g.H.card t h).faces.map Face.id).Nodup := by
          rw [ht'faces, List.map_append]
          refine List.nodup_append.mpr ⟨hnd, by simp, ?_⟩
          intro z hz hz2
          have hzc : z = t.faceIdCount := by simpa using hz2
          obtain ⟨f2, hf2, hf2z⟩ := List.mem_map.mp hz
          have hlt2 := hlt f2 hf2
          omega
        have ht'lt : ∀ f2 ∈ (computeFacesStep g.H.card t h).faces,
            f2.id < (computeFacesStep g.H.card t h).faceIdCount := by
          intro f2 hf2
          rw [ht'faces] at hf2
          rw [ht'count]
          rcases List.mem_append.mp hf2 with hin | hin
          · have := hlt f2 hin
            omega
          · have hf2e : f2 =
                (⟨t.faceIdCount, h, ((walkList t.succ h h g.H.card).length : Int)⟩
                  : Face) := by simpa using hin
            rw [hf2e]
            show t.faceIdCount < t.faceIdCount + 1
            omega
        have ht'inv : ∀ f2 ∈ (computeFacesStep g.H.card t h).faces,
            InvFace (computeFacesStep g.H.card t h) f2 := by
          intro f2 hf2
          rw [ht'faces] at hf2
          rcases List.mem_append.mp hf2 with hin | hin
          · obtain ⟨hch, hhd, hmem, hsz⟩ := hinvf f2 hin
            refine ⟨?_, ?_, ?_, ?_⟩
            · rw [ht'cyc]
              exact cycChain_congr hch (fun z _ => by rw [ht'succ_t])
            · rw [ht'cyc]
              exact hhd
            · intro z hz
              rw [ht'cyc] at hz
              refine ⟨?_, ?_⟩
              · rw [ht'H, ← h1]
                exact (hmem z hz).1
              · rw [ht'rf, if_neg (hold_notC f2 hin z hz)]
                exact (hmem z hz).2
            · rw [ht'cyc]
              exact hsz
          · have hf2e : f2 =
                (⟨t.faceIdCount, h, ((walkList t.succ h h g.H.card).length : Int)⟩
                  : Face) := by simpa using hin
            rw [hf2e]
            refine ⟨?_, ?_, ?_, ?_⟩
            · rw [hnewcyc, ht'succ_t, h2]
              exact hCg ▸ hcycO
            · rw [hnewcyc]
              exact hheadO
            · intro z hz
              rw [hnewcyc] at hz
              refine ⟨?_, ?_⟩
              · rw [ht'H]
                exact hsubO z hz
              · rw [ht'rf, if_pos hz]
            · rw [hnewcyc]
        have ht'cov : ∀ z, ((computeFacesStep g.H.card t h).rightFace z).isSome = true →
            ∃ f2 ∈ (computeFacesStep g.H.card t h).faces,
              z ∈ cycleOfFace (computeFacesStep g.H.card t h) f2 := by
          intro z hz
          rw [ht'rf] at hz
          by_cases hzC : z ∈ walkList t.succ h h g.H.card
          · refine ⟨⟨t.faceIdCount, h,
              ((walkList t.succ h h g.H.card).length : Int)⟩, ?_, ?_⟩
            · rw [ht'faces]
              exact List.mem_append_right _ (List.mem_cons_self _ _)
            · rw [hnewcyc]
              exact hzC
          · rw [if_neg hzC] at hz
            obtain ⟨f2, hf2, hzf2⟩ := hcovP z hz
            refine ⟨f2, ?_, ?_⟩
            · rw [ht'faces]
              exact List.mem_append_left _ hf2
            · rw [ht'cyc]
              exact hzf2
        have ht'pre : ∀ x ∈ pre ++ [h],
            ((computeFacesStep g.H.card t h).rightFace x).isSome = true := by
          intro x hx
          rw [ht'rf]
          rcases List.mem_append.mp hx with hx | hx
          · by_cases hxC : x ∈ walkList t.succ h h g.H.card
            · rw [if_pos hxC]
              rfl
            · rw [if_neg hxC]
              exact hpre x hx
          · have hxh : x = h := by simpa using hx
            rw [hxh, if_pos hhO]
            rfl
        have ht'first : ∀ f2 ∈ (computeFacesStep g.H.card t h).faces,
            f2.first ∈ pre ++ [h] := by
          intro f2 hf2
          rw [ht'faces] at hf2
          rcases List.mem_append.mp hf2 with hin | hin
          · exact List.mem_append_left _ (hfirst f2 hin)
          · have hf2e : f2 =
                (⟨t.faceIdCount, h, ((walkList t.succ h h g.H.card).length : Int)⟩
                  : Face) := by simpa using hin
            rw [hf2e]
            exact List.mem_append_right _ (List.mem_cons_self _ _)
        have ht'count2 : (computeFacesStep g.H.card t h).faces.length =
            ((pre ++ [h]).filter (fun h2 =>
              (halfEdges g).all (fun g2 => !sameCycleB g h2 g2 || h2 ≤ g2))).length := by
          rw [ht'faces, List.length_append, List.length_cons, List.length_nil,
            List.filter_append, List.length_append, List.filter_cons,
            if_pos hPtrue]
          simp only [List.filter_nil, List.length_cons, List.length_nil]
          omega
        have HREC := computeFaces_loop g hwf hsorted rest' (pre ++ [h])
          (computeFacesStep g.H.card t h)
          (by rw [hsplit, List.append_cons])
          ht'H ht'succ ht'reg ht'len ht'nd ht'lt ht'inv ht'cov ht'pre ht'first
          ht'count2 r (by rw [hr, List.foldl_cons])
        obtain ⟨c1, c2, c3, c4, c5, c6, c7, c8, c9⟩ := HREC
        refine ⟨c1, c2, c3, c4, c5, c6, c7, ?_, ?_⟩
        · intro x hx
          apply c8
          rw [← List.append_cons]
          exact hx
        · rw [List.append_cons]
          exact c9

/-! ### C6: the precondition checks of `splitFace` -/

/-- C6: `splitFace(adjSrc, adjTgt)` fails with a precondition error exactly
when the two half-edges do not currently have the same right face or are
the same half-edge, and otherwise succeeds, performing the split. -/
theorem splitFace_fails_iff_precondition_violated (s : EmbState)
    (adjSrc adjTgt hS hT : Nat) :
    ((splitFaceChecked s adjSrc adjTgt hS hT).2 = Except.error () ↔
      s.rightFace adjSrc ≠ s.rightFace adjTgt ∨ adjSrc = adjTgt) ∧
    (s.rightFace adjSrc = s.rightFace adjTgt → adjSrc ≠ adjTgt →
      splitFaceChecked s adjSrc adjTgt hS hT =
        (splitFaceCore s adjSrc adjTgt hS hT, Except.ok ())) := by
  unfold splitFaceChecked
  by_cases h1 : s.rightFace adjSrc = s.rightFace adjTgt
  · by_cases h2 : adjSrc = adjTgt <;> simp [h1, h2]
  · simp [h1]

/-- Witness for C6 at a concrete input: splitting the inner face of the
4-cycle along the diagonal passes the checks and performs the split. -/
theorem splitFace_fails_iff_precondition_violated_witness :
    quadState.rightFace 0 = quadState.rightFace 4 ∧ (0 : Nat) ≠ 4 ∧
    splitFaceChecked quadState 0 4 8 9 =
      (splitFaceCore quadState 0 4 8 9, Except.ok ()) :=
  ⟨by decide, by decide,
    (splitFace_fails_iff_precondition_violated quadState 0 4 8 9).2
      (by decide) (by decide)⟩

/-! ### C10: a failing `splitFace` leaves the state unchanged -/

/-- C10: whenever `splitFace(adjSrc, adjTgt)` fails with the precondition
error, the entire state — the graph view, the right-face map, the face
registry, the identifier counter and the capacity — is exactly as before
the call, because both checks precede the graph-level edge insertion. -/
theorem splitFace_failure_leaves_state_unchanged (s : EmbState)
    (adjSrc adjTgt hS hT : Nat)
    (h : s.rightFace adjSrc ≠ s.rightFace adjTgt ∨ adjSrc = adjTgt) :
    (splitFaceChecked s adjSrc adjTgt hS hT).1 = s ∧
    (splitFaceChecked s adjSrc adjTgt hS hT).2 = Except.error () := by
  unfold splitFaceChecked
  rcases h with h | h
  · simp [h]
  · by_cases h1 : s.rightFace adjSrc = s.rightFace adjTgt <;> simp [h1, h]

/-- Witness for C10 at a concrete input: calling `splitFace` on the
4-cycle with two half-edges of different faces fails and changes nothing. -/
theorem splitFace_failure_leaves_state_unchanged_witness :
    (quadState.rightFace 0 ≠ quadState.rightFace 1 ∨ (0 : Nat) = 1) ∧
    (splitFaceChecked quadState 0 1 8 9).1 = quadState ∧
    (splitFaceChecked quadState 0 1 8 9).2 = Except.error () :=
  ⟨Or.inl (by decide),
    splitFace_failure_leaves_state_unchanged quadState 0 1 8 9 (Or.inl (by decide))⟩

/-! ### C7: face allocation -/

/-- C7: `createFaceElement(adjFirst)`: when the identifier counter has
reached the capacity, the capacity is doubled and every registered array is
enlarged to the new capacity preserving its existing entries (otherwise
capacity and arrays are untouched); the new face receives the next
identifier — strictly greater than every identifier issued since the last
full derivation — with the given half-edge as first entry and size `0`,
and is appended at the end of the registry. -/
theorem createFaceElement_allocates_and_grows (s : EmbState) (adjFirst : Nat)
    (hId : ∀ f ∈ s.faces, f.id < s.faceIdCount)
    (hArr : ∀ arr ∈ s.regArrays, arr.length = s.tableSize) :
    (s.faceIdCount = s.tableSize →
      (createFaceElement s adjFirst).tableSize = 2 * s.tableSize ∧
      (createFaceElement s adjFirst).regArrays =
        s.regArrays.map (fun arr => enlargeArr arr (2 * s.tableSize)) ∧
      ∀ arr ∈ s.regArrays,
        (enlargeArr arr (2 * s.tableSize)).length = 2 * s.tableSize ∧
        (enlargeArr arr (2 * s.tableSize)).take arr.length = arr) ∧
    (s.faceIdCount ≠ s.tableSize →
      (createFaceElement s adjFirst).tableSize = s.tableSize ∧
      (createFaceElement s adjFirst).regArrays = s.regArrays) ∧
    (createFaceElement s adjFirst).faces =
      s.faces ++ [⟨s.faceIdCount, adjFirst, 0⟩] ∧
    (createFaceElement s adjFirst).faceIdCount = s.faceIdCount + 1 ∧
    ∀ f ∈ s.faces, f.id < s.faceIdCount := by
  refine ⟨fun hc => ?_, fun hc => ?_, ?_, ?_, hId⟩
  · refine ⟨by simp [createFaceElement, hc], by simp [createFaceElement, hc], ?_⟩
    intro arr hmem
    constructor
    · have hlen := hArr arr hmem
      simp [enlargeArr, hlen]
      omega
    · show List.take arr.length (arr ++ List.replicate (2 * s.tableSize - arr.length) 0) = arr
      exact List.take_left arr (List.replicate (2 * s.tableSize - arr.length) 0)
  · exact ⟨by simp [createFaceElement, hc], by simp [createFaceElement, hc]⟩
  · by_cases hc : s.faceIdCount = s.tableSize <;> simp [createFaceElement, hc]
  · by_cases hc : s.faceIdCount = s.tableSize <;> simp [createFaceElement, hc]

/-- Witness for C7 at a concrete input: allocating a face in the 4-cycle
embedding whose counter has reached the capacity 16, with one registered
array of length 16. -/
theorem createFaceElement_allocates_and_grows_witness :
    (∀ f ∈ quadStateAtCap.faces, f.id < quadStateAtCap.faceIdCount) ∧
    (∀ arr ∈ quadStateAtCap.regArrays, arr.length = quadStateAtCap.tableSize) ∧
    ((quadStateAtCap.faceIdCount = quadStateAtCap.tableSize →
      (createFaceElement quadStateAtCap 3).tableSize = 2 * quadStateAtCap.tableSize ∧
      (createFaceElement quadStateAtCap 3).regArrays =
        quadStateAtCap.regArrays.map
          (fun arr => enlargeArr arr (2 * quadStateAtCap.tableSize)) ∧
      ∀ arr ∈ quadStateAtCap.regArrays,
        (enlargeArr arr (2 * quadStateAtCap.tableSize)).length =
          2 * quadStateAtCap.tableSize ∧
        (enlargeArr arr (2 * quadStateAtCap.tableSize)).take arr.length = arr) ∧
    (quadStateAtCap.faceIdCount ≠ quadStateAtCap.tableSize →
      (createFaceElement quadStateAtCap 3).tableSize = quadStateAtCap.tableSize ∧
      (createFaceElement quadStateAtCap 3).regArrays = quadStateAtCap.regArrays) ∧
    (createFaceElement quadStateAtCap 3).faces =
      quadStateAtCap.faces ++ [⟨quadStateAtCap.faceIdCount, 3, 0⟩] ∧
    (createFaceElement quadStateAtCap 3).faceIdCount = quadStateAtCap.faceIdCount + 1 ∧
    ∀ f ∈ quadStateAtCap.faces, f.id < quadStateAtCap.faceIdCount) :=
  ⟨by decide, by decide,
    createFaceElement_allocates_and_grows quadStateAtCap 3 (by decide) (by decide)⟩

/-! ### C5: `joinFaces` on a same-face edge -/

/-- C5 (evidence of the code bug): in `joinFacesPure` the same-face
precondition is only the debug assertion `OGDF_ASSERT(f1 != f2)`, while the
sibling operator `splitFace` throws `PreconditionViolatedException`; under
the release semantics modelled here, calling `joinFaces` on the isolated
edge — whose two halves bound the same (and only) face — is not surfaced
as a failure: the call completes normally, deleting the lone face record
and the edge. -/
theorem joinFaces_same_face_completes_silently :
    edgeState.rightFace 0 = edgeState.rightFace 1 ∧
    (joinFaces edgeState 0 1).faces = [] ∧
    (joinFaces edgeState 0 1).H = ∅ := by decide

/-! ### C3: what `splitFace` does to the two faces -/

/-- Counterexample to C3 as stated: in the 4-cycle embedding split along
the diagonal (`adjSrc = 0`, `adjTgt = 4`, new edge halves `8`/`9`), the
newly allocated face has identifier `2`, but the new edge's source
half-edge `8` is assigned the surviving face `0`, and the face cycle
reachable from `8` is `[8, 4, 6]` — the surviving face's cycle, not the
newly allocated one (which is the cycle `[0, 2, 9]` through `adjSrc` and
the new edge's target half). -/
theorem splitFace_new_edge_source_half_in_old_face :
    ((splitFaceCore quadState 0 4 8 9).faces.map Face.id = [0, 1, 2]) ∧
    (splitFaceCore quadState 0 4 8 9).rightFace 8 = some 0 ∧
    walkList (splitFaceCore quadState 0 4 8 9).succ 8 8 10 = [8, 4, 6] ∧
    (∀ h ∈ walkList (splitFaceCore quadState 0 4 8 9).succ 8 8 10,
      (splitFaceCore quadState 0 4 8 9).rightFace h ≠ some 2) := by decide

/-! ### C9: `unsplit` undoes `split` -/

/-- C9: for an edge `e` (halves `a`, `b`) of a consistent embedding,
performing `split(e)` — the new edge `e2` receiving the fresh half-edges
`x` and `y` — and then `unsplit(e, e2)` restores the original face records
(sizes and first entries) and the original right-face assignment of every
surviving half-edge; only the removed intermediate half-edges `x`, `y`
leave the half-edge set again. -/
theorem split_unsplit_roundtrip (s : EmbState) (a b x y : Nat)
    (ha : a ∈ s.H) (hb : b ∈ s.H) (hx : x ∉ s.H) (hy : y ∉ s.H) (hxy : x ≠ y)
    (hra : (s.rightFace a).isSome) (hrb : (s.rightFace b).isSome)
    (hFirst : ∀ f ∈ s.faces, f.first ∈ s.H) :
    (unsplit (split s a b x y) a y x b).faces = s.faces ∧
    (unsplit (split s a b x y) a y x b).H = s.H ∧
    ∀ h ∈ s.H, (unsplit (split s a b x y) a y x b).rightFace h = s.rightFace h := by
  have hax : a ≠ x := fun h => hx (h ▸ ha)
  have hay : a ≠ y := fun h => hy (h ▸ ha)
  have hbx : b ≠ x := fun h => hx (h ▸ hb)
  have hby : b ≠ y := fun h => hy (h ▸ hb)
  obtain ⟨fa, hfa⟩ := Option.isSome_iff_exists.mp hra
  obtain ⟨fb, hfb⟩ := Option.isSome_iff_exists.mp hrb
  refine ⟨?_, ?_, ?_⟩
  · simp only [unsplit, split, rfOf, mapFace]
    simp only [if_pos rfl, if_neg (Ne.symm hay), if_neg (Ne.symm hxy)]
    simp only [List.map_map]
    refine List.map_congr_left ?_ |>.trans (List.map_id s.faces)
    intro f hf
    have hffx : f.first ≠ x := fun h => hx (h ▸ hFirst f hf)
    have hffy : f.first ≠ y := fun h => hy (h ▸ hFirst f hf)
    rcases f with ⟨fi, ff, fs⟩
    simp only [Function.comp]
    by_cases h1 : fi = (s.rightFace a).getD 0 <;>
      by_cases h2 : fi = (s.rightFace b).getD 0 <;>
        simp_all [Face.mk.injEq]
  · show ((insert x (insert y s.H)).erase x).erase y = s.H
    rw [Finset.erase_insert (by simp [hxy, hx]),
      Finset.erase_insert hy]
  · intro h hh
    have hhx : h ≠ x := fun hEq => hx (hEq ▸ hh)
    have hhy : h ≠ y := fun hEq => hy (hEq ▸ hh)
    simp only [unsplit, split, rfOf]
    by_cases hA : h = a
    · subst hA; simp [hfa]
    · by_cases hB : h = b
      · subst hB; simp [hhx, hhy, hfb, hA]
      · simp [hA, hB, hhx, hhy]

/-- Witness for C9 at a concrete input: splitting and unsplitting an edge
of the 4-cycle restores the faces, the half-edge set and the right-face
map. -/
theorem split_unsplit_roundtrip_witness :
    (0 ∈ quadState.H ∧ 1 ∈ quadState.H ∧ 8 ∉ quadState.H ∧ 9 ∉ quadState.H ∧
      (8 : Nat) ≠ 9 ∧ (quadState.rightFace 0).isSome ∧ (quadState.rightFace 1).isSome ∧
      ∀ f ∈ quadState.faces, f.first ∈ quadState.H) ∧
    (unsplit (split quadState 0 1 8 9) 0 9 8 1).faces = quadState.faces ∧
    (unsplit (split quadState 0 1 8 9) 0 9 8 1).H = quadState.H ∧
    ∀ h ∈ quadState.H,
      (unsplit (split quadState 0 1 8 9) 0 9 8 1).rightFace h = quadState.rightFace h :=
  ⟨⟨by decide, by decide, by decide, by decide, by decide, by decide, by decide, by decide⟩,
    split_unsplit_roundtrip quadState 0 1 8 9 (by decide) (by decide) (by decide)
      (by decide) (by decide) (by decide) (by decide) (by decide)⟩

/-! ### C1: invariant preservation and the consistency check -/

/-- C1 (amended: the preconditions are strengthened with the non-degeneracy
conditions of `opPreA` — a contracted edge's halves are not a whole face
cycle, the edge deleted by `joinFaces` is not two singleton cycles,
`moveBridge` walks a non-empty segment, and the edge removed by
`removeDeg1` is not a whole face cycle): every structural operator applied
to an embedding satisfying the core invariant, with its preconditions
holding, yields a state that again satisfies the core invariant, and the
full consistency check returns true on it. -/
theorem operators_preserve_invariant_and_check (s : EmbState) (op : OpApp)
    (hInv : Inv s) (hpre : opPreA s op) :
    Inv (applyOp s op) ∧ consistencyCheck (applyOp s op) = true :=
  ⟨inv_applyOp s op hInv hpre,
    inv_consistencyCheck _ (inv_applyOp s op hInv hpre)⟩

/-- Counterexample to C1 as literally stated: on the isolated single-edge
embedding, `removeDeg1` satisfies the claim's preconditions (the node is of
degree 1), yet the resulting state violates the invariant and fails the
consistency check — the lone face survives with size 0 and a dangling
first entry. -/
theorem removeDeg1_isolated_edge_breaks_consistency :
    Inv edgeState ∧ opPre edgeState (.removeDeg1 0) ∧
      consistencyCheck (applyOp edgeState (.removeDeg1 0)) = false ∧
      ¬ Inv (applyOp edgeState (.removeDeg1 0)) := by decide

/-- Witness for the amended C1 theorem at a concrete input: splitting the
edge of the single-edge embedding. -/
theorem operators_preserve_invariant_and_check_witness :
    Inv edgeState ∧ opPreA edgeState (.split 0 1 2 3) ∧
      (Inv (applyOp edgeState (.split 0 1 2 3)) ∧
        consistencyCheck (applyOp edgeState (.split 0 1 2 3)) = true) :=
  ⟨by decide, by decide,
    operators_preserve_invariant_and_check edgeState (.split 0 1 2 3)
      (by decide) (by decide)⟩

/-! ### C3: what `splitFace` does to the two faces -/

/-- C3 (amended: the cycle that becomes the newly allocated face is the one
reachable from the new edge's *target* half-edge `hT`; the source half `hS`
stays on the surviving face): under the invariant and the call's
preconditions, `splitFace` allocates a face with the next identifier and
first entry `adjSrc` whose walked cycle contains `hT` and whose size is
that cycle's length, while the original face survives with first entry
`adjTgt` and size equal to its original size minus the new face's size
plus 2, its cycle containing `hS`. -/
theorem splitFace_new_face_from_target_half (s : EmbState)
    (adjSrc adjTgt hS hT : Nat) (hInv : Inv s)
    (haS : adjSrc ∈ s.H) (haT : adjTgt ∈ s.H)
    (hrfeq : s.rightFace adjSrc = s.rightFace adjTgt) (hne : adjSrc ≠ adjTgt)
    (hSn : hS ∉ s.H) (hTn : hT ∉ s.H) (hST : hS ≠ hT) :
    (splitFaceCore s adjSrc adjTgt hS hT).faceIdCount = s.faceIdCount + 1 ∧
    ∃ n : Nat,
      (⟨s.faceIdCount, adjSrc, (n : Int)⟩ : Face)
        ∈ (splitFaceCore s adjSrc adjTgt hS hT).faces ∧
      hT ∈ cycleOfFace (splitFaceCore s adjSrc adjTgt hS hT)
        (⟨s.faceIdCount, adjSrc, (n : Int)⟩ : Face) ∧
      (n : Int) = ((cycleOfFace (splitFaceCore s adjSrc adjTgt hS hT)
        (⟨s.faceIdCount, adjSrc, (n : Int)⟩ : Face)).length : Int) ∧
      (⟨rfOf s adjTgt, adjTgt,
          sizeOfId s (rfOf s adjTgt) + 2 - (n : Int)⟩ : Face)
        ∈ (splitFaceCore s adjSrc adjTgt hS hT).faces ∧
      hS ∈ cycleOfFace (splitFaceCore s adjSrc adjTgt hS hT)
        (⟨rfOf s adjTgt, adjTgt,
          sizeOfId s (rfOf s adjTgt) + 2 - (n : Int)⟩ : Face) :=
  (splitFaceCore_aux s adjSrc adjTgt hS hT hInv haS haT hrfeq hne hSn hTn hST).2

/-- Witness for the amended C3 theorem: splitting the single face of the
one-edge embedding between its two half-edges. -/
theorem splitFace_new_face_from_target_half_witness :
    Inv edgeState ∧ (0 : Nat) ∈ edgeState.H ∧ (1 : Nat) ∈ edgeState.H ∧
      edgeState.rightFace 0 = edgeState.rightFace 1 ∧ (0 : Nat) ≠ 1 ∧
      (2 : Nat) ∉ edgeState.H ∧ (3 : Nat) ∉ edgeState.H ∧ (2 : Nat) ≠ 3 ∧
      ((splitFaceCore edgeState 0 1 2 3).faceIdCount
          = edgeState.faceIdCount + 1 ∧
        ∃ n : Nat,
          (⟨edgeState.faceIdCount, 0, (n : Int)⟩ : Face)
            ∈ (splitFaceCore edgeState 0 1 2 3).faces ∧
          3 ∈ cycleOfFace (splitFaceCore edgeState 0 1 2 3)
            (⟨edgeState.faceIdCount, 0, (n : Int)⟩ : Face) ∧
          (n : Int) = ((cycleOfFace (splitFaceCore edgeState 0 1 2 3)
            (⟨edgeState.faceIdCount, 0, (n : Int)⟩ : Face)).length : Int) ∧
          (⟨rfOf edgeState 1, 1,
              sizeOfId edgeState (rfOf edgeState 1) + 2 - (n : Int)⟩ : Face)
            ∈ (splitFaceCore edgeState 0 1 2 3).faces ∧
          2 ∈ cycleOfFace (splitFaceCore edgeState 0 1 2 3)
            (⟨rfOf edgeState 1, 1,
              sizeOfId edgeState (rfOf edgeState 1) + 2 - (n : Int)⟩ : Face)) :=
  ⟨by decide, by decide, by decide, by decide, by decide, by decide, by decide,
    by decide,
    splitFace_new_face_from_target_half edgeState 0 1 2 3 (by decide) (by decide)
      (by decide) (by decide) (by decide) (by decide) (by decide) (by decide)⟩

/-! ### C4: what `joinFaces` does to the two faces -/

/-- C4: for an edge `a`/`b` whose halves lie on two different faces, with
`Fs` the face the code keeps (the larger by cached size; on ties the face
of `a`) and `Fd` the other, `joinFaces` merges the smaller face into the
larger: the discarded identifier disappears from the registry, the
surviving face's size becomes `size1 + size2 - 2` with its first entry
repointed to its face-cycle successor exactly when it belonged to the
deleted edge, every half-edge of the discarded face's cycle is reassigned
to the surviving face in the right-face map, and every other face record
is untouched. -/
theorem joinFaces_merges_discarded_into_survivor (s : EmbState) (a b : Nat)
    (Fs Fd : Face) (hInv : Inv s) (hFs : Fs ∈ s.faces) (hFd : Fd ∈ s.faces)
    (hsdne : Fs.id ≠ Fd.id)
    (hf1 : (if sizeOfId s (rfOf s b) > sizeOfId s (rfOf s a)
      then rfOf s b else rfOf s a) = Fs.id)
    (hf2 : (if sizeOfId s (rfOf s b) > sizeOfId s (rfOf s a)
      then rfOf s a else rfOf s b) = Fd.id) :
    Fd.size ≤ Fs.size ∧
    (∀ f ∈ (joinFaces s a b).faces, f.id ≠ Fd.id) ∧
    ((⟨Fs.id, (if Fs.first = a ∨ Fs.first = b then s.succ Fs.first else Fs.first),
        Fs.size + Fd.size - 2⟩ : Face) ∈ (joinFaces s a b).faces) ∧
    (∀ z ∈ cycleOfFace s Fd, (joinFaces s a b).rightFace z = some Fs.id) ∧
    (∀ f ∈ s.faces, f.id ≠ Fs.id → f.id ≠ Fd.id → f ∈ (joinFaces s a b).faces) := by
  have hndids := hInv.2.1
  have heS : sizeOfId s Fs.id = Fs.size := sizeOfId_eq s hndids hFs
  have heD : sizeOfId s Fd.id = Fd.size := sizeOfId_eq s hndids hFd
  have hfaces0 : (joinFaces s a b).faces =
      (mapFace (mapFace s.faces
        (if sizeOfId s (rfOf s b) > sizeOfId s (rfOf s a) then rfOf s b else rfOf s a)
        (fun f => { f with size := (f.size + sizeOfId s
          (if sizeOfId s (rfOf s b) > sizeOfId s (rfOf s a)
            then rfOf s a else rfOf s b) - 2 : Int) }))
        (if sizeOfId s (rfOf s b) > sizeOfId s (rfOf s a) then rfOf s b else rfOf s a)
        (fun f => if f.first = a ∨ f.first = b
          then { f with first := s.succ f.first } else f)).filter
        (fun f => f.id ≠ (if sizeOfId s (rfOf s b) > sizeOfId s (rfOf s a)
          then rfOf s a else rfOf s b)) := rfl
  simp only [hf1, hf2] at hfaces0
  simp only [heD] at hfaces0
  rw [mapFace_addSub, mapFace_repointSucc] at hfaces0
  refine ⟨?_, ?_, ?_, ?_, ?_⟩
  · -- the discarded face is the smaller one
    by_cases hcmp : sizeOfId s (rfOf s b) > sizeOfId s (rfOf s a)
    · rw [if_pos hcmp] at hf1 hf2
      rw [hf1, hf2, heS, heD] at hcmp
      omega
    · rw [if_neg hcmp] at hf1 hf2
      rw [hf1, hf2, heD, heS] at hcmp
      omega
  · -- the discarded identifier is gone from the registry
    intro f hf
    rw [hfaces0] at hf
    have h := (List.mem_filter.mp hf).2
    exact of_decide_eq_true h
  · -- the surviving face record
    have hb1 : bumpSizeIf Fs.id (Fd.size - 2) Fs
        = (⟨Fs.id, Fs.first, Fs.size + (Fd.size - 2)⟩ : Face) := by
      rw [bumpSizeIf_pos (Fd.size - 2) rfl]
    have hm := List.mem_map_of_mem (repointSuccIf s.succ Fs.id a b)
      (List.mem_map_of_mem (bumpSizeIf Fs.id (Fd.size - 2)) hFs)
    rw [hb1] at hm
    have hszr : Fs.size + (Fd.size - 2) = Fs.size + Fd.size - 2 := by ring
    by_cases hfst : Fs.first = a ∨ Fs.first = b
    · have hr1 : repointSuccIf s.succ Fs.id a b
          (⟨Fs.id, Fs.first, Fs.size + (Fd.size - 2)⟩ : Face)
          = (⟨Fs.id, s.succ Fs.first, Fs.size + (Fd.size - 2)⟩ : Face) := by
        rw [repointSuccIf_hit s.succ
          (show ((⟨Fs.id, Fs.first, Fs.size + (Fd.size - 2)⟩ : Face)).id = Fs.id
            from rfl)
          (show ((⟨Fs.id, Fs.first, Fs.size + (Fd.size - 2)⟩ : Face)).first = a ∨
            ((⟨Fs.id, Fs.first, Fs.size + (Fd.size - 2)⟩ : Face)).first = b
            from hfst)]
      rw [hr1, hszr] at hm
      rw [hfaces0, if_pos hfst]
      exact List.mem_filter.mpr ⟨hm, by simp [hsdne]⟩
    · have hr1 : repointSuccIf s.succ Fs.id a b
          (⟨Fs.id, Fs.first, Fs.size + (Fd.size - 2)⟩ : Face)
          = (⟨Fs.id, Fs.first, Fs.size + (Fd.size - 2)⟩ : Face) := by
        rw [repointSuccIf_miss s.succ
          (show ((⟨Fs.id, Fs.first, Fs.size + (Fd.size - 2)⟩ : Face)).id = Fs.id
            from rfl)
          (show ¬(((⟨Fs.id, Fs.first, Fs.size + (Fd.size - 2)⟩ : Face)).first = a ∨
            ((⟨Fs.id, Fs.first, Fs.size + (Fd.size - 2)⟩ : Face)).first = b)
            from hfst)]
      rw [hr1, hszr] at hm
      rw [hfaces0, if_neg hfst]
      exact List.mem_filter.mpr ⟨hm, by simp [hsdne]⟩
  · -- reassignment of the discarded cycle
    intro z hz
    have hCeq : walkList s.succ
        (firstOfId s (if sizeOfId s (rfOf s b) > sizeOfId s (rfOf s a)
          then rfOf s a else rfOf s b))
        (firstOfId s (if sizeOfId s (rfOf s b) > sizeOfId s (rfOf s a)
          then rfOf s a else rfOf s b)) s.H.card = cycleOfFace s Fd := by
      rw [hf2, firstOfId_eq s hndids hFd]
      rfl
    show (if z ∈ walkList s.succ
        (firstOfId s (if sizeOfId s (rfOf s b) > sizeOfId s (rfOf s a)
          then rfOf s a else rfOf s b))
        (firstOfId s (if sizeOfId s (rfOf s b) > sizeOfId s (rfOf s a)
          then rfOf s a else rfOf s b)) s.H.card
      then some (if sizeOfId s (rfOf s b) > sizeOfId s (rfOf s a)
          then rfOf s b else rfOf s a)
      else s.rightFace z) = some Fs.id
    rw [if_pos (by rw [hCeq]; exact hz), hf1]
  · -- every other face record is untouched
    intro f hf hfS hfD
    have hb1 : bumpSizeIf Fs.id (Fd.size - 2) f = f := bumpSizeIf_neg _ hfS
    have hr1 : repointSuccIf s.succ Fs.id a b f = f :=
      repointSuccIf_neg s.succ a b hfS
    have hm := List.mem_map_of_mem (repointSuccIf s.succ Fs.id a b)
      (List.mem_map_of_mem (bumpSizeIf Fs.id (Fd.size - 2)) hf)
    rw [hb1, hr1] at hm
    rw [hfaces0]
    exact List.mem_filter.mpr ⟨hm, by simp [hfD]⟩

/-- Witness for the C4 theorem: joining the two faces of the 4-cycle
embedding across the edge with halves 0 and 1. -/
theorem joinFaces_merges_discarded_into_survivor_witness :
    Inv quadState ∧ (⟨0, 0, 4⟩ : Face) ∈ quadState.faces ∧
      (⟨1, 1, 4⟩ : Face) ∈ quadState.faces ∧
      (⟨0, 0, 4⟩ : Face).id ≠ (⟨1, 1, 4⟩ : Face).id ∧
      (if sizeOfId quadState (rfOf quadState 1) > sizeOfId quadState (rfOf quadState 0)
        then rfOf quadState 1 else rfOf quadState 0) = (⟨0, 0, 4⟩ : Face).id ∧
      (if sizeOfId quadState (rfOf quadState 1) > sizeOfId quadState (rfOf quadState 0)
        then rfOf quadState 0 else rfOf quadState 1) = (⟨1, 1, 4⟩ : Face).id ∧
      ((⟨1, 1, 4⟩ : Face).size ≤ (⟨0, 0, 4⟩ : Face).size ∧
        (∀ f ∈ (joinFaces quadState 0 1).faces, f.id ≠ (⟨1, 1, 4⟩ : Face).id) ∧
        ((⟨(⟨0, 0, 4⟩ : Face).id,
            (if (⟨0, 0, 4⟩ : Face).first = 0 ∨ (⟨0, 0, 4⟩ : Face).first = 1
              then quadState.succ (⟨0, 0, 4⟩ : Face).first
              else (⟨0, 0, 4⟩ : Face).first),
            (⟨0, 0, 4⟩ : Face).size + (⟨1, 1, 4⟩ : Face).size - 2⟩ : Face)
          ∈ (joinFaces quadState 0 1).faces) ∧
        (∀ z ∈ cycleOfFace quadState (⟨1, 1, 4⟩ : Face),
          (joinFaces quadState 0 1).rightFace z = some (⟨0, 0, 4⟩ : Face).id) ∧
        (∀ f ∈ quadState.faces, f.id ≠ (⟨0, 0, 4⟩ : Face).id →
          f.id ≠ (⟨1, 1, 4⟩ : Face).id → f ∈ (joinFaces quadState 0 1).faces)) :=
  ⟨by decide, by decide, by decide, by decide, by decide, by decide,
    joinFaces_merges_discarded_into_survivor quadState 0 1 ⟨0, 0, 4⟩ ⟨1, 1, 4⟩
      (by decide) (by decide) (by decide) (by decide) (by decide) (by decide)⟩

/-! ### C8: the sum of face sizes along operator sequences -/

/-- C8 (amended: the operator sequence satisfies the strengthened
preconditions `opsOkA`, which add the non-degeneracy conditions to the
specified ones — in particular a `moveBridge` whose walked segment is
empty is excluded): in every state reached from an embedding satisfying
the core invariant by structural operators whose (strengthened)
preconditions hold, the sum of the cached sizes of all faces in the
registry equals twice the number of edges of the graph. -/
theorem sum_face_sizes_eq_twice_edges (s : EmbState) (ops : List OpApp)
    (hInv : Inv s) (hok : opsOkA s ops) :
    sumFaceSizes (applyOps s ops) = 2 * (numEdges (applyOps s ops) : Int) :=
  inv_sum _ (inv_applyOps ops s hInv hok)

/-- Counterexample to C8 as literally stated: starting from the derived
embedding of the pendant graph, a sequence of operators each satisfying
the specified preconditions `opsOk` (two bridge moves — the second with an
empty walked segment — then a face join and an edge split) ends in a state
where the face sizes add up to 9 while the graph has 5 edges. -/
theorem sum_face_sizes_counterexample :
    Inv (computeFaces pendGraph) ∧
    opsOk (computeFaces pendGraph)
      [.moveBridge 6 0, .moveBridge 8 2, .joinFaces 0 1, .split 2 3 10 11] ∧
    sumFaceSizes (applyOps (computeFaces pendGraph)
      [.moveBridge 6 0, .moveBridge 8 2, .joinFaces 0 1, .split 2 3 10 11]) ≠
      2 * (numEdges (applyOps (computeFaces pendGraph)
        [.moveBridge 6 0, .moveBridge 8 2, .joinFaces 0 1, .split 2 3 10 11]) : Int) := by
  decide

/-- Witness for the amended C8 theorem: splitting one edge of the derived
pendant-graph embedding. -/
theorem sum_face_sizes_eq_twice_edges_witness :
    Inv (computeFaces pendGraph) ∧
      opsOkA (computeFaces pendGraph) [.split 0 1 10 11] ∧
      sumFaceSizes (applyOps (computeFaces pendGraph) [.split 0 1 10 11]) =
        2 * (numEdges (applyOps (computeFaces pendGraph) [.split 0 1 10 11]) : Int) :=
  ⟨by decide, by decide,
    sum_face_sizes_eq_twice_edges (computeFaces pendGraph) [.split 0 1 10 11]
      (by decide) (by decide)⟩

/-- C2: on a rotation-system graph that validly represents an embedding,
full derivation (`computeFaces`) produces a face set whose cycles cover
exactly the graph's half-edges, each half-edge lying on exactly one face's
cycle; the face count equals the brute-force face-cycle enumeration count;
the face-identifier-space capacity is the least power of two at least
`minFaceTableSize` and at least the number of faces created; and every
registered array is reinitialized to that capacity. -/
theorem computeFaces_derives_all_faces (g : EmbState) (hwf : GraphWF g) :
    (∀ h ∈ g.H, ∃ f ∈ (computeFaces g).faces, h ∈ cycleOfFace (computeFaces g) f) ∧
    (∀ f ∈ (computeFaces g).faces, ∀ h ∈ cycleOfFace (computeFaces g) f, h ∈ g.H) ∧
    (∀ f1 ∈ (computeFaces g).faces, ∀ f2 ∈ (computeFaces g).faces, ∀ h,
      h ∈ cycleOfFace (computeFaces g) f1 → h ∈ cycleOfFace (computeFaces g) f2 →
        f1 = f2) ∧
    (computeFaces g).faces.length = bruteForceFaceCount g ∧
    (∃ k, (computeFaces g).tableSize = 2 ^ k) ∧
    minFaceTableSize ≤ (computeFaces g).tableSize ∧
    (computeFaces g).faces.length ≤ (computeFaces g).tableSize ∧
    (∀ m, (∃ j, m = 2 ^ j) → minFaceTableSize ≤ m →
      (computeFaces g).faces.length ≤ m → (computeFaces g).tableSize ≤ m) ∧
    (∀ a ∈ (computeFaces g).regArrays, a = reinitArr (computeFaces g).tableSize) ∧
    (computeFaces g).regArrays.length = g.regArrays.length := by
  have hsorted : List.Pairwise (fun x y => x < y) (halfEdges g) :=
    List.Pairwise.sublist (List.filter_sublist _) (List.pairwise_lt_range _)
  have HL := computeFaces_loop g hwf hsorted (halfEdges g) []
    ({ g with
        externalFace := none
        faceIdCount := 0
        faces := []
        rightFace := fun _ => none })
    (by rw [List.nil_append])
    rfl rfl rfl rfl (by simp)
    (fun f hf => absurd hf (List.not_mem_nil f))
    (fun f hf => absurd hf (List.not_mem_nil f))
    (fun z hz => Bool.noConfusion hz)
    (fun x hx => absurd hx (List.not_mem_nil x))
    (fun f hf => absurd hf (List.not_mem_nil f))
    rfl
    ((halfEdges g).foldl (computeFacesStep g.H.card)
      { g with
          externalFace := none
          faceIdCount := 0
          faces := []
          rightFace := fun _ => none })
    rfl
  obtain ⟨c1, c2, c3, c4, c5, c6, c7, c8, c9⟩ := HL
  have hfe : (computeFaces g).faces =
      ((halfEdges g).foldl (computeFacesStep g.H.card)
        { g with
            externalFace := none
            faceIdCount := 0
            faces := []
            rightFace := fun _ => none }).faces := rfl
  have hcycE : ∀ f, cycleOfFace (computeFaces g) f =
      cycleOfFace ((halfEdges g).foldl (computeFacesStep g.H.card)
        { g with
            externalFace := none
            faceIdCount := 0
            faces := []
            rightFace := fun _ => none }) f := fun f => rfl
  have hts : (computeFaces g).tableSize =
      nextPower2 minFaceTableSize
        ((halfEdges g).foldl (computeFacesStep g.H.card)
          { g with
              externalFace := none
              faceIdCount := 0
              faces := []
              rightFace := fun _ => none }).faceIdCount := rfl
  have hreg : (computeFaces g).regArrays =
      ((halfEdges g).foldl (computeFacesStep g.H.card)
        { g with
            externalFace := none
            faceIdCount := 0
            faces := []
            rightFace := fun _ => none }).regArrays.map
        (fun _ => reinitArr (computeFaces g).tableSize) := rfl
  refine ⟨?_, ?_, ?_, ?_, ?_, ?_, ?_, ?_, ?_, ?_⟩
  · intro h hh
    have hhalf : h ∈ halfEdges g := (mem_halfEdges g h).mpr hh
    have hsome := c8 h (by rw [List.nil_append]; exact hhalf)
    obtain ⟨f, hf, hcy⟩ := c7 h hsome
    refine ⟨f, ?_, ?_⟩
    · rw [hfe]
      exact hf
    · rw [hcycE]
      exact hcy
  · intro f hf h hcy
    rw [hfe] at hf
    rw [hcycE] at hcy
    have hm := ((c6 f hf).2.2.1 h hcy).1
    rw [← c1]
    exact hm
  · intro f1 hf1 f2 hf2 h hc1 hc2
    rw [hfe] at hf1 hf2
    rw [hcycE] at hc1 hc2
    have e1 := ((c6 f1 hf1).2.2.1 h hc1).2
    have e2 := ((c6 f2 hf2).2.2.1 h hc2).2
    rw [e1] at e2
    have hid : f1.id = f2.id := Option.some.inj e2
    have hfind1 := find_face_of_mem c5 hf1
    have hfind2 := find_face_of_mem c5 hf2
    rw [← hid] at hfind2
    rw [hfind1] at hfind2
    exact Option.some.inj hfind2
  · rw [hfe, c9, List.nil_append]
    rfl
  · rw [hts]
    exact nextPower2Aux_pow _ _ _ ⟨4, by decide⟩
  · rw [hts]
    exact nextPower2Aux_ge_low _ _ _
  · rw [hfe, hts, c4]
    exact nextPower2Aux_ge_high _ _ _ (by decide) (by omega)
  · intro m hm h16 hlen
    rw [hfe, c4] at hlen
    rw [hts]
    exact nextPower2Aux_min _ _ _ m ⟨4, by decide⟩ hm h16 hlen
  · intro a ha
    rw [hreg] at ha
    obtain ⟨b, _, hb⟩ := List.mem_map.mp ha
    rw [← hb]
  · rw [hreg, List.length_map, c3]

/-- Witness for C2: the pendant graph is a well-formed rotation system, and
the theorem yields the exact face count of its derivation. -/
theorem computeFaces_derives_all_faces_witness :
    GraphWF pendGraph ∧
      (computeFaces pendGraph).faces.length = bruteForceFaceCount pendGraph :=
  ⟨by decide, (computeFaces_derives_all_faces pendGraph (by decide)).2.2.2.1⟩

end OGDF
